import Mathlib

/-!
# neolib `gap_vector`: a shallow embedding and its verification

The development embeds `neolib::gap_vector` (`include/neolib/core/gap_vector.hpp`).

* Pointers (`pointer`, the iterator's `iBase`) are integer addresses counted in elements;
  `nullptr` is address `0`.  The contents of the allocation `iData` points to are kept in
  `slot`, indexed by the offset from `iData`: `slot k` is the object `iData[k]`, `some v` for a
  constructed element of value `v`, `none` for raw storage.
* `size_type` is the 64-bit unsigned type and `difference_type` the 64-bit signed one; the
  conversions the C++ performs are `to_size` and `to_ptrdiff`.
* The template arguments `DefaultGapSize_` and `NearnessFactor_` are parameters of the type.
* An operation whose loop would not terminate, or that is otherwise undefined, yields `none`
  (`outcome.undefined`); `std::bad_alloc` leaving a mutator is `outcome.bad_alloc`.
* Moving from an element copies its value and leaves the source slot constructed; constructing
  and assigning both write the slot; destroying leaves it raw.  Element constructors and
  assignments do not throw.  A move assignment of an object to itself, `*p = std::move(*p)`,
  leaves the value the element type gives a self-moved object (`element_type.self_moved`): the
  value it had for `int`, the empty string for `std::string`.
* An argument of type `value_type const&` or `value_type&&` is a `reference`: to an object
  outside the buffer, whose value no operation changes, or to an element of the buffer, given by
  its address.  It is read where the source reads it, after `allocate_from_gap` has run, and
  reading an object that is raw storage by then, or whose storage was replaced, is undefined.  A
  value of type `T` written where a reference is expected is the reference to a temporary.
* The product with the `double` `GrowthFactor` in `grow` is computed as IEEE 754 binary64
  arithmetic computes it, rounding to nearest with ties to even (`round_to_double`,
  `times_growth_factor`); the conversion of a `double` to a `size_type` that cannot hold it is
  undefined.
* A loop of the source is a function by recursion on a fuel argument, called with the trip
  count the loop has when it terminates; the loop test is evaluated at every iteration and a
  test that still holds when the fuel is spent yields `none`.
* An operation on two objects (`swap`, the copy and move operations, `operator==`,
  `operator<=>`) takes both states.  The storage follows the pointer to it: what `swap`
  exchanges is the five pointers together with `slot`, and `iAlloc` stays.  A range of
  iterators into another buffer is read into the list of its values (`values`) before the
  destination is changed: the two objects are distinct and reading changes neither.
* The allocator a constructor value-initialises is a parameter (`alloc`).

The definitions come first: the embedding of the class, then the predicates the theorems are
stated with (`cursors_valid`, `well_formed`, `represents`, ...).  The theorems follow: facts
about the cursors of a well-formed state, the specification of every loop, of `unsplit`,
`reserve`, `allocate_from_gap` and `erase` branch by branch, and the properties C1 to C40.
-/

namespace neolib

/-- Conversion of an integer to `size_type` (`std::size_t`, 64 bit, wraps). -/
def to_size (z : Int) : Int := z % 18446744073709551616

/-- Conversion of an integer to `difference_type` (`std::ptrdiff_t`, two's complement). -/
def to_ptrdiff (z : Int) : Int :=
  (z + 9223372036854775808) % 18446744073709551616 - 9223372036854775808

/-- The class `gap_vector<T, DefaultGapSize_, NearnessFactor_, Allocator>`: its data members,
with the storage `iData` points to (`slot`).  `iAlloc n` is the address
`std::allocator_traits<Allocator>::allocate(iAlloc, n)` returns, `none` when it throws. -/
structure gap_vector (T : Type) (DefaultGapSize NearnessFactor : Nat) where
  slot : Int → Option T
  iAlloc : Int → Option Int
  iData : Int
  iDataEnd : Int
  iStorageEnd : Int
  iGapStart : Int
  iGapEnd : Int

/-- How a mutating member function ends. -/
inductive outcome (σ : Type) where
  | returned (s : σ) : outcome σ
  | bad_alloc (s : σ) : outcome σ
  | undefined : outcome σ

namespace outcome

/-- Sequencing: the continuation runs only after a normal return. -/
def bind {σ τ : Type} (o : outcome σ) (carry : σ → τ) (k : σ → outcome τ) : outcome τ :=
  match o with
  | returned s => k s
  | bad_alloc s => bad_alloc (carry s)
  | undefined => undefined

/-- An operation that cannot throw: `none` is undefined behaviour. -/
def of_option {σ : Type} : Option σ → outcome σ
  | some s => returned s
  | none => undefined

/-- The state a mutator leaves when it returns normally. -/
def result {σ : Type} : outcome σ → Option σ
  | returned s => some s
  | bad_alloc _ => none
  | undefined => none

/-- The state a mutator leaves when `std::bad_alloc` propagates out of it. -/
def thrown {σ : Type} : outcome σ → Option σ
  | returned _ => none
  | bad_alloc s => some s
  | undefined => none

end outcome

/-- What the embedding has to know of the element type `T`: the value an object holds after the
self-move-assignment `x = std::move(x)`.  For `int` and the other trivially copyable types that is
the value it had; the move-assignment operator of libstdc++ `std::basic_string` ends with
`__str.clear()`, so that a self-moved string is empty. -/
class element_type (T : Type) where
  self_moved : T → T

/-- The element type `int`: a self-move-assignment leaves the value. -/
instance : element_type Int where
  self_moved := fun v => v

/-- The element type `std::string` of libstdc++: a self-move-assignment clears the string. -/
instance : element_type String where
  self_moved := fun _ => ""

/-- The element type is one whose self-move-assignment leaves the value, as `int` is. -/
def self_move_is_noop (T : Type) [element_type T] : Prop :=
  ∀ v : T, element_type.self_moved v = v

/-- The number of low bits a `double` drops from the natural number `n`: `0` below 2^53, one
more for every halving it takes to get below 2^53 (the first argument bounds the halvings). -/
def dropped_bits : Nat → Nat → Nat
  | 0, _ => 0
  | fuel + 1, n => if n < 9007199254740992 then 0 else dropped_bits fuel (n / 2) + 1

/-- Rounding a natural number to 53 significant bits, to nearest, ties to even: the conversion
of an integer to `double`, and the rounding of a `double` result that is counted in halves (the
range of the exponent is never left). -/
def round_to_double (n : Nat) : Nat :=
  let u := 2 ^ dropped_bits n n
  let q := n / u
  let r := n % u
  if 2 * r < u ∨ (2 * r = u ∧ q % 2 = 0) then q * u else (q + 1) * u

/-- The value of `x * GrowthFactor` as the cast to `size_type` truncates it, for a `size_type` `x`
and the `double` `GrowthFactor = 1.5`: `x` is converted to `double`, the product, here counted in
halves, is rounded to a `double` again, and the cast drops the half. -/
def times_growth_factor (x : Int) : Int :=
  ((round_to_double (3 * round_to_double x.toNat) / 2 : Nat) : Int)

/-- What an argument of type `value_type const&` (or `value_type&&`) is bound to: `external value`
is an object outside the storage of the buffer, a temporary or a variable of the caller, of value
`value`; `element address` is the object at `address` in the storage of the buffer, as the
argument `v[2]` of `v.insert(pos, v[2])`. -/
inductive reference (T : Type) where
  | external (value : T) : reference T
  | element (address : Int) : reference T

/-- A value written where a reference is expected is a temporary the reference is bound to. -/
instance {T : Type} : Coe T (reference T) := ⟨reference.external⟩

namespace gap_vector

variable {T : Type} [element_type T] {DefaultGapSize NearnessFactor : Nat}

/-- Source `gap_vector()`: every pointer is `nullptr`. -/
def default_constructed (alloc : Int → Option Int) : gap_vector T DefaultGapSize NearnessFactor :=
  { slot := fun _ => none, iAlloc := alloc, iData := 0, iDataEnd := 0, iStorageEnd := 0,
    iGapStart := 0, iGapEnd := 0 }

/-- The object `*p`. -/
def load (c : gap_vector T DefaultGapSize NearnessFactor) (p : Int) : Option T :=
  c.slot (p - c.iData)

/-- Writing the object `*p`. -/
def store (c : gap_vector T DefaultGapSize NearnessFactor) (p : Int) (v : Option T) :
    gap_vector T DefaultGapSize NearnessFactor :=
  { c with slot := fun k => if k = p - c.iData then v else c.slot k }

/-- Source `std::allocator_traits<allocator_type>::construct(iAlloc, p, v)`. -/
def construct (c : gap_vector T DefaultGapSize NearnessFactor) (p : Int) (v : Option T) :
    gap_vector T DefaultGapSize NearnessFactor :=
  c.store p v

/-- The value the move assignment `*dest = std::move(*src)` leaves in the object at `dest`: the
value of the object at `src`, and for `dest = src`, a self-move-assignment, the value the element
type gives a self-moved object. -/
def moved_value (c : gap_vector T DefaultGapSize NearnessFactor) (dest src : Int) : Option T :=
  if dest = src then (c.load src).map element_type.self_moved else c.load src

/-- Move assignment `*dest = std::move(*src)`. -/
def move_assign (c : gap_vector T DefaultGapSize NearnessFactor) (dest src : Int) :
    gap_vector T DefaultGapSize NearnessFactor :=
  c.store dest (c.moved_value dest src)

/-- Source `std::allocator_traits<allocator_type>::destroy(iAlloc, p)`. -/
def destroy (c : gap_vector T DefaultGapSize NearnessFactor) (p : Int) :
    gap_vector T DefaultGapSize NearnessFactor :=
  c.store p none

/-- Source `gap_active()`. -/
def gap_active (c : gap_vector T DefaultGapSize NearnessFactor) : Bool :=
  decide (c.iGapStart ≠ c.iGapEnd)

/-- Source `gap_size()`. -/
def gap_size (c : gap_vector T DefaultGapSize NearnessFactor) : Int :=
  to_size (c.iGapEnd - c.iGapStart)

/-- Source `before_gap(const_pointer)`. -/
def before_gap (c : gap_vector T DefaultGapSize NearnessFactor) (aPosition : Int) : Bool :=
  c.gap_active && decide (aPosition < c.iGapStart)

/-- Source `after_gap(const_pointer)`. -/
def after_gap (c : gap_vector T DefaultGapSize NearnessFactor) (aPosition : Int) : Bool :=
  c.gap_active && decide (aPosition ≥ c.iGapEnd)

/-- Source `near_gap(const_pointer)`; the threshold is the `size_type` product
`DefaultGapSize * NearnessFactor`. -/
def near_gap (c : gap_vector T DefaultGapSize NearnessFactor) (aPosition : Int) : Bool :=
  if !c.gap_active then false
  else decide (|aPosition - c.iGapStart| ≤ to_size (DefaultGapSize * NearnessFactor)) ||
    decide (|aPosition - c.iGapEnd| ≤ to_size (DefaultGapSize * NearnessFactor))

/-- Source `capacity()`. -/
def capacity (c : gap_vector T DefaultGapSize NearnessFactor) : Int :=
  to_size (c.iStorageEnd - c.iData)

/-- Source `size()`. -/
def size (c : gap_vector T DefaultGapSize NearnessFactor) : Int :=
  to_size ((c.iDataEnd - c.iData) - c.gap_size)

/-- Source `max_size()`. -/
def max_size (_c : gap_vector T DefaultGapSize NearnessFactor) : Int :=
  9223372036854775807

/-- Source `room()`. -/
def room (c : gap_vector T DefaultGapSize NearnessFactor) : Int :=
  to_size (c.capacity - c.size)

/-- Source `adjusted_index(pos)`. -/
def adjusted_index (c : gap_vector T DefaultGapSize NearnessFactor) (pos : Int) : Int :=
  if !c.gap_active || decide (pos < to_size (c.iGapStart - c.iData)) then pos
  else to_size (pos + c.gap_size)

/-- Source `begin()`: the iterator's `iBase`. -/
def begin (c : gap_vector T DefaultGapSize NearnessFactor) : Int :=
  if !c.gap_active || decide (c.iData ≠ c.iGapStart) then c.iData else c.iGapEnd

/-- Source `end()`: the iterator's `iBase`. -/
def end_ (c : gap_vector T DefaultGapSize NearnessFactor) : Int :=
  if !c.gap_active || decide (c.iDataEnd ≠ c.iGapEnd) then c.iDataEnd
  else if c.iData = c.iGapStart then c.iGapEnd else c.iGapStart

/-- The body of `iterator_impl::operator+=` for a positive `aDifference`. -/
def advance_forward (c : gap_vector T DefaultGapSize NearnessFactor) (iBase aDifference : Int) :
    Int :=
  let current := iBase
  let next := current + aDifference
  let gapActive := c.gap_active
  let currentBeforeGap := decide (current < c.iGapStart)
  let nextBeforeGap := decide (next < c.iGapStart)
  let nextEndAtGapStart := decide (c.iGapEnd = c.iDataEnd) && decide (next = c.iGapStart)
  let nextAfterGap := decide (next > c.iGapEnd)
  if !gapActive || nextBeforeGap || nextEndAtGapStart || (nextAfterGap && !currentBeforeGap) then
    iBase + aDifference
  else
    iBase + to_ptrdiff (to_size (aDifference + c.gap_size))

/-- The body of `iterator_impl::operator-=` for a positive `aDifference`. -/
def advance_backward (c : gap_vector T DefaultGapSize NearnessFactor) (iBase aDifference : Int) :
    Int :=
  let current := iBase
  let prev := current - aDifference
  let gapActive := c.gap_active
  let currentBeforeGap := decide (current ≤ c.iGapStart)
  let currentAfterGap := decide (current ≥ c.iGapEnd)
  let prevAfterGap := decide (prev ≥ c.iGapEnd)
  if !gapActive || currentBeforeGap || (currentAfterGap && prevAfterGap) then
    iBase - aDifference
  else
    iBase - to_ptrdiff (to_size (aDifference + c.gap_size))

/-- Source `iterator_impl::operator+=` (also `operator+`, `std::next`, `std::advance`): a negative
difference is handed to `operator-=`, whose own tests then fall through to its body. -/
def iterator_add (c : gap_vector T DefaultGapSize NearnessFactor) (iBase aDifference : Int) :
    Int :=
  if aDifference = 0 then iBase
  else if aDifference < 0 then c.advance_backward iBase (to_ptrdiff (-aDifference))
  else c.advance_forward iBase aDifference

/-- Source `iterator_impl::operator-=` (also `operator-(difference_type)`, `std::prev`). -/
def iterator_sub (c : gap_vector T DefaultGapSize NearnessFactor) (iBase aDifference : Int) :
    Int :=
  if aDifference = 0 then iBase
  else if aDifference < 0 then c.advance_forward iBase (to_ptrdiff (-aDifference))
  else c.advance_backward iBase aDifference

/-- Source `iterator_impl::operator-(iterator_impl const&)` (also `std::distance(aOther, *this)`);
`result -= gap_size()` is computed in `size_type` and converted back. -/
def iterator_difference (c : gap_vector T DefaultGapSize NearnessFactor) (iBase aOther : Int) :
    Int :=
  let result := iBase - aOther
  if c.gap_active then
    if c.before_gap aOther && c.after_gap iBase then to_ptrdiff (result - c.gap_size)
    else if c.before_gap iBase && c.after_gap aOther then to_ptrdiff (result + c.gap_size)
    else result
  else result

/-- The exceptions a member function throws. -/
inductive exception where
  | out_of_range : exception
  | bad_alloc : exception
deriving DecidableEq, Repr

/-- Source `at(pos)`: the object returned, or the exception thrown. -/
def «at» (c : gap_vector T DefaultGapSize NearnessFactor) (pos : Int) :
    Except exception (Option T) :=
  let pos := c.adjusted_index pos
  if pos < to_size (c.iDataEnd - c.iData) then Except.ok (c.slot pos)
  else Except.error exception.out_of_range

/-- Source `operator[](pos)`. -/
def index (c : gap_vector T DefaultGapSize NearnessFactor) (pos : Int) : Option T :=
  c.slot (c.adjusted_index pos)

/-- Source `front()`. -/
def front (c : gap_vector T DefaultGapSize NearnessFactor) : Option T :=
  c.load c.begin

/-- Source `back()`: `*std::prev(end())`. -/
def back (c : gap_vector T DefaultGapSize NearnessFactor) : Option T :=
  c.load (c.iterator_sub c.end_ 1)

/-- Source `empty()`. -/
def empty (c : gap_vector T DefaultGapSize NearnessFactor) : Bool :=
  decide (c.begin = c.end_)

/-- The element-by-element loop of `std::uninitialized_move(first, last, d_first)`
(`uninit = true`) and of `std::move(first, last, d_first)` (`uninit = false`):
`for (; first != last; ++first, ++d_first)`; the value is the final `d_first`. -/
def move_loop (uninit : Bool) :
    Nat → gap_vector T DefaultGapSize NearnessFactor → Int → Int → Int →
      Option (gap_vector T DefaultGapSize NearnessFactor × Int)
  | 0, c, first, last, d_first => if first = last then some (c, d_first) else none
  | n + 1, c, first, last, d_first =>
    if first = last then some (c, d_first)
    else
      move_loop uninit n
        (if uninit then c.construct d_first (c.load first) else c.move_assign d_first first)
        (first + 1) last (d_first + 1)

/-- Source `std::uninitialized_move(first, last, d_first)`. -/
def uninitialized_move (c : gap_vector T DefaultGapSize NearnessFactor) (first last d_first : Int) :
    Option (gap_vector T DefaultGapSize NearnessFactor × Int) :=
  move_loop true (last - first).toNat c first last d_first

/-- Source `std::move(first, last, d_first)`. -/
def move (c : gap_vector T DefaultGapSize NearnessFactor) (first last d_first : Int) :
    Option (gap_vector T DefaultGapSize NearnessFactor × Int) :=
  move_loop false (last - first).toNat c first last d_first

/-- Source `for (auto garbage = first; garbage != last; ++garbage) destroy(iAlloc, garbage);`. -/
def destroy_loop :
    Nat → gap_vector T DefaultGapSize NearnessFactor → Int → Int →
      Option (gap_vector T DefaultGapSize NearnessFactor)
  | 0, c, garbage, last => if garbage = last then some c else none
  | n + 1, c, garbage, last =>
    if garbage = last then some c else destroy_loop n (c.destroy garbage) (garbage + 1) last

/-- Source `unsplit()`. -/
def unsplit (c : gap_vector T DefaultGapSize NearnessFactor) :
    Option (gap_vector T DefaultGapSize NearnessFactor) :=
  if !c.gap_active then some c
  else
    let mid := min (c.iGapEnd + to_ptrdiff c.gap_size) c.iDataEnd
    match c.uninitialized_move c.iGapEnd mid c.iGapStart with
    | none => none
    | some (c1, next) =>
      match c1.move mid c1.iDataEnd next with
      | none => none
      | some (c2, newEnd) =>
        match destroy_loop (c2.iDataEnd - max newEnd c2.iGapEnd).toNat c2 (max newEnd c2.iGapEnd)
            c2.iDataEnd with
        | none => none
        | some c3 => some { c3 with iDataEnd := newEnd, iGapStart := 0, iGapEnd := 0 }

/-- Source `data()`: unsplits, then returns `iData`. -/
def data (c : gap_vector T DefaultGapSize NearnessFactor) :
    Option (gap_vector T DefaultGapSize NearnessFactor × Int) :=
  match c.unsplit with
  | none => none
  | some c1 => some (c1, c1.iData)

/-- Source `reserve(aNewCapacity)`.  `allocate` is called before the `try` block, so its exception
leaves with the buffer as `unsplit()` left it.  The `std::uninitialized_move` into the fresh
block is written as its result: the new `slot k` is the old one for `k` below the old extent. -/
def reserve (c : gap_vector T DefaultGapSize NearnessFactor) (aNewCapacity : Int) :
    outcome (gap_vector T DefaultGapSize NearnessFactor) :=
  if aNewCapacity ≤ c.capacity then outcome.returned c
  else
    match c.unsplit with
    | none => outcome.undefined
    | some c1 =>
      let existingData := c1.iData
      let existingDataEnd := c1.iDataEnd
      match c1.iAlloc aNewCapacity with
      | none => outcome.bad_alloc c1
      | some newStorage =>
        if existingDataEnd < existingData then outcome.undefined
        else
          outcome.returned
            { c1 with
              slot := fun k => if 0 ≤ k ∧ k < existingDataEnd - existingData then c1.slot k else none
              iData := newStorage
              iDataEnd := newStorage + (existingDataEnd - existingData)
              iStorageEnd := newStorage + to_ptrdiff aNewCapacity }

/-- Source `grow(aCount)`: `reserve(static_cast<size_type>((capacity() + DefaultGapSize + aCount) * GrowthFactor))`.
The sum is a `size_type`, the product a `double`; the cast of a `double` that no `size_type` holds
is undefined. -/
def grow (c : gap_vector T DefaultGapSize NearnessFactor) (aCount : Int) :
    outcome (gap_vector T DefaultGapSize NearnessFactor) :=
  let request := times_growth_factor (to_size (c.capacity + DefaultGapSize + aCount))
  if request < 18446744073709551616 then c.reserve request else outcome.undefined

/-- The `do ... while (src != pos)` loop of the before-gap branch of `allocate_from_gap`. -/
def before_gap_loop (pos aCount : Int) :
    Nat → gap_vector T DefaultGapSize NearnessFactor → Int → Int →
      Option (gap_vector T DefaultGapSize NearnessFactor)
  | 0, _, _, _ => none
  | n + 1, c, src, dest =>
    let src := src - 1
    let c1 :=
      if dest ≥ c.iGapStart then c.construct dest (c.load src) else c.move_assign dest src
    let dest := dest - 1
    let c2 := if src < pos + to_ptrdiff aCount then c1.destroy src else c1
    if src ≠ pos then before_gap_loop pos aCount n c2 src dest else some c2

/-- The `do ... while (src != pos)` loop of the after-gap branch of `allocate_from_gap`. -/
def after_gap_loop (pos aCount : Int) :
    Nat → gap_vector T DefaultGapSize NearnessFactor → Int → Int →
      Option (gap_vector T DefaultGapSize NearnessFactor)
  | 0, _, _, _ => none
  | n + 1, c, src, dest =>
    let c1 :=
      if dest < c.iGapEnd then c.construct dest (c.load src) else c.move_assign dest src
    let dest := dest + 1
    let c2 := if src ≥ pos - to_ptrdiff aCount then c1.destroy src else c1
    let src := src + 1
    if src ≠ pos then after_gap_loop pos aCount n c2 src dest else some c2

/-- The `while (src != pos)` loop of the gap-miss branch of `allocate_from_gap`. -/
def gap_miss_loop (pos : Int) :
    Nat → gap_vector T DefaultGapSize NearnessFactor → Int → Int →
      Option (gap_vector T DefaultGapSize NearnessFactor)
  | 0, c, src, _ => if src ≠ pos then none else some c
  | n + 1, c, src, dest =>
    if src ≠ pos then
      let src := src - 1
      let dest := dest - 1
      gap_miss_loop pos n
        (if dest ≥ c.iDataEnd then c.construct dest (c.load src)
         else c.move_assign dest src)
        src dest
    else some c

/-- Source `for (auto garbage = ...; garbage != pos;) destroy(iAlloc, --garbage);`. -/
def destroy_backward_loop (pos : Int) :
    Nat → gap_vector T DefaultGapSize NearnessFactor → Int →
      Option (gap_vector T DefaultGapSize NearnessFactor)
  | 0, c, garbage => if garbage ≠ pos then none else some c
  | n + 1, c, garbage =>
    if garbage ≠ pos then destroy_backward_loop pos n (c.destroy (garbage - 1)) (garbage - 1)
    else some c

/-- Source `allocate_from_gap(aPosition, aCount)`: the buffer afterwards and the pointer returned. -/
def allocate_from_gap (c : gap_vector T DefaultGapSize NearnessFactor) (aPosition aCount : Int) :
    outcome (gap_vector T DefaultGapSize NearnessFactor × Int) :=
  if c.near_gap aPosition && decide (aCount ≤ c.gap_size) then
    let posIndex := c.iterator_difference aPosition c.begin
    let pos := c.iterator_add c.begin posIndex
    if c.before_gap aPosition then
      let dest := c.iGapStart + to_ptrdiff (to_size (aCount - 1))
      let src := c.iGapStart
      match before_gap_loop pos aCount (c.iGapStart - pos).toNat c src dest with
      | none => outcome.undefined
      | some c1 =>
        outcome.returned ({ c1 with iGapStart := c1.iGapStart + to_ptrdiff aCount }, pos)
    else if c.after_gap aPosition then
      match (if pos ≠ c.iGapEnd then
          after_gap_loop pos aCount (pos - c.iGapEnd).toNat c c.iGapEnd
            (c.iGapEnd - to_ptrdiff aCount)
        else some c) with
      | none => outcome.undefined
      | some c1 =>
        outcome.returned
          ({ c1 with iGapEnd := c1.iGapEnd - to_ptrdiff aCount }, pos - to_ptrdiff aCount)
    else
      outcome.returned ({ c with iGapStart := c.iGapStart + to_ptrdiff aCount }, pos)
  else
    let posIndex := c.iterator_difference aPosition c.begin
    match c.unsplit with
    | none => outcome.undefined
    | some c1 =>
      (if c1.room < aCount then c1.grow aCount else outcome.returned c1).bind (fun s => (s, 0))
        fun c2 =>
          let pos := c2.iData + posIndex
          let initialGapSize := min c2.room (to_size DefaultGapSize)
          match gap_miss_loop pos (c2.iDataEnd - pos).toNat c2 c2.iDataEnd
              (c2.iDataEnd + to_ptrdiff initialGapSize) with
          | none => outcome.undefined
          | some c3 =>
            let garbageCount := min aCount (to_size (c3.iDataEnd - pos))
            match destroy_backward_loop pos garbageCount.toNat c3
                (pos + to_ptrdiff garbageCount) with
            | none => outcome.undefined
            | some c4 =>
              outcome.returned
                ({ c4 with
                   iDataEnd := c4.iDataEnd + to_ptrdiff initialGapSize
                   iGapStart := pos + to_ptrdiff aCount
                   iGapEnd := pos + to_ptrdiff initialGapSize }, pos)

/-- Reading through a reference after the buffer `c` the call started with has become `c'`.  An
external object still has its value.  An element of the storage is read where it was, in the
storage as it is now; it is gone (`none`) when the slot is raw by now, and when the storage was
replaced: a reallocation changes `iStorageEnd - iData`, so the block is the same one when `iData`
and `iStorageEnd` still have their values. -/
def dereference (c c' : gap_vector T DefaultGapSize NearnessFactor) : reference T → Option T
  | reference.external value => some value
  | reference.element address =>
    if c'.iData = c.iData ∧ c'.iStorageEnd = c.iStorageEnd then c'.load address else none

/-- Source `operator[](pos)` as the reference it returns: the object `iData[adjusted_index(pos)]`. -/
def index_reference (c : gap_vector T DefaultGapSize NearnessFactor) (pos : Int) : reference T :=
  reference.element (c.iData + c.adjusted_index pos)

/-- Source `insert(pos, value)` (both overloads) and `emplace(pos, args...)`: the buffer afterwards and
the `iBase` of the iterator returned.  The argument is read when the element is constructed, after
`allocate_from_gap` has run; reading an object that is gone is undefined. -/
def insert (c : gap_vector T DefaultGapSize NearnessFactor) (pos : Int) (value : reference T) :
    outcome (gap_vector T DefaultGapSize NearnessFactor × Int) :=
  (c.allocate_from_gap pos 1).bind id fun r =>
    match c.dereference r.1 value with
    | none => outcome.undefined
    | some v => outcome.returned (r.1.construct r.2 (some v), r.2)

/-- The loop of `std::uninitialized_fill_n(first, count, value)`: every iteration reads the
argument (`value` applied to the buffer as it is then) and constructs a copy; `none` when a read is
undefined. -/
def uninitialized_fill_n (value : gap_vector T DefaultGapSize NearnessFactor → Option T) :
    Nat → gap_vector T DefaultGapSize NearnessFactor → Int →
      Option (gap_vector T DefaultGapSize NearnessFactor)
  | 0, c, _ => some c
  | n + 1, c, first =>
    match value c with
    | none => none
    | some v => uninitialized_fill_n value n (c.construct first (some v)) (first + 1)

/-- Source `insert(pos, count, value)`. -/
def insert_count (c : gap_vector T DefaultGapSize NearnessFactor) (pos count : Int)
    (value : reference T) : outcome (gap_vector T DefaultGapSize NearnessFactor × Int) :=
  (c.allocate_from_gap pos count).bind id fun r =>
    match uninitialized_fill_n (fun s => c.dereference s value) count.toNat r.1 r.2 with
    | none => outcome.undefined
    | some c1 => outcome.returned (c1, r.2)

/-- The loop of `std::uninitialized_copy(list.begin(), list.end(), d_first)`. -/
def uninitialized_copy :
    List T → gap_vector T DefaultGapSize NearnessFactor → Int → gap_vector T DefaultGapSize NearnessFactor
  | [], c, _ => c
  | x :: xs, c, d_first => uninitialized_copy xs (c.construct d_first (some x)) (d_first + 1)

/-- Source `insert(pos, std::initializer_list<value_type>)`. -/
def insert_list (c : gap_vector T DefaultGapSize NearnessFactor) (pos : Int) (list : List T) :
    outcome (gap_vector T DefaultGapSize NearnessFactor × Int) :=
  (c.allocate_from_gap pos (to_size list.length)).bind id fun r =>
    outcome.returned (uninitialized_copy list r.1 r.2, r.2)

/-- The loop of `insert(pos, first, last)` over the input range: one `allocate_from_gap` per
element, at `std::next(cbegin(), nextPosIndex)`. -/
def insert_range_loop :
    List T → gap_vector T DefaultGapSize NearnessFactor → Int →
      outcome (gap_vector T DefaultGapSize NearnessFactor)
  | [], c, _ => outcome.returned c
  | x :: xs, c, nextPosIndex =>
    (c.allocate_from_gap (c.iterator_add c.begin nextPosIndex) 1).bind (fun r => r.1) fun r =>
      insert_range_loop xs (r.1.construct r.2 (some x)) (nextPosIndex + 1)

/-- Source `insert(pos, first, last)`, the input range given as the list of its elements. -/
def insert_range (c : gap_vector T DefaultGapSize NearnessFactor) (pos : Int) (range : List T) :
    outcome (gap_vector T DefaultGapSize NearnessFactor × Int) :=
  let insertPosIndex := c.iterator_difference pos c.begin
  (insert_range_loop range c insertPosIndex).bind (fun s => (s, 0)) fun c1 =>
    outcome.returned (c1, c1.iterator_add c1.begin insertPosIndex)

/-- Source `push_back(value)` (both overloads) and `emplace_back`. -/
def push_back (c : gap_vector T DefaultGapSize NearnessFactor) (value : reference T) :
    outcome (gap_vector T DefaultGapSize NearnessFactor) :=
  (c.insert c.end_ value).bind (fun r => r.1) fun r => outcome.returned r.1

/-- In `erase`: `for (auto src = lastPos, dest = firstPos; src < iGapStart; ++src, ++dest)`. -/
def erase_before_gap_loop :
    Nat → gap_vector T DefaultGapSize NearnessFactor → Int → Int →
      Option (gap_vector T DefaultGapSize NearnessFactor)
  | 0, c, src, _ => if src < c.iGapStart then none else some c
  | n + 1, c, src, dest =>
    if src < c.iGapStart then
      erase_before_gap_loop n (c.move_assign dest src) (src + 1) (dest + 1)
    else some c

/-- In `erase`:
`for (auto src = std::prev(firstPos), dest = std::prev(lastPos); src >= iGapEnd; --src, --dest)`. -/
def erase_after_gap_loop :
    Nat → gap_vector T DefaultGapSize NearnessFactor → Int → Int →
      Option (gap_vector T DefaultGapSize NearnessFactor)
  | 0, c, src, _ => if src ≥ c.iGapEnd then none else some c
  | n + 1, c, src, dest =>
    if src ≥ c.iGapEnd then
      erase_after_gap_loop n (c.move_assign dest src) (src - 1) (dest - 1)
    else some c

/-- In `erase`, the range straddling the gap:
`for (auto garbage = firstPos; garbage != lastPos; ++garbage)`. -/
def erase_straddle_loop :
    Nat → gap_vector T DefaultGapSize NearnessFactor → Int → Int →
      Option (gap_vector T DefaultGapSize NearnessFactor)
  | 0, c, garbage, lastPos => if garbage ≠ lastPos then none else some c
  | n + 1, c, garbage, lastPos =>
    if garbage ≠ lastPos then
      erase_straddle_loop n
        (if garbage < c.iGapStart then c.destroy garbage
         else if garbage ≥ c.iGapEnd then c.destroy garbage
         else c)
        (garbage + 1) lastPos
    else some c

/-- In `erase`, far from the gap:
`for (auto src = std::next(newFirstPos, garbageCount), dest = newFirstPos; src != iDataEnd; ++src, ++dest)`. -/
def erase_unsplit_loop :
    Nat → gap_vector T DefaultGapSize NearnessFactor → Int → Int →
      Option (gap_vector T DefaultGapSize NearnessFactor)
  | 0, c, src, _ => if src ≠ c.iDataEnd then none else some c
  | n + 1, c, src, dest =>
    if src ≠ c.iDataEnd then
      erase_unsplit_loop n (c.move_assign dest src) (src + 1) (dest + 1)
    else some c

/-- Source `erase(first, last)`: the buffer afterwards and the `iBase` of the iterator returned. -/
def erase (c : gap_vector T DefaultGapSize NearnessFactor) (first last : Int) :
    Option (gap_vector T DefaultGapSize NearnessFactor × Int) :=
  if first = last then some (c, c.iterator_add c.begin (c.iterator_difference last c.begin))
  else
    let firstIndex := c.iterator_difference first c.begin
    let lastIndex := c.iterator_difference last c.begin
    let firstPos := c.iterator_add c.begin firstIndex
    let lastPos := c.iterator_add c.begin lastIndex
    let garbageCount := lastIndex - firstIndex
    if c.near_gap firstPos || c.near_gap lastPos then
      if c.before_gap (lastPos - 1) then
        match erase_before_gap_loop (c.iGapStart - lastPos).toNat c lastPos firstPos with
        | none => none
        | some c1 =>
          match destroy_loop garbageCount.toNat c1 (c1.iGapStart - garbageCount) c1.iGapStart with
          | none => none
          | some c2 =>
            let c3 := { c2 with iGapStart := c2.iGapStart + -garbageCount }
            some (c3, c3.iterator_add c3.begin firstIndex)
      else if c.after_gap firstPos then
        match erase_after_gap_loop (firstPos - c.iGapEnd).toNat c (firstPos - 1) (lastPos - 1) with
        | none => none
        | some c1 =>
          match destroy_loop garbageCount.toNat c1 c1.iGapEnd (c1.iGapEnd + garbageCount) with
          | none => none
          | some c2 =>
            let c3 := { c2 with iGapEnd := c2.iGapEnd + garbageCount }
            some (c3, c3.iterator_add c3.begin firstIndex)
      else
        match erase_straddle_loop (lastPos - firstPos).toNat c firstPos lastPos with
        | none => none
        | some c1 =>
          let c3 := { c1 with iGapStart := firstPos, iGapEnd := lastPos }
          some (c3, c3.iterator_add c3.begin firstIndex)
    else
      match c.unsplit with
      | none => none
      | some c1 =>
        let newFirstPos := c1.iterator_add c1.begin firstIndex
        match erase_unsplit_loop (c1.iDataEnd - (newFirstPos + garbageCount)).toNat c1
            (newFirstPos + garbageCount) newFirstPos with
        | none => none
        | some c2 =>
          match destroy_loop garbageCount.toNat c2 (c2.iDataEnd - garbageCount) c2.iDataEnd with
          | none => none
          | some c3 => some ({ c3 with iDataEnd := c3.iDataEnd + -garbageCount }, newFirstPos)

/-- Source `erase(pos)`: `erase(pos, std::next(pos))`. -/
def erase_one (c : gap_vector T DefaultGapSize NearnessFactor) (pos : Int) :
    Option (gap_vector T DefaultGapSize NearnessFactor × Int) :=
  c.erase pos (c.iterator_add pos 1)

/-- Source `pop_back()`. -/
def pop_back (c : gap_vector T DefaultGapSize NearnessFactor) :
    Option (gap_vector T DefaultGapSize NearnessFactor) :=
  (c.erase_one (c.iterator_sub c.end_ 1)).map fun r => r.1

/-- Source `resize(count, value)`; `resize(count)` is the same with the temporary `value_type{}`. -/
def resize (c : gap_vector T DefaultGapSize NearnessFactor) (count : Int) (value : reference T) :
    outcome (gap_vector T DefaultGapSize NearnessFactor) :=
  if count < c.size then
    outcome.of_option
      ((c.erase (c.iterator_sub c.end_ (to_ptrdiff (to_size (c.size - count)))) c.end_).map
        fun r => r.1)
  else if count > c.size then
    (c.insert_count c.end_ (to_size (count - c.size)) value).bind (fun r => r.1) fun r =>
      outcome.returned r.1
  else outcome.returned c

/-- Source `gap_vector(count, value, alloc)`. -/
def sized (alloc : Int → Option Int) (count : Int) (value : T) :
    outcome (gap_vector T DefaultGapSize NearnessFactor) :=
  (default_constructed alloc).resize count (reference.external value)

/-- Source `clear()`. -/
def clear (c : gap_vector T DefaultGapSize NearnessFactor) :
    Option (gap_vector T DefaultGapSize NearnessFactor) :=
  match c.unsplit with
  | none => none
  | some c1 =>
    match destroy_loop (c1.iDataEnd - c1.iData).toNat c1 c1.iData c1.iDataEnd with
    | none => none
    | some c2 => some { c2 with iDataEnd := c2.iData }

/-- The logical sequence of the data model: the slots of the prefix `[iData, iGapStart)` in
order, then those of the suffix `[iGapEnd, iDataEnd)`; with an inactive gap the slots of
`[iData, iDataEnd)`. -/
def logical_sequence (c : gap_vector T DefaultGapSize NearnessFactor) : List (Option T) :=
  if c.gap_active then
    (List.range (c.iGapStart - c.iData).toNat).map (fun (k : Nat) => c.load (c.iData + (k : Int))) ++
      (List.range (c.iDataEnd - c.iGapEnd).toNat).map (fun (k : Nat) => c.load (c.iGapEnd + (k : Int)))
  else (List.range (c.iDataEnd - c.iData).toNat).map (fun (k : Nat) => c.load (c.iData + (k : Int)))

/-- The elements an observer reads through `operator[]` at the indices below `size()`. -/
def observed_sequence (c : gap_vector T DefaultGapSize NearnessFactor) : List (Option T) :=
  (List.range c.size.toNat).map (fun (k : Nat) => c.index (k : Int))

/-! ## Well-formed states -/

/-- The cursor part of well-formedness: the occupied extent lies inside the allocation, the
allocation is smaller than `max_size()`, and an active gap lies inside the occupied extent. -/
structure cursors_valid (c : gap_vector T DefaultGapSize NearnessFactor) : Prop where
  data_le : c.iData ≤ c.iDataEnd
  end_le : c.iDataEnd ≤ c.iStorageEnd
  cap_lt : c.iStorageEnd - c.iData < 9223372036854775808
  gap_lo : c.iGapStart ≠ c.iGapEnd → c.iData ≤ c.iGapStart
  gap_mid : c.iGapStart ≠ c.iGapEnd → c.iGapStart ≤ c.iGapEnd
  gap_hi : c.iGapStart ≠ c.iGapEnd → c.iGapEnd ≤ c.iDataEnd

/-- A well-formed state: valid cursors, and every slot of the prefix and of the suffix holds a
constructed element. -/
structure well_formed (c : gap_vector T DefaultGapSize NearnessFactor) : Prop where
  cursors : cursors_valid c
  live : ∀ p, c.iData ≤ p → p < c.iDataEnd →
    (c.iGapStart ≠ c.iGapEnd → p < c.iGapStart ∨ c.iGapEnd ≤ p) → (c.load p).isSome

/-- The well-formed state `c` holds the logical sequence `s`. -/
def represents (c : gap_vector T DefaultGapSize NearnessFactor) (s : List T) : Prop :=
  well_formed c ∧ c.logical_sequence = s.map some

/-- Length of the prefix; with an inactive gap the whole occupied extent. -/
def prefix_length (c : gap_vector T DefaultGapSize NearnessFactor) : Int :=
  if c.iGapStart ≠ c.iGapEnd then c.iGapStart - c.iData else c.iDataEnd - c.iData

/-- Length of the gap as an integer; `0` for an inactive gap. -/
def gap_length (c : gap_vector T DefaultGapSize NearnessFactor) : Int :=
  if c.iGapStart ≠ c.iGapEnd then c.iGapEnd - c.iGapStart else 0

/-- An allocator that serves every request below 2^63 elements at address 4096. -/
def test_allocator : Int → Option Int :=
  fun n => if n < 9223372036854775808 then some 4096 else none

/-- A state with the prefix `10, 20` at slots 0 and 1, the gap over slots 2 and 3, the suffix
`30` at slot 4 and three slots of reserve. -/
def split_example : gap_vector Int 256 2 :=
  { slot := fun k => if k = 0 then some 10 else if k = 1 then some 20 else if k = 4 then some 30
      else none
    iAlloc := test_allocator
    iData := 4096
    iDataEnd := 4101
    iStorageEnd := 4104
    iGapStart := 4098
    iGapEnd := 4100 }

/-- The loop `for (auto const& x : xs) c.push_back(x);`. -/
def push_back_all :
    List T → gap_vector T DefaultGapSize NearnessFactor →
      outcome (gap_vector T DefaultGapSize NearnessFactor)
  | [], c => outcome.returned c
  | x :: xs, c => (c.push_back (reference.external x)).bind id (push_back_all xs)

/-- The buffer after `gap_vector<int> v; v.push_back(1); v.push_back(2); v.push_back(3);`. -/
def three_pushed : outcome (gap_vector Int 256 2) :=
  push_back_all [1, 2, 3] (default_constructed test_allocator)

/-- The state `c'` differs from `c` in slot contents only. -/
def same_cursors (c c' : gap_vector T DefaultGapSize NearnessFactor) : Prop :=
  c'.iAlloc = c.iAlloc ∧ c'.iData = c.iData ∧ c'.iDataEnd = c.iDataEnd ∧
    c'.iStorageEnd = c.iStorageEnd ∧ c'.iGapStart = c.iGapStart ∧ c'.iGapEnd = c.iGapEnd

/-- The capacity `grow(aCount)` asks `reserve` for. -/
def grow_request (c : gap_vector T DefaultGapSize NearnessFactor) (aCount : Int) : Int :=
  times_growth_factor (to_size (c.capacity + DefaultGapSize + aCount))

/-- The cursors describe a prefix of `P` slots followed by a gap of `g` slots; with `g = 0`
the gap is inactive and `P` is any split point of the occupied extent. -/
def layout (c : gap_vector T DefaultGapSize NearnessFactor) (P g : Int) : Prop :=
  c.iData ≤ c.iDataEnd ∧ c.iDataEnd ≤ c.iStorageEnd ∧
    c.iStorageEnd - c.iData < 9223372036854775808 ∧ 0 ≤ P ∧ 0 ≤ g ∧
    c.iData + P + g ≤ c.iDataEnd ∧ c.iGapEnd - c.iGapStart = g ∧
    (0 < g → c.iGapStart = c.iData + P)

/-- Postcondition of `allocate_from_gap` for `k` elements at logical index `i`: `c'` has valid
cursors and `k` more logical positions, the positions `i .. i + k - 1` are the slots
`m .. m + k - 1`, and the elements before and after keep their order. -/
structure allocated (c : gap_vector T DefaultGapSize NearnessFactor) (i k : Int)
    (c' : gap_vector T DefaultGapSize NearnessFactor) (m : Int) : Prop where
  cursors : cursors_valid c'
  alloc : c'.iAlloc = c.iAlloc
  size : c'.size = c.size + k
  fresh : ∀ t, 0 ≤ t → t < k → c'.iData + c'.adjusted_index (i + t) = m + t
  before : ∀ j, 0 ≤ j → j < i → c'.index j = c.index j
  after : ∀ j, i ≤ j → j < c.size → c'.index (j + k) = c.index j

/-- The allocator serves every request of fewer than 2^63 elements. -/
def allocator_total (alloc : Int → Option Int) : Prop :=
  ∀ n : Int, 0 ≤ n → n < 9223372036854775808 → ∃ b, alloc n = some b

/-- Postcondition of `erase(begin() + i, begin() + i + k)`: `c'` has valid cursors and `k`
fewer logical positions, and the surviving elements keep their order. -/
structure erased (c : gap_vector T DefaultGapSize NearnessFactor) (i k : Int)
    (c' : gap_vector T DefaultGapSize NearnessFactor) : Prop where
  cursors : cursors_valid c'
  alloc : c'.iAlloc = c.iAlloc
  size : c'.size = c.size - k
  before : ∀ j, 0 ≤ j → j < i → c'.index j = c.index j
  after : ∀ j, i ≤ j → j < c.size - k → c'.index j = c.index (j + k)

/-- Source `swap(other)`: the five pointers change places, and with `iData` the storage it points
to; `iAlloc` is not swapped.  The value is `*this` and `other` afterwards. -/
def swap (c other : gap_vector T DefaultGapSize NearnessFactor) :
    gap_vector T DefaultGapSize NearnessFactor × gap_vector T DefaultGapSize NearnessFactor :=
  ({ c with
      slot := other.slot
      iData := other.iData
      iDataEnd := other.iDataEnd
      iStorageEnd := other.iStorageEnd
      iGapStart := other.iGapStart
      iGapEnd := other.iGapEnd },
   { other with
      slot := c.slot
      iData := c.iData
      iDataEnd := c.iDataEnd
      iStorageEnd := c.iStorageEnd
      iGapStart := c.iGapStart
      iGapEnd := c.iGapEnd })

/-- Source `~gap_vector()`: `clear()`, then the storage is handed back to the allocator. -/
def destructor (c : gap_vector T DefaultGapSize NearnessFactor) : Option Unit :=
  c.clear.map fun _ => ()

/-- The values an input range `[first, last)` of iterators into `c` yields, as the range
overloads read them: `for (; first != last; ++first)` with `*first` copied at every step.
Copying from a slot that holds no constructed element is undefined. -/
def range_values (c : gap_vector T DefaultGapSize NearnessFactor) :
    Nat → Int → Int → Option (List T)
  | 0, first, last => if first ≠ last then none else some []
  | n + 1, first, last =>
    if first ≠ last then
      match c.load first, range_values c n (c.iterator_add first 1) last with
      | some v, some vs => some (v :: vs)
      | _, _ => none
    else some []

/-- The values of the range `[other.begin(), other.end())`. -/
def values (other : gap_vector T DefaultGapSize NearnessFactor) : Option (List T) :=
  other.range_values (other.iterator_difference other.end_ other.begin).toNat other.begin
    other.end_

/-- Source `gap_vector(const gap_vector& other)` and `gap_vector(const gap_vector& other, const
Allocator& alloc)`: `(void)insert(begin(), other.begin(), other.end())` on the empty buffer
whose allocator is `alloc` (for the first overload the value-initialised `Allocator`). -/
def copy_constructed (alloc : Int → Option Int)
    (other : gap_vector T DefaultGapSize NearnessFactor) :
    outcome (gap_vector T DefaultGapSize NearnessFactor) :=
  match other.values with
  | none => outcome.undefined
  | some vs =>
    ((default_constructed alloc : gap_vector T DefaultGapSize NearnessFactor).insert_range
      (default_constructed alloc : gap_vector T DefaultGapSize NearnessFactor).begin vs).bind
        (fun r => r.1) fun r => outcome.returned r.1

/-- Source `assign(first, last)`, the input range given as the list of its elements:
`clear(); insert(begin(), first, last);`. -/
def assign (c : gap_vector T DefaultGapSize NearnessFactor) (range : List T) :
    outcome (gap_vector T DefaultGapSize NearnessFactor) :=
  match c.clear with
  | none => outcome.undefined
  | some c1 => (c1.insert_range c1.begin range).bind (fun r => r.1) fun r => outcome.returned r.1

/-- Source `operator=(const gap_vector& other)`, for `other` an object distinct from `*this`:
`assign(other.begin(), other.end())`. -/
def copy_assignment (c other : gap_vector T DefaultGapSize NearnessFactor) :
    outcome (gap_vector T DefaultGapSize NearnessFactor) :=
  match other.values with
  | none => outcome.undefined
  | some vs => c.assign vs

/-- Source `shrink_to_fit()`: `gap_vector{ *this }.swap(*this);`, the temporary destroyed at the
end of the statement.  `alloc` is the value-initialised `Allocator` of the temporary. -/
def shrink_to_fit (alloc : Int → Option Int) (c : gap_vector T DefaultGapSize NearnessFactor) :
    outcome (gap_vector T DefaultGapSize NearnessFactor) :=
  (copy_constructed alloc c).bind (fun _ => c) fun temp =>
    match (temp.swap c).1.destructor with
    | none => outcome.undefined
    | some _ => outcome.returned (temp.swap c).2

/-- Source `gap_vector(gap_vector&& other)` and `gap_vector(gap_vector&& other, const Allocator&
alloc)`: `swap(other)` on the empty buffer.  The value is the new object and `other`
afterwards. -/
def move_constructed (alloc : Int → Option Int)
    (other : gap_vector T DefaultGapSize NearnessFactor) :
    gap_vector T DefaultGapSize NearnessFactor × gap_vector T DefaultGapSize NearnessFactor :=
  (default_constructed alloc : gap_vector T DefaultGapSize NearnessFactor).swap other

/-- Source `operator=(gap_vector&& other)`: `gap_vector temp; temp.swap(other); temp.swap(*this);`
and the destruction of `temp`.  The value is `*this` and `other` afterwards. -/
def move_assignment (alloc : Int → Option Int)
    (c other : gap_vector T DefaultGapSize NearnessFactor) :
    Option (gap_vector T DefaultGapSize NearnessFactor ×
      gap_vector T DefaultGapSize NearnessFactor) :=
  let temp : gap_vector T DefaultGapSize NearnessFactor := default_constructed alloc
  let r1 := temp.swap other
  let r2 := r1.1.swap c
  match r2.1.destructor with
  | none => none
  | some _ => some (r2.2, r1.2)

/-- The loop of `std::equal(first1, last1, first2)` over iterators into `lhs` and `rhs`:
`for (; first1 != last1; ++first1, ++first2) if (!(*first1 == *first2)) return false;`. -/
def equal_loop [DecidableEq T] (lhs rhs : gap_vector T DefaultGapSize NearnessFactor) :
    Nat → Int → Int → Int → Option Bool
  | 0, first1, last1, _ => if first1 ≠ last1 then none else some true
  | n + 1, first1, last1, first2 =>
    if first1 ≠ last1 then
      match lhs.load first1, rhs.load first2 with
      | some x, some y =>
        if x = y then equal_loop lhs rhs n (lhs.iterator_add first1 1) last1
          (rhs.iterator_add first2 1)
        else some false
      | _, _ => none
    else some true

/-- Source `operator==(lhs, rhs)`:
`lhs.size() == rhs.size() && std::equal(lhs.begin(), lhs.end(), rhs.begin())`. -/
def operator_eq [DecidableEq T] (lhs rhs : gap_vector T DefaultGapSize NearnessFactor) :
    Option Bool :=
  if lhs.size = rhs.size then
    equal_loop lhs rhs (lhs.iterator_difference lhs.end_ lhs.begin).toNat lhs.begin lhs.end_
      rhs.begin
  else some false

/-- The loop of `std::lexicographical_compare_three_way(first1, last1, first2, last2)` over
iterators into `lhs` and `rhs`: while `first1 != last1`, the result is `greater` when
`first2 == last2`, the result of `*first1 <=> *first2` when that is not `equal`, and
otherwise both iterators advance; after the loop `equal` when `first2 == last2`, else `less`. -/
def three_way_loop [Ord T] (lhs rhs : gap_vector T DefaultGapSize NearnessFactor) :
    Nat → Int → Int → Int → Int → Option Ordering
  | 0, first1, last1, first2, last2 =>
    if first1 ≠ last1 then none
    else some (if first2 = last2 then Ordering.eq else Ordering.lt)
  | n + 1, first1, last1, first2, last2 =>
    if first1 ≠ last1 then
      if first2 = last2 then some Ordering.gt
      else
        match lhs.load first1, rhs.load first2 with
        | some x, some y =>
          if compare x y ≠ Ordering.eq then some (compare x y)
          else three_way_loop lhs rhs n (lhs.iterator_add first1 1) last1
            (rhs.iterator_add first2 1) last2
        | _, _ => none
    else some (if first2 = last2 then Ordering.eq else Ordering.lt)

/-- Source `operator<=>(lhs, rhs)`:
`std::lexicographical_compare_three_way(lhs.begin(), lhs.end(), rhs.begin(), rhs.end())`. -/
def operator_cmp [Ord T] (lhs rhs : gap_vector T DefaultGapSize NearnessFactor) :
    Option Ordering :=
  three_way_loop lhs rhs (lhs.iterator_difference lhs.end_ lhs.begin).toNat lhs.begin lhs.end_
    rhs.begin rhs.end_

/-- The three-way comparison of two sequences "as for any sequence": the first position at
which the elements differ decides, and a proper prefix orders before the longer sequence. -/
def lexicographic [Ord T] : List T → List T → Ordering
  | [], [] => Ordering.eq
  | [], _ :: _ => Ordering.lt
  | _ :: _, [] => Ordering.gt
  | x :: xs, y :: ys => if compare x y ≠ Ordering.eq then compare x y else lexicographic xs ys

/-- A state holding `10, 20, 30` in the slots 0 to 2 of a three-slot allocation at another
address, with no gap and no reserve. -/
def contiguous_example : gap_vector Int 256 2 :=
  { slot := fun k => if k = 0 then some 10 else if k = 1 then some 20 else if k = 2 then some 30
      else none
    iAlloc := test_allocator
    iData := 8192
    iDataEnd := 8195
    iStorageEnd := 8195
    iGapStart := 0
    iGapEnd := 0 }

/-- The state `c'` has exactly the cursors of `a`, and with them its capacity, size and logical
sequence. -/
def took_over (c' a : gap_vector T DefaultGapSize NearnessFactor) : Prop :=
  c'.iData = a.iData ∧ c'.iDataEnd = a.iDataEnd ∧ c'.iStorageEnd = a.iStorageEnd ∧
    c'.iGapStart = a.iGapStart ∧ c'.iGapEnd = a.iGapEnd ∧ c'.capacity = a.capacity ∧
    c'.size = a.size ∧ c'.logical_sequence = a.logical_sequence

/-- The state of a moved-from object: the five cursors are null, `size()` and `capacity()` are
zero and `empty()` holds. -/
def moved_from (c : gap_vector T DefaultGapSize NearnessFactor) : Prop :=
  c.iData = 0 ∧ c.iDataEnd = 0 ∧ c.iStorageEnd = 0 ∧ c.iGapStart = 0 ∧ c.iGapEnd = 0 ∧
    c.size = 0 ∧ c.capacity = 0 ∧ c.empty = true ∧ c.logical_sequence = []

/-- The buffer after `gap_vector<int> v; v.reserve(3); v.push_back(1); v.push_back(2);
v.push_back(3);`. -/
def reserved_three : outcome (gap_vector Int 256 2) :=
  ((default_constructed test_allocator : gap_vector Int 256 2).reserve 3).bind id
    (push_back_all [1, 2, 3])

/-- An allocator that serves requests of at most eight elements, at address 4096, and fails
on larger ones. -/
def small_allocator : Int → Option Int :=
  fun n => if n ≤ 8 then some 4096 else none

/-- The buffer after `gap_vector<int> v; v.reserve(8); v.push_back(10); v.push_back(20);
v.push_back(30); v.data(); v.insert(v.begin() + 1, 15);` with `small_allocator`: it holds
`10, 15, 20, 30` with the prefix `10, 15`, the gap over slots 2 to 5 and the suffix `20, 30`. -/
def split_four : outcome (gap_vector Int 256 2) :=
  (((default_constructed small_allocator : gap_vector Int 256 2).reserve 8).bind id
      (push_back_all [10, 20, 30])).bind id fun c =>
    (outcome.of_option c.data).bind (fun r => r.1) fun r =>
      (r.1.insert (r.1.iterator_add r.1.begin 1) (15 : Int)).bind (fun r => r.1) fun r =>
        outcome.returned r.1

/-- The state `split_example` once its allocator is exhausted: every request fails. -/
def exhausted_example : gap_vector Int 256 2 :=
  { split_example with iAlloc := fun _ => none }

/-- The observable representation of a state: base, `iGapStart`, `iGapEnd`, `iDataEnd`,
`capacity()` and the contents of the first eight slots. -/
def representation (c : gap_vector Int 256 2) :
    Int × Int × Int × Int × Int × List (Option Int) :=
  (c.iData, c.iGapStart, c.iGapEnd, c.iDataEnd, c.capacity,
    (List.range 8).map fun (k : Nat) => c.slot (k : Int))

/-- The buffer `c'` has the `size()`, the `capacity()` and the logical sequence of `c`, and is
well-formed. -/
def same_contents (c c' : gap_vector T DefaultGapSize NearnessFactor) : Prop :=
  c'.size = c.size ∧ c'.capacity = c.capacity ∧ c'.logical_sequence = c.logical_sequence ∧
    well_formed c'

/-- The state `c'` is the state `c`, which holds `s`, with its gap closed: the base, the end
of the allocation, `capacity()` and `size()` are those of `c`, and `c'` holds `s` in
`[iData, iData + |s|)` with the gap inactive. -/
def compacted (c c' : gap_vector T DefaultGapSize NearnessFactor) (s : List T) : Prop :=
  c'.iData = c.iData ∧ c'.iStorageEnd = c.iStorageEnd ∧ c'.capacity = c.capacity ∧
    c'.size = c.size ∧ represents c' s ∧ c'.iGapStart = c'.iGapEnd ∧
    c'.iDataEnd = c.iData + c.size

/-- A state holding the single element `7` in slot 0, the gap over the slots 1 to 3 reaching
the high-water mark. -/
def single_example : gap_vector Int 256 2 :=
  { slot := fun k => if k = 0 then some 7 else none
    iAlloc := test_allocator
    iData := 4096
    iDataEnd := 4100
    iStorageEnd := 4100
    iGapStart := 4097
    iGapEnd := 4100 }

/-- The buffer `gap_vector<int> v;` with the default template arguments. -/
def empty_example : gap_vector Int 256 2 :=
  default_constructed test_allocator

/-- The buffer after `gap_vector<int> v; v.reserve(8); v.push_back(10); v.push_back(20);
v.push_back(30); v.data();` with `small_allocator`: `10, 20, 30` in slots 0 to 2, the gap
inactive, slots 3 to 7 raw. -/
def flat_three : outcome (gap_vector Int 256 2) :=
  (((default_constructed small_allocator : gap_vector Int 256 2).reserve 8).bind id
      (push_back_all [10, 20, 30])).bind id fun c =>
    (outcome.of_option c.data).bind (fun r => r.1) fun r => outcome.returned r.1

/-- A full buffer of 2^52 - 256 elements `0` at address 4096: the gap is inactive and `size()`
is `capacity()`, so that a `push_back` grows with the sum
`capacity() + DefaultGapSize + 1 = 2^52 + 1`. -/
def full_example : gap_vector Int 256 2 :=
  { slot := fun k => if 0 ≤ k ∧ k < 4503599627370240 then some 0 else none
    iAlloc := test_allocator
    iData := 4096
    iDataEnd := 4503599627374336
    iStorageEnd := 4503599627374336
    iGapStart := 0
    iGapEnd := 0 }

/-- The buffer after `gap_vector<std::string> v; v.push_back("a"); v.push_back("b");`. -/
def two_strings : outcome (gap_vector String 256 2) :=
  push_back_all ["a", "b"] (default_constructed test_allocator)

/-- Source `iterator_impl::operator==`: the two `iBase` pointers are compared. -/
def iterator_eq (iBase that : Int) : Bool :=
  decide (iBase = that)

/-- Source `iterator_impl::operator<=>`: the three-way comparison of the two `iBase` pointers. -/
def iterator_cmp (iBase that : Int) : Ordering :=
  compare iBase that

/-- The operation with outcome `o`, started in `c`, ends, by returning or with
`std::bad_alloc`, and the buffer `state s` it leaves has at least the capacity of `c`. -/
def capacity_kept {σ : Type} (c : gap_vector T DefaultGapSize NearnessFactor)
    (state : σ → gap_vector T DefaultGapSize NearnessFactor) : outcome σ → Prop
  | outcome.returned s => c.capacity ≤ (state s).capacity
  | outcome.bad_alloc s => c.capacity ≤ (state s).capacity
  | outcome.undefined => False

/-! ## Theorems -/

theorem dropped_bits_lower : ∀ (fuel n : Nat), 4503599627370496 ≤ n →
    4503599627370496 * 2 ^ dropped_bits fuel n ≤ n := by
  intro fuel
  induction fuel with
  | zero => intro n h; simpa [dropped_bits] using h
  | succ f ih =>
    intro n h
    unfold dropped_bits
    split_ifs with hlt
    · simpa using h
    · have := ih (n / 2) (by omega)
      rw [pow_succ]
      omega

theorem dropped_bits_upper : ∀ (fuel n : Nat), n < 9007199254740992 * 2 ^ fuel →
    n < 9007199254740992 * 2 ^ dropped_bits fuel n := by
  intro fuel
  induction fuel with
  | zero => intro n h; simpa [dropped_bits] using h
  | succ f ih =>
    intro n h
    unfold dropped_bits
    split_ifs with hlt
    · simpa using hlt
    · have := ih (n / 2) (by rw [pow_succ] at h; omega)
      rw [pow_succ]
      omega

theorem dropped_bits_mono : ∀ (fuel fuel' n n' : Nat), n ≤ n' → n < 9007199254740992 * 2 ^ fuel →
    n' < 9007199254740992 * 2 ^ fuel' →
    dropped_bits fuel n ≤ dropped_bits fuel' n' := by
  intro fuel
  induction fuel with
  | zero => intro f' n n' _ _ _; simp [dropped_bits]
  | succ f ih =>
    intro f' n n' hle h h'
    by_cases hlt : n < 9007199254740992
    · simp only [dropped_bits, if_pos hlt]
      exact Nat.zero_le _
    · cases f' with
      | zero => simp at h'; omega
      | succ g =>
        have hlt' : ¬ n' < 9007199254740992 := by omega
        simp only [dropped_bits, if_neg hlt, if_neg hlt']
        have := ih g (n / 2) (n' / 2) (by omega) (by rw [pow_succ] at h; omega)
          (by rw [pow_succ] at h'; omega)
        omega

theorem dropped_bits_fuel (n : Nat) : n < 9007199254740992 * 2 ^ n := by
  have := Nat.lt_two_pow n
  nlinarith [Nat.one_le_two_pow (n := n)]


theorem round_to_double_of_lt {n : Nat} (h : n < 9007199254740992) : round_to_double n = n := by
  have h0 : dropped_bits n n = 0 := by
    cases n with
    | zero => rfl
    | succ m => simp only [dropped_bits, if_pos h]
  simp [round_to_double, h0, Nat.mod_one]

theorem round_to_double_cases (n : Nat) :
    ∃ u q r p, n = p + r ∧ r < u ∧ p = q * u ∧ u = 2 ^ dropped_bits n n ∧
      (u = 1 ∨ 4503599627370496 * u ≤ n) ∧ q < 9007199254740992 ∧
      ((round_to_double n = p ∧ (2 * r < u ∨ (2 * r = u ∧ q % 2 = 0))) ∨
        (round_to_double n = p + u ∧ ¬ (2 * r < u ∨ (2 * r = u ∧ q % 2 = 0)))) := by
  have hu : 0 < 2 ^ dropped_bits n n := Nat.two_pow_pos _
  refine ⟨2 ^ dropped_bits n n, n / 2 ^ dropped_bits n n, n % 2 ^ dropped_bits n n,
    n / 2 ^ dropped_bits n n * 2 ^ dropped_bits n n, ?_, Nat.mod_lt _ hu, rfl, rfl, ?_, ?_, ?_⟩
  · exact (Nat.div_add_mod' n _).symm
  · by_cases h : n < 9007199254740992
    · left
      have h0 : dropped_bits n n = 0 := by
        cases n with
        | zero => rfl
        | succ m => simp only [dropped_bits, if_pos h]
      rw [h0]; rfl
    · right
      exact dropped_bits_lower n n (by omega)
  · rw [Nat.div_lt_iff_lt_mul hu]
    exact dropped_bits_upper n n (dropped_bits_fuel n)
  · unfold round_to_double
    simp only []
    split_ifs with h
    · exact Or.inl ⟨rfl, h⟩
    · exact Or.inr ⟨by ring, h⟩

theorem round_to_double_lower (n : Nat) : 4095 * n ≤ 4096 * round_to_double n := by
  obtain ⟨u, q, r, p, hn, hr, _, _, hu, _, hc⟩ := round_to_double_cases n
  rcases hc with ⟨e, _⟩ | ⟨e, _⟩ <;> rcases hu with hu | hu <;> omega

theorem round_to_double_mono {n m : Nat} (h : n ≤ m) : round_to_double n ≤ round_to_double m := by
  obtain ⟨u, q, r, p, hn, hr, hp, hu, hlow, hq, hc⟩ := round_to_double_cases n
  obtain ⟨u', q', r', p', hn', hr', hp', hu', hlow', hq', hc'⟩ := round_to_double_cases m
  have hle : dropped_bits n n ≤ dropped_bits m m :=
    dropped_bits_mono n m n m h (dropped_bits_fuel n) (dropped_bits_fuel m)
  have hup : round_to_double n ≤ p + u := by rcases hc with ⟨e, _⟩ | ⟨e, _⟩ <;> omega
  have hdn : p' ≤ round_to_double m := by rcases hc' with ⟨e, _⟩ | ⟨e, _⟩ <;> omega
  rcases Nat.lt_or_ge (dropped_bits n n) (dropped_bits m m) with hlt | hge
  · have h2 : 2 * u ≤ u' := by
      rw [hu, hu', ← pow_succ']
      exact Nat.pow_le_pow_right (by decide) hlt
    have hu1 : u' ≠ 1 := by
      have : 0 < u := by rw [hu]; exact Nat.two_pow_pos _
      omega
    have hm : 4503599627370496 * u' ≤ m := by rcases hlow' with e | e <;> omega
    have hq1 : (q + 1) * u ≤ 9007199254740992 * u := Nat.mul_le_mul_right u (by omega)
    have hq2 : 4503599627370496 ≤ q' := by
      by_contra hcon
      have : (q' + 1) * u' ≤ 4503599627370496 * u' := Nat.mul_le_mul_right u' (by omega)
      have e : (q' + 1) * u' = p' + u' := by rw [hp']; ring
      omega
    have hq3 : 4503599627370496 * u' ≤ q' * u' := Nat.mul_le_mul_right u' hq2
    have e : (q + 1) * u = p + u := by rw [hp]; ring
    omega
  · have huu : u = u' := by rw [hu, hu', le_antisymm hle hge]
    subst huu
    rcases Nat.lt_or_ge q q' with hqq | hqq
    · have : (q + 1) * u ≤ q' * u := Nat.mul_le_mul_right u (by omega)
      have e : (q + 1) * u = p + u := by rw [hp]; ring
      omega
    · have hqe : q = q' := by
        by_contra hne
        have : (q' + 1) * u ≤ q * u := Nat.mul_le_mul_right u (by omega)
        have e : (q' + 1) * u = p' + u := by rw [hp']; ring
        omega
      subst hqe
      have : p = p' := by rw [hp, hp']
      rcases hc with ⟨e, c1⟩ | ⟨e, c1⟩ <;> rcases hc' with ⟨e', c2⟩ | ⟨e', c2⟩ <;> omega

theorem times_growth_factor_exact {x : Int} (h0 : 0 ≤ x) (h : 3 * x < 9007199254740992) :
    times_growth_factor x = x * 3 / 2 := by
  have e1 : round_to_double x.toNat = x.toNat := round_to_double_of_lt (by omega)
  have e2 : round_to_double (3 * x.toNat) = 3 * x.toNat := round_to_double_of_lt (by omega)
  unfold times_growth_factor
  rw [e1, e2]
  omega

theorem le_times_growth_factor (x : Int) : x ≤ times_growth_factor x := by
  unfold times_growth_factor
  have h1 := round_to_double_lower x.toNat
  have h2 := round_to_double_lower (3 * round_to_double x.toNat)
  omega

theorem times_growth_factor_mono {x y : Int} (h : x ≤ y) :
    times_growth_factor x ≤ times_growth_factor y := by
  unfold times_growth_factor
  have := round_to_double_mono (Nat.mul_le_mul_left 3
    (round_to_double_mono (Int.toNat_le_toNat h)))
  omega

theorem times_growth_factor_nonneg (x : Int) : 0 ≤ times_growth_factor x := by
  unfold times_growth_factor
  omega

theorem to_size_of_bounds {z : Int} (h0 : 0 ≤ z) (h1 : z < 18446744073709551616) :
    to_size z = z := by
  unfold to_size; omega

theorem to_ptrdiff_of_bounds {z : Int} (h0 : -9223372036854775808 ≤ z)
    (h1 : z < 9223372036854775808) : to_ptrdiff z = z := by
  unfold to_ptrdiff; omega

theorem gap_size_eq {c : gap_vector T DefaultGapSize NearnessFactor} (h : cursors_valid c) :
    c.gap_size = c.gap_length := by
  obtain ⟨h1, h2, h3, h4, h5, h6⟩ := h
  unfold gap_size gap_length to_size
  split_ifs with hg
  · have := h4 hg; have := h5 hg; have := h6 hg; omega
  · simp at hg; omega

theorem gap_length_nonneg {c : gap_vector T DefaultGapSize NearnessFactor} (h : cursors_valid c) :
    0 ≤ c.gap_length := by
  obtain ⟨h1, h2, h3, h4, h5, h6⟩ := h
  unfold gap_length
  split_ifs with hg
  · have := h5 hg; omega
  · omega

theorem size_eq {c : gap_vector T DefaultGapSize NearnessFactor} (h : cursors_valid c) :
    c.size = (c.iDataEnd - c.iData) - c.gap_length := by
  have hg := gap_size_eq h
  obtain ⟨h1, h2, h3, h4, h5, h6⟩ := h
  unfold size
  rw [hg]
  unfold gap_length to_size
  split_ifs with hg
  · have := h4 hg; have := h5 hg; have := h6 hg; omega
  · omega

theorem size_nonneg {c : gap_vector T DefaultGapSize NearnessFactor} (h : cursors_valid c) :
    0 ≤ c.size := by
  rw [size_eq h]
  obtain ⟨h1, h2, h3, h4, h5, h6⟩ := h
  unfold gap_length
  split_ifs with hg
  · have := h4 hg; have := h5 hg; have := h6 hg; omega
  · omega

theorem capacity_eq {c : gap_vector T DefaultGapSize NearnessFactor} (h : cursors_valid c) :
    c.capacity = c.iStorageEnd - c.iData := by
  obtain ⟨h1, h2, h3, h4, h5, h6⟩ := h
  unfold capacity to_size
  omega

theorem room_eq {c : gap_vector T DefaultGapSize NearnessFactor} (h : cursors_valid c) :
    c.room = (c.iStorageEnd - c.iDataEnd) + c.gap_length := by
  have hs := size_eq h
  have hc := capacity_eq h
  have hn := gap_length_nonneg h
  have hz := size_nonneg h
  obtain ⟨h1, h2, h3, h4, h5, h6⟩ := h
  unfold room
  rw [hc]
  rw [hs] at hz ⊢
  unfold to_size
  omega

theorem prefix_length_bounds {c : gap_vector T DefaultGapSize NearnessFactor}
    (h : cursors_valid c) : 0 ≤ c.prefix_length ∧ c.prefix_length ≤ c.size := by
  rw [size_eq h]
  obtain ⟨h1, h2, h3, h4, h5, h6⟩ := h
  unfold prefix_length gap_length
  split_ifs with hg
  · have := h4 hg; have := h5 hg; have := h6 hg; omega
  · omega

theorem adjusted_index_eq {c : gap_vector T DefaultGapSize NearnessFactor} (h : cursors_valid c)
    {pos : Int} (h0 : 0 ≤ pos) (h1 : pos < 9223372036854775808) :
    c.adjusted_index pos = if pos < c.prefix_length then pos else pos + c.gap_length := by
  have hg := gap_size_eq h
  obtain ⟨h1, h2, h3, h4, h5, h6⟩ := h
  unfold adjusted_index
  rw [hg]
  unfold gap_active prefix_length gap_length to_size
  by_cases hg : c.iGapStart = c.iGapEnd
  · simp [hg]
  · have := h4 hg; have := h5 hg; have := h6 hg
    have hlt : c.iGapStart < c.iGapEnd := by omega
    simp only [hg, ne_eq, not_false_eq_true, decide_True, Bool.not_true, Bool.false_or,
      decide_eq_true_eq, ite_true]
    split_ifs <;> (try simp only [true_and, and_true] at *) <;> omega

/-- The pointer `begin() + i` of a position `0 ≤ i ≤ size()`. -/
theorem iterator_add_begin {c : gap_vector T DefaultGapSize NearnessFactor} (h : cursors_valid c)
    {i : Int} (h0 : 0 ≤ i) (h1 : i ≤ c.size) :
    c.iterator_add c.begin i =
      if i < c.prefix_length ∨ (i = c.prefix_length ∧ i = c.size ∧ 0 < i) then c.iData + i
      else c.iData + i + c.gap_length := by
  rw [size_eq h] at h1 ⊢
  obtain ⟨h1, h2, h3, h4, h5, h6⟩ := h
  unfold iterator_add advance_forward begin gap_size
  unfold gap_active prefix_length gap_length to_size to_ptrdiff at *
  by_cases hg : c.iGapStart = c.iGapEnd
  · simp only [hg, ne_eq, not_true_eq_false, decide_False, Bool.not_false, Bool.true_or,
      ite_true, ite_false] at *
    split_ifs <;> (try simp only [true_and, and_true] at *) <;> omega
  · have := h4 hg; have := h5 hg; have := h6 hg
    have hlt : c.iGapStart < c.iGapEnd := by omega
    simp only [hg, ne_eq, not_false_eq_true, decide_True, Bool.not_true, Bool.false_or,
      decide_eq_true_eq, ite_true, decide_not, Bool.not_eq_true', decide_eq_false_iff_not,
      ite_not, Bool.and_eq_true, Bool.or_eq_true, gt_iff_lt, not_lt] at *
    split_ifs <;> (try simp only [true_and, and_true] at *) <;> omega

/-- The distance `std::distance(begin(), begin() + i)` is `i`. -/
theorem iterator_difference_add_begin {c : gap_vector T DefaultGapSize NearnessFactor}
    (h : cursors_valid c) {i : Int} (h0 : 0 ≤ i) (h1 : i ≤ c.size) :
    c.iterator_difference (c.iterator_add c.begin i) c.begin = i := by
  rw [iterator_add_begin h h0 h1]
  rw [size_eq h] at h1 ⊢
  obtain ⟨h1, h2, h3, h4, h5, h6⟩ := h
  unfold iterator_difference begin before_gap after_gap gap_size
  unfold gap_active prefix_length gap_length to_size to_ptrdiff at *
  by_cases hg : c.iGapStart = c.iGapEnd
  · simp only [hg, ne_eq, not_true_eq_false, decide_False, Bool.not_false, Bool.true_or,
      ite_true, ite_false] at *
    split_ifs <;> (try simp only [true_and, and_true] at *) <;> omega
  · have := h4 hg; have := h5 hg; have := h6 hg
    have hlt : c.iGapStart < c.iGapEnd := by omega
    simp only [hg, ne_eq, not_false_eq_true, decide_True, Bool.not_true, Bool.false_or,
      decide_eq_true_eq, ite_true, decide_not, Bool.not_eq_true', decide_eq_false_iff_not,
      ite_not, Bool.and_eq_true, Bool.or_eq_true, gt_iff_lt, not_lt, Bool.true_and,
      ge_iff_le] at *
    split_ifs <;> (try simp only [true_and, and_true] at *) <;> omega

/-- The iterator `end()` is `begin() + size()`. -/
theorem end_eq_iterator_add {c : gap_vector T DefaultGapSize NearnessFactor}
    (h : cursors_valid c) : c.end_ = c.iterator_add c.begin c.size := by
  rw [iterator_add_begin h (size_nonneg h) (le_refl _)]
  rw [size_eq h]
  obtain ⟨h1, h2, h3, h4, h5, h6⟩ := h
  unfold end_
  unfold gap_active prefix_length gap_length at *
  by_cases hg : c.iGapStart = c.iGapEnd
  · simp only [hg, ne_eq, not_true_eq_false, decide_False, Bool.not_false, Bool.true_or,
      ite_true, ite_false] at *
    split_ifs <;> (try simp only [true_and, and_true] at *) <;> omega
  · have := h4 hg; have := h5 hg; have := h6 hg
    have hlt : c.iGapStart < c.iGapEnd := by omega
    simp only [hg, ne_eq, not_false_eq_true, decide_True, Bool.not_true, Bool.false_or,
      decide_eq_true_eq, ite_true, decide_not, Bool.not_eq_true', decide_eq_false_iff_not,
      ite_not, Bool.and_eq_true, Bool.or_eq_true, gt_iff_lt, not_lt, Bool.true_and,
      ge_iff_le] at *
    split_ifs <;> (try simp only [true_and, and_true] at *) <;> omega

/-- The iterator `std::prev(end())` is `begin() + (size() - 1)` in a non-empty buffer. -/
theorem prev_end_eq {c : gap_vector T DefaultGapSize NearnessFactor}
    (h : cursors_valid c) (hs : 0 < c.size) :
    c.iterator_sub c.end_ 1 = c.iterator_add c.begin (c.size - 1) := by
  rw [iterator_add_begin h (by omega) (by omega)]
  rw [size_eq h] at hs ⊢
  obtain ⟨h1, h2, h3, h4, h5, h6⟩ := h
  unfold iterator_sub advance_backward end_ gap_size
  unfold gap_active prefix_length gap_length to_size to_ptrdiff at *
  by_cases hg : c.iGapStart = c.iGapEnd
  · simp only [hg, ne_eq, not_true_eq_false, decide_False, Bool.not_false, Bool.true_or,
      ite_true, ite_false] at *
    split_ifs <;> (try simp only [true_and, and_true] at *) <;> omega
  · have := h4 hg; have := h5 hg; have := h6 hg
    have hlt : c.iGapStart < c.iGapEnd := by omega
    simp only [hg, ne_eq, not_false_eq_true, decide_True, Bool.not_true, Bool.false_or,
      decide_eq_true_eq, ite_true, decide_not, Bool.not_eq_true', decide_eq_false_iff_not,
      ite_not, Bool.and_eq_true, Bool.or_eq_true, gt_iff_lt, not_lt, Bool.true_and,
      ge_iff_le] at *
    split_ifs <;> (try simp only [true_and, and_true] at *) <;> omega

/-- A logical index below `size()` is translated to a slot of the prefix or of the suffix. -/
theorem adjusted_index_live {c : gap_vector T DefaultGapSize NearnessFactor}
    (h : cursors_valid c) {i : Int} (h0 : 0 ≤ i) (h1 : i < c.size) :
    c.iData ≤ c.iData + c.adjusted_index i ∧ c.iData + c.adjusted_index i < c.iDataEnd ∧
      (c.iGapStart ≠ c.iGapEnd →
        c.iData + c.adjusted_index i < c.iGapStart ∨ c.iGapEnd ≤ c.iData + c.adjusted_index i) := by
  have hsz := size_eq h
  have hb : i < 9223372036854775808 := by
    have := gap_length_nonneg h
    have := h.cap_lt; have := h.end_le; have := h.data_le
    omega
  rw [adjusted_index_eq h h0 hb]
  rw [hsz] at h1
  obtain ⟨h1, h2, h3, h4, h5, h6⟩ := h
  unfold prefix_length gap_length at *
  by_cases hg : c.iGapStart = c.iGapEnd
  · simp only [hg, ne_eq, not_true_eq_false, ite_false] at *
    split_ifs <;> (try simp only [true_and, and_true] at *) <;> omega
  · have := h4 hg; have := h5 hg; have := h6 hg
    have hlt : c.iGapStart < c.iGapEnd := by omega
    simp only [hg, ne_eq, not_false_eq_true, ite_true] at *
    split_ifs <;> (try simp only [true_and, and_true] at *) <;> omega

/-- In a state with valid cursors the logical sequence of the data model is what `operator[]`
reads at the indices `0 .. size() - 1`. -/
theorem logical_sequence_eq_observed {c : gap_vector T DefaultGapSize NearnessFactor}
    (h : cursors_valid c) : c.logical_sequence = c.observed_sequence := by
  have hsz := size_eq h
  have hcap := h.cap_lt
  have hend := h.end_le
  have hdl := h.data_le
  unfold logical_sequence observed_sequence index
  by_cases hg : c.iGapStart = c.iGapEnd
  · have hga : c.gap_active = false := by simp [gap_active, hg]
    have hgl : c.gap_length = 0 := by simp [gap_length, hg]
    rw [hgl] at hsz
    simp only [hga, Bool.false_eq_true, ite_false, hsz, sub_zero]
    apply List.map_congr_left
    intro k hk
    have : c.adjusted_index k = k := by
      unfold adjusted_index; simp [hga]
    rw [this]; unfold load; congr 1; omega
  · have hga : c.gap_active = true := by simp [gap_active, hg]
    have h4 := h.gap_lo hg; have h5 := h.gap_mid hg; have h6 := h.gap_hi hg
    have hgl : c.gap_length = c.iGapEnd - c.iGapStart := by simp [gap_length, hg]
    have hpl : c.prefix_length = c.iGapStart - c.iData := by simp [prefix_length, hg]
    rw [hgl] at hsz
    simp only [hga, ite_true]
    have hsplit : c.size.toNat = (c.iGapStart - c.iData).toNat + (c.iDataEnd - c.iGapEnd).toNat := by
      omega
    rw [hsplit, List.range_add, List.map_append, List.map_map]
    congr 1
    · apply List.map_congr_left
      intro k hk
      rw [List.mem_range] at hk
      rw [adjusted_index_eq h (by omega) (by omega), hpl, if_pos (by omega)]
      unfold load; congr 1; omega
    · apply List.map_congr_left
      intro k hk
      rw [List.mem_range] at hk
      simp only [Function.comp_apply]
      rw [adjusted_index_eq h (by omega) (by omega), hpl, if_neg (by omega), hgl]
      unfold load; congr 1
      push_cast
      omega

theorem represents_size {c : gap_vector T DefaultGapSize NearnessFactor} {s : List T}
    (h : represents c s) : c.size = s.length := by
  have h1 := logical_sequence_eq_observed h.1.cursors
  have h2 := h.2
  rw [h1] at h2
  have h3 := congrArg List.length h2
  simp only [observed_sequence, List.length_map, List.length_range] at h3
  have := size_nonneg h.1.cursors
  omega

theorem represents_index {c : gap_vector T DefaultGapSize NearnessFactor} {s : List T}
    (h : represents c s) (i : Nat) (hi : i < s.length) : c.index i = s[i]? := by
  have h1 := logical_sequence_eq_observed h.1.cursors
  have h2 := h.2
  rw [h1] at h2
  have hs := represents_size h
  have h3 := congrArg (fun l => l[i]?) h2
  simp only [observed_sequence, List.getElem?_map] at h3
  rw [List.getElem?_range (by omega)] at h3
  simp only [Option.map_some'] at h3
  rw [List.getElem?_eq_getElem hi] at h3 ⊢
  simpa using h3

theorem at_eq_index {c : gap_vector T DefaultGapSize NearnessFactor} (h : cursors_valid c)
    {i : Int} (h0 : 0 ≤ i) (h1 : i < c.size) : c.«at» i = Except.ok (c.index i) := by
  have hl := adjusted_index_live h h0 h1
  have hd := h.data_le; have he := h.end_le; have hc := h.cap_lt
  unfold «at» index
  simp only
  rw [to_size_of_bounds (by omega) (by omega), if_pos (by omega)]

theorem index_eq_load_iterator {c : gap_vector T DefaultGapSize NearnessFactor}
    (h : cursors_valid c) {i : Int} (h0 : 0 ≤ i) (h1 : i < c.size) :
    c.iData + c.adjusted_index i = c.iterator_add c.begin i := by
  have hsz := size_eq h
  have hgn := gap_length_nonneg h
  have hd := h.data_le; have he := h.end_le; have hc := h.cap_lt
  rw [adjusted_index_eq h h0 (by omega), iterator_add_begin h h0 (by omega)]
  split_ifs <;> omega

theorem index_eq_load_iterator_add {c : gap_vector T DefaultGapSize NearnessFactor}
    (h : cursors_valid c) {i : Int} (h0 : 0 ≤ i) (h1 : i < c.size) :
    c.index i = c.load (c.iterator_add c.begin i) := by
  rw [← index_eq_load_iterator h h0 h1]
  unfold index load
  congr 1
  omega

theorem split_example_well_formed : well_formed split_example := by
  refine ⟨⟨by decide, by decide, by decide, fun _ => by decide, fun _ => by decide,
    fun _ => by decide⟩, ?_⟩
  intro p h1 h2 h3
  have h4 := h3 (by decide)
  simp only [split_example] at h1 h2 h4
  have : p = 4096 ∨ p = 4097 ∨ p = 4100 := by omega
  rcases this with rfl | rfl | rfl <;> decide

theorem split_example_represents : represents split_example [10, 20, 30] :=
  ⟨split_example_well_formed, by decide⟩

/-- C6: in every well-formed state, whatever the gap position and whether the gap is active or
not, the iterator distance `end() - begin()` equals `size()`. -/
theorem distance_begin_end_eq_size (c : gap_vector T DefaultGapSize NearnessFactor)
    (h : well_formed c) : c.iterator_difference c.end_ c.begin = c.size := by
  rw [end_eq_iterator_add h.cursors]
  exact iterator_difference_add_begin h.cursors (size_nonneg h.cursors) (le_refl _)

theorem distance_begin_end_eq_size_witness :
    well_formed split_example ∧
      split_example.iterator_difference split_example.end_ split_example.begin =
        split_example.size :=
  ⟨split_example_well_formed, distance_begin_end_eq_size split_example split_example_well_formed⟩

/-- C7: in every well-formed state and for every logical index `i < size()`, `operator[](i)`
and `*(begin() + i)` designate the same physical slot, hence the same element. -/
theorem index_iterator_agreement (c : gap_vector T DefaultGapSize NearnessFactor)
    (h : well_formed c) (i : Int) (h0 : 0 ≤ i) (h1 : i < c.size) :
    c.iData + c.adjusted_index i = c.iterator_add c.begin i ∧
      c.index i = c.load (c.iterator_add c.begin i) := by
  have hp := index_eq_load_iterator h.cursors h0 h1
  refine ⟨hp, ?_⟩
  rw [← hp]
  unfold index load
  congr 1
  omega

theorem index_iterator_agreement_witness :
    well_formed split_example ∧ (0 : Int) ≤ 2 ∧ 2 < split_example.size ∧
      split_example.iData + split_example.adjusted_index 2 =
        split_example.iterator_add split_example.begin 2 ∧
      split_example.index 2 = split_example.load (split_example.iterator_add split_example.begin 2) :=
  ⟨split_example_well_formed, by decide, by decide,
    index_iterator_agreement split_example split_example_well_formed 2 (by decide) (by decide)⟩

/-- C8: in a well-formed state holding the logical sequence `s`, `at(i)` for `i < |s|` returns
`s[i]`, read at physical slot `i` when `i` is below the prefix length and at slot
`i + gap_size()` otherwise; in a non-empty buffer `front()` is `s[0]` and `back()` is
`s[|s| - 1]`. -/
theorem at_front_back (c : gap_vector T DefaultGapSize NearnessFactor) (s : List T)
    (h : represents c s) :
    (∀ i : Nat, i < s.length →
      c.«at» i = Except.ok s[i]? ∧
        c.«at» i =
          Except.ok (c.slot (if (i : Int) < c.prefix_length then (i : Int) else i + c.gap_size))) ∧
      (s ≠ [] → c.front = s[0]? ∧ c.back = s[s.length - 1]?) := by
  have hcv := h.1.cursors
  have hsz := represents_size h
  have hd := hcv.data_le; have he := hcv.end_le; have hc := hcv.cap_lt
  have hgn := gap_length_nonneg hcv
  have hse := size_eq hcv
  constructor
  · intro i hi
    have hat := at_eq_index hcv (i := (i : Int)) (by omega) (by omega)
    constructor
    · rw [hat, represents_index h i hi]
    · rw [hat, gap_size_eq hcv]
      unfold index
      rw [adjusted_index_eq hcv (by omega) (by omega)]
  · intro hne
    have hlen : 0 < s.length := List.length_pos.mpr hne
    constructor
    · have h0 := index_eq_load_iterator_add hcv (i := 0) (le_refl _) (by omega)
      have hb : c.iterator_add c.begin 0 = c.begin := by simp [iterator_add]
      rw [hb] at h0
      unfold front
      rw [← h0]
      exact represents_index h 0 hlen
    · have h1 := index_eq_load_iterator_add hcv (i := c.size - 1) (by omega) (by omega)
      unfold back
      rw [prev_end_eq hcv (by omega), ← h1]
      have := represents_index h (s.length - 1) (by omega)
      rw [← this]
      congr 1
      omega

theorem at_front_back_witness :
    represents split_example [10, 20, 30] ∧
      ((∀ i : Nat, i < [(10 : Int), 20, 30].length →
        split_example.«at» i = Except.ok [(10 : Int), 20, 30][i]? ∧
          split_example.«at» i =
            Except.ok (split_example.slot
              (if (i : Int) < split_example.prefix_length then (i : Int)
               else i + split_example.gap_size))) ∧
        ([(10 : Int), 20, 30] ≠ [] →
          split_example.front = [(10 : Int), 20, 30][0]? ∧
            split_example.back = [(10 : Int), 20, 30][[(10 : Int), 20, 30].length - 1]?)) :=
  ⟨split_example_represents, at_front_back split_example [10, 20, 30] split_example_represents⟩

set_option maxRecDepth 100000 in
/-- C9: `at(pos)` with `pos >= size()` does not always throw.  After three `push_back`s on an
empty `gap_vector<int>` the gap has 253 slots and `size()` is 3; the index `2^64 - 253` is
not below the prefix length, so it is translated to `pos + gap_size()`, which wraps to `0`
and passes the bound test: `at` returns the first element. -/
theorem at_wraps_past_size :
    three_pushed.result.map (fun c =>
        (c.size, c.gap_size, decide (18446744073709551363 ≥ c.size),
          c.adjusted_index 18446744073709551363)) =
      some (3, 253, true, 0) ∧
    three_pushed.result.map (fun c => c.«at» 18446744073709551363) =
      some (Except.ok (some 1)) := by
  constructor
  · decide
  · rfl

set_option maxRecDepth 100000 in
/-- C10: `gap_vector<int> v(300, 7)` reports `size() == 300`, but `end() - begin()` is 344
and `at(260)` throws `std::out_of_range`: the gap opened for the 300 elements has only
`DefaultGapSize` slots, so `iDataEnd` stops at slot 256 and `iGapStart` lies beyond `iGapEnd`. -/
theorem sized_constructor_past_gap_size :
    (sized test_allocator 300 7 : outcome (gap_vector Int 256 2)).result.map (fun c =>
        (c.size, c.iterator_difference c.end_ c.begin, c.iDataEnd - c.iData,
          c.iGapStart - c.iData, c.iGapEnd - c.iData)) =
      some (300, 344, 256, 300, 256) ∧
    (sized test_allocator 300 7 : outcome (gap_vector Int 256 2)).result.map (fun c =>
        c.«at» 260) = some (Except.error exception.out_of_range) := by
  constructor
  · decide
  · rfl

set_option maxRecDepth 100000 in
/-- C5: `gap_vector<int> v; v.insert(v.begin(), 300, 7)` leaves `iGapStart` 44 slots beyond
`iGapEnd` and beyond `iDataEnd`. -/
theorem insert_count_breaks_cursor_order :
    ((default_constructed test_allocator : gap_vector Int 256 2).insert_count
        (default_constructed test_allocator : gap_vector Int 256 2).begin 300 (7 : Int)).result.map
      (fun r => (r.1.iData, r.1.iGapStart, r.1.iGapEnd, r.1.iDataEnd, r.1.iStorageEnd,
        decide (r.1.iGapStart ≤ r.1.iGapEnd))) =
      some (4096, 4396, 4352, 4352, 4930, false) := by
  decide

set_option maxRecDepth 100000 in
/-- C4: inserting 300 copies of `9` at index 1 of the buffer `[1, 2, 3]` gives a buffer of
`size()` 303 whose elements at indices 301 and 302 are `9` and `9`, not `2` and `3`: the tail
was shifted by `DefaultGapSize` slots only and then overwritten. -/
theorem insert_count_past_gap_size_loses_tail :
    (three_pushed.bind (fun c => (c, 0)) fun c =>
        c.insert_count (c.iterator_add c.begin 1) 300 (9 : Int)).result.map
      (fun r => (r.1.size, r.1.index 0, r.1.index 1, r.1.index 300, r.1.index 301,
        r.1.index 302)) =
      some (303, some 1, some 9, some 9, some 9, some 9) := by
  rfl

theorem same_cursors_refl (c : gap_vector T DefaultGapSize NearnessFactor) : same_cursors c c :=
  ⟨rfl, rfl, rfl, rfl, rfl, rfl⟩

theorem same_cursors_store (c : gap_vector T DefaultGapSize NearnessFactor) (p : Int)
    (v : Option T) : same_cursors c (c.store p v) :=
  ⟨rfl, rfl, rfl, rfl, rfl, rfl⟩

theorem same_cursors_trans {a b c : gap_vector T DefaultGapSize NearnessFactor}
    (hab : same_cursors a b) (hbc : same_cursors b c) : same_cursors a c :=
  ⟨hbc.1.trans hab.1, hbc.2.1.trans hab.2.1, hbc.2.2.1.trans hab.2.2.1,
    hbc.2.2.2.1.trans hab.2.2.2.1, hbc.2.2.2.2.1.trans hab.2.2.2.2.1,
    hbc.2.2.2.2.2.trans hab.2.2.2.2.2⟩

theorem load_store (c : gap_vector T DefaultGapSize NearnessFactor) (p q : Int) (v : Option T) :
    (c.store p v).load q = if q = p then v else c.load q := by
  unfold load store
  simp only
  by_cases h : q = p
  · simp [h]
  · have : ¬ q - c.iData = p - c.iData := by omega
    simp [h, this]


theorem moved_value_of_ne (c : gap_vector T DefaultGapSize NearnessFactor) {dest src : Int}
    (h : dest ≠ src) : c.moved_value dest src = c.load src := by
  unfold moved_value
  rw [if_neg h]

theorem move_assign_of_ne (c : gap_vector T DefaultGapSize NearnessFactor) {dest src : Int}
    (h : dest ≠ src) : c.move_assign dest src = c.store dest (c.load src) := by
  unfold move_assign
  rw [moved_value_of_ne c h]

theorem moved_value_of_load_eq {c c' : gap_vector T DefaultGapSize NearnessFactor}
    (dest : Int) {src : Int} (h : c'.load src = c.load src) :
    c'.moved_value dest src = c.moved_value dest src := by
  unfold moved_value
  rw [h]

theorem moved_value_eq_load (c : gap_vector T DefaultGapSize NearnessFactor) {dest src : Int}
    (h : dest ≠ src ∨ self_move_is_noop T) : c.moved_value dest src = c.load src := by
  rcases h with h | h
  · exact moved_value_of_ne c h
  · unfold moved_value
    split_ifs
    · cases hv : c.load src with
      | none => rfl
      | some v => simp only [Option.map_some', h v]
    · rfl

theorem move_loop_spec (uninit : Bool) (n : Nat) :
    ∀ (c : gap_vector T DefaultGapSize NearnessFactor) (first last d_first : Int),
      last - first = n → d_first < first →
      ∃ c', move_loop uninit n c first last d_first = some (c', d_first + n) ∧
        same_cursors c c' ∧
        ∀ q, c'.load q =
          if d_first ≤ q ∧ q < d_first + n then c.load (q + (first - d_first)) else c.load q := by
  induction n with
  | zero =>
    intro c first last d hn hd
    refine ⟨c, ?_, same_cursors_refl c, ?_⟩
    · have : first = last := by omega
      simp [move_loop, this]
    · intro q
      have : ¬ (d ≤ q ∧ q < d + ((0 : Nat) : Int)) := by omega
      rw [if_neg this]
  | succ n ih =>
    intro c first last d hn hd
    have hne : first ≠ last := by omega
    have hdf : d ≠ first := by omega
    obtain ⟨c', h1, h2, h3⟩ := ih (c.store d (c.load first)) (first + 1) last (d + 1)
      (by omega) (by omega)
    refine ⟨c', ?_, same_cursors_trans (same_cursors_store _ _ _) h2, ?_⟩
    · simp only [move_loop, hne, if_false, construct, move_assign_of_ne c hdf, ite_self]
      rw [h1]
      congr 2
      push_cast
      omega
    · intro q
      rw [h3]
      simp only [load_store]
      push_cast
      split_ifs <;> first | omega | rfl | (congr 1; omega)

theorem destroy_loop_spec (n : Nat) :
    ∀ (c : gap_vector T DefaultGapSize NearnessFactor) (garbage last : Int),
      last - garbage = n →
      ∃ c', destroy_loop n c garbage last = some c' ∧ same_cursors c c' ∧
        ∀ q, c'.load q = if garbage ≤ q ∧ q < last then none else c.load q := by
  induction n with
  | zero =>
    intro c g last hn
    refine ⟨c, ?_, same_cursors_refl c, ?_⟩
    · have : g = last := by omega
      simp [destroy_loop, this]
    · intro q
      have : ¬ (g ≤ q ∧ q < last) := by omega
      rw [if_neg this]
  | succ n ih =>
    intro c g last hn
    have hne : g ≠ last := by omega
    obtain ⟨c', h1, h2, h3⟩ := ih (c.store g none) (g + 1) last (by omega)
    refine ⟨c', ?_, same_cursors_trans (same_cursors_store _ _ _) h2, ?_⟩
    · simp only [destroy_loop, hne, if_false, destroy]
      exact h1
    · intro q
      rw [h3]
      simp only [load_store]
      split_ifs <;> first | omega | rfl | (congr 1; omega)

theorem destroy_backward_loop_spec (pos : Int) (n : Nat) :
    ∀ (c : gap_vector T DefaultGapSize NearnessFactor) (garbage : Int),
      garbage - pos = n →
      ∃ c', destroy_backward_loop pos n c garbage = some c' ∧ same_cursors c c' ∧
        ∀ q, c'.load q = if pos ≤ q ∧ q < garbage then none else c.load q := by
  induction n with
  | zero =>
    intro c g hn
    refine ⟨c, ?_, same_cursors_refl c, ?_⟩
    · have : g = pos := by omega
      simp [destroy_backward_loop, this]
    · intro q
      have : ¬ (pos ≤ q ∧ q < g) := by omega
      rw [if_neg this]
  | succ n ih =>
    intro c g hn
    have hne : g ≠ pos := by omega
    obtain ⟨c', h1, h2, h3⟩ := ih (c.store (g - 1) none) (g - 1) (by omega)
    refine ⟨c', ?_, same_cursors_trans (same_cursors_store _ _ _) h2, ?_⟩
    · simp only [destroy_backward_loop, hne, ne_eq, not_false_eq_true, if_true, destroy]
      exact h1
    · intro q
      rw [h3]
      simp only [load_store]
      split_ifs <;> first | omega | rfl | (congr 1; omega)


theorem gap_miss_loop_spec (pos : Int) (n : Nat) :
    ∀ (c : gap_vector T DefaultGapSize NearnessFactor) (src dest : Int),
      src - pos = n → src ≤ dest → src ≤ c.iDataEnd →
      ∃ c', gap_miss_loop pos n c src dest = some c' ∧ same_cursors c c' ∧
        ∀ q, c'.load q =
          if pos + (dest - src) ≤ q ∧ q < dest then c.moved_value q (q - (dest - src))
          else c.load q := by
  induction n with
  | zero =>
    intro c src dest hn hd _
    refine ⟨c, ?_, same_cursors_refl c, ?_⟩
    · have : src = pos := by omega
      simp [gap_miss_loop, this]
    · intro q
      have : ¬ (pos + (dest - src) ≤ q ∧ q < dest) := by omega
      rw [if_neg this]
  | succ n ih =>
    intro c src dest hn hd he
    have hne : src ≠ pos := by omega
    have hc1 : (if dest - 1 ≥ c.iDataEnd then c.construct (dest - 1) (c.load (src - 1))
        else c.move_assign (dest - 1) (src - 1)) =
        c.store (dest - 1) (c.moved_value (dest - 1) (src - 1)) := by
      by_cases hge : dest - 1 ≥ c.iDataEnd
      · rw [if_pos hge, moved_value_of_ne c (by omega)]
        rfl
      · rw [if_neg hge]
        rfl
    obtain ⟨c', h1, h2, h3⟩ := ih (c.store (dest - 1) (c.moved_value (dest - 1) (src - 1)))
      (src - 1) (dest - 1) (by omega) (by omega) (by show src - 1 ≤ c.iDataEnd; omega)
    refine ⟨c', ?_, same_cursors_trans (same_cursors_store _ _ _) h2, ?_⟩
    · simp only [gap_miss_loop, hne, ne_eq, not_false_eq_true, if_true]
      rw [hc1]
      exact h1
    · intro q
      rw [h3]
      by_cases hA : pos + (dest - 1 - (src - 1)) ≤ q ∧ q < dest - 1
      · rw [if_pos hA, if_pos (by omega),
          moved_value_of_load_eq q (c := c) (by rw [load_store, if_neg (by omega)])]
        congr 1
        omega
      · rw [if_neg hA, load_store]
        by_cases hB : q = dest - 1
        · rw [if_pos hB, if_pos (by omega)]
          congr 1 <;> omega
        · rw [if_neg hB, if_neg (by omega)]

theorem same_cursors_cond_destroy (c : gap_vector T DefaultGapSize NearnessFactor) (cond : Prop)
    [Decidable cond] (p : Int) : same_cursors c (if cond then c.destroy p else c) := by
  split_ifs
  · exact same_cursors_store _ _ _
  · exact same_cursors_refl _

theorem load_cond_destroy (c : gap_vector T DefaultGapSize NearnessFactor) (cond : Prop)
    [Decidable cond] (p q : Int) :
    (if cond then c.destroy p else c).load q = if cond ∧ q = p then none else c.load q := by
  by_cases h : cond
  · simp only [h, if_true, true_and, destroy, load_store]
  · simp only [h, if_false, false_and]


theorem before_gap_loop_spec (pos aCount : Int) (hk : 0 ≤ to_ptrdiff aCount) (n : Nat) :
    ∀ (c : gap_vector T DefaultGapSize NearnessFactor) (src dest : Int),
      src - pos = n + 1 → dest = src + to_ptrdiff aCount - 1 → src ≤ c.iGapStart →
      ∃ c', before_gap_loop pos aCount (n + 1) c src dest = some c' ∧ same_cursors c c' ∧
        ∀ q, c'.load q =
          if pos + to_ptrdiff aCount ≤ q ∧ q < src + to_ptrdiff aCount then
            c.moved_value q (q - to_ptrdiff aCount)
          else if pos ≤ q ∧ q < src ∧ q < pos + to_ptrdiff aCount then none
          else c.load q := by
  have step : ∀ (c : gap_vector T DefaultGapSize NearnessFactor) (src dest : Int),
      dest = src + to_ptrdiff aCount - 1 → src ≤ c.iGapStart →
      (if dest ≥ c.iGapStart then c.construct dest (c.load (src - 1))
        else c.move_assign dest (src - 1)) = c.store dest (c.moved_value dest (src - 1)) := by
    intro c src dest hd hs
    by_cases hge : dest ≥ c.iGapStart
    · rw [if_pos hge, moved_value_of_ne c (by omega)]
      rfl
    · rw [if_neg hge]
      rfl
  induction n with
  | zero =>
    intro c src dest hn hd hs
    have hsp : src - 1 = pos := by omega
    refine ⟨if src - 1 < pos + to_ptrdiff aCount then
        (c.store dest (c.moved_value dest (src - 1))).destroy (src - 1)
      else c.store dest (c.moved_value dest (src - 1)), ?_,
      same_cursors_trans (same_cursors_store _ _ _) (same_cursors_cond_destroy _ _ _), ?_⟩
    · rw [before_gap_loop]
      rw [step c src dest hd hs, if_neg (not_not.mpr hsp)]
    · intro q
      rw [load_cond_destroy]
      simp only [load_store]
      by_cases hB : q = dest
      · subst hB
        rw [if_neg (by omega), if_pos rfl, if_pos (by omega)]
        congr 1
        omega
      · rw [if_neg hB]
        split_ifs <;> first | omega | rfl
  | succ n ih =>
    intro c src dest hn hd hs
    have hne : src - 1 ≠ pos := by omega
    obtain ⟨c', h1, h2, h3⟩ := ih (if src - 1 < pos + to_ptrdiff aCount then
        (c.store dest (c.moved_value dest (src - 1))).destroy (src - 1)
      else c.store dest (c.moved_value dest (src - 1)))
        (src - 1) (dest - 1) (by omega) (by omega) (by
          rw [(same_cursors_trans (same_cursors_store c dest _)
            (same_cursors_cond_destroy _ _ _)).2.2.2.2.1]
          omega)
    refine ⟨c', ?_, same_cursors_trans
      (same_cursors_trans (same_cursors_store _ _ _) (same_cursors_cond_destroy _ _ _)) h2, ?_⟩
    · rw [before_gap_loop]
      rw [step c src dest hd hs, if_pos hne]
      exact h1
    · intro q
      rw [h3]
      by_cases hA : pos + to_ptrdiff aCount ≤ q ∧ q < src - 1 + to_ptrdiff aCount
      · have hR : pos + to_ptrdiff aCount ≤ q ∧ q < src + to_ptrdiff aCount := by omega
        rw [if_pos hA, if_pos hR]
        apply moved_value_of_load_eq
        rw [load_cond_destroy, load_store, if_neg (by omega), if_neg (by omega)]
      · rw [if_neg hA]
        simp only [load_cond_destroy, load_store]
        by_cases hB : q = dest
        · subst hB
          rw [if_neg (by omega), if_neg (by omega), if_pos rfl, if_pos (by omega)]
          congr 1
          omega
        · rw [if_neg hB]
          split_ifs <;> first | omega | rfl

theorem after_gap_loop_spec (pos aCount : Int) (hk : 0 ≤ to_ptrdiff aCount) (n : Nat) :
    ∀ (c : gap_vector T DefaultGapSize NearnessFactor) (src dest : Int),
      pos - src = n + 1 → dest = src - to_ptrdiff aCount → c.iGapEnd ≤ src →
      ∃ c', after_gap_loop pos aCount (n + 1) c src dest = some c' ∧ same_cursors c c' ∧
        ∀ q, c'.load q =
          if src - to_ptrdiff aCount ≤ q ∧ q < pos - to_ptrdiff aCount then
            c.moved_value q (q + to_ptrdiff aCount)
          else if src ≤ q ∧ q < pos ∧ pos - to_ptrdiff aCount ≤ q then none
          else c.load q := by
  have step : ∀ (c : gap_vector T DefaultGapSize NearnessFactor) (src dest : Int),
      dest = src - to_ptrdiff aCount → c.iGapEnd ≤ src →
      (if dest < c.iGapEnd then c.construct dest (c.load src) else c.move_assign dest src) =
        c.store dest (c.moved_value dest src) := by
    intro c src dest hd hs
    by_cases hlt : dest < c.iGapEnd
    · rw [if_pos hlt, moved_value_of_ne c (by omega)]
      rfl
    · rw [if_neg hlt]
      rfl
  induction n with
  | zero =>
    intro c src dest hn hd hs
    have hsp : src + 1 = pos := by omega
    refine ⟨if src ≥ pos - to_ptrdiff aCount then
        (c.store dest (c.moved_value dest src)).destroy src
      else c.store dest (c.moved_value dest src), ?_,
      same_cursors_trans (same_cursors_store _ _ _) (same_cursors_cond_destroy _ _ _), ?_⟩
    · rw [after_gap_loop]
      rw [step c src dest hd hs, if_neg (not_not.mpr hsp)]
    · intro q
      rw [load_cond_destroy]
      simp only [load_store]
      by_cases hB : q = dest
      · subst hB
        by_cases hk0 : to_ptrdiff aCount = 0
        · rw [if_neg (by omega), if_pos rfl, if_pos (by omega)]
          congr 1
          omega
        · rw [if_neg (by omega), if_pos rfl, if_pos (by omega)]
          congr 1
          omega
      · rw [if_neg hB]
        split_ifs <;> first | omega | rfl
  | succ n ih =>
    intro c src dest hn hd hs
    have hne : src + 1 ≠ pos := by omega
    obtain ⟨c', h1, h2, h3⟩ := ih (if src ≥ pos - to_ptrdiff aCount then
        (c.store dest (c.moved_value dest src)).destroy src
      else c.store dest (c.moved_value dest src))
        (src + 1) (dest + 1) (by omega) (by omega) (by
          rw [(same_cursors_trans (same_cursors_store c dest _)
            (same_cursors_cond_destroy _ _ _)).2.2.2.2.2]
          omega)
    refine ⟨c', ?_, same_cursors_trans
      (same_cursors_trans (same_cursors_store _ _ _) (same_cursors_cond_destroy _ _ _)) h2, ?_⟩
    · rw [after_gap_loop]
      rw [step c src dest hd hs, if_pos hne]
      exact h1
    · intro q
      rw [h3]
      by_cases hA : src + 1 - to_ptrdiff aCount ≤ q ∧ q < pos - to_ptrdiff aCount
      · have hR : src - to_ptrdiff aCount ≤ q ∧ q < pos - to_ptrdiff aCount := by omega
        rw [if_pos hA, if_pos hR]
        apply moved_value_of_load_eq
        rw [load_cond_destroy, load_store, if_neg (by omega), if_neg (by omega)]
      · rw [if_neg hA]
        simp only [load_cond_destroy, load_store]
        by_cases hB : q = dest
        · subst hB
          rw [if_neg (by omega), if_neg (by omega), if_pos rfl, if_pos (by omega)]
          congr 1
          omega
        · rw [if_neg hB]
          split_ifs <;> first | omega | rfl

theorem erase_before_gap_loop_spec (n : Nat) :
    ∀ (c : gap_vector T DefaultGapSize NearnessFactor) (src dest : Int),
      c.iGapStart - src = n → dest < src →
      ∃ c', erase_before_gap_loop n c src dest = some c' ∧ same_cursors c c' ∧
        ∀ q, c'.load q =
          if dest ≤ q ∧ q < dest + n then c.load (q + (src - dest)) else c.load q := by
  induction n with
  | zero =>
    intro c src dest hn hd
    refine ⟨c, ?_, same_cursors_refl c, ?_⟩
    · have : ¬ src < c.iGapStart := by omega
      simp [erase_before_gap_loop, this]
    · intro q
      have : ¬ (dest ≤ q ∧ q < dest + ((0 : Nat) : Int)) := by omega
      rw [if_neg this]
  | succ n ih =>
    intro c src dest hn hd
    have hlt : src < c.iGapStart := by omega
    have hds : dest ≠ src := by omega
    obtain ⟨c', h1, h2, h3⟩ := ih (c.store dest (c.load src)) (src + 1) (dest + 1)
      (by show c.iGapStart - (src + 1) = n; omega) (by omega)
    refine ⟨c', ?_, same_cursors_trans (same_cursors_store _ _ _) h2, ?_⟩
    · simp only [erase_before_gap_loop, hlt, if_true, move_assign_of_ne c hds]
      exact h1
    · intro q
      rw [h3]
      simp only [load_store]
      push_cast
      split_ifs <;> first | omega | rfl | (congr 1; omega)

theorem erase_after_gap_loop_spec (n : Nat) :
    ∀ (c : gap_vector T DefaultGapSize NearnessFactor) (src dest : Int),
      src - c.iGapEnd + 1 = n → src < dest →
      ∃ c', erase_after_gap_loop n c src dest = some c' ∧ same_cursors c c' ∧
        ∀ q, c'.load q =
          if dest - n < q ∧ q ≤ dest then c.load (q - (dest - src)) else c.load q := by
  induction n with
  | zero =>
    intro c src dest hn hd
    refine ⟨c, ?_, same_cursors_refl c, ?_⟩
    · have : ¬ src ≥ c.iGapEnd := by omega
      simp [erase_after_gap_loop, this]
    · intro q
      have : ¬ (dest - ((0 : Nat) : Int) < q ∧ q ≤ dest) := by omega
      rw [if_neg this]
  | succ n ih =>
    intro c src dest hn hd
    have hlt : src ≥ c.iGapEnd := by omega
    have hds : dest ≠ src := by omega
    obtain ⟨c', h1, h2, h3⟩ := ih (c.store dest (c.load src)) (src - 1) (dest - 1)
      (by show src - 1 - c.iGapEnd + 1 = n; omega) (by omega)
    refine ⟨c', ?_, same_cursors_trans (same_cursors_store _ _ _) h2, ?_⟩
    · simp only [erase_after_gap_loop, hlt, if_true, move_assign_of_ne c hds]
      exact h1
    · intro q
      rw [h3]
      simp only [load_store]
      push_cast
      split_ifs <;> first | omega | rfl | (congr 1; omega)

theorem erase_straddle_loop_spec (n : Nat) :
    ∀ (c : gap_vector T DefaultGapSize NearnessFactor) (garbage lastPos : Int),
      lastPos - garbage = n →
      ∃ c', erase_straddle_loop n c garbage lastPos = some c' ∧ same_cursors c c' ∧
        ∀ q, c'.load q =
          if garbage ≤ q ∧ q < lastPos ∧ (q < c.iGapStart ∨ c.iGapEnd ≤ q) then none
          else c.load q := by
  induction n with
  | zero =>
    intro c g last hn
    refine ⟨c, ?_, same_cursors_refl c, ?_⟩
    · have : g = last := by omega
      simp [erase_straddle_loop, this]
    · intro q
      have : ¬ (g ≤ q ∧ q < last ∧ (q < c.iGapStart ∨ c.iGapEnd ≤ q)) := by omega
      rw [if_neg this]
  | succ n ih =>
    intro c g last hn
    have hne : g ≠ last := by omega
    obtain ⟨c', h1, h2, h3⟩ := ih (if g < c.iGapStart ∨ g ≥ c.iGapEnd then c.destroy g else c)
      (g + 1) last (by omega)
    have hsc := same_cursors_cond_destroy c (g < c.iGapStart ∨ g ≥ c.iGapEnd) g
    refine ⟨c', ?_, same_cursors_trans hsc h2, ?_⟩
    · rw [erase_straddle_loop, if_pos hne, ← h1]
      congr 1
      by_cases ha : g < c.iGapStart
      · simp [ha]
      · by_cases hb : g ≥ c.iGapEnd
        · simp [ha, hb]
        · simp [ha, hb]
    · intro q
      rw [h3, load_cond_destroy, hsc.2.2.2.2.1, hsc.2.2.2.2.2]
      split_ifs <;> first | omega | rfl | (congr 1; omega)

theorem erase_unsplit_loop_spec (n : Nat) :
    ∀ (c : gap_vector T DefaultGapSize NearnessFactor) (src dest : Int),
      c.iDataEnd - src = n → dest < src →
      ∃ c', erase_unsplit_loop n c src dest = some c' ∧ same_cursors c c' ∧
        ∀ q, c'.load q =
          if dest ≤ q ∧ q < dest + n then c.load (q + (src - dest)) else c.load q := by
  induction n with
  | zero =>
    intro c src dest hn hd
    refine ⟨c, ?_, same_cursors_refl c, ?_⟩
    · have : src = c.iDataEnd := by omega
      simp [erase_unsplit_loop, this]
    · intro q
      have : ¬ (dest ≤ q ∧ q < dest + ((0 : Nat) : Int)) := by omega
      rw [if_neg this]
  | succ n ih =>
    intro c src dest hn hd
    have hlt : src ≠ c.iDataEnd := by omega
    have hds : dest ≠ src := by omega
    obtain ⟨c', h1, h2, h3⟩ := ih (c.store dest (c.load src)) (src + 1) (dest + 1)
      (by show c.iDataEnd - (src + 1) = n; omega) (by omega)
    refine ⟨c', ?_, same_cursors_trans (same_cursors_store _ _ _) h2, ?_⟩
    · simp only [erase_unsplit_loop, hlt, ne_eq, not_false_eq_true, if_true, move_assign_of_ne c hds]
      exact h1
    · intro q
      rw [h3]
      simp only [load_store]
      push_cast
      split_ifs <;> first | omega | rfl | (congr 1; omega)

theorem uninitialized_fill_n_external (c0 : gap_vector T DefaultGapSize NearnessFactor) (value : T)
    (n : Nat) :
    ∀ (c : gap_vector T DefaultGapSize NearnessFactor) (first : Int),
      uninitialized_fill_n (fun s => c0.dereference s (reference.external value)) n c first =
        some (uninitialized_copy (List.replicate n value) c first) := by
  induction n with
  | zero => intro c first; rfl
  | succ n ih =>
    intro c first
    simp only [uninitialized_fill_n, dereference, List.replicate, uninitialized_copy]
    exact ih _ _

theorem insert_external (c : gap_vector T DefaultGapSize NearnessFactor) (pos : Int) (value : T) :
    c.insert pos (reference.external value) =
      (c.allocate_from_gap pos 1).bind id fun r =>
        outcome.returned (r.1.construct r.2 (some value), r.2) := rfl

theorem insert_count_external (c : gap_vector T DefaultGapSize NearnessFactor) (pos count : Int)
    (value : T) :
    c.insert_count pos count (reference.external value) =
      (c.allocate_from_gap pos count).bind id fun r =>
        outcome.returned (uninitialized_copy (List.replicate count.toNat value) r.1 r.2, r.2) := by
  unfold insert_count
  simp only [uninitialized_fill_n_external]

theorem uninitialized_fill_n_spec (value : T) (n : Nat) :
    ∀ (c : gap_vector T DefaultGapSize NearnessFactor) (first : Int),
      same_cursors c (uninitialized_copy (List.replicate n value) c first) ∧
        ∀ q, (uninitialized_copy (List.replicate n value) c first).load q =
          if first ≤ q ∧ q < first + n then some value else c.load q := by
  induction n with
  | zero =>
    intro c first
    refine ⟨same_cursors_refl c, ?_⟩
    intro q
    have : ¬ (first ≤ q ∧ q < first + ((0 : Nat) : Int)) := by omega
    rw [if_neg this]
    rfl
  | succ n ih =>
    intro c first
    obtain ⟨h2, h3⟩ := ih (c.store first (some value)) (first + 1)
    refine ⟨same_cursors_trans (same_cursors_store _ _ _) h2, ?_⟩
    intro q
    simp only [List.replicate, uninitialized_copy, construct]
    rw [h3]
    simp only [load_store]
    push_cast
    split_ifs <;> first | omega | rfl | (congr 1; omega)

theorem uninitialized_copy_spec (list : List T) :
    ∀ (c : gap_vector T DefaultGapSize NearnessFactor) (d_first : Int),
      same_cursors c (uninitialized_copy list c d_first) ∧
        ∀ q, (uninitialized_copy list c d_first).load q =
          if d_first ≤ q ∧ q < d_first + list.length then list[(q - d_first).toNat]?
          else c.load q := by
  induction list with
  | nil =>
    intro c d
    refine ⟨same_cursors_refl c, ?_⟩
    intro q
    have : ¬ (d ≤ q ∧ q < d + (([] : List T).length : Int)) := by simp
    rw [if_neg this]
    rfl
  | cons x xs ih =>
    intro c d
    obtain ⟨h2, h3⟩ := ih (c.store d (some x)) (d + 1)
    refine ⟨same_cursors_trans (same_cursors_store _ _ _) h2, ?_⟩
    intro q
    simp only [uninitialized_copy, construct]
    rw [h3]
    simp only [load_store, List.length_cons]
    push_cast
    by_cases hq : q = d
    · subst hq
      have h1 : ¬ (q + 1 ≤ q ∧ q < q + 1 + (xs.length : Int)) := by omega
      have h2 : q ≤ q ∧ q < q + ((xs.length : Int) + 1) := by omega
      simp [h1, h2]
    · by_cases hr : d + 1 ≤ q ∧ q < d + 1 + (xs.length : Int)
      · have h2 : d ≤ q ∧ q < d + ((xs.length : Int) + 1) := by omega
        rw [if_pos hr, if_pos h2]
        have : (q - d).toNat = (q - (d + 1)).toNat + 1 := by omega
        rw [this, List.getElem?_cons_succ]
      · have h2 : ¬ (d ≤ q ∧ q < d + ((xs.length : Int) + 1)) := by omega
        rw [if_neg hr, if_neg h2, if_neg hq]

theorem unsplit_inactive {c : gap_vector T DefaultGapSize NearnessFactor}
    (hg : c.iGapStart = c.iGapEnd) : c.unsplit = some c := by
  simp [unsplit, gap_active, hg]

theorem unsplit_active {c : gap_vector T DefaultGapSize NearnessFactor} (h : cursors_valid c)
    (hg : c.iGapStart ≠ c.iGapEnd) :
    ∃ c', c.unsplit = some c' ∧ c'.iAlloc = c.iAlloc ∧ c'.iData = c.iData ∧
      c'.iStorageEnd = c.iStorageEnd ∧
      c'.iDataEnd = c.iDataEnd - (c.iGapEnd - c.iGapStart) ∧
      c'.iGapStart = 0 ∧ c'.iGapEnd = 0 ∧
      ∀ q, c'.load q =
        if c.iDataEnd - (c.iGapEnd - c.iGapStart) ≤ q ∧ c.iGapEnd ≤ q ∧ q < c.iDataEnd then none
        else if c.iGapStart ≤ q ∧ q < c.iDataEnd - (c.iGapEnd - c.iGapStart) then
          c.load (q + (c.iGapEnd - c.iGapStart))
        else c.load q := by
  have hpd : to_ptrdiff c.gap_size = c.iGapEnd - c.iGapStart := by
    have hgs := gap_size_eq h
    have h3 := h.cap_lt; have h1 := h.data_le; have h2 := h.end_le
    have h4 := h.gap_lo hg; have h5 := h.gap_mid hg; have h6 := h.gap_hi hg
    have hgl : c.gap_length = c.iGapEnd - c.iGapStart := by simp [gap_length, hg]
    rw [hgs, hgl]; exact to_ptrdiff_of_bounds (by omega) (by omega)
  have h4 := h.gap_lo hg; have h5 := h.gap_mid hg; have h6 := h.gap_hi hg
  have hga : c.gap_active = true := by simp [gap_active, hg]
  unfold unsplit uninitialized_move move
  simp only [hga, Bool.not_true, Bool.false_eq_true, if_false, hpd]
  clear hpd hga h
  generalize hmid : min (c.iGapEnd + (c.iGapEnd - c.iGapStart)) c.iDataEnd = mid
  have hm1 : mid ≤ c.iDataEnd := by omega
  have hm2 : c.iGapEnd ≤ mid := by omega
  have hm3 : mid = c.iDataEnd ∨ mid = c.iGapEnd + (c.iGapEnd - c.iGapStart) := by omega
  have hm4 : mid ≤ c.iGapEnd + (c.iGapEnd - c.iGapStart) := by omega
  clear hmid
  generalize hn1 : (mid - c.iGapEnd).toNat = n1
  have hn1i : (n1 : Int) = mid - c.iGapEnd := by omega
  clear hn1
  obtain ⟨c1, e1, s1, l1⟩ := move_loop_spec true n1 c c.iGapEnd mid c.iGapStart
    (by omega) (by omega)
  obtain ⟨a1, a2, a3, a4, a5, a6⟩ := s1
  rw [e1]
  simp only [a3]
  generalize hn2 : (c.iDataEnd - mid).toNat = n2
  have hn2i : (n2 : Int) = c.iDataEnd - mid := by omega
  clear hn2
  obtain ⟨c2, e2, s2, l2⟩ := move_loop_spec false n2 c1 mid c.iDataEnd (c.iGapStart + n1)
    (by omega) (by omega)
  obtain ⟨b1, b2, b3, b4, b5, b6⟩ := s2
  rw [e2]
  simp only [b3, b6, a3, a6]
  generalize hmx : max (c.iGapStart + ↑n1 + ↑n2) c.iGapEnd = mx
  have hx1 : c.iGapStart + ↑n1 + ↑n2 ≤ mx := by omega
  have hx2 : c.iGapEnd ≤ mx := by omega
  have hx3 : mx = c.iGapStart + ↑n1 + ↑n2 ∨ mx = c.iGapEnd := by omega
  clear hmx
  generalize hn3 : (c.iDataEnd - mx).toNat = n3
  have hn3i : (n3 : Int) = c.iDataEnd - mx := by omega
  clear hn3
  obtain ⟨c3, e3, s3, l3⟩ := destroy_loop_spec n3 c2 mx c.iDataEnd (by omega)
  obtain ⟨d1, d2, d3, d4, d5, d6⟩ := s3
  rw [e3]
  refine ⟨_, rfl, ?_, ?_, ?_, ?_, rfl, rfl, ?_⟩
  · simp only [d1, b1, a1]
  · simp only [d2, b2, a2]
  · simp only [d4, b4, a4]
  · simp only; omega
  · intro q
    show c3.load q = _
    rw [l3]
    by_cases hA : mx ≤ q ∧ q < c.iDataEnd
    · rw [if_pos hA, if_pos (by omega)]
    · rw [if_neg hA, if_neg (by omega), l2]
      by_cases hB : c.iGapStart + ↑n1 ≤ q ∧ q < c.iGapStart + ↑n1 + ↑n2
      · rw [if_pos hB, l1, if_neg (by omega), if_pos (by omega)]
        congr 1; omega
      · rw [if_neg hB, l1]
        by_cases hC : c.iGapStart ≤ q ∧ q < c.iGapStart + ↑n1
        · rw [if_pos hC, if_pos (by omega)]
        · rw [if_neg hC, if_neg (by omega)]

theorem index_eq_load (c : gap_vector T DefaultGapSize NearnessFactor) (j : Int) :
    c.index j = c.load (c.iData + c.adjusted_index j) := by
  unfold index load
  congr 1
  omega

/-- What `unsplit()` does to a state with valid cursors: the gap is closed, the occupied extent
is `[iData, iData + size())` and slot `j` holds the element of logical index `j`. -/
theorem unsplit_spec {c : gap_vector T DefaultGapSize NearnessFactor} (h : cursors_valid c) :
    ∃ c', c.unsplit = some c' ∧ cursors_valid c' ∧ c'.iAlloc = c.iAlloc ∧ c'.iData = c.iData ∧
      c'.iStorageEnd = c.iStorageEnd ∧ c'.iDataEnd = c.iData + c.size ∧
      c'.iGapStart = c'.iGapEnd ∧
      ∀ j, 0 ≤ j → j < c.size → c'.load (c.iData + j) = c.index j := by
  have hsz := size_eq h
  have h1 := h.data_le; have h2 := h.end_le; have h3 := h.cap_lt
  by_cases hg : c.iGapStart = c.iGapEnd
  · have hgl : c.gap_length = 0 := by simp [gap_length, hg]
    refine ⟨c, unsplit_inactive hg, h, rfl, rfl, rfl, by omega, hg, ?_⟩
    intro j hj0 hj1
    rw [index_eq_load, adjusted_index_eq h hj0 (by omega), hgl]
    simp
  · have h4 := h.gap_lo hg; have h5 := h.gap_mid hg; have h6 := h.gap_hi hg
    have hgl : c.gap_length = c.iGapEnd - c.iGapStart := by simp [gap_length, hg]
    have hpl : c.prefix_length = c.iGapStart - c.iData := by simp [prefix_length, hg]
    obtain ⟨c', e, a1, a2, a3, a4, a5, a6, l⟩ := unsplit_active h hg
    refine ⟨c', e, ⟨by omega, by omega, by omega, fun hh => absurd (a5.trans a6.symm) hh,
      fun hh => absurd (a5.trans a6.symm) hh, fun hh => absurd (a5.trans a6.symm) hh⟩,
      a1, a2, a3, by omega, a5.trans a6.symm, ?_⟩
    intro j hj0 hj1
    rw [index_eq_load, adjusted_index_eq h hj0 (by omega), hgl, hpl, l, if_neg (by omega)]
    by_cases hj : j < c.iGapStart - c.iData
    · rw [if_pos hj, if_neg (by omega)]
    · rw [if_neg hj, if_pos (by omega)]
      congr 1; omega

theorem near_gap_active {c : gap_vector T DefaultGapSize NearnessFactor} {p : Int}
    (h : c.near_gap p = true) : c.iGapStart ≠ c.iGapEnd := by
  intro hg
  simp [near_gap, gap_active, hg] at h

/-- The before-gap branch of `allocate_from_gap`. -/
theorem allocate_from_gap_before_gap {c : gap_vector T DefaultGapSize NearnessFactor}
    (h : cursors_valid c) {i k : Int} (hi0 : 0 ≤ i) (hi : i < c.iGapStart - c.iData)
    (hk0 : 0 ≤ k) (hk : k ≤ c.iGapEnd - c.iGapStart)
    (hnear : c.near_gap (c.iData + i) = true) :
    ∃ c1, c.allocate_from_gap (c.iData + i) k =
        outcome.returned ({ c1 with iGapStart := c.iGapStart + k }, c.iData + i) ∧
      same_cursors c c1 ∧
      ∀ q, c1.load q =
        if c.iData + i + k ≤ q ∧ q < c.iGapStart + k then c.moved_value q (q - k)
        else if c.iData + i ≤ q ∧ q < c.iGapStart ∧ q < c.iData + i + k then none
        else c.load q := by
  have hg := near_gap_active hnear
  have h1 := h.data_le; have h2 := h.end_le; have h3 := h.cap_lt
  have h4 := h.gap_lo hg; have h5 := h.gap_mid hg; have h6 := h.gap_hi hg
  have hsz := size_eq h
  have hgl : c.gap_length = c.iGapEnd - c.iGapStart := by simp [gap_length, hg]
  have hpl : c.prefix_length = c.iGapStart - c.iData := by simp [prefix_length, hg]
  have hgs : c.gap_size = c.iGapEnd - c.iGapStart := by rw [gap_size_eq h, hgl]
  have hp : c.iterator_add c.begin i = c.iData + i := by
    rw [iterator_add_begin h hi0 (by omega), hpl, if_pos (Or.inl hi)]
  have hd : c.iterator_difference (c.iData + i) c.begin = i := by
    rw [← hp]; exact iterator_difference_add_begin h hi0 (by omega)
  have hbg : c.before_gap (c.iData + i) = true := by
    simp only [before_gap, gap_active, ne_eq, hg, not_false_eq_true, decide_True, Bool.true_and,
      decide_eq_true_eq]
    omega
  have hk1 : to_ptrdiff (to_size (k - 1)) = k - 1 := by
    unfold to_ptrdiff to_size; omega
  have hk2 : to_ptrdiff k = k := to_ptrdiff_of_bounds (by omega) (by omega)
  obtain ⟨n, hn, hni⟩ : ∃ n : Nat, (c.iGapStart - (c.iData + i)).toNat = n + 1 ∧
      c.iGapStart - (c.iData + i) = n + 1 :=
    ⟨(c.iGapStart - (c.iData + i)).toNat - 1, by omega, by omega⟩
  obtain ⟨c1, e1, s1, l1⟩ := before_gap_loop_spec (c.iData + i) k (by omega) n c c.iGapStart
    (c.iGapStart + (k - 1)) hni (by omega) (le_refl _)
  refine ⟨c1, ?_, s1, ?_⟩
  · unfold allocate_from_gap
    simp only [hnear, hgs, hk, decide_True, Bool.and_self, if_true, hd, hp, hbg, hk1, hn, e1, hk2,
      s1.2.2.2.2.1]
  · intro q
    rw [l1, hk2]

/-- The after-gap branch of `allocate_from_gap`. -/
theorem allocate_from_gap_after_gap {c : gap_vector T DefaultGapSize NearnessFactor}
    (h : cursors_valid c) {i k : Int} (hi0 : c.iGapStart - c.iData ≤ i) (hi1 : i ≤ c.size)
    (hi2 : i = c.iGapStart - c.iData → i = c.size → i ≤ 0)
    (hk0 : 0 ≤ k) (hk : k ≤ c.iGapEnd - c.iGapStart)
    (hnear : c.near_gap (c.iData + i + (c.iGapEnd - c.iGapStart)) = true) :
    ∃ c1, c.allocate_from_gap (c.iData + i + (c.iGapEnd - c.iGapStart)) k =
        outcome.returned ({ c1 with iGapEnd := c.iGapEnd - k },
          c.iData + i + (c.iGapEnd - c.iGapStart) - k) ∧
      same_cursors c c1 ∧
      ∀ q, c1.load q =
        if c.iGapEnd - k ≤ q ∧ q < c.iData + i + (c.iGapEnd - c.iGapStart) - k then
          c.moved_value q (q + k)
        else if c.iGapEnd ≤ q ∧ q < c.iData + i + (c.iGapEnd - c.iGapStart) ∧
            c.iData + i + (c.iGapEnd - c.iGapStart) - k ≤ q then none
        else c.load q := by
  have hg := near_gap_active hnear
  have h1 := h.data_le; have h2 := h.end_le; have h3 := h.cap_lt
  have h4 := h.gap_lo hg; have h5 := h.gap_mid hg; have h6 := h.gap_hi hg
  have hsz := size_eq h
  have hgl : c.gap_length = c.iGapEnd - c.iGapStart := by simp [gap_length, hg]
  have hpl : c.prefix_length = c.iGapStart - c.iData := by simp [prefix_length, hg]
  have hgs : c.gap_size = c.iGapEnd - c.iGapStart := by rw [gap_size_eq h, hgl]
  rw [hgl] at hsz
  have hp : c.iterator_add c.begin i = c.iData + i + (c.iGapEnd - c.iGapStart) := by
    rw [iterator_add_begin h (by omega) hi1, hpl, hgl, if_neg (by omega)]
  have hd : c.iterator_difference (c.iData + i + (c.iGapEnd - c.iGapStart)) c.begin = i := by
    rw [← hp]; exact iterator_difference_add_begin h (by omega) hi1
  have hbg : c.before_gap (c.iData + i + (c.iGapEnd - c.iGapStart)) = false := by
    simp only [before_gap, gap_active, ne_eq, hg, not_false_eq_true, decide_True, Bool.true_and,
      decide_eq_false_iff_not]
    omega
  have hag : c.after_gap (c.iData + i + (c.iGapEnd - c.iGapStart)) = true := by
    simp only [after_gap, gap_active, ne_eq, hg, not_false_eq_true, decide_True, Bool.true_and,
      decide_eq_true_eq]
    omega
  have hk2 : to_ptrdiff k = k := to_ptrdiff_of_bounds (by omega) (by omega)
  by_cases hpe : i = c.iGapStart - c.iData
  · have hpos : c.iData + i + (c.iGapEnd - c.iGapStart) = c.iGapEnd := by omega
    refine ⟨c, ?_, same_cursors_refl c, ?_⟩
    · unfold allocate_from_gap
      simp only [hnear, hgs, hk, decide_True, Bool.and_self, if_true, hd, hp, hbg, hag, hk2,
        Bool.false_eq_true, if_false]
      rw [hpos]
      simp
    · intro q
      rw [if_neg (by omega), if_neg (by omega)]
  · obtain ⟨n, hn, hni⟩ : ∃ n : Nat,
        (c.iData + i + (c.iGapEnd - c.iGapStart) - c.iGapEnd).toNat = n + 1 ∧
        c.iData + i + (c.iGapEnd - c.iGapStart) - c.iGapEnd = n + 1 :=
      ⟨(c.iData + i + (c.iGapEnd - c.iGapStart) - c.iGapEnd).toNat - 1, by omega, by omega⟩
    obtain ⟨c1, e1, s1, l1⟩ := after_gap_loop_spec (c.iData + i + (c.iGapEnd - c.iGapStart)) k
      (by omega) n c c.iGapEnd (c.iGapEnd - to_ptrdiff k) hni rfl (le_refl _)
    have hne : c.iData + i + (c.iGapEnd - c.iGapStart) ≠ c.iGapEnd := by omega
    refine ⟨c1, ?_, s1, ?_⟩
    · unfold allocate_from_gap
      simp only [hnear, hgs, hk, decide_True, Bool.and_self, if_true, hd, hp, hbg, hag, hn, e1,
        Bool.false_eq_true, if_false, hne, ne_eq, not_false_eq_true, s1.2.2.2.2.2]
      rw [hk2]
    · intro q
      rw [l1, hk2]

/-- The branch of `allocate_from_gap` taken at `iGapStart` ("pos should be iGapStart"). -/
theorem allocate_from_gap_at_gap {c : gap_vector T DefaultGapSize NearnessFactor}
    (h : cursors_valid c) {k : Int} (hk0 : 0 ≤ k) (hk : k ≤ c.iGapEnd - c.iGapStart)
    (hs : c.iGapEnd = c.iDataEnd) (hp : c.iData < c.iGapStart)
    (hnear : c.near_gap c.iGapStart = true) :
    c.allocate_from_gap c.iGapStart k =
      outcome.returned ({ c with iGapStart := c.iGapStart + k }, c.iGapStart) := by
  have hg := near_gap_active hnear
  have h1 := h.data_le; have h2 := h.end_le; have h3 := h.cap_lt
  have h4 := h.gap_lo hg; have h5 := h.gap_mid hg; have h6 := h.gap_hi hg
  have hsz := size_eq h
  have hgl : c.gap_length = c.iGapEnd - c.iGapStart := by simp [gap_length, hg]
  have hpl : c.prefix_length = c.iGapStart - c.iData := by simp [prefix_length, hg]
  have hgs : c.gap_size = c.iGapEnd - c.iGapStart := by rw [gap_size_eq h, hgl]
  rw [hgl] at hsz
  have hpp : c.iterator_add c.begin (c.iGapStart - c.iData) = c.iGapStart := by
    rw [iterator_add_begin h (by omega) (by omega), hpl, if_pos (Or.inr ⟨rfl, by omega, by omega⟩)]
    omega
  have hd : c.iterator_difference c.iGapStart c.begin = c.iGapStart - c.iData := by
    have := iterator_difference_add_begin h (i := c.iGapStart - c.iData) (by omega) (by omega)
    rw [hpp] at this
    exact this
  have hbg : c.before_gap c.iGapStart = false := by
    simp [before_gap]
  have hag : c.after_gap c.iGapStart = false := by
    simp only [after_gap, gap_active, ne_eq, hg, not_false_eq_true, decide_True, Bool.true_and,
      decide_eq_false_iff_not]
    omega
  have hk2 : to_ptrdiff k = k := to_ptrdiff_of_bounds (by omega) (by omega)
  unfold allocate_from_gap
  simp only [hnear, hgs, hk, decide_True, Bool.and_self, if_true, hd, hpp, hbg, hag, hk2,
    Bool.false_eq_true, if_false]

/-- A successful reallocating `reserve`. -/
theorem reserve_spec {c : gap_vector T DefaultGapSize NearnessFactor} (h : cursors_valid c)
    {n b : Int} (hn : c.capacity < n) (hn2 : n < 9223372036854775808)
    (ha : c.iAlloc n = some b) :
    ∃ c', c.reserve n = outcome.returned c' ∧ c'.iAlloc = c.iAlloc ∧ c'.iData = b ∧
      c'.iDataEnd = b + c.size ∧ c'.iStorageEnd = b + n ∧ c'.iGapStart = c'.iGapEnd ∧
      (∀ j, 0 ≤ j → j < c.size → c'.load (b + j) = c.index j) ∧
      ∀ j, ¬ (0 ≤ j ∧ j < c.size) → c'.load (b + j) = none := by
  obtain ⟨c1, e, cv, a1, a2, a3, a4, a5, l⟩ := unsplit_spec h
  have hs0 := size_nonneg h
  have hcap := capacity_eq h
  have h1 := h.data_le; have h2 := h.end_le; have h3 := h.cap_lt
  have hk2 : to_ptrdiff n = n := to_ptrdiff_of_bounds (by omega) (by omega)
  have hde : c1.iDataEnd - c1.iData = c.size := by omega
  unfold reserve
  rw [if_neg (by omega), e]
  simp only [a1, ha, hk2]
  rw [if_neg (by omega)]
  refine ⟨_, rfl, rfl, rfl, ?_, rfl, a5, ?_, ?_⟩
  · simp only; omega
  · intro j hj0 hj1
    simp only [load, sub_self, add_sub_cancel_left, hde]
    rw [if_pos ⟨hj0, hj1⟩, ← l j hj0 hj1]
    unfold load
    congr 1; omega
  · intro j hj
    simp only [load, sub_self, add_sub_cancel_left, hde]
    rw [if_neg hj]

theorem grow_eq (c : gap_vector T DefaultGapSize NearnessFactor) (aCount : Int)
    (h : c.grow_request aCount < 18446744073709551616) :
    c.grow aCount = c.reserve (c.grow_request aCount) := by
  unfold grow
  exact if_pos h

theorem grow_returned {c c' : gap_vector T DefaultGapSize NearnessFactor} {aCount : Int}
    (h : c.grow aCount = outcome.returned c') :
    c.reserve (c.grow_request aCount) = outcome.returned c' := by
  by_cases hlt : c.grow_request aCount < 18446744073709551616
  · rw [grow_eq c aCount hlt] at h
    exact h
  · have e : c.grow aCount = outcome.undefined := by
      unfold grow
      exact if_neg hlt
    rw [e] at h
    cases h

/-- The gap-miss branch of `allocate_from_gap`, for a count of at most `DefaultGapSize`. -/
theorem allocate_from_gap_miss {c : gap_vector T DefaultGapSize NearnessFactor}
    (h : cursors_valid c) {p i k : Int} (hp : c.iterator_difference p c.begin = i)
    (hi0 : 0 ≤ i) (hi1 : i ≤ c.size) (hk0 : 0 ≤ k) (hkG : k ≤ DefaultGapSize)
    (hsm : 0 < k ∨ self_move_is_noop T)
    (hGb : (DefaultGapSize : Int) < 9223372036854775808)
    (hmiss : (c.near_gap p && decide (k ≤ c.gap_size)) = false)
    (halloc : c.room < k →
      times_growth_factor (c.capacity + DefaultGapSize + k) < 9223372036854775808 ∧
        ∃ b, c.iAlloc (c.grow_request k) = some b) :
    ∃ c' g0, c.allocate_from_gap p k = outcome.returned (c', c'.iData + i) ∧
      c'.iAlloc = c.iAlloc ∧ k ≤ g0 ∧ g0 ≤ DefaultGapSize ∧
      g0 = min (c'.iStorageEnd - c'.iData - c.size) DefaultGapSize ∧
      c'.iGapStart = c'.iData + i + k ∧ c'.iGapEnd = c'.iData + i + g0 ∧
      c'.iDataEnd = c'.iData + c.size + g0 ∧ c'.iDataEnd ≤ c'.iStorageEnd ∧
      c'.iStorageEnd - c'.iData < 9223372036854775808 ∧
      (k ≤ c.room → c'.iData = c.iData ∧ c'.iStorageEnd = c.iStorageEnd) ∧
      (c.room < k → c'.iStorageEnd - c'.iData = c.grow_request k) ∧
      (∀ j, 0 ≤ j → j < i → c'.load (c'.iData + j) = c.index j) ∧
      (∀ j, i ≤ j → j < c.size → c'.load (c'.iData + j + g0) = c.index j) ∧
      ∀ j, i ≤ j → j < i + k → j < c.size → c'.load (c'.iData + j) = none := by
  obtain ⟨c1, e, cv, a1, a2, a3, a4, a5, l⟩ := unsplit_spec h
  have hs0 := size_nonneg h
  have hcap := capacity_eq h
  have hroom := room_eq h
  have hgn := gap_length_nonneg h
  have hsz := size_eq h
  have h1 := h.data_le; have h2 := h.end_le; have h3 := h.cap_lt
  have hcap1 : c1.capacity = c.capacity := by rw [capacity_eq cv, hcap, a2, a3]
  have hgl1 : c1.gap_length = 0 := by simp [gap_length, a5]
  have hsz1 : c1.size = c.size := by rw [size_eq cv, hgl1, a4, a2]; omega
  have hroom1 : c1.room = c.room := by
    rw [room_eq cv, hroom, hgl1, a3, a4]; omega
  -- the state after the conditional growth
  obtain ⟨c2, e2, cv2, b1, b5, b4, b6, b7, b8, l2⟩ :
      ∃ c2, (if c1.room < k then c1.grow k else outcome.returned c1) = outcome.returned c2 ∧
        cursors_valid c2 ∧ c2.iAlloc = c.iAlloc ∧ c2.iGapStart = c2.iGapEnd ∧
        c2.iDataEnd = c2.iData + c.size ∧ k ≤ c2.iStorageEnd - c2.iDataEnd ∧
        (k ≤ c.room → c2.iData = c.iData ∧ c2.iStorageEnd = c.iStorageEnd) ∧
        (c.room < k → c2.iStorageEnd - c2.iData = c.grow_request k) ∧
        ∀ j, 0 ≤ j → j < c.size → c2.load (c2.iData + j) = c.index j := by
    by_cases hr : c1.room < k
    · rw [if_pos hr]
      obtain ⟨hfit, b, hb⟩ := halloc (by omega)
      have hreq : c1.grow_request k = c.grow_request k := by
        unfold grow_request; rw [hcap1]
      have hlow := le_times_growth_factor (c.capacity + DefaultGapSize + k)
      have hreqv : c.grow_request k = times_growth_factor (c.capacity + DefaultGapSize + k) := by
        unfold grow_request
        rw [to_size_of_bounds (z := c.capacity + DefaultGapSize + k) (by omega) (by omega)]
      rw [grow_eq c1 k (by rw [hreq, hreqv]; omega)]
      obtain ⟨c2, r1, r2, r3, r4, r5, r6, r7, r8⟩ := reserve_spec cv (n := c1.grow_request k)
        (b := b) (by rw [hreq, hreqv, hcap1]; omega) (by rw [hreq, hreqv]; omega)
        (by rw [a1, hreq]; exact hb)
      rw [hsz1] at r4 r7 r8
      rw [hreq] at r5
      refine ⟨c2, r1, ⟨by omega, by omega, by omega, fun hh => absurd r6 hh,
        fun hh => absurd r6 hh, fun hh => absurd r6 hh⟩, by rw [r2, a1], r6, by omega, by omega,
        fun hh => by omega, fun _ => by omega, ?_⟩
      intro j hj0 hj1
      rw [r3, r7 j hj0 hj1]
      rw [index_eq_load, ← l j hj0 hj1]
      have hadj : c1.adjusted_index j = j := by
        rw [adjusted_index_eq cv hj0 (by omega), hgl1]; simp
      rw [hadj, a2]
    · rw [if_neg hr]
      refine ⟨c1, rfl, cv, a1, a5, by omega, by omega, fun _ => ⟨a2, a3⟩, fun hh => by omega, ?_⟩
      intro j hj0 hj1
      rw [a2]; exact l j hj0 hj1
  have hc2 := cv2.cap_lt
  have hc2e := cv2.end_le
  have hgl2 : c2.gap_length = 0 := by simp [gap_length, b5]
  have hroom2 : c2.room = c2.iStorageEnd - c2.iDataEnd := by rw [room_eq cv2, hgl2]; omega
  unfold allocate_from_gap
  simp only [hmiss, Bool.false_eq_true, if_false, hp, e, e2, outcome.bind, hroom2]
  rw [to_size_of_bounds (z := (DefaultGapSize : Int)) (by omega) (by omega)]
  clear e e2 l a1 a2 a3 a4 a5 cv hcap1 hgl1 hsz1 hroom1 c1 halloc hmiss hp
  generalize hg0 : min (c2.iStorageEnd - c2.iDataEnd) (DefaultGapSize : Int) = g0
  have hg1 : g0 ≤ c2.iStorageEnd - c2.iDataEnd := by omega
  have hg2 : g0 ≤ DefaultGapSize := by omega
  have hg3 : k ≤ g0 := by omega
  have hsm0 : 0 < g0 ∨ self_move_is_noop T := hsm.imp (fun hh => by omega) id
  have hg4 : g0 = min (c2.iStorageEnd - c2.iData - c.size) DefaultGapSize := by
    rw [← hg0, b4]; congr 1; omega
  clear hg0
  have hpg : to_ptrdiff g0 = g0 := to_ptrdiff_of_bounds (by omega) (by omega)
  have hpk : to_ptrdiff k = k := to_ptrdiff_of_bounds (by omega) (by omega)
  rw [hpg, hpk]
  generalize hn1 : (c2.iDataEnd - (c2.iData + i)).toNat = n1
  have hn1i : (n1 : Int) = c.size - i := by omega
  clear hn1
  obtain ⟨c3, e3, s3, l3⟩ := gap_miss_loop_spec (c2.iData + i) n1 c2 c2.iDataEnd
    (c2.iDataEnd + g0) (by omega) (by omega) (le_refl _)
  obtain ⟨d1, d2, d3, d4, d5, d6⟩ := s3
  rw [e3]
  simp only [d3]
  rw [to_size_of_bounds (z := c2.iDataEnd - (c2.iData + i)) (by omega) (by omega)]
  generalize hgc : min k (c2.iDataEnd - (c2.iData + i)) = gc
  have hgc1 : gc ≤ k := by omega
  have hgc2 : gc ≤ c.size - i := by omega
  have hgc3 : gc = k ∨ gc = c.size - i := by omega
  have hgc0 : 0 ≤ gc := by omega
  clear hgc
  have hpgc : to_ptrdiff gc = gc := to_ptrdiff_of_bounds (by omega) (by omega)
  rw [hpgc]
  generalize hn2 : gc.toNat = n2
  have hn2i : (n2 : Int) = gc := by omega
  clear hn2
  obtain ⟨c4, e4, s4, l4⟩ := destroy_backward_loop_spec (c2.iData + i) n2 c3
    (c2.iData + i + gc) (by omega)
  obtain ⟨f1, f2, f3, f4, f5, f6⟩ := s4
  rw [e4]
  simp only
  refine ⟨{ c4 with iDataEnd := c4.iDataEnd + g0, iGapStart := c2.iData + i + k, iGapEnd := c2.iData + i + g0 },
    g0, ?_, ?_, hg3, hg2, ?_, ?_, ?_, ?_, ?_, ?_, ?_, ?_, ?_, ?_, ?_⟩
  · simp only [f2, d2]
  · simp only [f1, d1, b1]
  · simp only [f2, d2, f4, d4]; exact hg4
  · simp only [f2, d2]
  · simp only [f2, d2]
  · simp only [f2, d2, f3, d3]; omega
  · simp only [f4, d4, f3, d3]; omega
  · simp only [f2, d2, f4, d4]; omega
  · simp only [f2, d2, f4, d4]; exact b7
  · simp only [f2, d2, f4, d4]; exact b8
  · intro j hj0 hj1
    show c4.load (c4.iData + j) = _
    rw [f2, d2, l4, if_neg (by omega), l3, if_neg (by omega)]
    exact l2 j hj0 (by omega)
  · intro j hj0 hj1
    show c4.load (c4.iData + j + g0) = _
    rw [f2, d2, l4, if_neg (by omega), l3, if_pos (by omega), moved_value_eq_load,
      ← l2 j (by omega) hj1]
    · congr 1; omega
    · exact hsm0.imp (fun hh => by omega) id
  · intro j hj0 hj1 hj2
    show c4.load (c4.iData + j) = _
    rw [f2, d2, l4, if_pos (by omega)]

theorem layout_cursors_valid {c : gap_vector T DefaultGapSize NearnessFactor} {P g : Int}
    (h : layout c P g) : cursors_valid c := by
  obtain ⟨h1, h2, h3, h4, h5, h6, h7, h8⟩ := h
  refine ⟨h1, h2, h3, fun hg => ?_, fun hg => ?_, fun hg => ?_⟩
  · have := h8 (by omega); omega
  · omega
  · have := h8 (by omega); omega

theorem layout_of_cursors_valid {c : gap_vector T DefaultGapSize NearnessFactor}
    (h : cursors_valid c) : layout c c.prefix_length c.gap_length := by
  obtain ⟨h1, h2, h3, h4, h5, h6⟩ := h
  unfold layout prefix_length gap_length
  by_cases hg : c.iGapStart = c.iGapEnd
  · simp only [hg, ne_eq, not_true_eq_false, if_false]
    refine ⟨h1, h2, h3, by omega, by omega, by omega, by omega, fun hh => by omega⟩
  · have := h4 hg; have := h5 hg; have := h6 hg
    simp only [hg, ne_eq, not_false_eq_true, if_true]
    refine ⟨h1, h2, h3, by omega, by omega, by omega, trivial, fun hh => by omega⟩

theorem layout_size {c : gap_vector T DefaultGapSize NearnessFactor} {P g : Int}
    (h : layout c P g) : c.size = c.iDataEnd - c.iData - g := by
  rw [size_eq (layout_cursors_valid h)]
  obtain ⟨h1, h2, h3, h4, h5, h6, h7, h8⟩ := h
  unfold gap_length
  split_ifs <;> omega

theorem layout_gap_size {c : gap_vector T DefaultGapSize NearnessFactor} {P g : Int}
    (h : layout c P g) : c.gap_size = g := by
  rw [gap_size_eq (layout_cursors_valid h)]
  obtain ⟨h1, h2, h3, h4, h5, h6, h7, h8⟩ := h
  unfold gap_length
  split_ifs <;> omega

theorem layout_index {c : gap_vector T DefaultGapSize NearnessFactor} {P g : Int}
    (h : layout c P g) {j : Int} (hj0 : 0 ≤ j) (hj1 : j < 9223372036854775808) :
    c.index j = c.load (c.iData + if j < P then j else j + g) := by
  rw [index_eq_load, adjusted_index_eq (layout_cursors_valid h) hj0 hj1]
  obtain ⟨h1, h2, h3, h4, h5, h6, h7, h8⟩ := h
  unfold prefix_length gap_length
  congr 2
  split_ifs <;> omega

theorem layout_adjusted_index {c : gap_vector T DefaultGapSize NearnessFactor} {P g : Int}
    (h : layout c P g) {j : Int} (hj0 : 0 ≤ j) (hj1 : j < 9223372036854775808) :
    c.adjusted_index j = if j < P then j else j + g := by
  rw [adjusted_index_eq (layout_cursors_valid h) hj0 hj1]
  obtain ⟨h1, h2, h3, h4, h5, h6, h7, h8⟩ := h
  unfold prefix_length gap_length
  split_ifs <;> omega

theorem allocated_before_gap {c : gap_vector T DefaultGapSize NearnessFactor}
    (h : cursors_valid c) {i k : Int} (hi0 : 0 ≤ i) (hi : i < c.iGapStart - c.iData)
    (hk0 : 0 ≤ k) (hk : k ≤ c.iGapEnd - c.iGapStart)
    (hsm : 0 < k ∨ self_move_is_noop T)
    (hnear : c.near_gap (c.iData + i) = true) :
    ∃ c' m, c.allocate_from_gap (c.iData + i) k = outcome.returned (c', m) ∧
      allocated c i k c' m := by
  obtain ⟨c1, e, s, l⟩ := allocate_from_gap_before_gap h hi0 hi hk0 hk hnear
  obtain ⟨a1, a2, a3, a4, a5, a6⟩ := s
  have hg := near_gap_active hnear
  have h1 := h.data_le; have h2 := h.end_le; have h3 := h.cap_lt
  have h4 := h.gap_lo hg; have h5 := h.gap_mid hg; have h6 := h.gap_hi hg
  have hl : layout c (c.iGapStart - c.iData) (c.iGapEnd - c.iGapStart) :=
    ⟨h1, h2, h3, by omega, by omega, by omega, rfl, fun _ => by omega⟩
  obtain ⟨c', hc'⟩ : ∃ c' : gap_vector T DefaultGapSize NearnessFactor,
      c' = { c1 with iGapStart := c.iGapStart + k } := ⟨_, rfl⟩
  have f2 : c'.iData = c.iData := by rw [hc']; exact a2
  have f3 : c'.iDataEnd = c.iDataEnd := by rw [hc']; exact a3
  have f4 : c'.iStorageEnd = c.iStorageEnd := by rw [hc']; exact a4
  have f5 : c'.iGapStart = c.iGapStart + k := by rw [hc']
  have f6 : c'.iGapEnd = c.iGapEnd := by rw [hc']; exact a6
  have fl : ∀ q, c'.load q = c1.load q := by intro q; rw [hc']; rfl
  rw [← hc'] at e
  have hl' : layout c' (c.iGapStart - c.iData + k) (c.iGapEnd - c.iGapStart - k) := by
    refine ⟨?_, ?_, ?_, by omega, by omega, ?_, ?_, fun _ => ?_⟩ <;> omega
  have hsz := layout_size hl
  have hsz' := layout_size hl'
  refine ⟨c', _, e, layout_cursors_valid hl', by rw [hc']; exact a1, by omega, ?_, ?_, ?_⟩
  · intro t ht0 ht1
    rw [layout_adjusted_index hl' (by omega) (by omega), if_pos (by omega)]
    omega
  · intro j hj0 hj1
    rw [layout_index hl' hj0 (by omega), layout_index hl hj0 (by omega), if_pos (by omega),
      if_pos (by omega), fl, f2, l, if_neg (by omega), if_neg (by omega)]
  · intro j hj0 hj1
    rw [layout_index hl' (by omega) (by omega), layout_index hl (by omega) (by omega), fl, f2, l]
    by_cases hj : j < c.iGapStart - c.iData
    · rw [if_pos (by omega), if_pos hj, if_pos (by omega), moved_value_eq_load]
      · congr 1; omega
      · exact hsm.imp (fun hh => by omega) id
    · rw [if_neg (by omega), if_neg hj, if_neg (by omega), if_neg (by omega)]
      congr 1; omega

theorem allocated_after_gap {c : gap_vector T DefaultGapSize NearnessFactor}
    (h : cursors_valid c) {i k : Int} (hi0 : c.iGapStart - c.iData ≤ i) (hi1 : i ≤ c.size)
    (hi2 : i = c.iGapStart - c.iData → i = c.size → i ≤ 0)
    (hk0 : 0 ≤ k) (hk : k ≤ c.iGapEnd - c.iGapStart)
    (hsm : 0 < k ∨ self_move_is_noop T)
    (hnear : c.near_gap (c.iData + i + (c.iGapEnd - c.iGapStart)) = true) :
    ∃ c' m, c.allocate_from_gap (c.iData + i + (c.iGapEnd - c.iGapStart)) k =
        outcome.returned (c', m) ∧ allocated c i k c' m := by
  obtain ⟨c1, e, s, l⟩ := allocate_from_gap_after_gap h hi0 hi1 hi2 hk0 hk hnear
  obtain ⟨a1, a2, a3, a4, a5, a6⟩ := s
  have hg := near_gap_active hnear
  have h1 := h.data_le; have h2 := h.end_le; have h3 := h.cap_lt
  have h4 := h.gap_lo hg; have h5 := h.gap_mid hg; have h6 := h.gap_hi hg
  have hl : layout c (c.iGapStart - c.iData) (c.iGapEnd - c.iGapStart) :=
    ⟨h1, h2, h3, by omega, by omega, by omega, rfl, fun _ => by omega⟩
  obtain ⟨c', hc'⟩ : ∃ c' : gap_vector T DefaultGapSize NearnessFactor,
      c' = { c1 with iGapEnd := c.iGapEnd - k } := ⟨_, rfl⟩
  have f2 : c'.iData = c.iData := by rw [hc']; exact a2
  have f3 : c'.iDataEnd = c.iDataEnd := by rw [hc']; exact a3
  have f4 : c'.iStorageEnd = c.iStorageEnd := by rw [hc']; exact a4
  have f5 : c'.iGapStart = c.iGapStart := by rw [hc']; exact a5
  have f6 : c'.iGapEnd = c.iGapEnd - k := by rw [hc']
  have fl : ∀ q, c'.load q = c1.load q := by intro q; rw [hc']; rfl
  rw [← hc'] at e
  have hl' : layout c' (c.iGapStart - c.iData) (c.iGapEnd - c.iGapStart - k) := by
    refine ⟨?_, ?_, ?_, by omega, by omega, ?_, ?_, fun _ => ?_⟩ <;> omega
  have hsz := layout_size hl
  have hsz' := layout_size hl'
  refine ⟨c', _, e, layout_cursors_valid hl', by rw [hc']; exact a1, by omega, ?_, ?_, ?_⟩
  · intro t ht0 ht1
    rw [layout_adjusted_index hl' (by omega) (by omega), if_neg (by omega)]
    omega
  · intro j hj0 hj1
    rw [layout_index hl' hj0 (by omega), layout_index hl hj0 (by omega), fl, f2, l]
    by_cases hj : j < c.iGapStart - c.iData
    · simp only [hj, if_true]
      rw [if_neg (by omega), if_neg (by omega)]
    · simp only [hj, if_false]
      rw [if_pos (by omega), moved_value_eq_load]
      · congr 1; omega
      · exact hsm.imp (fun hh => by omega) id
  · intro j hj0 hj1
    rw [layout_index hl' (by omega) (by omega), layout_index hl (by omega) (by omega), fl, f2, l,
      if_neg (by omega), if_neg (by omega), if_neg (by omega), if_neg (by omega)]
    congr 1; omega

theorem allocated_at_gap {c : gap_vector T DefaultGapSize NearnessFactor}
    (h : cursors_valid c) {k : Int} (hk0 : 0 ≤ k) (hk : k ≤ c.iGapEnd - c.iGapStart)
    (hs : c.iGapEnd = c.iDataEnd) (hp : c.iData < c.iGapStart)
    (hnear : c.near_gap c.iGapStart = true) :
    ∃ c' m, c.allocate_from_gap c.iGapStart k = outcome.returned (c', m) ∧
      allocated c c.size k c' m := by
  have e := allocate_from_gap_at_gap h hk0 hk hs hp hnear
  have hg := near_gap_active hnear
  have h1 := h.data_le; have h2 := h.end_le; have h3 := h.cap_lt
  have h4 := h.gap_lo hg; have h5 := h.gap_mid hg; have h6 := h.gap_hi hg
  have hl : layout c (c.iGapStart - c.iData) (c.iGapEnd - c.iGapStart) :=
    ⟨h1, h2, h3, by omega, by omega, by omega, rfl, fun _ => by omega⟩
  obtain ⟨c', hc'⟩ : ∃ c' : gap_vector T DefaultGapSize NearnessFactor,
      c' = { c with iGapStart := c.iGapStart + k } := ⟨_, rfl⟩
  have f2 : c'.iData = c.iData := by rw [hc']
  have f3 : c'.iDataEnd = c.iDataEnd := by rw [hc']
  have f4 : c'.iStorageEnd = c.iStorageEnd := by rw [hc']
  have f5 : c'.iGapStart = c.iGapStart + k := by rw [hc']
  have f6 : c'.iGapEnd = c.iGapEnd := by rw [hc']
  have fl : ∀ q, c'.load q = c.load q := by intro q; rw [hc']; rfl
  rw [← hc'] at e
  have hl' : layout c' (c.iGapStart - c.iData + k) (c.iGapEnd - c.iGapStart - k) := by
    refine ⟨?_, ?_, ?_, by omega, by omega, ?_, ?_, fun _ => ?_⟩ <;> omega
  have hsz := layout_size hl
  have hsz' := layout_size hl'
  refine ⟨c', _, e, layout_cursors_valid hl', by rw [hc'], by omega, ?_, ?_, ?_⟩
  · intro t ht0 ht1
    rw [layout_adjusted_index hl' (by omega) (by omega), if_pos (by omega)]
    omega
  · intro j hj0 hj1
    rw [layout_index hl' hj0 (by omega), layout_index hl hj0 (by omega), fl, f2,
      if_pos (by omega), if_pos (by omega)]
  · intro j hj0 hj1
    omega

theorem allocated_miss {c : gap_vector T DefaultGapSize NearnessFactor}
    (h : cursors_valid c) {p i k : Int} (hp : c.iterator_difference p c.begin = i)
    (hi0 : 0 ≤ i) (hi1 : i ≤ c.size) (hk0 : 0 ≤ k) (hkG : k ≤ DefaultGapSize)
    (hsm : 0 < k ∨ self_move_is_noop T)
    (hGb : (DefaultGapSize : Int) < 9223372036854775808)
    (hmiss : (c.near_gap p && decide (k ≤ c.gap_size)) = false)
    (halloc : c.room < k →
      times_growth_factor (c.capacity + DefaultGapSize + k) < 9223372036854775808 ∧
        ∃ b, c.iAlloc (c.grow_request k) = some b) :
    ∃ c' m, c.allocate_from_gap p k = outcome.returned (c', m) ∧ allocated c i k c' m := by
  obtain ⟨c', g0, e, a1, a2, a3, a4, a5, a6, a7, a8, a9, a10, a11, l1, l2, l3⟩ :=
    allocate_from_gap_miss h hp hi0 hi1 hk0 hkG hsm hGb hmiss halloc
  have hs0 := size_nonneg h
  have hsb : c.size < 9223372036854775808 := by
    have := size_eq h; have := gap_length_nonneg h
    have := h.data_le; have := h.end_le; have := h.cap_lt
    omega
  have hl' : layout c' (i + k) (g0 - k) := by
    refine ⟨?_, ?_, ?_, by omega, by omega, ?_, ?_, fun _ => ?_⟩ <;> omega
  have hsz' := layout_size hl'
  refine ⟨c', _, e, layout_cursors_valid hl', a1, by omega, ?_, ?_, ?_⟩
  · intro t ht0 ht1
    rw [layout_adjusted_index hl' (by omega) (by omega), if_pos (by omega)]
    omega
  · intro j hj0 hj1
    rw [layout_index hl' hj0 (by omega), if_pos (by omega)]
    exact l1 j hj0 hj1
  · intro j hj0 hj1
    rw [layout_index hl' (by omega) (by omega), if_neg (by omega), ← l2 j hj0 hj1]
    congr 1; omega

/-- The call `allocate_from_gap(begin() + i, k)` on a state with valid cursors: on the gap-reuse branches
for every `k` that fits the gap, on the gap-miss branch for `k ≤ DefaultGapSize` when the
capacity requested (if any) is below 2^63 and the allocator serves it. -/
theorem allocate_from_gap_spec {c : gap_vector T DefaultGapSize NearnessFactor}
    (h : cursors_valid c) {i k : Int} (hi0 : 0 ≤ i) (hi1 : i ≤ c.size) (hk0 : 0 ≤ k)
    (hsm : 0 < k ∨ self_move_is_noop T)
    (hmiss : (c.near_gap (c.iterator_add c.begin i) && decide (k ≤ c.gap_size)) = false →
      k ≤ DefaultGapSize ∧ (DefaultGapSize : Int) < 9223372036854775808 ∧
        (c.room < k →
          times_growth_factor (c.capacity + DefaultGapSize + k) < 9223372036854775808 ∧
            ∃ b, c.iAlloc (c.grow_request k) = some b)) :
    ∃ c' m, c.allocate_from_gap (c.iterator_add c.begin i) k = outcome.returned (c', m) ∧
      allocated c i k c' m := by
  by_cases hn : (c.near_gap (c.iterator_add c.begin i) && decide (k ≤ c.gap_size)) = false
  · obtain ⟨m1, m2, m3⟩ := hmiss hn
    exact allocated_miss h (iterator_difference_add_begin h hi0 hi1) hi0 hi1 hk0 m1 hsm m2 hn m3
  · simp only [Bool.and_eq_false_imp, decide_eq_false_iff_not, not_forall, Classical.not_not,
      exists_prop] at hn
    obtain ⟨hnear, hkg⟩ := hn
    have hg := near_gap_active hnear
    have hgl : c.gap_length = c.iGapEnd - c.iGapStart := by simp [gap_length, hg]
    have hpl : c.prefix_length = c.iGapStart - c.iData := by simp [prefix_length, hg]
    have hsz := size_eq h
    have h6 := h.gap_hi hg; have h4 := h.gap_lo hg
    rw [gap_size_eq h, hgl] at hkg
    rw [hgl] at hsz
    have hp := iterator_add_begin h hi0 hi1
    rw [hpl, hgl] at hp
    by_cases hA : i < c.iGapStart - c.iData
    · rw [if_pos (Or.inl hA)] at hp
      rw [hp] at hnear ⊢
      exact allocated_before_gap h hi0 hA hk0 hkg hsm hnear
    · by_cases hC : i = c.iGapStart - c.iData ∧ i = c.size ∧ 0 < i
      · rw [if_pos (Or.inr hC)] at hp
        have hpe : c.iData + i = c.iGapStart := by omega
        rw [hp, hpe] at hnear ⊢
        obtain ⟨c', m, e, al⟩ := allocated_at_gap h hk0 hkg (by omega) (by omega) hnear
        rw [← hC.2.1] at al
        exact ⟨c', m, e, al⟩
      · rw [if_neg (by omega)] at hp
        rw [hp] at hnear ⊢
        exact allocated_after_gap h (by omega) hi1 (by omega) hk0 hkg hsm hnear

theorem size_lt_max {c : gap_vector T DefaultGapSize NearnessFactor} (h : cursors_valid c) :
    c.size < 9223372036854775808 := by
  have := size_eq h; have := gap_length_nonneg h
  have := h.data_le; have := h.end_le; have := h.cap_lt
  omega

theorem adjusted_index_inj {c : gap_vector T DefaultGapSize NearnessFactor}
    (h : cursors_valid c) {a b : Int} (ha0 : 0 ≤ a) (ha1 : a < 9223372036854775808)
    (hb0 : 0 ≤ b) (hb1 : b < 9223372036854775808)
    (hab : c.adjusted_index a = c.adjusted_index b) : a = b := by
  rw [adjusted_index_eq h ha0 ha1, adjusted_index_eq h hb0 hb1] at hab
  have := gap_length_nonneg h
  split_ifs at hab <;> omega

theorem well_formed_of_index {c : gap_vector T DefaultGapSize NearnessFactor}
    (h : cursors_valid c) (hl : ∀ j, 0 ≤ j → j < c.size → (c.index j).isSome) :
    well_formed c := by
  refine ⟨h, ?_⟩
  intro p hp0 hp1 hp2
  have hly := layout_of_cursors_valid h
  have hsz := layout_size hly
  have hb := size_lt_max h
  obtain ⟨h1, h2, h3, h4, h5, h6, h7, h8⟩ := hly
  by_cases hq : p - c.iData < c.prefix_length
  · have := hl (p - c.iData) (by omega) (by omega)
    rw [layout_index (layout_of_cursors_valid h) (by omega) (by omega), if_pos hq] at this
    have e : c.iData + (p - c.iData) = p := by omega
    rw [e] at this
    exact this
  · have hg : c.iGapStart ≠ c.iGapEnd := by
      intro hg
      simp only [prefix_length, hg, ne_eq, not_true_eq_false, if_false] at hq
      omega
    have hgl : c.gap_length = c.iGapEnd - c.iGapStart := by simp [gap_length, hg]
    have hpl : c.prefix_length = c.iGapStart - c.iData := by simp [prefix_length, hg]
    have hp3 := hp2 hg
    have := hl (p - c.iData - c.gap_length) (by omega) (by omega)
    rw [layout_index (layout_of_cursors_valid h) (by omega) (by omega), if_neg (by omega)] at this
    have e : c.iData + (p - c.iData - c.gap_length + c.gap_length) = p := by omega
    rw [e] at this
    exact this

theorem index_isSome_of_well_formed {c : gap_vector T DefaultGapSize NearnessFactor}
    (h : well_formed c) {j : Int} (hj0 : 0 ≤ j) (hj1 : j < c.size) : (c.index j).isSome := by
  obtain ⟨l1, l2, l3⟩ := adjusted_index_live h.cursors hj0 hj1
  rw [index_eq_load]
  exact h.live _ l1 l2 l3

/-- A state holds the sequence `s` when its cursors are valid, `size()` is `|s|` and
`operator[]` reads `s`. -/
theorem represents_of_index {c : gap_vector T DefaultGapSize NearnessFactor} {s : List T}
    (h : cursors_valid c) (hlen : c.size = s.length)
    (hidx : ∀ j : Nat, j < s.length → c.index j = s[j]?) : represents c s := by
  refine ⟨well_formed_of_index h ?_, ?_⟩
  · intro j hj0 hj1
    have := hidx j.toNat (by omega)
    rw [Int.toNat_of_nonneg hj0] at this
    rw [this, List.getElem?_eq_getElem (by omega)]
    rfl
  · rw [logical_sequence_eq_observed h]
    apply List.ext_getElem?
    intro n
    unfold observed_sequence
    rw [List.getElem?_map, List.getElem?_map]
    by_cases hn : n < s.length
    · rw [List.getElem?_range (by omega), List.getElem?_eq_getElem hn]
      simp only [Option.map_some']
      rw [hidx n hn, List.getElem?_eq_getElem hn]
    · rw [List.getElem?_eq_none (by simp; omega), List.getElem?_eq_none (by omega)]
      rfl

/-- A list `r` that agrees with `s` before position `i`, with `new` from `i` on and with the
rest of `s` after that is `s` with `new` spliced in at `i`. -/
theorem list_eq_insert {α : Type} (s new r : List α) (i : Nat) (hi : i ≤ s.length)
    (hlen : r.length = s.length + new.length)
    (h1 : ∀ j, j < i → r[j]? = s[j]?)
    (h2 : ∀ t, t < new.length → r[i + t]? = new[t]?)
    (h3 : ∀ j, i ≤ j → j < s.length → r[j + new.length]? = s[j]?) :
    r = s.take i ++ new ++ s.drop i := by
  apply List.ext_getElem?
  intro n
  by_cases hn1 : n < i
  · rw [h1 n hn1, List.append_assoc, List.getElem?_append_left (by simp; omega),
      List.getElem?_take_of_lt hn1]
  · by_cases hn2 : n < i + new.length
    · have := h2 (n - i) (by omega)
      rw [show i + (n - i) = n by omega] at this
      rw [this, List.getElem?_append_left (by simp; omega),
        List.getElem?_append_right (by simp; omega)]
      simp only [List.length_take]
      congr 1; omega
    · by_cases hn3 : n < s.length + new.length
      · have := h3 (n - new.length) (by omega) (by omega)
        rw [show n - new.length + new.length = n by omega] at this
        rw [this, List.getElem?_append_right (by simp; omega)]
        simp only [List.length_append, List.length_take, List.getElem?_drop]
        congr 1; omega
      · rw [List.getElem?_eq_none (by omega), List.getElem?_eq_none (by simp; omega)]

theorem same_cursors_size {c c' : gap_vector T DefaultGapSize NearnessFactor}
    (h : same_cursors c c') : c'.size = c.size := by
  obtain ⟨a1, a2, a3, a4, a5, a6⟩ := h
  unfold size gap_size
  rw [a2, a3, a5, a6]

theorem same_cursors_adjusted_index {c c' : gap_vector T DefaultGapSize NearnessFactor}
    (h : same_cursors c c') (j : Int) : c'.adjusted_index j = c.adjusted_index j := by
  obtain ⟨a1, a2, a3, a4, a5, a6⟩ := h
  unfold adjusted_index gap_active gap_size
  rw [a2, a5, a6]

theorem same_cursors_valid {c c' : gap_vector T DefaultGapSize NearnessFactor}
    (h : same_cursors c c') (hc : cursors_valid c) : cursors_valid c' := by
  obtain ⟨a1, a2, a3, a4, a5, a6⟩ := h
  obtain ⟨h1, h2, h3, h4, h5, h6⟩ := hc
  refine ⟨?_, ?_, ?_, ?_, ?_, ?_⟩ <;> simp only [a2, a3, a4, a5, a6] <;> assumption

theorem observed_length (c : gap_vector T DefaultGapSize NearnessFactor) :
    c.observed_sequence.length = c.size.toNat := by
  simp [observed_sequence]

theorem observed_getElem? (c : gap_vector T DefaultGapSize NearnessFactor) {j : Nat}
    (hj : j < c.size.toNat) : c.observed_sequence[j]? = some (c.index j) := by
  unfold observed_sequence
  rw [List.getElem?_map, List.getElem?_range hj]
  rfl

theorem represents_observed {c : gap_vector T DefaultGapSize NearnessFactor} {s : List T}
    (h : represents c s) : c.observed_sequence = s.map some := by
  rw [← logical_sequence_eq_observed h.1.cursors]; exact h.2

theorem represents_of_observed {c : gap_vector T DefaultGapSize NearnessFactor} {s : List T}
    (h : cursors_valid c) (hobs : c.observed_sequence = s.map some) : represents c s := by
  refine ⟨well_formed_of_index h ?_, ?_⟩
  · intro j hj0 hj1
    have h1 := observed_getElem? c (j := j.toNat) (by omega)
    rw [Int.toNat_of_nonneg hj0, hobs, List.getElem?_map] at h1
    cases hs : s[j.toNat]? with
    | none => rw [hs] at h1; simp at h1
    | some v => rw [hs] at h1; simp only [Option.map_some', Option.some.injEq] at h1; rw [← h1]; rfl
  · rw [logical_sequence_eq_observed h]; exact hobs

/-- The call `insert(begin() + i, list)` on a state holding `s` splices `list` into `s` at `i`. -/
theorem insert_list_spec {c : gap_vector T DefaultGapSize NearnessFactor} {s : List T}
    (h : represents c s) (i : Nat) (hi : i ≤ s.length) (list : List T)
    (hlen : (list.length : Int) < 9223372036854775808)
    (hsm : 0 < list.length ∨ self_move_is_noop T)
    (hmiss : (c.near_gap (c.iterator_add c.begin i) && decide ((list.length : Int) ≤ c.gap_size))
        = false →
      (list.length : Int) ≤ DefaultGapSize ∧ (DefaultGapSize : Int) < 9223372036854775808 ∧
        (c.room < list.length →
          times_growth_factor (c.capacity + DefaultGapSize + list.length) < 9223372036854775808 ∧
            ∃ b, c.iAlloc (c.grow_request list.length) = some b)) :
    ∃ c' m, c.insert_list (c.iterator_add c.begin i) list = outcome.returned (c', m) ∧
      represents c' (s.take i ++ list ++ s.drop i) ∧ c'.iAlloc = c.iAlloc ∧
      c'.size = c.size + list.length ∧ (0 < list.length → m = c'.iterator_add c'.begin i) := by
  have hcv := h.1.cursors
  have hsz := represents_size h
  have hobs := represents_observed h
  obtain ⟨c1, m, e, al⟩ := allocate_from_gap_spec hcv (i := (i : Int)) (k := (list.length : Int))
    (by omega) (by omega) (by omega) (hsm.imp (fun hh => by omega) id) hmiss
  obtain ⟨sc, lf⟩ := uninitialized_copy_spec list c1 m
  have hcv' := same_cursors_valid sc al.cursors
  have hsz' : (uninitialized_copy list c1 m).size = c.size + list.length := by
    rw [same_cursors_size sc, al.size]
  have hb' := size_lt_max hcv'
  have hidx : ∀ j : Int, 0 ≤ j → j < c.size + list.length →
      (uninitialized_copy list c1 m).index j =
        if (i : Int) ≤ j ∧ j < i + list.length then list[(j - i).toNat]? else c1.index j := by
    intro j hj0 hj1
    rw [index_eq_load, lf, sc.2.1, same_cursors_adjusted_index sc]
    by_cases hj : (i : Int) ≤ j ∧ j < i + list.length
    · have hf := al.fresh (j - i) (by omega) (by omega)
      rw [show (i : Int) + (j - i) = j by omega] at hf
      rw [if_pos hj, if_pos (by omega), hf]
      congr 2; omega
    · rw [if_neg hj, index_eq_load]
      by_cases hq : m ≤ c1.iData + c1.adjusted_index j ∧
          c1.iData + c1.adjusted_index j < m + list.length
      · exfalso
        have hf := al.fresh (c1.iData + c1.adjusted_index j - m) (by omega) (by omega)
        have := adjusted_index_inj al.cursors (a := (i : Int) + (c1.iData + c1.adjusted_index j - m))
          (b := j) (by omega) (by omega) hj0 (by omega) (by omega)
        omega
      · rw [if_neg hq]
  refine ⟨_, m, ?_, ?_, ?_, hsz', ?_⟩
  · unfold insert_list
    rw [to_size_of_bounds (by omega) (by omega), e]
    rfl
  · apply represents_of_observed hcv'
    have := list_eq_insert (s.map some) (list.map some)
      (uninitialized_copy list c1 m).observed_sequence i (by simpa using hi)
      (by rw [observed_length, hsz']; simp; omega) ?_ ?_ ?_
    · rw [this]; simp [List.map_take, List.map_drop]
    · intro j hj
      rw [observed_getElem? _ (by omega), hidx j (by omega) (by omega), if_neg (by omega),
        al.before j (by omega) (by omega), ← observed_getElem? c (by omega), hobs]
    · intro t ht
      rw [List.length_map] at ht
      rw [observed_getElem? _ (by omega), List.getElem?_map, List.getElem?_eq_getElem ht]
      have := hidx ((i + t : Nat) : Int) (by omega) (by push_cast; omega)
      rw [this, if_pos (by push_cast; omega)]
      rw [show (((i + t : Nat) : Int) - (i : Int)).toNat = t by omega,
        List.getElem?_eq_getElem ht]
      rfl
    · intro j hj0 hj1
      rw [List.length_map] at hj1 ⊢
      rw [observed_getElem? _ (by omega)]
      have := hidx ((j + list.length : Nat) : Int) (by omega) (by push_cast; omega)
      rw [this, if_neg (by push_cast; omega)]
      push_cast
      rw [al.after j (by omega) (by omega), ← observed_getElem? c (by omega), hobs]
  · show (uninitialized_copy list c1 m).iAlloc = c.iAlloc
    rw [sc.1, al.alloc]
  · intro hpos
    have hf := al.fresh 0 (le_refl _) (by omega)
    have hia := index_eq_load_iterator hcv' (i := (i : Int)) (by omega) (by omega)
    rw [← hia, sc.2.1, same_cursors_adjusted_index sc]
    simp only [add_zero] at hf
    exact hf.symm

theorem insertIdx_eq_take_drop {α : Type} (x : α) :
    ∀ (i : Nat) (s : List α), i ≤ s.length → s.insertIdx i x = s.take i ++ [x] ++ s.drop i
  | 0, s, _ => by simp [List.insertIdx_zero]
  | i + 1, [], h => by simp at h
  | i + 1, y :: ys, h => by
    rw [List.insertIdx_succ_cons, insertIdx_eq_take_drop x i ys (by simpa using h)]
    simp

theorem insert_eq_insert_list (c : gap_vector T DefaultGapSize NearnessFactor) (pos : Int)
    (x : T) : c.insert pos x = c.insert_list pos [x] := by
  rw [insert_external]
  unfold insert_list
  have : to_size (([x] : List T).length : Int) = 1 := by
    simp only [List.length_singleton, Nat.cast_one]; rfl
  rw [this]
  rfl

theorem grow_request_nonneg (c : gap_vector T DefaultGapSize NearnessFactor) (k : Int) :
    0 ≤ c.grow_request k := by
  unfold grow_request
  exact times_growth_factor_nonneg _

/-- The call `insert(begin() + i, x)` on a state holding `s`, when a growth (if one is needed) gets its
memory. -/
theorem insert_spec {c : gap_vector T DefaultGapSize NearnessFactor} {s : List T}
    (h : represents c s) (i : Nat) (hi : i ≤ s.length) (x : T) (hG0 : 0 < DefaultGapSize)
    (hGb : (DefaultGapSize : Int) < 9223372036854775808)
    (hgrow : c.room < 1 →
      times_growth_factor (c.capacity + DefaultGapSize + 1) < 9223372036854775808 ∧
        ∃ b, c.iAlloc (c.grow_request 1) = some b) :
    ∃ c' m, c.insert (c.iterator_add c.begin i) x = outcome.returned (c', m) ∧
      represents c' (s.take i ++ [x] ++ s.drop i) ∧ c'.iAlloc = c.iAlloc ∧
      c'.size = c.size + 1 ∧ m = c'.iterator_add c'.begin i := by
  rw [insert_eq_insert_list]
  obtain ⟨c', m, e, r, a, sz, hm⟩ := insert_list_spec h i hi [x] (by simp) (Or.inl (by simp))
    (fun _ => ⟨by simp only [List.length_singleton, Nat.cast_one]; omega, hGb, by
      simpa using hgrow⟩)
  refine ⟨c', m, e, r, a, by simpa using sz, hm (by simp)⟩

/-- For an argument that is no element of the buffer, a temporary or a variable of the caller:
for every well-formed state holding the logical sequence `s`, every index `i ≤ |s|` and every
such value `x`, `insert(begin() + i, x)` returns and leaves a well-formed state holding
`s[0..i) ++ [x] ++ s[i..)`, of size `|s| + 1`: what the same insert does to a reference
dynamic array.  The allocator is assumed to serve requests below 2^63 elements, the capacity
a growth asks for to be below 2^63, and `DefaultGapSize` to be positive. -/
theorem insert_matches_reference (c : gap_vector T DefaultGapSize NearnessFactor) (s : List T)
    (h : represents c s) (i : Nat) (hi : i ≤ s.length) (x : T) (hG0 : 0 < DefaultGapSize)
    (halloc : allocator_total c.iAlloc)
    (hfit : times_growth_factor (c.capacity + DefaultGapSize + 1) < 9223372036854775808) :
    ∃ c' m, c.insert (c.iterator_add c.begin i) x = outcome.returned (c', m) ∧
      represents c' (s.take i ++ [x] ++ s.drop i) ∧ c'.size = s.length + 1 ∧
      c'.logical_sequence = (s.insertIdx i x).map some := by
  have hcap : 0 ≤ c.capacity := by
    rw [capacity_eq h.1.cursors]
    have := h.1.cursors.data_le; have := h.1.cursors.end_le; omega
  have hlow := lt_of_le_of_lt (le_times_growth_factor _) hfit
  obtain ⟨c', m, e, r, a, sz, hm⟩ := insert_spec h i hi x hG0 (by omega)
    (fun _ => ⟨hfit, halloc _ (grow_request_nonneg c 1) (by
      unfold grow_request
      rw [to_size_of_bounds (z := c.capacity + DefaultGapSize + 1) (by omega)
        (by have := le_times_growth_factor (c.capacity + DefaultGapSize + 1); omega)]
      exact hfit)⟩)
  refine ⟨c', m, e, r, by rw [sz, represents_size h], ?_⟩
  rw [r.2, insertIdx_eq_take_drop x i s hi]

theorem test_allocator_total : allocator_total test_allocator := by
  intro n _ h1
  exact ⟨4096, by simp [test_allocator, h1]⟩

theorem insert_matches_reference_witness :
    represents split_example [10, 20, 30] ∧ 1 ≤ [(10 : Int), 20, 30].length ∧ 0 < 256 ∧
      allocator_total split_example.iAlloc ∧
      times_growth_factor (split_example.capacity + (256 : Nat) + 1) < 9223372036854775808 ∧
      ∃ c' m, split_example.insert (split_example.iterator_add split_example.begin (1 : Nat)) (99 : Int) =
          outcome.returned (c', m) ∧
        represents c' ([(10 : Int), 20, 30].take 1 ++ [99] ++ [(10 : Int), 20, 30].drop 1) ∧
        c'.size = [(10 : Int), 20, 30].length + 1 ∧
        c'.logical_sequence = ([(10 : Int), 20, 30].insertIdx 1 99).map some :=
  ⟨split_example_represents, by decide, by decide, test_allocator_total, by decide,
    insert_matches_reference split_example [10, 20, 30] split_example_represents 1 (by decide) 99
      (by decide) test_allocator_total (by decide)⟩

set_option maxRecDepth 100000 in
/-- C1: the claim fails on the code for an argument that is an element of the buffer.
`gap_vector<int> v; v.push_back(1); v.push_back(2); v.push_back(3); v.insert(v.begin(), v[2]);`
leaves a buffer holding `2, 1, 2, 3`, where the same insert leaves a dynamic array holding
`3, 1, 2, 3`: `insert` reads its argument after `allocate_from_gap` has shifted the prefix, and
by then the slot the reference designates holds `2`. -/
theorem insert_of_own_element_reads_shifted_slot :
    three_pushed.result.map (fun c => (c.size, c.index 0, c.index 1, c.index 2)) =
        some (3, some 1, some 2, some 3) ∧
      (three_pushed.bind (fun c => (c, 0)) fun c =>
          c.insert c.begin (c.index_reference 2)).result.map
        (fun r => (r.1.size, r.1.index 0, r.1.index 1, r.1.index 2, r.1.index 3)) =
        some (4, some 2, some 1, some 2, some 3) := by
  constructor
  · rfl
  · rfl

theorem default_constructed_represents (alloc : Int → Option Int) :
    represents (default_constructed alloc : gap_vector T DefaultGapSize NearnessFactor) [] := by
  refine ⟨⟨⟨le_refl _, le_refl _, by simp [default_constructed], fun h => absurd rfl h,
    fun h => absurd rfl h, fun h => absurd rfl h⟩, ?_⟩, ?_⟩
  · intro p h1 h2 _
    simp only [default_constructed] at h1 h2
    omega
  · simp [logical_sequence, gap_active, default_constructed]

/-- The call `push_back(x)` on a state holding `s`, when a growth (if one is needed) gets its memory. -/
theorem push_back_spec {c : gap_vector T DefaultGapSize NearnessFactor} {s : List T}
    (h : represents c s) (x : T) (hG0 : 0 < DefaultGapSize)
    (hGb : (DefaultGapSize : Int) < 9223372036854775808)
    (hgrow : c.room < 1 →
      times_growth_factor (c.capacity + DefaultGapSize + 1) < 9223372036854775808 ∧
        ∃ b, c.iAlloc (c.grow_request 1) = some b) :
    ∃ c', c.push_back x = outcome.returned c' ∧ represents c' (s ++ [x]) ∧
      c'.iAlloc = c.iAlloc ∧ c'.size = c.size + 1 := by
  have hsz := represents_size h
  obtain ⟨c', m, e, r, a, sz, _⟩ := insert_spec h s.length (le_refl _) x hG0 hGb hgrow
  rw [← hsz, ← end_eq_iterator_add h.1.cursors] at e
  refine ⟨c', ?_, ?_, a, sz⟩
  · unfold push_back
    rw [e]
    rfl
  · simpa using r

theorem push_back_all_spec (hG0 : 0 < DefaultGapSize) :
    ∀ (xs : List T) (c : gap_vector T DefaultGapSize NearnessFactor) (s : List T),
      represents c s → allocator_total c.iAlloc →
      times_growth_factor (((s.length + xs.length : Nat) : Int) + DefaultGapSize + 1) < 9223372036854775808 →
      ∃ c', push_back_all xs c = outcome.returned c' ∧ represents c' (s ++ xs) := by
  intro xs
  induction xs with
  | nil =>
    intro c s h _ _
    exact ⟨c, rfl, by simpa using h⟩
  | cons x xs ih =>
    intro c s h halloc hfit
    have hcv := h.1.cursors
    have hsz := represents_size h
    have hroom := room_eq hcv
    have hcap := capacity_eq hcv
    have hse := size_eq hcv
    have hgn := gap_length_nonneg hcv
    have hdl := hcv.data_le
    have hel := hcv.end_le
    have hlow := lt_of_le_of_lt (le_times_growth_factor _) hfit
    simp only [List.length_cons] at hfit hlow
    push_cast at hfit hlow
    obtain ⟨c1, e1, r1, a1, s1⟩ := push_back_spec h x hG0 (by omega) (fun hr => by
      have hfit' : times_growth_factor (c.capacity + DefaultGapSize + 1) < 9223372036854775808 :=
        lt_of_le_of_lt (times_growth_factor_mono (by omega)) hfit
      refine ⟨hfit', halloc _ (grow_request_nonneg c 1) ?_⟩
      unfold grow_request
      rw [to_size_of_bounds (z := c.capacity + DefaultGapSize + 1) (by omega)
        (by have := le_times_growth_factor (c.capacity + DefaultGapSize + 1); omega)]
      exact hfit')
    obtain ⟨c2, e2, r2⟩ := ih c1 (s ++ [x]) r1 (by rw [a1]; exact halloc)
      (lt_of_le_of_lt (times_growth_factor_mono (by
        simp only [List.length_append, List.length_singleton]
        push_cast
        omega)) hfit)
    refine ⟨c2, ?_, by simpa using r2⟩
    simp only [push_back_all, e1, outcome.bind]
    exact e2

/-- For an argument that is no element of the buffer, a temporary or a variable of the caller:
for every well-formed state holding `s` and every such value `x`, `push_back(x)` returns and
leaves a well-formed state holding `s ++ [x]`; consequently, starting from the empty buffer,
`push_back` of the elements of any list `xs` in turn (`1, ..., N` in particular) yields a
buffer of `size()` `|xs|` holding `xs`, across every growth and gap re-opening on the way.
The allocator is assumed to serve requests below 2^63 elements, the capacities asked for to
be below 2^63, and `DefaultGapSize` to be positive. -/
theorem push_back_matches_reference (c : gap_vector T DefaultGapSize NearnessFactor)
    (s : List T) (h : represents c s) (x : T) (hG0 : 0 < DefaultGapSize)
    (halloc : allocator_total c.iAlloc)
    (hfit : times_growth_factor (c.capacity + DefaultGapSize + 1) < 9223372036854775808) :
    (∃ c', c.push_back x = outcome.returned c' ∧ represents c' (s ++ [x]) ∧
      c'.size = s.length + 1) ∧
    ∀ (alloc : Int → Option Int) (xs : List T), allocator_total alloc →
      times_growth_factor ((xs.length : Int) + DefaultGapSize + 1) < 9223372036854775808 →
      ∃ c', push_back_all xs
          (default_constructed alloc : gap_vector T DefaultGapSize NearnessFactor) =
          outcome.returned c' ∧
        represents c' xs ∧ c'.size = xs.length ∧
        c'.iterator_difference c'.end_ c'.begin = xs.length := by
  have hcap : 0 ≤ c.capacity := by
    rw [capacity_eq h.1.cursors]
    have := h.1.cursors.data_le; have := h.1.cursors.end_le; omega
  have hlow := lt_of_le_of_lt (le_times_growth_factor _) hfit
  constructor
  · obtain ⟨c', e, r, _, sz⟩ := push_back_spec h x hG0 (by omega)
      (fun _ => ⟨hfit, halloc _ (grow_request_nonneg c 1) (by
        unfold grow_request
        rw [to_size_of_bounds (z := c.capacity + DefaultGapSize + 1) (by omega)
          (by have := le_times_growth_factor (c.capacity + DefaultGapSize + 1); omega)]
        exact hfit)⟩)
    exact ⟨c', e, r, by rw [sz, represents_size h]⟩
  · intro alloc xs ha hb
    obtain ⟨c', e, r⟩ := push_back_all_spec hG0 xs
      (default_constructed alloc : gap_vector T DefaultGapSize NearnessFactor) []
      (default_constructed_represents alloc) ha (by simpa using hb)
    rw [List.nil_append] at r
    refine ⟨c', e, r, represents_size r, ?_⟩
    rw [end_eq_iterator_add r.1.cursors,
      iterator_difference_add_begin r.1.cursors (size_nonneg r.1.cursors) (le_refl _)]
    exact represents_size r

theorem push_back_matches_reference_witness :
    represents split_example [10, 20, 30] ∧ 0 < 256 ∧ allocator_total split_example.iAlloc ∧
      times_growth_factor (split_example.capacity + (256 : Nat) + 1) < 9223372036854775808 ∧
      ((∃ c', split_example.push_back (40 : Int) = outcome.returned c' ∧
          represents c' ([10, 20, 30] ++ [40]) ∧ c'.size = [(10 : Int), 20, 30].length + 1) ∧
        ∀ (alloc : Int → Option Int) (xs : List Int), allocator_total alloc →
          times_growth_factor ((xs.length : Int) + (256 : Nat) + 1) < 9223372036854775808 →
          ∃ c', push_back_all xs (default_constructed alloc : gap_vector Int 256 2) =
              outcome.returned c' ∧
            represents c' xs ∧ c'.size = xs.length ∧
            c'.iterator_difference c'.end_ c'.begin = xs.length) :=
  ⟨split_example_represents, by decide, test_allocator_total, by decide,
    push_back_matches_reference split_example [10, 20, 30] split_example_represents 40
      (by decide) test_allocator_total (by decide)⟩

set_option maxRecDepth 100000 in
/-- C3: the claim fails on the code for an argument that is an element of the buffer.  On the
buffer `10, 15, 20, 30` with the gap between `15` and `20` (the buffer after
`v.reserve(8); v.push_back(10); v.push_back(20); v.push_back(30); v.data();
v.insert(v.begin() + 1, 15);`), `v.push_back(v[2])` leaves `10, 15, 20, 30, 30`, not
`10, 15, 20, 30, 20`: `end()` lies after the gap, `allocate_from_gap` shifts the suffix down into
the gap, and the argument is read afterwards from its old slot, which holds `30` by then. -/
theorem push_back_of_own_element_reads_shifted_slot :
    split_four.result.map (fun c => (c.size, c.index 0, c.index 1, c.index 2, c.index 3)) =
        some (4, some 10, some 15, some 20, some 30) ∧
      (split_four.bind id fun c => c.push_back (c.index_reference 2)).result.map
        (fun c => (c.size, c.index 0, c.index 1, c.index 2, c.index 3, c.index 4)) =
        some (5, some 10, some 15, some 20, some 30, some 30) := by
  constructor
  · rfl
  · rfl

/-- The pointer `begin() + i` in terms of a layout. -/
theorem layout_iterator_add_begin {c : gap_vector T DefaultGapSize NearnessFactor} {P g : Int}
    (h : layout c P g) (hg : 0 < g) {i : Int} (h0 : 0 ≤ i) (h1 : i ≤ c.size) :
    c.iterator_add c.begin i =
      if i < P ∨ (i = P ∧ i = c.size ∧ 0 < i) then c.iData + i else c.iData + i + g := by
  rw [iterator_add_begin (layout_cursors_valid h) h0 h1]
  obtain ⟨h1, h2, h3, h4, h5, h6, h7, h8⟩ := h
  have hne : c.iGapStart ≠ c.iGapEnd := by omega
  have := h8 hg
  have hpl : c.prefix_length = P := by
    simp only [prefix_length, ne_eq, hne, not_false_eq_true, if_true]; omega
  have hgl : c.gap_length = g := by
    simp only [gap_length, ne_eq, hne, not_false_eq_true, if_true]; omega
  rw [hpl, hgl]

theorem iterator_add_begin_inactive {c : gap_vector T DefaultGapSize NearnessFactor}
    (hg : c.iGapStart = c.iGapEnd) (i : Int) (h0 : 0 ≤ i) :
    c.iterator_add c.begin i = c.iData + i := by
  unfold iterator_add advance_forward begin gap_active
  simp only [hg, ne_eq, not_true_eq_false, decide_False, Bool.not_false, Bool.true_or, if_true]
  split_ifs <;> omega

theorem iterator_add_begin_lt {c : gap_vector T DefaultGapSize NearnessFactor}
    (h : cursors_valid c) {i j : Int} (h0 : 0 ≤ i) (h1 : i < j) (h2 : j ≤ c.size) :
    c.iterator_add c.begin i < c.iterator_add c.begin j := by
  rw [iterator_add_begin h h0 (by omega), iterator_add_begin h (by omega) h2]
  have := gap_length_nonneg h
  have := prefix_length_bounds h
  split_ifs <;> omega

/-- The branch of `erase` for a range that lies in the prefix, near the gap: the buffer it
leaves. -/
theorem erase_before_gap_run {c : gap_vector T DefaultGapSize NearnessFactor} {P g : Int}
    (hl : layout c P g) (hg : 0 < g) {i j : Int} (hi0 : 0 ≤ i) (hij : i < j)
    (hj : j < P ∨ (j = P ∧ j = c.size))
    (hnear : (c.near_gap (c.iData + i) || c.near_gap (c.iData + j)) = true) :
    ∃ c', c.erase (c.iData + i) (c.iData + j) = some (c', c'.iterator_add c'.begin i) ∧
      c'.iAlloc = c.iAlloc ∧ c'.iData = c.iData ∧ c'.iDataEnd = c.iDataEnd ∧
      c'.iStorageEnd = c.iStorageEnd ∧ c'.iGapStart = c.iGapStart - (j - i) ∧
      c'.iGapEnd = c.iGapEnd ∧
      ∀ q, c'.load q =
        if c.iGapStart - (j - i) ≤ q ∧ q < c.iGapStart then none
        else if c.iData + i ≤ q ∧ q < c.iData + i + (P - j) then c.load (q + (j - i))
        else c.load q := by
  have hcv := layout_cursors_valid hl
  have hsz := layout_size hl
  have hb := size_lt_max hcv
  obtain ⟨h1, h2, h3, h4, h5, h6, h7, h8⟩ := id hl
  have h9 := h8 hg
  have hne : c.iGapStart ≠ c.iGapEnd := by omega
  have hpi : c.iterator_add c.begin i = c.iData + i := by
    rw [layout_iterator_add_begin hl hg hi0 (by omega), if_pos (by omega)]
  have hpj : c.iterator_add c.begin j = c.iData + j := by
    rw [layout_iterator_add_begin hl hg (by omega) (by omega), if_pos (by omega)]
  have hdi : c.iterator_difference (c.iData + i) c.begin = i := by
    rw [← hpi]; exact iterator_difference_add_begin hcv hi0 (by omega)
  have hdj : c.iterator_difference (c.iData + j) c.begin = j := by
    rw [← hpj]; exact iterator_difference_add_begin hcv (by omega) (by omega)
  have hbg : c.before_gap (c.iData + j - 1) = true := by
    simp only [before_gap, gap_active, ne_eq, hne, not_false_eq_true, decide_True, Bool.true_and,
      decide_eq_true_eq]
    omega
  have hfl : ¬ (c.iData + i = c.iData + j) := by omega
  obtain ⟨n1, hn1, hn1i⟩ : ∃ n1 : Nat, (c.iGapStart - (c.iData + j)).toNat = n1 ∧
      (n1 : Int) = P - j := ⟨_, rfl, by omega⟩
  obtain ⟨c1, e1, s1, l1⟩ := erase_before_gap_loop_spec n1 c (c.iData + j) (c.iData + i)
    (by omega) (by omega)
  obtain ⟨n2, hn2, hn2i⟩ : ∃ n2 : Nat, (j - i).toNat = n2 ∧ (n2 : Int) = j - i :=
    ⟨_, rfl, by omega⟩
  obtain ⟨c2, e2, s2, l2⟩ := destroy_loop_spec n2 c1 (c.iGapStart - (j - i)) c.iGapStart
    (by omega)
  have hadd : c.iData + j - (c.iData + i) = j - i := by omega
  have hn1P : c.iData + i + (n1 : Int) = c.iData + i + (P - j) := by omega
  have hsub : c.iGapStart + -(j - i) = c.iGapStart - (j - i) := by omega
  clear hcv hsz hb h1 h2 h3 h4 h5 h6 h7 h8 h9 hne hn1i hn2i hl hg hi0 hij hj
  obtain ⟨a1, a2, a3, a4, a5, a6⟩ := s1
  obtain ⟨b1, b2, b3, b4, b5, b6⟩ := s2
  refine ⟨{ c2 with iGapStart := c.iGapStart + -(j - i) }, ?_, b1.trans a1, b2.trans a2,
    b3.trans a3, b4.trans a4, hsub, b6.trans a6, ?_⟩
  · unfold erase
    simp only [hfl, if_false, hdi, hdj, hpi, hpj, hnear, if_true, hbg, hn1, e1, a5, hn2, e2, b5]
  · intro q
    show c2.load q = _
    rw [l2, l1, hadd, hn1P]

theorem erased_before_gap {c c' : gap_vector T DefaultGapSize NearnessFactor}
    {P g : Int} (hl : layout c P g) (hg : 0 < g) {i j : Int} (hi0 : 0 ≤ i) (hij : i < j)
    (hj : j ≤ P)
    (f1 : c'.iAlloc = c.iAlloc) (f2 : c'.iData = c.iData) (f3 : c'.iDataEnd = c.iDataEnd)
    (f4 : c'.iStorageEnd = c.iStorageEnd) (f5 : c'.iGapStart = c.iGapStart - (j - i))
    (f6 : c'.iGapEnd = c.iGapEnd)
    (fl : ∀ q, c'.load q =
      if c.iGapStart - (j - i) ≤ q ∧ q < c.iGapStart then none
      else if c.iData + i ≤ q ∧ q < c.iData + i + (P - j) then c.load (q + (j - i))
      else c.load q) :
    erased c i (j - i) c' := by
  have hcv := layout_cursors_valid hl
  have hsz := layout_size hl
  have hb := size_lt_max hcv
  obtain ⟨h1, h2, h3, h4, h5, h6, h7, h8⟩ := id hl
  have h9 := h8 hg
  have hl' : layout c' (P - (j - i)) (g + (j - i)) := by
    refine ⟨?_, ?_, ?_, by omega, by omega, ?_, ?_, fun _ => ?_⟩ <;> omega
  have hsz' := layout_size hl'
  refine ⟨layout_cursors_valid hl', f1, by omega, ?_, ?_⟩
  · intro t ht0 ht1
    rw [layout_index hl' ht0 (by omega), layout_index hl ht0 (by omega), if_pos (by omega),
      if_pos (by omega), fl, f2, if_neg (by omega), if_neg (by omega)]
  · intro t ht0 ht1
    rw [layout_index hl' (by omega) (by omega), layout_index hl (by omega) (by omega), fl, f2]
    by_cases ht : t < P - (j - i)
    · rw [if_pos ht, if_neg (by omega), if_pos (by omega), if_pos (by omega)]
      congr 1; omega
    · rw [if_neg ht, if_neg (by omega), if_neg (by omega), if_neg (by omega)]
      congr 1; omega

/-- The branch of `erase` for a range that lies in the suffix, near the gap: the buffer it
leaves. -/
theorem erase_after_gap_run {c : gap_vector T DefaultGapSize NearnessFactor} {P g : Int}
    (hl : layout c P g) (hg : 0 < g) {i j : Int} (hi0 : P ≤ i) (hij : i < j)
    (hj : j ≤ c.size)
    (hnear : (c.near_gap (c.iData + i + g) || c.near_gap (c.iData + j + g)) = true) :
    ∃ c', c.erase (c.iData + i + g) (c.iData + j + g) =
        some (c', c'.iterator_add c'.begin i) ∧
      c'.iAlloc = c.iAlloc ∧ c'.iData = c.iData ∧ c'.iDataEnd = c.iDataEnd ∧
      c'.iStorageEnd = c.iStorageEnd ∧ c'.iGapStart = c.iGapStart ∧
      c'.iGapEnd = c.iGapEnd + (j - i) ∧
      ∀ q, c'.load q =
        if c.iGapEnd ≤ q ∧ q < c.iGapEnd + (j - i) then none
        else if c.iGapEnd + (j - i) ≤ q ∧ q < c.iData + j + g then c.load (q - (j - i))
        else c.load q := by
  have hcv := layout_cursors_valid hl
  have hsz := layout_size hl
  have hb := size_lt_max hcv
  obtain ⟨h1, h2, h3, h4, h5, h6, h7, h8⟩ := id hl
  have h9 := h8 hg
  have hne : c.iGapStart ≠ c.iGapEnd := by omega
  have hpi : c.iterator_add c.begin i = c.iData + i + g := by
    rw [layout_iterator_add_begin hl hg (by omega) (by omega), if_neg (by omega)]
  have hpj : c.iterator_add c.begin j = c.iData + j + g := by
    rw [layout_iterator_add_begin hl hg (by omega) (by omega), if_neg (by omega)]
  have hdi : c.iterator_difference (c.iData + i + g) c.begin = i := by
    rw [← hpi]; exact iterator_difference_add_begin hcv (by omega) (by omega)
  have hdj : c.iterator_difference (c.iData + j + g) c.begin = j := by
    rw [← hpj]; exact iterator_difference_add_begin hcv (by omega) (by omega)
  have hbg : c.before_gap (c.iData + j + g - 1) = false := by
    simp only [before_gap, gap_active, ne_eq, hne, not_false_eq_true, decide_True, Bool.true_and,
      decide_eq_false_iff_not]
    omega
  have hag : c.after_gap (c.iData + i + g) = true := by
    simp only [after_gap, gap_active, ne_eq, hne, not_false_eq_true, decide_True, Bool.true_and,
      decide_eq_true_eq]
    omega
  have hfl : ¬ (c.iData + i + g = c.iData + j + g) := by omega
  obtain ⟨n1, hn1, hn1i⟩ : ∃ n1 : Nat, (c.iData + i + g - c.iGapEnd).toNat = n1 ∧
      (n1 : Int) = i - P := ⟨_, rfl, by omega⟩
  obtain ⟨c1, e1, s1, l1⟩ := erase_after_gap_loop_spec n1 c (c.iData + i + g - 1)
    (c.iData + j + g - 1) (by omega) (by omega)
  obtain ⟨n2, hn2, hn2i⟩ : ∃ n2 : Nat, (j - i).toNat = n2 ∧ (n2 : Int) = j - i :=
    ⟨_, rfl, by omega⟩
  obtain ⟨c2, e2, s2, l2⟩ := destroy_loop_spec n2 c1 c.iGapEnd (c.iGapEnd + (j - i))
    (by omega)
  have hiff : ∀ q : Int, (c.iData + j + g - 1 - ↑n1 < q ∧ q ≤ c.iData + j + g - 1) ↔
      (c.iGapEnd + (j - i) ≤ q ∧ q < c.iData + j + g) := by
    intro q; constructor <;> intro hq <;> omega
  have hadd : c.iData + j + g - 1 - (c.iData + i + g - 1) = j - i := by omega
  clear hcv hsz hb h1 h2 h3 h4 h5 h6 h7 h8 h9 hne hn1i hn2i hl hg hi0 hij hj
  obtain ⟨a1, a2, a3, a4, a5, a6⟩ := s1
  obtain ⟨b1, b2, b3, b4, b5, b6⟩ := s2
  refine ⟨{ c2 with iGapEnd := c.iGapEnd + (j - i) }, ?_, b1.trans a1, b2.trans a2,
    b3.trans a3, b4.trans a4, b5.trans a5, rfl, ?_⟩
  · unfold erase
    simp only [hfl, if_false, hdi, hdj, hpi, hpj, hnear, if_true, hbg, hag, hn1, e1, a6, hn2, e2,
      b6, Bool.false_eq_true]
  · intro q
    show c2.load q = _
    rw [l2, l1, hadd]
    simp only [hiff]

theorem erased_after_gap {c c' : gap_vector T DefaultGapSize NearnessFactor}
    {P g : Int} (hl : layout c P g) (hg : 0 < g) {i j : Int} (hi0 : P ≤ i) (hij : i < j)
    (hj : j ≤ c.size)
    (f1 : c'.iAlloc = c.iAlloc) (f2 : c'.iData = c.iData) (f3 : c'.iDataEnd = c.iDataEnd)
    (f4 : c'.iStorageEnd = c.iStorageEnd) (f5 : c'.iGapStart = c.iGapStart)
    (f6 : c'.iGapEnd = c.iGapEnd + (j - i))
    (fl : ∀ q, c'.load q =
      if c.iGapEnd ≤ q ∧ q < c.iGapEnd + (j - i) then none
      else if c.iGapEnd + (j - i) ≤ q ∧ q < c.iData + j + g then c.load (q - (j - i))
      else c.load q) :
    erased c i (j - i) c' := by
  have hcv := layout_cursors_valid hl
  have hsz := layout_size hl
  have hb := size_lt_max hcv
  obtain ⟨h1, h2, h3, h4, h5, h6, h7, h8⟩ := id hl
  have h9 := h8 hg
  have hl' : layout c' P (g + (j - i)) := by
    refine ⟨?_, ?_, ?_, by omega, by omega, ?_, ?_, fun _ => ?_⟩ <;> omega
  have hsz' := layout_size hl'
  refine ⟨layout_cursors_valid hl', f1, by omega, ?_, ?_⟩
  · intro t ht0 ht1
    rw [layout_index hl' ht0 (by omega), layout_index hl ht0 (by omega), fl, f2]
    by_cases ht : t < P
    · simp only [ht, if_true]
      rw [if_neg (by omega), if_neg (by omega)]
    · simp only [ht, if_false]
      rw [if_neg (by omega), if_pos (by omega)]
      congr 1; omega
  · intro t ht0 ht1
    rw [layout_index hl' (by omega) (by omega), layout_index hl (by omega) (by omega), fl, f2,
      if_neg (by omega), if_neg (by omega), if_neg (by omega), if_neg (by omega)]
    congr 1; omega

/-- The branch of `erase` for a range that straddles the gap: the buffer it leaves. -/
theorem erase_straddle_run {c : gap_vector T DefaultGapSize NearnessFactor} {P g : Int}
    (hl : layout c P g) (hg : 0 < g) {i j : Int} (hi0 : 0 ≤ i) (hi1 : i < P) (hj0 : P ≤ j)
    (hj1 : j ≤ c.size) (hj2 : j = P → j < c.size)
    (hnear : (c.near_gap (c.iData + i) || c.near_gap (c.iData + j + g)) = true) :
    ∃ c', c.erase (c.iData + i) (c.iData + j + g) = some (c', c'.iterator_add c'.begin i) ∧
      c'.iAlloc = c.iAlloc ∧ c'.iData = c.iData ∧ c'.iDataEnd = c.iDataEnd ∧
      c'.iStorageEnd = c.iStorageEnd ∧ c'.iGapStart = c.iData + i ∧
      c'.iGapEnd = c.iData + j + g ∧
      ∀ q, c'.load q =
        if c.iData + i ≤ q ∧ q < c.iData + j + g ∧ (q < c.iGapStart ∨ c.iGapEnd ≤ q) then none
        else c.load q := by
  have hcv := layout_cursors_valid hl
  have hsz := layout_size hl
  have hb := size_lt_max hcv
  obtain ⟨h1, h2, h3, h4, h5, h6, h7, h8⟩ := id hl
  have h9 := h8 hg
  have hne : c.iGapStart ≠ c.iGapEnd := by omega
  have hpi : c.iterator_add c.begin i = c.iData + i := by
    rw [layout_iterator_add_begin hl hg (by omega) (by omega), if_pos (by omega)]
  have hpj : c.iterator_add c.begin j = c.iData + j + g := by
    rw [layout_iterator_add_begin hl hg (by omega) (by omega), if_neg (by omega)]
  have hdi : c.iterator_difference (c.iData + i) c.begin = i := by
    rw [← hpi]; exact iterator_difference_add_begin hcv (by omega) (by omega)
  have hdj : c.iterator_difference (c.iData + j + g) c.begin = j := by
    rw [← hpj]; exact iterator_difference_add_begin hcv (by omega) (by omega)
  have hbg : c.before_gap (c.iData + j + g - 1) = false := by
    simp only [before_gap, gap_active, ne_eq, hne, not_false_eq_true, decide_True, Bool.true_and,
      decide_eq_false_iff_not]
    omega
  have hag : c.after_gap (c.iData + i) = false := by
    simp only [after_gap, gap_active, ne_eq, hne, not_false_eq_true, decide_True, Bool.true_and,
      decide_eq_false_iff_not]
    omega
  have hfl : ¬ (c.iData + i = c.iData + j + g) := by omega
  obtain ⟨n1, hn1, hn1i⟩ : ∃ n1 : Nat, (c.iData + j + g - (c.iData + i)).toNat = n1 ∧
      (n1 : Int) = j + g - i := ⟨_, rfl, by omega⟩
  obtain ⟨c1, e1, s1, l1⟩ := erase_straddle_loop_spec n1 c (c.iData + i) (c.iData + j + g)
    (by omega)
  clear hcv hsz hb h1 h2 h3 h4 h5 h6 h7 h8 h9 hne hn1i hl hg hi0 hi1 hj0 hj1 hj2
  obtain ⟨a1, a2, a3, a4, a5, a6⟩ := s1
  refine ⟨{ c1 with iGapStart := c.iData + i, iGapEnd := c.iData + j + g }, ?_, a1, a2,
    a3, a4, rfl, rfl, ?_⟩
  · unfold erase
    simp only [hfl, if_false, hdi, hdj, hpi, hpj, hnear, if_true, hbg, hag, hn1, e1,
      Bool.false_eq_true]
  · intro q
    show c1.load q = _
    rw [l1]

theorem erased_straddle {c c' : gap_vector T DefaultGapSize NearnessFactor}
    {P g : Int} (hl : layout c P g) (hg : 0 < g) {i j : Int} (hi0 : 0 ≤ i) (hi1 : i < P)
    (hj0 : P ≤ j) (hj1 : j ≤ c.size)
    (f1 : c'.iAlloc = c.iAlloc) (f2 : c'.iData = c.iData) (f3 : c'.iDataEnd = c.iDataEnd)
    (f4 : c'.iStorageEnd = c.iStorageEnd) (f5 : c'.iGapStart = c.iData + i)
    (f6 : c'.iGapEnd = c.iData + j + g)
    (fl : ∀ q, c'.load q =
      if c.iData + i ≤ q ∧ q < c.iData + j + g ∧ (q < c.iGapStart ∨ c.iGapEnd ≤ q) then none
      else c.load q) :
    erased c i (j - i) c' := by
  have hcv := layout_cursors_valid hl
  have hsz := layout_size hl
  have hb := size_lt_max hcv
  obtain ⟨h1, h2, h3, h4, h5, h6, h7, h8⟩ := id hl
  have h9 := h8 hg
  have hl' : layout c' i (g + (j - i)) := by
    refine ⟨?_, ?_, ?_, by omega, by omega, ?_, ?_, fun _ => ?_⟩ <;> omega
  have hsz' := layout_size hl'
  refine ⟨layout_cursors_valid hl', f1, by omega, ?_, ?_⟩
  · intro t ht0 ht1
    rw [layout_index hl' ht0 (by omega), layout_index hl ht0 (by omega), if_pos (by omega),
      if_pos (by omega), fl, f2, if_neg (by omega)]
  · intro t ht0 ht1
    rw [layout_index hl' (by omega) (by omega), layout_index hl (by omega) (by omega), fl, f2,
      if_neg (by omega), if_neg (by omega), if_neg (by omega)]
    congr 1; omega

/-- The branch of `erase` taken far from the gap (or with an inactive gap): `unsplit()` and a
contiguous shift-left. -/
theorem erase_unsplit_run {c : gap_vector T DefaultGapSize NearnessFactor}
    (h : cursors_valid c) {i j : Int} (hi0 : 0 ≤ i) (hij : i < j) (hj : j ≤ c.size)
    (hnear : (c.near_gap (c.iterator_add c.begin i) || c.near_gap (c.iterator_add c.begin j))
      = false) :
    ∃ c', c.erase (c.iterator_add c.begin i) (c.iterator_add c.begin j) =
        some (c', c'.iterator_add c'.begin i) ∧
      c'.iAlloc = c.iAlloc ∧ c'.iData = c.iData ∧ c'.iDataEnd = c.iData + c.size - (j - i) ∧
      c'.iStorageEnd = c.iStorageEnd ∧ c'.iGapStart = c'.iGapEnd ∧
      (∀ t, 0 ≤ t → t < i → c'.load (c.iData + t) = c.index t) ∧
      (∀ t, i ≤ t → t < c.size - (j - i) → c'.load (c.iData + t) = c.index (t + (j - i))) ∧
      ∀ t, c.size - (j - i) ≤ t → t < c.size → c'.load (c.iData + t) = none := by
  obtain ⟨c1, e, cv, u1, u2, u3, u4, u5, ul⟩ := unsplit_spec h
  have hs0 := size_nonneg h
  have hlt := iterator_add_begin_lt h hi0 hij hj
  have hfl : ¬ (c.iterator_add c.begin i = c.iterator_add c.begin j) := by omega
  have hdi := iterator_difference_add_begin h hi0 (by omega : i ≤ c.size)
  have hdj := iterator_difference_add_begin h (by omega : 0 ≤ j) hj
  have hnfp : c1.iterator_add c1.begin i = c.iData + i := by
    rw [iterator_add_begin_inactive u5 i hi0, u2]
  obtain ⟨n1, hn1, hn1i⟩ : ∃ n1 : Nat,
      (c.iData + c.size - (c.iData + i + (j - i))).toNat = n1 ∧ (n1 : Int) = c.size - j :=
    ⟨_, rfl, by omega⟩
  obtain ⟨c2, e2, s2, l2⟩ := erase_unsplit_loop_spec n1 c1 (c.iData + i + (j - i))
    (c.iData + i) (by omega) (by omega)
  obtain ⟨n2, hn2, hn2i⟩ : ∃ n2 : Nat, (j - i).toNat = n2 ∧ (n2 : Int) = j - i :=
    ⟨_, rfl, by omega⟩
  obtain ⟨c3, e3, s3, l3⟩ := destroy_loop_spec n2 c2 (c.iData + c.size - (j - i))
    (c.iData + c.size) (by omega)
  obtain ⟨a1, a2, a3, a4, a5, a6⟩ := s2
  obtain ⟨b1, b2, b3, b4, b5, b6⟩ := s3
  have hgg : c3.iGapStart = c3.iGapEnd := by rw [b5, b6, a5, a6]; exact u5
  have hret : ({ c3 with iDataEnd := c.iData + c.size + -(j - i) } :
      gap_vector T DefaultGapSize NearnessFactor).iterator_add
      ({ c3 with iDataEnd := c.iData + c.size + -(j - i) } :
        gap_vector T DefaultGapSize NearnessFactor).begin i = c.iData + i := by
    have := iterator_add_begin_inactive
      (c := ({ c3 with iDataEnd := c.iData + c.size + -(j - i) } :
        gap_vector T DefaultGapSize NearnessFactor)) hgg i hi0
    rw [this]
    show c3.iData + i = _
    rw [b2, a2, u2]
  have f1 : ∀ t, 0 ≤ t → t < i → c3.load (c.iData + t) = c.index t := by
    intro t ht0 ht1
    rw [l3, if_neg (by omega), l2, if_neg (by omega)]
    exact ul t ht0 (by omega)
  have f2 : ∀ t, i ≤ t → t < c.size - (j - i) → c3.load (c.iData + t) = c.index (t + (j - i)) := by
    intro t ht0 ht1
    rw [l3, if_neg (by omega), l2, if_pos (by omega), ← ul (t + (j - i)) (by omega) (by omega)]
    congr 1; omega
  have f3 : ∀ t, c.size - (j - i) ≤ t → t < c.size → c3.load (c.iData + t) = none := by
    intro t ht0 ht1
    rw [l3, if_pos (by omega)]
  have hde : c.iData + c.size + -(j - i) = c.iData + c.size - (j - i) := by omega
  clear hs0 hlt hn1i hn2i l2 l3 ul hi0 hij hj
  refine ⟨{ c3 with iDataEnd := c.iData + c.size + -(j - i) }, ?_, ?_, ?_, hde, ?_, hgg,
    f1, f2, f3⟩
  · rw [hret]
    unfold erase
    simp only [hfl, if_false, hdi, hdj, hnear, e, hnfp, u4, hn1, e2, a3, hn2, e3, b3,
      Bool.false_eq_true]
  · exact b1.trans (a1.trans u1)
  · exact b2.trans (a2.trans u2)
  · exact b4.trans (a4.trans u3)

theorem erased_unsplit {c c' : gap_vector T DefaultGapSize NearnessFactor}
    (h : cursors_valid c) {i j : Int} (hi0 : 0 ≤ i) (hij : i < j) (hj : j ≤ c.size)
    (f1 : c'.iAlloc = c.iAlloc) (f2 : c'.iData = c.iData)
    (f3 : c'.iDataEnd = c.iData + c.size - (j - i))
    (f4 : c'.iStorageEnd = c.iStorageEnd) (f5 : c'.iGapStart = c'.iGapEnd)
    (l1 : ∀ t, 0 ≤ t → t < i → c'.load (c.iData + t) = c.index t)
    (l2 : ∀ t, i ≤ t → t < c.size - (j - i) → c'.load (c.iData + t) = c.index (t + (j - i))) :
    erased c i (j - i) c' := by
  have hsz := size_eq h
  have hgn := gap_length_nonneg h
  have hb := size_lt_max h
  have h1 := h.data_le; have h2 := h.end_le; have h3 := h.cap_lt
  have hl' : layout c' 0 0 := by
    refine ⟨?_, ?_, ?_, by omega, by omega, ?_, ?_, fun _ => ?_⟩ <;> omega
  have hsz' := layout_size hl'
  refine ⟨layout_cursors_valid hl', f1, by omega, ?_, ?_⟩
  · intro t ht0 ht1
    rw [layout_index hl' ht0 (by omega), if_neg (by omega), f2]
    simp only [add_zero]
    exact l1 t ht0 ht1
  · intro t ht0 ht1
    rw [layout_index hl' (by omega) (by omega), if_neg (by omega), f2]
    simp only [add_zero]
    exact l2 t ht0 ht1

/-- The call `erase(begin() + i, begin() + j)` on a state with valid cursors. -/
theorem erase_spec {c : gap_vector T DefaultGapSize NearnessFactor} (h : cursors_valid c)
    {i j : Int} (hi0 : 0 ≤ i) (hij : i ≤ j) (hj : j ≤ c.size) :
    ∃ c', c.erase (c.iterator_add c.begin i) (c.iterator_add c.begin j) =
        some (c', c'.iterator_add c'.begin i) ∧ erased c i (j - i) c' := by
  by_cases heq : i = j
  · subst heq
    refine ⟨c, ?_, h, rfl, by omega, fun _ _ _ => rfl, fun t _ _ => ?_⟩
    · unfold erase
      rw [if_pos rfl, iterator_difference_add_begin h hi0 hj]
    · rw [sub_self, add_zero]
  · have hlt : i < j := by omega
    by_cases hnear : (c.near_gap (c.iterator_add c.begin i) ||
        c.near_gap (c.iterator_add c.begin j)) = false
    · obtain ⟨c', e, f1, f2, f3, f4, f5, l1, l2, _⟩ := erase_unsplit_run h hi0 hlt hj hnear
      exact ⟨c', e, erased_unsplit h hi0 hlt hj f1 f2 f3 f4 f5 l1 l2⟩
    · have hnear' : (c.near_gap (c.iterator_add c.begin i) ||
          c.near_gap (c.iterator_add c.begin j)) = true := by
        cases hb : (c.near_gap (c.iterator_add c.begin i) ||
          c.near_gap (c.iterator_add c.begin j))
        · exact absurd hb hnear
        · rfl
      have hne : c.iGapStart ≠ c.iGapEnd := by
        rw [Bool.or_eq_true] at hnear'
        rcases hnear' with hh | hh
        · exact near_gap_active hh
        · exact near_gap_active hh
      have hl := layout_of_cursors_valid h
      have hgl : c.gap_length = c.iGapEnd - c.iGapStart := by simp [gap_length, hne]
      have hg : 0 < c.gap_length := by
        have := h.gap_mid hne; omega
      have hpb := prefix_length_bounds h
      have hsz := layout_size hl
      by_cases hA : j < c.prefix_length ∨ (j = c.prefix_length ∧ j = c.size)
      · have hpi : c.iterator_add c.begin i = c.iData + i := by
          rw [layout_iterator_add_begin hl hg hi0 (by omega), if_pos (by omega)]
        have hpj : c.iterator_add c.begin j = c.iData + j := by
          rw [layout_iterator_add_begin hl hg (by omega) hj, if_pos (by omega)]
        rw [hpi, hpj] at hnear' ⊢
        obtain ⟨c', e, f1, f2, f3, f4, f5, f6, fl⟩ := erase_before_gap_run hl hg hi0 hlt hA hnear'
        exact ⟨c', e, erased_before_gap hl hg hi0 hlt (by omega) f1 f2 f3 f4 f5 f6 fl⟩
      · have hpj : c.iterator_add c.begin j = c.iData + j + c.gap_length := by
          rw [layout_iterator_add_begin hl hg (by omega) hj, if_neg (by omega)]
        by_cases hB : c.prefix_length ≤ i
        · have hpi : c.iterator_add c.begin i = c.iData + i + c.gap_length := by
            rw [layout_iterator_add_begin hl hg hi0 (by omega), if_neg (by omega)]
          rw [hpi, hpj] at hnear' ⊢
          obtain ⟨c', e, f1, f2, f3, f4, f5, f6, fl⟩ :=
            erase_after_gap_run hl hg hB hlt hj hnear'
          exact ⟨c', e, erased_after_gap hl hg hB hlt hj f1 f2 f3 f4 f5 f6 fl⟩
        · have hpi : c.iterator_add c.begin i = c.iData + i := by
            rw [layout_iterator_add_begin hl hg hi0 (by omega), if_pos (by omega)]
          rw [hpi, hpj] at hnear' ⊢
          obtain ⟨c', e, f1, f2, f3, f4, f5, f6, fl⟩ :=
            erase_straddle_run hl hg hi0 (by omega) (by omega) hj (by omega) hnear'
          exact ⟨c', e, erased_straddle hl hg hi0 (by omega) (by omega) hj f1 f2 f3 f4 f5 f6 fl⟩

/-- A list `r` that agrees with `s` before position `i` and with `s` shifted by `j - i` from
`i` on is `s` with the range `[i, j)` removed. -/
theorem list_eq_erase {α : Type} (s r : List α) (i j : Nat) (hij : i ≤ j) (hj : j ≤ s.length)
    (hlen : r.length = s.length - (j - i))
    (h1 : ∀ t, t < i → r[t]? = s[t]?)
    (h2 : ∀ t, i ≤ t → t < s.length - (j - i) → r[t]? = s[t + (j - i)]?) :
    r = s.take i ++ s.drop j := by
  apply List.ext_getElem?
  intro n
  by_cases hn1 : n < i
  · rw [h1 n hn1, List.getElem?_append_left (by simp; omega), List.getElem?_take_of_lt hn1]
  · by_cases hn2 : n < s.length - (j - i)
    · rw [h2 n (by omega) hn2, List.getElem?_append_right (by simp; omega)]
      simp only [List.length_take, List.getElem?_drop]
      congr 1; omega
    · rw [List.getElem?_eq_none (by omega), List.getElem?_eq_none (by simp; omega)]

/-- C2: for every well-formed state holding the logical sequence `s` and all indices
`i ≤ j ≤ |s|`, `erase(begin() + i, begin() + j)` returns and leaves a well-formed state
holding `s[0..i) ++ s[j..)`, of size `|s| - (j - i)`: for a range in the prefix, in the
suffix, straddling the gap, and on the unsplit path. -/
theorem erase_matches_reference (c : gap_vector T DefaultGapSize NearnessFactor) (s : List T)
    (h : represents c s) (i j : Nat) (hij : i ≤ j) (hj : j ≤ s.length) :
    ∃ c' r, c.erase (c.iterator_add c.begin i) (c.iterator_add c.begin j) = some (c', r) ∧
      represents c' (s.take i ++ s.drop j) ∧ (c'.size : Int) = s.length - (j - i) := by
  have hcv := h.1.cursors
  have hsz := represents_size h
  have hobs := represents_observed h
  obtain ⟨c', e, er⟩ := erase_spec hcv (i := (i : Int)) (j := (j : Int)) (by omega) (by omega)
    (by omega)
  have hsz' := er.size
  refine ⟨c', _, e, ?_, by omega⟩
  apply represents_of_observed er.cursors
  have := list_eq_erase (s.map some) c'.observed_sequence i j hij (by simpa using hj)
    (by rw [observed_length, List.length_map]; omega) ?_ ?_
  · rw [this]; simp [List.map_take, List.map_drop]
  · intro t ht
    rw [observed_getElem? _ (by omega), er.before t (by omega) (by omega),
      ← observed_getElem? c (by omega), hobs]
  · intro t ht0 ht1
    rw [List.length_map] at ht1
    rw [observed_getElem? _ (by omega), er.after t (by omega) (by omega), ← hobs,
      observed_getElem? c (by omega)]
    congr 2
    push_cast
    omega

theorem erase_matches_reference_witness :
    represents split_example [10, 20, 30] ∧ 1 ≤ 3 ∧ 3 ≤ [(10 : Int), 20, 30].length ∧
      ∃ c' r, split_example.erase (split_example.iterator_add split_example.begin (1 : Nat))
          (split_example.iterator_add split_example.begin (3 : Nat)) = some (c', r) ∧
        represents c' ([(10 : Int), 20, 30].take 1 ++ [(10 : Int), 20, 30].drop 3) ∧
        (c'.size : Int) = [(10 : Int), 20, 30].length - ((3 : Nat) - (1 : Nat)) :=
  ⟨split_example_represents, by decide, by decide,
    erase_matches_reference split_example [10, 20, 30] split_example_represents 1 3 (by decide)
      (by decide)⟩

/-- One `++` step of an iterator at logical position `i < size()` leads to position `i + 1`. -/
theorem iterator_add_succ {c : gap_vector T DefaultGapSize NearnessFactor} (h : cursors_valid c)
    {i : Int} (h0 : 0 ≤ i) (h1 : i < c.size) :
    c.iterator_add (c.iterator_add c.begin i) 1 = c.iterator_add c.begin (i + 1) := by
  rw [iterator_add_begin h h0 (by omega), iterator_add_begin h (by omega) (by omega)]
  rw [size_eq h] at h1 ⊢
  obtain ⟨h1, h2, h3, h4, h5, h6⟩ := h
  unfold iterator_add advance_forward gap_size
  unfold gap_active prefix_length gap_length to_size to_ptrdiff at *
  by_cases hg : c.iGapStart = c.iGapEnd
  · simp only [hg, ne_eq, not_true_eq_false, decide_False, Bool.not_false, Bool.true_or,
      ite_true, ite_false] at *
    split_ifs <;> (try simp only [true_and, and_true] at *) <;> omega
  · have := h4 hg; have := h5 hg; have := h6 hg
    have hlt : c.iGapStart < c.iGapEnd := by omega
    simp only [hg, ne_eq, not_false_eq_true, decide_True, Bool.not_true, Bool.false_or,
      decide_eq_true_eq, ite_true, decide_not, Bool.not_eq_true', decide_eq_false_iff_not,
      ite_not, Bool.and_eq_true, Bool.or_eq_true, gt_iff_lt, not_lt, Bool.true_and,
      ge_iff_le] at *
    split_ifs <;> (try simp only [true_and, and_true] at *) <;> omega


theorem distance_end_begin {c : gap_vector T DefaultGapSize NearnessFactor}
    (h : cursors_valid c) : c.iterator_difference c.end_ c.begin = c.size := by
  rw [end_eq_iterator_add h, iterator_difference_add_begin h (size_nonneg h) (le_refl _)]

theorem load_iterator_add_begin {c : gap_vector T DefaultGapSize NearnessFactor} {s : List T}
    (h : represents c s) {i : Nat} (hi : i < s.length) :
    c.load (c.iterator_add c.begin i) = some s[i] := by
  have hsz := represents_size h
  rw [← index_eq_load_iterator_add h.1.cursors (by omega) (by omega), represents_index h i hi,
    List.getElem?_eq_getElem hi]

/-- Walking the iterators from `begin() + i` to `end()` reads the elements `s[i..)`. -/
theorem range_values_spec {c : gap_vector T DefaultGapSize NearnessFactor} {s : List T}
    (h : represents c s) :
    ∀ (n i : Nat), i + n = s.length →
      c.range_values n (c.iterator_add c.begin i) c.end_ = some (s.drop i) := by
  have hcv := h.1.cursors
  have hsz := represents_size h
  intro n
  induction n with
  | zero =>
    intro i hi
    have : (i : Int) = c.size := by omega
    rw [this, ← end_eq_iterator_add hcv]
    simp only [range_values, ne_eq, not_true_eq_false, if_false]
    rw [List.drop_of_length_le (by omega)]
  | succ n ih =>
    intro i hi
    have hlt := iterator_add_begin_lt hcv (i := (i : Int)) (j := c.size) (by omega) (by omega)
      (le_refl _)
    rw [← end_eq_iterator_add hcv] at hlt
    have hne : c.iterator_add c.begin i ≠ c.end_ := ne_of_lt hlt
    have hstep := iterator_add_succ hcv (i := (i : Int)) (by omega) (by omega)
    have ih' := ih (i + 1) (by omega)
    push_cast at ih'
    simp only [range_values, ne_eq, hne, not_false_eq_true, if_true, hstep, ih',
      load_iterator_add_begin h (show i < s.length by omega)]
    exact congrArg some (List.drop_eq_getElem_cons (show i < s.length by omega)).symm

theorem values_spec {c : gap_vector T DefaultGapSize NearnessFactor} {s : List T}
    (h : represents c s) : c.values = some s := by
  have hcv := h.1.cursors
  have hsz := represents_size h
  unfold values
  rw [distance_end_begin hcv, hsz, Int.toNat_ofNat]
  have := range_values_spec h s.length 0 (by omega)
  simp only [Nat.cast_zero, List.drop_zero] at this
  rw [← this]
  rfl


/-- The loop of `std::equal` from position `i` on, over two states of the same size. -/
theorem equal_loop_spec [DecidableEq T] {a b : gap_vector T DefaultGapSize NearnessFactor}
    {s t : List T} (ha : represents a s) (hb : represents b t) (hlen : s.length = t.length) :
    ∀ (n i : Nat), i + n = s.length →
      equal_loop a b n (a.iterator_add a.begin i) a.end_ (b.iterator_add b.begin i) =
        some (decide (s.drop i = t.drop i)) := by
  have hca := ha.1.cursors
  have hcb := hb.1.cursors
  have hsa := represents_size ha
  have hsb := represents_size hb
  intro n
  induction n with
  | zero =>
    intro i hi
    have : (i : Int) = a.size := by omega
    rw [this, ← end_eq_iterator_add hca]
    simp only [equal_loop, ne_eq, not_true_eq_false, if_false]
    rw [List.drop_of_length_le (by omega), List.drop_of_length_le (by omega)]
    rfl
  | succ n ih =>
    intro i hi
    have hlt := iterator_add_begin_lt hca (i := (i : Int)) (j := a.size) (by omega) (by omega)
      (le_refl _)
    rw [← end_eq_iterator_add hca] at hlt
    have hne : a.iterator_add a.begin i ≠ a.end_ := ne_of_lt hlt
    have hstepa := iterator_add_succ hca (i := (i : Int)) (by omega) (by omega)
    have hstepb := iterator_add_succ hcb (i := (i : Int)) (by omega) (by omega)
    have ih' := ih (i + 1) (by omega)
    push_cast at ih'
    have his : i < s.length := by omega
    have hit : i < t.length := by omega
    simp only [equal_loop, ne_eq, hne, not_false_eq_true, if_true, hstepa, hstepb, ih',
      load_iterator_add_begin ha his, load_iterator_add_begin hb hit]
    rw [List.drop_eq_getElem_cons his, List.drop_eq_getElem_cons hit]
    by_cases hxy : s[i] = t[i]
    · rw [if_pos hxy]
      exact congrArg some (decide_eq_decide.mpr (by
        rw [List.cons.injEq]; exact ⟨fun h => ⟨hxy, h⟩, fun h => h.2⟩))
    · rw [if_neg hxy]
      exact congrArg some (Eq.symm (decide_eq_false (by
        rw [List.cons.injEq]; exact fun h => hxy h.1)))

/-- What `operator==` computes on two well-formed states. -/
theorem operator_eq_spec [DecidableEq T] {a b : gap_vector T DefaultGapSize NearnessFactor}
    {s t : List T} (ha : represents a s) (hb : represents b t) :
    operator_eq a b = some (decide (s = t)) := by
  have hsa := represents_size ha
  have hsb := represents_size hb
  unfold operator_eq
  by_cases hlen : s.length = t.length
  · rw [if_pos (by omega), distance_end_begin ha.1.cursors, hsa, Int.toNat_ofNat]
    have := equal_loop_spec ha hb hlen s.length 0 (by omega)
    simp only [Nat.cast_zero, List.drop_zero] at this
    rw [← this]
    rfl
  · rw [if_neg (by omega)]
    have : s ≠ t := fun e => hlen (by rw [e])
    simp [this]


theorem iterator_add_begin_eq_end {c : gap_vector T DefaultGapSize NearnessFactor}
    (h : cursors_valid c) {i : Int} (h0 : 0 ≤ i) (h1 : i ≤ c.size) :
    c.iterator_add c.begin i = c.end_ ↔ i = c.size := by
  constructor
  · intro e
    by_contra hne
    have hlt := iterator_add_begin_lt h (i := i) (j := c.size) h0 (by omega) (le_refl _)
    rw [← end_eq_iterator_add h] at hlt
    omega
  · intro e
    rw [e, ← end_eq_iterator_add h]

/-- The loop of `std::lexicographical_compare_three_way` from position `i` on. -/
theorem three_way_loop_spec [Ord T] {a b : gap_vector T DefaultGapSize NearnessFactor}
    {s t : List T} (ha : represents a s) (hb : represents b t) :
    ∀ (n i : Nat), i + n = s.length → i ≤ t.length →
      three_way_loop a b n (a.iterator_add a.begin i) a.end_ (b.iterator_add b.begin i) b.end_ =
        some (lexicographic (s.drop i) (t.drop i)) := by
  have hca := ha.1.cursors
  have hcb := hb.1.cursors
  have hsa := represents_size ha
  have hsb := represents_size hb
  intro n
  induction n with
  | zero =>
    intro i hi hit
    have hia : a.iterator_add a.begin i = a.end_ :=
      (iterator_add_begin_eq_end hca (by omega) (by omega)).2 (by omega)
    have hib := iterator_add_begin_eq_end hcb (i := (i : Int)) (by omega) (by omega)
    simp only [three_way_loop, hia, ne_eq, not_true_eq_false, if_false]
    rw [List.drop_of_length_le (l := s) (by omega)]
    by_cases hit2 : i = t.length
    · rw [if_pos (hib.2 (by omega)), List.drop_of_length_le (by omega)]
      rfl
    · rw [if_neg (fun e => hit2 (by have := hib.1 e; omega)),
        List.drop_eq_getElem_cons (show i < t.length by omega)]
      rfl
  | succ n ih =>
    intro i hi hit
    have hia := iterator_add_begin_eq_end hca (i := (i : Int)) (by omega) (by omega)
    have hib := iterator_add_begin_eq_end hcb (i := (i : Int)) (by omega) (by omega)
    have hne : a.iterator_add a.begin i ≠ a.end_ := fun e => by have := hia.1 e; omega
    have his : i < s.length := by omega
    have hstepa := iterator_add_succ hca (i := (i : Int)) (by omega) (by omega)
    simp only [three_way_loop, ne_eq, hne, not_false_eq_true, if_true]
    rw [List.drop_eq_getElem_cons his]
    by_cases hit2 : i = t.length
    · rw [if_pos (hib.2 (by omega)), List.drop_of_length_le (l := t) (by omega)]
      rfl
    · have hit3 : i < t.length := by omega
      have hstepb := iterator_add_succ hcb (i := (i : Int)) (by omega) (by omega)
      have ih' := ih (i + 1) (by omega) (by omega)
      push_cast at ih'
      rw [if_neg (fun e => hit2 (by have := hib.1 e; omega)),
        List.drop_eq_getElem_cons hit3]
      simp only [load_iterator_add_begin ha his, load_iterator_add_begin hb hit3, hstepa, hstepb,
        ih', lexicographic]
      by_cases hc : compare s[i] t[i] = Ordering.eq
      · simp only [hc, ne_eq, not_true_eq_false, if_false]
      · simp only [hc, ne_eq, not_false_eq_true, if_true]

/-- What `operator<=>` computes on two well-formed states. -/
theorem operator_cmp_spec [Ord T] {a b : gap_vector T DefaultGapSize NearnessFactor}
    {s t : List T} (ha : represents a s) (hb : represents b t) :
    operator_cmp a b = some (lexicographic s t) := by
  have hsa := represents_size ha
  unfold operator_cmp
  rw [distance_end_begin ha.1.cursors, hsa, Int.toNat_ofNat]
  have := three_way_loop_spec ha hb s.length 0 (by omega) (by omega)
  simp only [Nat.cast_zero, List.drop_zero] at this
  rw [← this]
  rfl

theorem lexicographic_eq_iff [LinearOrder T] :
    ∀ (s t : List T), lexicographic s t = Ordering.eq ↔ s = t
  | [], [] => by simp [lexicographic]
  | [], _ :: _ => by simp [lexicographic]
  | _ :: _, [] => by simp [lexicographic]
  | x :: xs, y :: ys => by
    unfold lexicographic
    by_cases hxy : compare x y = Ordering.eq
    · rw [if_neg (by simpa using hxy), lexicographic_eq_iff xs ys, List.cons.injEq]
      have := compare_eq_iff_eq.1 hxy
      exact ⟨fun h => ⟨this, h⟩, fun h => h.2⟩
    · rw [if_pos hxy, List.cons.injEq]
      exact ⟨fun h => absurd h hxy, fun h => absurd (compare_eq_iff_eq.2 h.1) hxy⟩

theorem lexicographic_lt_iff [LinearOrder T] :
    ∀ (s t : List T), lexicographic s t = Ordering.lt ↔ List.Lex (· < ·) s t
  | [], [] => by
    simp only [lexicographic]
    exact ⟨nofun, nofun⟩
  | [], _ :: _ => by
    simp only [lexicographic, true_iff]
    exact List.Lex.nil
  | _ :: _, [] => by
    simp only [lexicographic]
    exact ⟨nofun, nofun⟩
  | x :: xs, y :: ys => by
    unfold lexicographic
    by_cases hxy : compare x y = Ordering.eq
    · have e := compare_eq_iff_eq.1 hxy
      subst e
      rw [if_neg (by simpa using hxy), lexicographic_lt_iff xs ys]
      constructor
      · exact fun h => List.Lex.cons h
      · intro h
        cases h with
        | cons h => exact h
        | rel h => exact absurd h (lt_irrefl _)
    · rw [if_pos hxy, compare_lt_iff_lt]
      constructor
      · exact fun h => List.Lex.rel h
      · intro h
        cases h with
        | cons h => exact absurd (compare_eq_iff_eq.2 rfl) hxy
        | rel h => exact h

theorem lexicographic_gt_iff [LinearOrder T] :
    ∀ (s t : List T), lexicographic s t = Ordering.gt ↔ List.Lex (· < ·) t s
  | [], [] => by
    simp only [lexicographic]
    exact ⟨nofun, nofun⟩
  | [], _ :: _ => by
    simp only [lexicographic]
    exact ⟨nofun, nofun⟩
  | _ :: _, [] => by
    simp only [lexicographic, true_iff]
    exact List.Lex.nil
  | x :: xs, y :: ys => by
    unfold lexicographic
    by_cases hxy : compare x y = Ordering.eq
    · have e := compare_eq_iff_eq.1 hxy
      subst e
      rw [if_neg (by simpa using hxy), lexicographic_gt_iff xs ys]
      constructor
      · exact fun h => List.Lex.cons h
      · intro h
        cases h with
        | cons h => exact h
        | rel h => exact absurd h (lt_irrefl _)
    · rw [if_pos hxy, compare_gt_iff_gt]
      constructor
      · exact fun h => List.Lex.rel h
      · intro h
        cases h with
        | cons h => exact absurd (compare_eq_iff_eq.2 rfl) hxy
        | rel h => exact h


/-- Whether a state holds `s` does not depend on its allocator. -/
theorem represents_of_storage {c c' : gap_vector T DefaultGapSize NearnessFactor} {s : List T}
    (h : represents c s) (e0 : c'.slot = c.slot) (e1 : c'.iData = c.iData)
    (e2 : c'.iDataEnd = c.iDataEnd) (e3 : c'.iStorageEnd = c.iStorageEnd)
    (e4 : c'.iGapStart = c.iGapStart) (e5 : c'.iGapEnd = c.iGapEnd) : represents c' s := by
  obtain ⟨s0, a0, d0, d1, d2, d3, d4⟩ := c
  obtain ⟨s0', a0', d0', d1', d2', d3', d4'⟩ := c'
  simp only at e0 e1 e2 e3 e4 e5
  subst e0 e1 e2 e3 e4 e5
  exact ⟨⟨⟨h.1.cursors.data_le, h.1.cursors.end_le, h.1.cursors.cap_lt, h.1.cursors.gap_lo,
    h.1.cursors.gap_mid, h.1.cursors.gap_hi⟩, h.1.live⟩, h.2⟩

/-- What `unsplit()` does to a state holding `s`: it still holds `s`, in `[iData, iData + |s|)`,
with the same allocation. -/
theorem unsplit_represents {c : gap_vector T DefaultGapSize NearnessFactor} {s : List T}
    (h : represents c s) :
    ∃ c', c.unsplit = some c' ∧ represents c' s ∧ c'.iAlloc = c.iAlloc ∧ c'.iData = c.iData ∧
      c'.iStorageEnd = c.iStorageEnd ∧ c'.iDataEnd = c.iData + c.size ∧
      c'.iGapStart = c'.iGapEnd ∧ c'.size = c.size ∧ c'.capacity = c.capacity := by
  have hcv := h.1.cursors
  have hsz := represents_size h
  obtain ⟨c', e, cv, a1, a2, a3, a4, a5, l⟩ := unsplit_spec hcv
  have hgl : c'.gap_length = 0 := by simp [gap_length, a5]
  have hsz' : c'.size = c.size := by rw [size_eq cv, hgl, a4, a2]; omega
  have hb := size_lt_max hcv
  refine ⟨c', e, ?_, a1, a2, a3, a4, a5, hsz', ?_⟩
  · apply represents_of_index cv (by omega)
    intro j hj
    rw [index_eq_load, adjusted_index_eq cv (by omega) (by omega), hgl, a2]
    have : (if (j : Int) < c'.prefix_length then (j : Int) else (j : Int) + 0) = j := by
      split_ifs <;> omega
    rw [this, l j (by omega) (by omega)]
    exact represents_index h j hj
  · rw [capacity_eq cv, capacity_eq hcv, a2, a3]

/-- What `clear()` does to a state with valid cursors: the empty buffer on the same allocation. -/
theorem clear_spec {c : gap_vector T DefaultGapSize NearnessFactor} (h : cursors_valid c) :
    ∃ c', c.clear = some c' ∧ represents c' [] ∧ c'.iAlloc = c.iAlloc ∧ c'.iData = c.iData ∧
      c'.iStorageEnd = c.iStorageEnd ∧ c'.iDataEnd = c.iData ∧ c'.iGapStart = c'.iGapEnd := by
  obtain ⟨c1, e, cv, a1, a2, a3, a4, a5, _⟩ := unsplit_spec h
  have hs0 := size_nonneg h
  have h1 := h.data_le; have h2 := h.end_le; have h3 := h.cap_lt
  obtain ⟨n, hn, hni⟩ : ∃ n : Nat, (c1.iDataEnd - c1.iData).toNat = n ∧ (n : Int) = c.size :=
    ⟨_, rfl, by omega⟩
  obtain ⟨c2, e2, sc, _⟩ := destroy_loop_spec n c1 c1.iData c1.iDataEnd (by omega)
  obtain ⟨b1, b2, b3, b4, b5, b6⟩ := sc
  have hcv' : cursors_valid ({ c2 with iDataEnd := c2.iData } :
      gap_vector T DefaultGapSize NearnessFactor) := by
    refine ⟨le_refl _, ?_, ?_, ?_, ?_, ?_⟩
    · show c2.iData ≤ c2.iStorageEnd
      rw [b2, b4, a2, a3]; omega
    · show c2.iStorageEnd - c2.iData < _
      rw [b2, b4, a2, a3]; exact h3
    · intro hh; exact absurd (by show c2.iGapStart = c2.iGapEnd; rw [b5, b6]; exact a5) hh
    · intro hh; exact absurd (by show c2.iGapStart = c2.iGapEnd; rw [b5, b6]; exact a5) hh
    · intro hh; exact absurd (by show c2.iGapStart = c2.iGapEnd; rw [b5, b6]; exact a5) hh
  refine ⟨{ c2 with iDataEnd := c2.iData }, ?_, ?_, ?_, ?_, ?_, ?_, ?_⟩
  · unfold clear
    rw [e]
    simp only [hn, e2]
  · apply represents_of_index hcv'
    · rw [size_eq hcv']
      have : ({ c2 with iDataEnd := c2.iData } :
          gap_vector T DefaultGapSize NearnessFactor).gap_length = 0 := by
        simp only [gap_length, b5, b6, a5, ne_eq, not_true_eq_false, if_false]
      rw [this]
      show c2.iData - c2.iData - 0 = ((([] : List T).length : Nat) : Int)
      simp
    · intro j hj
      simp at hj
  · show c2.iAlloc = _
    rw [b1, a1]
  · show c2.iData = _
    rw [b2, a2]
  · show c2.iStorageEnd = _
    rw [b4, a3]
  · show c2.iData = _
    rw [b2, a2]
  · show c2.iGapStart = c2.iGapEnd
    rw [b5, b6]; exact a5

/-- What a `reserve(n)` that reallocates does to a state holding `s`. -/
theorem reserve_represents {c : gap_vector T DefaultGapSize NearnessFactor} {s : List T}
    (h : represents c s) {n b : Int} (hn : c.capacity < n) (hn2 : n < 9223372036854775808)
    (ha : c.iAlloc n = some b) :
    ∃ c', c.reserve n = outcome.returned c' ∧ represents c' s ∧ c'.iAlloc = c.iAlloc ∧
      c'.capacity = n ∧ c'.iGapStart = c'.iGapEnd ∧ c'.iData = b ∧
      c'.iDataEnd = b + s.length ∧ c'.iStorageEnd = b + n := by
  have hcv := h.1.cursors
  have hsz := represents_size h
  have hs0 := size_nonneg hcv
  have hcap := capacity_eq hcv
  have hse := size_eq hcv
  have hgn := gap_length_nonneg hcv
  have h1 := hcv.data_le; have h2 := hcv.end_le; have h3 := hcv.cap_lt
  obtain ⟨c', e, r2, r3, r4, r5, r6, r7, _⟩ := reserve_spec hcv hn hn2 ha
  have cv : cursors_valid c' :=
    ⟨by omega, by omega, by omega, fun hh => absurd r6 hh, fun hh => absurd r6 hh,
      fun hh => absurd r6 hh⟩
  have hgl : c'.gap_length = 0 := by simp [gap_length, r6]
  have hsz' : c'.size = c.size := by rw [size_eq cv, hgl, r4, r3]; omega
  have hb := size_lt_max hcv
  refine ⟨c', e, ?_, r2, by rw [capacity_eq cv, r5, r3]; omega, r6, r3, by omega, r5⟩
  apply represents_of_index cv (by omega)
  intro j hj
  rw [index_eq_load, adjusted_index_eq cv (by omega) (by omega), hgl, r3]
  have : (if (j : Int) < c'.prefix_length then (j : Int) else (j : Int) + 0) = j := by
    split_ifs <;> omega
  rw [this, r7 j (by omega) (by omega)]
  exact represents_index h j hj


theorem insert_returned {c c' : gap_vector T DefaultGapSize NearnessFactor} {p m : Int} {x : T}
    (h : c.insert p x = outcome.returned (c', m)) :
    ∃ c1, c.allocate_from_gap p 1 = outcome.returned (c1, m) ∧ c1.construct m (some x) = c' := by
  rw [insert_external] at h
  cases hh : c.allocate_from_gap p 1 with
  | returned r =>
    rw [hh] at h
    simp only [outcome.bind, outcome.returned.injEq, Prod.mk.injEq] at h
    obtain ⟨r1, r2⟩ := r
    simp only at h
    obtain ⟨h1, h2⟩ := h
    subst h2
    exact ⟨r1, rfl, h1⟩
  | bad_alloc r => rw [hh] at h; simp [outcome.bind] at h
  | undefined => rw [hh] at h; simp [outcome.bind] at h

theorem list_splice_step {α : Type} (s xs : List α) (x : α) (i : Nat) (hi : i ≤ s.length) :
    (s.take i ++ [x] ++ s.drop i).take (i + 1) ++ xs ++ (s.take i ++ [x] ++ s.drop i).drop (i + 1) =
      s.take i ++ (x :: xs) ++ s.drop i := by
  have hl : (s.take i ++ [x]).length = i + 1 := by simp; omega
  rw [List.take_left' hl, List.drop_left' hl]
  simp

/-- The loop of the range overload of `insert` at logical index `i` of a state holding `s`:
the elements of the range are spliced into `s` at `i`, in order. -/
theorem insert_range_loop_spec (hG0 : 0 < DefaultGapSize) :
    ∀ (xs : List T) (c : gap_vector T DefaultGapSize NearnessFactor) (s : List T) (i : Nat),
      represents c s → i ≤ s.length → allocator_total c.iAlloc →
      times_growth_factor (((s.length + xs.length : Nat) : Int) + DefaultGapSize + 1) < 9223372036854775808 →
      ∃ c', insert_range_loop xs c i = outcome.returned c' ∧
        represents c' (s.take i ++ xs ++ s.drop i) ∧ c'.iAlloc = c.iAlloc := by
  intro xs
  induction xs with
  | nil =>
    intro c s i h _ _ _
    exact ⟨c, rfl, by simpa using h, rfl⟩
  | cons x xs ih =>
    intro c s i h hi halloc hfit
    have hcv := h.1.cursors
    have hsz := represents_size h
    have hroom := room_eq hcv
    have hcap := capacity_eq hcv
    have hse := size_eq hcv
    have hgn := gap_length_nonneg hcv
    have hdl := hcv.data_le
    have hel := hcv.end_le
    have hlow := lt_of_le_of_lt (le_times_growth_factor _) hfit
    simp only [List.length_cons] at hfit hlow
    push_cast at hfit hlow
    obtain ⟨c1, m, e1, r1, a1, s1, _⟩ := insert_spec h i hi x hG0 (by omega) (fun hr => by
      have hfit' : times_growth_factor (c.capacity + DefaultGapSize + 1) < 9223372036854775808 :=
        lt_of_le_of_lt (times_growth_factor_mono (by omega)) hfit
      refine ⟨hfit', halloc _ (grow_request_nonneg c 1) ?_⟩
      unfold grow_request
      rw [to_size_of_bounds (z := c.capacity + DefaultGapSize + 1) (by omega)
        (by have := le_times_growth_factor (c.capacity + DefaultGapSize + 1); omega)]
      exact hfit')
    obtain ⟨c0, e0, ec⟩ := insert_returned e1
    obtain ⟨c2, e2, r2, a2⟩ := ih c1 (s.take i ++ [x] ++ s.drop i) (i + 1) r1
      (by simp; omega) (by rw [a1]; exact halloc)
      (lt_of_le_of_lt (times_growth_factor_mono (by
        simp only [List.length_append, List.length_singleton, List.length_take, List.length_drop]
        push_cast
        omega)) hfit)
    rw [list_splice_step s xs x i hi] at r2
    refine ⟨c2, ?_, r2, by rw [a2, a1]⟩
    simp only [insert_range_loop, e0, outcome.bind, ec]
    push_cast at e2
    exact e2

/-- The call `insert(begin() + i, first, last)` on a state holding `s`, the range holding `xs`. -/
theorem insert_range_spec (hG0 : 0 < DefaultGapSize)
    {c : gap_vector T DefaultGapSize NearnessFactor} {s : List T} (h : represents c s)
    (i : Nat) (hi : i ≤ s.length) (xs : List T) (halloc : allocator_total c.iAlloc)
    (hfit : times_growth_factor (((s.length + xs.length : Nat) : Int) + DefaultGapSize + 1) <
      9223372036854775808) :
    ∃ c', c.insert_range (c.iterator_add c.begin i) xs =
        outcome.returned (c', c'.iterator_add c'.begin i) ∧
      represents c' (s.take i ++ xs ++ s.drop i) ∧ c'.iAlloc = c.iAlloc := by
  have hsz := represents_size h
  obtain ⟨c', e, r, a⟩ := insert_range_loop_spec hG0 xs c s i h hi halloc hfit
  refine ⟨c', ?_, r, a⟩
  unfold insert_range
  simp only [iterator_difference_add_begin h.1.cursors (i := (i : Int)) (by omega) (by omega), e,
    outcome.bind]


theorem iterator_add_zero (c : gap_vector T DefaultGapSize NearnessFactor) (p : Int) :
    c.iterator_add p ((0 : Nat) : Int) = p := rfl

/-- The copy constructor builds a state holding the sequence of `other`. -/
theorem copy_constructed_spec (hG0 : 0 < DefaultGapSize) (alloc : Int → Option Int)
    {other : gap_vector T DefaultGapSize NearnessFactor} {s : List T} (h : represents other s)
    (halloc : allocator_total alloc)
    (hfit : times_growth_factor ((s.length : Int) + DefaultGapSize + 1) < 9223372036854775808) :
    ∃ c', copy_constructed alloc other = outcome.returned c' ∧ represents c' s ∧
      c'.iAlloc = alloc := by
  have h0 : represents (default_constructed alloc : gap_vector T DefaultGapSize NearnessFactor) [] :=
    default_constructed_represents alloc
  obtain ⟨c', e, r, a⟩ := insert_range_spec hG0 h0 0 (Nat.zero_le _) s halloc
    (by simpa using hfit)
  rw [iterator_add_zero] at e
  refine ⟨c', ?_, by simpa using r, a⟩
  unfold copy_constructed
  rw [values_spec h]
  simp only [e, outcome.bind]

/-- The call `assign(first, last)` replaces the contents by the elements of the range. -/
theorem assign_spec (hG0 : 0 < DefaultGapSize)
    {c : gap_vector T DefaultGapSize NearnessFactor} (h : cursors_valid c) (xs : List T)
    (halloc : allocator_total c.iAlloc)
    (hfit : times_growth_factor ((xs.length : Int) + DefaultGapSize + 1) < 9223372036854775808) :
    ∃ c', c.assign xs = outcome.returned c' ∧ represents c' xs ∧ c'.iAlloc = c.iAlloc := by
  obtain ⟨c1, e1, r1, a1, _⟩ := clear_spec h
  obtain ⟨c', e, r, a⟩ := insert_range_spec hG0 r1 0 (Nat.zero_le _) xs (by rw [a1]; exact halloc)
    (by simpa using hfit)
  rw [iterator_add_zero] at e
  refine ⟨c', ?_, by simpa using r, by rw [a, a1]⟩
  unfold assign
  rw [e1]
  simp only [e, outcome.bind]

/-- Copy assignment from a distinct object replaces the contents by the sequence of `other`. -/
theorem copy_assignment_spec (hG0 : 0 < DefaultGapSize)
    {c other : gap_vector T DefaultGapSize NearnessFactor} {s : List T}
    (h : cursors_valid c) (ho : represents other s) (halloc : allocator_total c.iAlloc)
    (hfit : times_growth_factor ((s.length : Int) + DefaultGapSize + 1) < 9223372036854775808) :
    ∃ c', c.copy_assignment other = outcome.returned c' ∧ represents c' s ∧
      c'.iAlloc = c.iAlloc := by
  unfold copy_assignment
  rw [values_spec ho]
  exact assign_spec hG0 h s halloc hfit

theorem cursors_valid_of_storage {c c' : gap_vector T DefaultGapSize NearnessFactor}
    (h : cursors_valid c) (e1 : c'.iData = c.iData)
    (e2 : c'.iDataEnd = c.iDataEnd) (e3 : c'.iStorageEnd = c.iStorageEnd)
    (e4 : c'.iGapStart = c.iGapStart) (e5 : c'.iGapEnd = c.iGapEnd) : cursors_valid c' := by
  obtain ⟨h1, h2, h3, h4, h5, h6⟩ := h
  refine ⟨?_, ?_, ?_, ?_, ?_, ?_⟩ <;> simp only [e1, e2, e3, e4, e5] <;> assumption

theorem destructor_returns {c : gap_vector T DefaultGapSize NearnessFactor}
    (h : cursors_valid c) : c.destructor = some () := by
  obtain ⟨c', e, _⟩ := clear_spec h
  simp [destructor, e]

/-- What `shrink_to_fit()` does to a state holding `s`: it holds `s` in the allocation the copy
constructor obtained. -/
theorem shrink_to_fit_spec (hG0 : 0 < DefaultGapSize) (alloc : Int → Option Int)
    {c : gap_vector T DefaultGapSize NearnessFactor} {s : List T} (h : represents c s)
    (halloc : allocator_total alloc)
    (hfit : times_growth_factor ((s.length : Int) + DefaultGapSize + 1) < 9223372036854775808) :
    ∃ temp c', copy_constructed alloc c = outcome.returned temp ∧
      c.shrink_to_fit alloc = outcome.returned c' ∧ represents c' s ∧ c'.iAlloc = c.iAlloc ∧
      c'.capacity = temp.capacity := by
  obtain ⟨temp, e, r, a⟩ := copy_constructed_spec hG0 alloc h halloc hfit
  have hd : (temp.swap c).1.destructor = some () :=
    destructor_returns (cursors_valid_of_storage h.1.cursors rfl rfl rfl rfl rfl)
  refine ⟨temp, (temp.swap c).2, e, ?_, represents_of_storage r rfl rfl rfl rfl rfl rfl, rfl, rfl⟩
  unfold shrink_to_fit
  simp only [e, outcome.bind, hd]


theorem contiguous_example_represents : represents contiguous_example [10, 20, 30] := by
  refine ⟨⟨⟨by decide, by decide, by decide, fun h => absurd rfl h, fun h => absurd rfl h,
    fun h => absurd rfl h⟩, ?_⟩, by decide⟩
  intro p h1 h2 _
  simp only [contiguous_example] at h1 h2
  have : p = 8192 ∨ p = 8193 ∨ p = 8194 := by omega
  rcases this with rfl | rfl | rfl <;> decide

/-- C16: for well-formed buffers `a` and `b` holding `s` and `t`, `a == b` returns, and it is
`true` exactly when `size(a) == size(b)` and `a[i] == b[i]` for every `i < size(a)`, which is
exactly when `s = t`: the result is a function of the two logical sequences alone, so the
gap positions, gap sizes and capacities of the operands do not enter. -/
theorem operator_eq_compares_sequences [DecidableEq T]
    (a b : gap_vector T DefaultGapSize NearnessFactor) (s t : List T)
    (ha : represents a s) (hb : represents b t) :
    operator_eq a b = some (decide (s = t)) ∧
      (operator_eq a b = some true ↔
        a.size = b.size ∧ ∀ i : Nat, (i : Int) < a.size → a.index i = b.index i) ∧
      (operator_eq a b = some true ↔ a.logical_sequence = b.logical_sequence) := by
  have hsa := represents_size ha
  have hsb := represents_size hb
  have hspec := operator_eq_spec ha hb
  have hst : operator_eq a b = some true ↔ s = t := by
    rw [hspec]; simp
  refine ⟨hspec, ?_, ?_⟩
  · rw [hst]
    constructor
    · intro e
      subst e
      refine ⟨by omega, fun i hi => ?_⟩
      rw [represents_index ha i (by omega), represents_index hb i (by omega)]
    · intro ⟨e1, e2⟩
      apply List.ext_getElem?
      intro i
      by_cases hi : i < s.length
      · have := e2 i (by omega)
        rw [represents_index ha i hi, represents_index hb i (by omega)] at this
        exact this
      · rw [List.getElem?_eq_none (by omega), List.getElem?_eq_none (by omega)]
  · rw [hst, ha.2, hb.2]
    constructor
    · intro e; rw [e]
    · intro e; exact List.map_injective_iff.2 (Option.some_injective T) e

theorem operator_eq_compares_sequences_witness :
    represents split_example [10, 20, 30] ∧ represents contiguous_example [10, 20, 30] ∧
      (operator_eq split_example contiguous_example =
          some (decide ([(10 : Int), 20, 30] = [10, 20, 30])) ∧
        (operator_eq split_example contiguous_example = some true ↔
          split_example.size = contiguous_example.size ∧
            ∀ i : Nat, (i : Int) < split_example.size →
              split_example.index i = contiguous_example.index i) ∧
        (operator_eq split_example contiguous_example = some true ↔
          split_example.logical_sequence = contiguous_example.logical_sequence)) :=
  ⟨split_example_represents, contiguous_example_represents,
    operator_eq_compares_sequences split_example contiguous_example [10, 20, 30] [10, 20, 30]
      split_example_represents contiguous_example_represents⟩

/-- C17: for well-formed buffers `a` and `b` holding `s` and `t` over a linearly ordered element
type, `a <=> b` returns the lexicographic three-way comparison of `s` and `t`: `less` exactly
when `s` precedes `t` in the lexicographic order (the first differing element decides, a
proper prefix precedes the longer sequence), `greater` exactly when `t` precedes `s`, and
`equal` exactly when `s = t`, which is exactly when `a == b` is `true`.  The result is a
function of the two logical sequences alone, whatever the gaps of the operands. -/
theorem operator_cmp_is_lexicographic [LinearOrder T]
    (a b : gap_vector T DefaultGapSize NearnessFactor) (s t : List T)
    (ha : represents a s) (hb : represents b t) :
    operator_cmp a b = some (lexicographic s t) ∧
      (operator_cmp a b = some Ordering.lt ↔ List.Lex (· < ·) s t) ∧
      (operator_cmp a b = some Ordering.gt ↔ List.Lex (· < ·) t s) ∧
      (operator_cmp a b = some Ordering.eq ↔ s = t) ∧
      (operator_cmp a b = some Ordering.eq ↔ operator_eq a b = some true) := by
  have hspec := operator_cmp_spec ha hb
  have heq := operator_eq_spec ha hb
  refine ⟨hspec, ?_, ?_, ?_, ?_⟩
  · rw [hspec, Option.some.injEq, lexicographic_lt_iff]
  · rw [hspec, Option.some.injEq, lexicographic_gt_iff]
  · rw [hspec, Option.some.injEq, lexicographic_eq_iff]
  · rw [hspec, heq, Option.some.injEq, Option.some.injEq, lexicographic_eq_iff]
    simp

theorem operator_cmp_is_lexicographic_witness :
    represents split_example [10, 20, 30] ∧ represents contiguous_example [10, 20, 30] ∧
      (operator_cmp split_example contiguous_example =
          some (lexicographic [(10 : Int), 20, 30] [10, 20, 30]) ∧
        (operator_cmp split_example contiguous_example = some Ordering.lt ↔
          List.Lex (· < ·) [(10 : Int), 20, 30] [10, 20, 30]) ∧
        (operator_cmp split_example contiguous_example = some Ordering.gt ↔
          List.Lex (· < ·) [(10 : Int), 20, 30] [10, 20, 30]) ∧
        (operator_cmp split_example contiguous_example = some Ordering.eq ↔
          [(10 : Int), 20, 30] = [10, 20, 30]) ∧
        (operator_cmp split_example contiguous_example = some Ordering.eq ↔
          operator_eq split_example contiguous_example = some true)) :=
  ⟨split_example_represents, contiguous_example_represents,
    operator_cmp_is_lexicographic split_example contiguous_example [10, 20, 30] [10, 20, 30]
      split_example_represents contiguous_example_represents⟩


/-- C19: move construction `gap_vector(std::move(a))` and move assignment `b = std::move(a)`
(for a destination `b` with valid cursors, whose old contents the temporary destroys) give
the destination exactly the former cursors of `a`, hence its capacity, size and logical
sequence, and leave `a` in the default-constructed state: all five cursors null, `size()`
and `capacity()` zero, `empty()` true. -/
theorem move_transfers_and_resets (alloc : Int → Option Int)
    (a b : gap_vector T DefaultGapSize NearnessFactor) (hb : cursors_valid b) :
    took_over (move_constructed alloc a).1 a ∧ moved_from (move_constructed alloc a).2 ∧
      ∃ b' a', move_assignment alloc b a = some (b', a') ∧ took_over b' a ∧ moved_from a' := by
  refine ⟨⟨rfl, rfl, rfl, rfl, rfl, rfl, rfl, rfl⟩, ⟨rfl, rfl, rfl, rfl, rfl, rfl, rfl, rfl, rfl⟩,
    ?_⟩
  have hd : (((default_constructed alloc : gap_vector T DefaultGapSize NearnessFactor).swap a).1.swap
      b).1.destructor = some () :=
    destructor_returns (cursors_valid_of_storage hb rfl rfl rfl rfl rfl)
  refine ⟨(((default_constructed alloc : gap_vector T DefaultGapSize NearnessFactor).swap a).1.swap
      b).2, ((default_constructed alloc : gap_vector T DefaultGapSize NearnessFactor).swap a).2,
    ?_, ⟨rfl, rfl, rfl, rfl, rfl, rfl, rfl, rfl⟩, ⟨rfl, rfl, rfl, rfl, rfl, rfl, rfl, rfl, rfl⟩⟩
  unfold move_assignment
  simp only [hd]

theorem move_transfers_and_resets_witness :
    cursors_valid contiguous_example ∧
      (took_over (move_constructed test_allocator split_example).1 split_example ∧
        moved_from (move_constructed test_allocator split_example).2 ∧
        ∃ b' a', move_assignment test_allocator contiguous_example split_example = some (b', a') ∧
          took_over b' split_example ∧ moved_from a') :=
  ⟨contiguous_example_represents.1.cursors,
    move_transfers_and_resets test_allocator split_example contiguous_example
      contiguous_example_represents.1.cursors⟩


/-- C18: for every well-formed source `a` holding `s` (whatever its gap) and every distinct
well-formed destination `b` (whatever it held), the copy constructor `gap_vector(a)`, the copy
assignment `b = a` and `b.assign(a.begin(), a.end())` return and leave a well-formed
destination whose logical sequence is that of `a`; the previous contents of `b` are gone.
The source is only read, through `begin()`, `end()`, `operator*` and `operator++`, which
write no member, so `a` is the same state afterwards.  The allocators are assumed to serve
requests below 2^63 elements, the capacities asked for to be below 2^63, and
`DefaultGapSize` to be positive. -/
theorem copy_duplicates_sequence (a b : gap_vector T DefaultGapSize NearnessFactor)
    (s t : List T) (ha : represents a s) (hb : represents b t) (alloc : Int → Option Int)
    (hG0 : 0 < DefaultGapSize) (halloc : allocator_total alloc)
    (hallocb : allocator_total b.iAlloc)
    (hfit : times_growth_factor ((s.length : Int) + DefaultGapSize + 1) < 9223372036854775808) :
    (∃ c, copy_constructed alloc a = outcome.returned c ∧ represents c s ∧
        c.logical_sequence = a.logical_sequence) ∧
      (∃ b', b.copy_assignment a = outcome.returned b' ∧ represents b' s ∧
        b'.logical_sequence = a.logical_sequence) ∧
      ∃ vs b', a.values = some vs ∧ b.assign vs = outcome.returned b' ∧ represents b' s ∧
        b'.logical_sequence = a.logical_sequence := by
  refine ⟨?_, ?_, ?_⟩
  · obtain ⟨c, e, r, _⟩ := copy_constructed_spec hG0 alloc ha halloc hfit
    exact ⟨c, e, r, by rw [r.2, ha.2]⟩
  · obtain ⟨b', e, r, _⟩ := copy_assignment_spec hG0 hb.1.cursors ha hallocb hfit
    exact ⟨b', e, r, by rw [r.2, ha.2]⟩
  · obtain ⟨b', e, r, _⟩ := assign_spec hG0 hb.1.cursors s hallocb hfit
    exact ⟨s, b', values_spec ha, e, r, by rw [r.2, ha.2]⟩

theorem copy_duplicates_sequence_witness :
    represents split_example [10, 20, 30] ∧ represents contiguous_example [10, 20, 30] ∧
      0 < 256 ∧ allocator_total test_allocator ∧ allocator_total contiguous_example.iAlloc ∧
      (times_growth_factor (([(10 : Int), 20, 30].length : Int) + (256 : Nat) + 1) < 9223372036854775808) ∧
      ((∃ c, copy_constructed test_allocator split_example = outcome.returned c ∧
          represents c [10, 20, 30] ∧ c.logical_sequence = split_example.logical_sequence) ∧
        (∃ b', contiguous_example.copy_assignment split_example = outcome.returned b' ∧
          represents b' [10, 20, 30] ∧ b'.logical_sequence = split_example.logical_sequence) ∧
        ∃ vs b', split_example.values = some vs ∧
          contiguous_example.assign vs = outcome.returned b' ∧ represents b' [10, 20, 30] ∧
          b'.logical_sequence = split_example.logical_sequence) :=
  ⟨split_example_represents, contiguous_example_represents, by decide, test_allocator_total,
    test_allocator_total, by decide,
    copy_duplicates_sequence split_example contiguous_example [10, 20, 30] [10, 20, 30]
      split_example_represents contiguous_example_represents test_allocator (by decide)
      test_allocator_total test_allocator_total (by decide)⟩

/-- C13: for every well-formed buffer holding `s` and every `n ≥ |s|` (below 2^63),
`shrink_to_fit()` followed by `reserve(n)` returns and leaves a well-formed buffer whose
logical sequence is exactly `s` and whose `capacity()` is at least `n`.  The allocators are
assumed to serve requests below 2^63 elements, the capacities the copy asks for to be below
2^63, and `DefaultGapSize` to be positive. -/
theorem shrink_to_fit_then_reserve (c : gap_vector T DefaultGapSize NearnessFactor) (s : List T)
    (h : represents c s) (alloc : Int → Option Int) (n : Int) (hn : (s.length : Int) ≤ n)
    (hn2 : n < 9223372036854775808) (hG0 : 0 < DefaultGapSize)
    (halloc0 : allocator_total alloc) (halloc : allocator_total c.iAlloc)
    (hfit : times_growth_factor ((s.length : Int) + DefaultGapSize + 1) < 9223372036854775808) :
    ∃ c1 c2, c.shrink_to_fit alloc = outcome.returned c1 ∧ c1.reserve n = outcome.returned c2 ∧
      represents c2 s ∧ c2.logical_sequence = s.map some ∧ n ≤ c2.capacity := by
  obtain ⟨temp, c1, _, e1, r1, a1, _⟩ := shrink_to_fit_spec hG0 alloc h halloc0 hfit
  by_cases hc : n ≤ c1.capacity
  · refine ⟨c1, c1, e1, ?_, r1, r1.2, hc⟩
    unfold reserve
    rw [if_pos hc]
  · obtain ⟨b, hb⟩ := halloc n (by omega) hn2
    obtain ⟨c2, e2, r2, _, k2, _⟩ := reserve_represents r1 (n := n) (b := b) (by omega) hn2
      (by rw [a1]; exact hb)
    exact ⟨c1, c2, e1, e2, r2, r2.2, by omega⟩

theorem shrink_to_fit_then_reserve_witness :
    represents split_example [10, 20, 30] ∧ (([(10 : Int), 20, 30].length : Int) ≤ 1000) ∧
      ((1000 : Int) < 9223372036854775808) ∧ 0 < 256 ∧ allocator_total test_allocator ∧
      allocator_total split_example.iAlloc ∧
      (times_growth_factor (([(10 : Int), 20, 30].length : Int) + (256 : Nat) + 1) < 9223372036854775808) ∧
      ∃ c1 c2, split_example.shrink_to_fit test_allocator = outcome.returned c1 ∧
        c1.reserve 1000 = outcome.returned c2 ∧ represents c2 [10, 20, 30] ∧
        c2.logical_sequence = [(10 : Int), 20, 30].map some ∧ 1000 ≤ c2.capacity :=
  ⟨split_example_represents, by decide, by decide, by decide, test_allocator_total,
    test_allocator_total, by decide,
    shrink_to_fit_then_reserve split_example [10, 20, 30] split_example_represents
      test_allocator 1000 (by decide) (by decide) (by decide) test_allocator_total
      test_allocator_total (by decide)⟩

/-- C15: for every well-formed buffer holding `s` and every `n`: when `n ≤ capacity()`,
`reserve(n)` returns the very same state (no cursor, gap or slot changes, and `capacity()`
is `max(n, capacity())`); when `n > capacity()` (and the allocator serves the request, of
fewer than 2^63 elements), it returns a well-formed state that still holds `s`, with
`capacity() == n == max(n, old capacity)`, the gap inactive, and the occupied extent
`[iData, iData + |s|)` holding `s` contiguously from the base. -/
theorem reserve_reallocates_only_to_grow (c : gap_vector T DefaultGapSize NearnessFactor)
    (s : List T) (h : represents c s) (n : Int) :
    (n ≤ c.capacity → c.reserve n = outcome.returned c ∧ c.capacity = max n c.capacity) ∧
      (c.capacity < n → n < 9223372036854775808 → ∀ b, c.iAlloc n = some b →
        ∃ c', c.reserve n = outcome.returned c' ∧ c'.capacity = max n c.capacity ∧
          represents c' s ∧ c'.logical_sequence = c.logical_sequence ∧
          c'.gap_active = false ∧ c'.iDataEnd = c'.iData + s.length ∧
          ∀ j : Nat, j < s.length → c'.load (c'.iData + j) = s[j]?) := by
  constructor
  · intro hc
    refine ⟨?_, by omega⟩
    unfold reserve
    rw [if_pos hc]
  · intro hc hn2 b hb
    obtain ⟨c', e, r, _, k, g, d, de, _⟩ := reserve_represents h hc hn2 hb
    have hb' := size_lt_max r.1.cursors
    have hsz := represents_size r
    refine ⟨c', e, by omega, r, by rw [r.2, h.2], by simp [gap_active, g], by omega, ?_⟩
    intro j hj
    have hgl : c'.gap_length = 0 := by simp [gap_length, g]
    rw [← represents_index r j hj, index_eq_load,
      adjusted_index_eq r.1.cursors (by omega) (by omega), hgl]
    congr 2
    split_ifs <;> omega

theorem reserve_reallocates_only_to_grow_witness :
    represents split_example [10, 20, 30] ∧
      ((4 ≤ split_example.capacity →
          split_example.reserve 4 = outcome.returned split_example ∧
            split_example.capacity = max 4 split_example.capacity) ∧
        (split_example.capacity < 4 → (4 : Int) < 9223372036854775808 →
          ∀ b, split_example.iAlloc 4 = some b →
          ∃ c', split_example.reserve 4 = outcome.returned c' ∧
            c'.capacity = max 4 split_example.capacity ∧
            represents c' [10, 20, 30] ∧ c'.logical_sequence = split_example.logical_sequence ∧
            c'.gap_active = false ∧ c'.iDataEnd = c'.iData + [(10 : Int), 20, 30].length ∧
            ∀ j : Nat, j < [(10 : Int), 20, 30].length →
              c'.load (c'.iData + j) = [(10 : Int), 20, 30][j]?)) :=
  ⟨split_example_represents,
    reserve_reallocates_only_to_grow split_example [10, 20, 30] split_example_represents 4⟩


set_option maxRecDepth 100000 in
/-- C14: after `gap_vector<int> v; v.reserve(3); v.push_back(1); v.push_back(2); v.push_back(3);`
the buffer has `size()` 3 and `capacity()` 3; `v.shrink_to_fit()` then leaves `size()` 3 and
`capacity()` 385: the copy it swaps in was built by single inserts, whose first growth asks
for `(0 + DefaultGapSize + 1) * 1.5` slots. -/
theorem shrink_to_fit_leaves_spare_capacity :
    reserved_three.result.map (fun c => (c.size, c.capacity)) = some (3, 3) ∧
      (reserved_three.bind id fun c => c.shrink_to_fit test_allocator).result.map
        (fun c => (c.size, c.capacity, c.logical_sequence)) =
        some (3, 385, [some 1, some 2, some 3]) := by
  constructor
  · decide
  · decide

/-- The gap-miss branch of `allocate_from_gap` for any count: it returns, the pointer returned
is `iData + i`, and the new `iGapStart` lies `k` slots beyond it. -/
theorem allocate_from_gap_miss_position {c : gap_vector T DefaultGapSize NearnessFactor}
    (h : cursors_valid c) {p i k : Int} (hp : c.iterator_difference p c.begin = i)
    (hi0 : 0 ≤ i) (hi1 : i ≤ c.size) (hk0 : 0 ≤ k)
    (hGb : (DefaultGapSize : Int) < 9223372036854775808)
    (hmiss : (c.near_gap p && decide (k ≤ c.gap_size)) = false)
    (halloc : c.room < k →
      times_growth_factor (c.capacity + DefaultGapSize + k) < 9223372036854775808 ∧
        ∃ b, c.iAlloc (c.grow_request k) = some b) :
    ∃ c', c.allocate_from_gap p k = outcome.returned (c', c'.iData + i) ∧
      c'.iAlloc = c.iAlloc ∧ c'.iGapStart = c'.iData + i + k := by
  obtain ⟨c1, e, cv, a1, a2, a3, a4, a5, l⟩ := unsplit_spec h
  have hs0 := size_nonneg h
  have hcap := capacity_eq h
  have hroom := room_eq h
  have hgn := gap_length_nonneg h
  have hsz := size_eq h
  have h1 := h.data_le; have h2 := h.end_le; have h3 := h.cap_lt
  have hcap1 : c1.capacity = c.capacity := by rw [capacity_eq cv, hcap, a2, a3]
  have hgl1 : c1.gap_length = 0 := by simp [gap_length, a5]
  have hsz1 : c1.size = c.size := by rw [size_eq cv, hgl1, a4, a2]; omega
  have hroom1 : c1.room = c.room := by
    rw [room_eq cv, hroom, hgl1, a3, a4]; omega
  have hkb : k < 9223372036854775808 := by
    by_cases hr : c.room < k
    · have := lt_of_le_of_lt (le_times_growth_factor _) (halloc hr).1; omega
    · omega
  obtain ⟨c2, e2, cv2, b1, b5, b4⟩ :
      ∃ c2, (if c1.room < k then c1.grow k else outcome.returned c1) = outcome.returned c2 ∧
        cursors_valid c2 ∧ c2.iAlloc = c.iAlloc ∧ c2.iGapStart = c2.iGapEnd ∧
        c2.iDataEnd = c2.iData + c.size := by
    by_cases hr : c1.room < k
    · rw [if_pos hr]
      obtain ⟨hfit, b, hb⟩ := halloc (by omega)
      have hreq : c1.grow_request k = c.grow_request k := by
        unfold grow_request; rw [hcap1]
      have hlow := le_times_growth_factor (c.capacity + DefaultGapSize + k)
      have hreqv : c.grow_request k = times_growth_factor (c.capacity + DefaultGapSize + k) := by
        unfold grow_request
        rw [to_size_of_bounds (z := c.capacity + DefaultGapSize + k) (by omega) (by omega)]
      rw [grow_eq c1 k (by rw [hreq, hreqv]; omega)]
      obtain ⟨c2, r1, r2, r3, r4, r5, r6, r7, r8⟩ := reserve_spec cv (n := c1.grow_request k)
        (b := b) (by rw [hreq, hreqv, hcap1]; omega) (by rw [hreq, hreqv]; omega)
        (by rw [a1, hreq]; exact hb)
      rw [hsz1] at r4
      rw [hreq] at r5
      exact ⟨c2, r1, ⟨by omega, by omega, by omega, fun hh => absurd r6 hh,
        fun hh => absurd r6 hh, fun hh => absurd r6 hh⟩, by rw [r2, a1], r6, by omega⟩
    · rw [if_neg hr]
      exact ⟨c1, rfl, cv, a1, a5, by omega⟩
  have hc2 := cv2.cap_lt
  have hc2e := cv2.end_le
  have hgl2 : c2.gap_length = 0 := by simp [gap_length, b5]
  have hroom2 : c2.room = c2.iStorageEnd - c2.iDataEnd := by rw [room_eq cv2, hgl2]; omega
  unfold allocate_from_gap
  simp only [hmiss, Bool.false_eq_true, if_false, hp, e, e2, outcome.bind, hroom2]
  rw [to_size_of_bounds (z := (DefaultGapSize : Int)) (by omega) (by omega)]
  clear e e2 l a1 a2 a3 a4 a5 cv hcap1 hgl1 hsz1 hroom1 c1 halloc hmiss hp
  generalize hg0 : min (c2.iStorageEnd - c2.iDataEnd) (DefaultGapSize : Int) = g0
  have hg1 : g0 ≤ c2.iStorageEnd - c2.iDataEnd := by omega
  have hg2 : 0 ≤ g0 := by omega
  clear hg0
  have hpg : to_ptrdiff g0 = g0 := to_ptrdiff_of_bounds (by omega) (by omega)
  have hpk : to_ptrdiff k = k := to_ptrdiff_of_bounds (by omega) (by omega)
  rw [hpg, hpk]
  generalize hn1 : (c2.iDataEnd - (c2.iData + i)).toNat = n1
  have hn1i : (n1 : Int) = c.size - i := by omega
  clear hn1
  obtain ⟨c3, e3, s3, _⟩ := gap_miss_loop_spec (c2.iData + i) n1 c2 c2.iDataEnd
    (c2.iDataEnd + g0) (by omega) (by omega) (le_refl _)
  obtain ⟨d1, d2, d3, d4, d5, d6⟩ := s3
  rw [e3]
  simp only [d3]
  rw [to_size_of_bounds (z := c2.iDataEnd - (c2.iData + i)) (by omega) (by omega)]
  generalize hgc : min k (c2.iDataEnd - (c2.iData + i)) = gc
  have hgc1 : gc ≤ k := by omega
  have hgc0 : 0 ≤ gc := by omega
  clear hgc
  have hpgc : to_ptrdiff gc = gc := to_ptrdiff_of_bounds (by omega) (by omega)
  rw [hpgc]
  generalize hn2 : gc.toNat = n2
  have hn2i : (n2 : Int) = gc := by omega
  clear hn2
  obtain ⟨c4, e4, s4, _⟩ := destroy_backward_loop_spec (c2.iData + i) n2 c3
    (c2.iData + i + gc) (by omega)
  obtain ⟨f1, f2, f3, f4, f5, f6⟩ := s4
  rw [e4]
  simp only
  refine ⟨{ c4 with iDataEnd := c4.iDataEnd + g0, iGapStart := c2.iData + i + k, iGapEnd := c2.iData + i + g0 },
    ?_, ?_, ?_⟩
  · simp only [f2, d2]
  · simp only [f1, d1, b1]
  · simp only [f2, d2]

/-- A growth that the allocator refuses: `allocate_from_gap` ends with `std::bad_alloc`, the
buffer being as `unsplit()` left it. -/
theorem allocate_from_gap_fails {c : gap_vector T DefaultGapSize NearnessFactor}
    (h : cursors_valid c) (p : Int) {k : Int} (hroom : c.room < k)
    (hfit : times_growth_factor (c.capacity + DefaultGapSize + k) < 18446744073709551616)
    (hfail : c.iAlloc (times_growth_factor (c.capacity + DefaultGapSize + k)) = none) :
    ∃ c1, c.unsplit = some c1 ∧ c.allocate_from_gap p k = outcome.bad_alloc (c1, 0) := by
  obtain ⟨c1, e, cv, a1, a2, a3, a4, a5, _⟩ := unsplit_spec h
  have hs0 := size_nonneg h
  have hcap := capacity_eq h
  have hroomv := room_eq h
  have hgn := gap_length_nonneg h
  have hsz := size_eq h
  have h1 := h.data_le; have h2 := h.end_le; have h3 := h.cap_lt
  have hcap1 : c1.capacity = c.capacity := by rw [capacity_eq cv, hcap, a2, a3]
  have hgl1 : c1.gap_length = 0 := by simp [gap_length, a5]
  have hroom1 : c1.room = c.room := by
    rw [room_eq cv, hroomv, hgl1, a3, a4]; omega
  have hmiss : (c.near_gap p && decide (k ≤ c.gap_size)) = false := by
    have : ¬ k ≤ c.gap_size := by rw [gap_size_eq h]; omega
    simp [this]
  have hlow := le_times_growth_factor (c.capacity + DefaultGapSize + k)
  have hreqv : c1.grow_request k = times_growth_factor (c.capacity + DefaultGapSize + k) := by
    unfold grow_request
    rw [hcap1, to_size_of_bounds (z := c.capacity + DefaultGapSize + k) (by omega) (by omega)]
  refine ⟨c1, e, ?_⟩
  unfold allocate_from_gap
  simp only [hmiss, Bool.false_eq_true, if_false, e]
  rw [if_pos (by omega), grow_eq c1 k (by rw [hreqv]; omega), hreqv]
  unfold reserve
  rw [if_neg (by omega), unsplit_inactive a5]
  simp only [a1, hfail, outcome.bind]


theorem same_cursors_iterator_add_begin {c c' : gap_vector T DefaultGapSize NearnessFactor}
    (h : same_cursors c c') (i : Int) :
    c'.iterator_add c'.begin i = c.iterator_add c.begin i := by
  obtain ⟨s0, a0, d0, d1, d2, d3, d4⟩ := c
  obtain ⟨s0', a0', d0', d1', d2', d3', d4'⟩ := c'
  obtain ⟨e0, e1, e2, e3, e4, e5⟩ := h
  simp only at e0 e1 e2 e3 e4 e5
  subst e0 e1 e2 e3 e4 e5
  rfl

/-- The pointer `begin() + i` when `iGapStart` lies `k ≥ 1` slots beyond slot `i`. -/
theorem iterator_add_begin_of_gap_start {c : gap_vector T DefaultGapSize NearnessFactor}
    {i k : Int} (hi0 : 0 ≤ i) (hk : 1 ≤ k) (hg : c.iGapStart = c.iData + i + k) :
    c.iterator_add c.begin i = c.iData + i := by
  have hb : c.begin = c.iData := by
    unfold begin
    rw [if_pos]
    simp only [Bool.or_eq_true, decide_eq_true_eq]
    right
    omega
  rw [hb]
  unfold iterator_add
  by_cases h0 : i = 0
  · rw [if_pos h0]; omega
  · rw [if_neg h0, if_neg (by omega)]
    unfold advance_forward
    simp only
    rw [if_pos]
    simp only [Bool.or_eq_true, decide_eq_true_eq]
    left; left; right
    omega

/-- Source `allocate_from_gap(begin() + i, k)` with `k ≥ 1` returns the pointer that `begin() + i`
has in the buffer it leaves, on every path. -/
theorem allocate_from_gap_position {c : gap_vector T DefaultGapSize NearnessFactor}
    (h : cursors_valid c) {i k : Int} (hi0 : 0 ≤ i) (hi1 : i ≤ c.size) (hk : 1 ≤ k)
    (hGb : (DefaultGapSize : Int) < 9223372036854775808)
    (halloc : c.room < k →
      times_growth_factor (c.capacity + DefaultGapSize + k) < 9223372036854775808 ∧
        ∃ b, c.iAlloc (c.grow_request k) = some b) :
    ∃ c' m, c.allocate_from_gap (c.iterator_add c.begin i) k = outcome.returned (c', m) ∧
      m = c'.iterator_add c'.begin i ∧ c'.iAlloc = c.iAlloc := by
  by_cases hn : (c.near_gap (c.iterator_add c.begin i) && decide (k ≤ c.gap_size)) = false
  · obtain ⟨c', e, a, g⟩ := allocate_from_gap_miss_position h
      (iterator_difference_add_begin h hi0 hi1) hi0 hi1 (by omega) hGb hn halloc
    exact ⟨c', _, e, (iterator_add_begin_of_gap_start hi0 hk g).symm, a⟩
  · obtain ⟨c', m, e, al⟩ := allocate_from_gap_spec h hi0 hi1 (k := k) (by omega)
      (Or.inl (by omega)) (fun hh => absurd hh hn)
    refine ⟨c', m, e, ?_, al.alloc⟩
    have hf := al.fresh 0 (le_refl _) (by omega)
    have hs0 := size_nonneg h
    have hia := index_eq_load_iterator al.cursors (i := i) hi0 (by rw [al.size]; omega)
    rw [← hia]
    simp only [add_zero] at hf
    exact hf.symm


/-- For arguments that are no elements of the buffer: for every well-formed buffer holding `s`,
every index `i ≤ |s|` and every insert overload that inserts `k ≥ 1` elements there
(`insert(pos, value)` and `emplace`, `insert(pos, count, value)`,
`insert(pos, initializer_list)`, `insert(pos, first, last)`), the call returns an iterator
that equals `begin() + i` in the buffer it leaves and dereferences to the first of the values
passed, whichever path `allocate_from_gap` takes.  The allocator is
assumed to serve requests below 2^63 elements, the capacity a growth asks for to be below
2^63, and `DefaultGapSize` to be positive. -/
theorem insert_returns_first_inserted (c : gap_vector T DefaultGapSize NearnessFactor)
    (s : List T) (h : represents c s) (i : Nat) (hi : i ≤ s.length) (hG0 : 0 < DefaultGapSize)
    (halloc : allocator_total c.iAlloc) :
    (∀ x : T, times_growth_factor (c.capacity + DefaultGapSize + 1) < 9223372036854775808 →
        ∃ c' m, c.insert (c.iterator_add c.begin i) x = outcome.returned (c', m) ∧
          m = c'.iterator_add c'.begin i ∧ c'.load m = some x) ∧
      (∀ (k : Nat) (x : T), 1 ≤ k →
        times_growth_factor (c.capacity + DefaultGapSize + k) < 9223372036854775808 →
        ∃ c' m, c.insert_count (c.iterator_add c.begin i) k x = outcome.returned (c', m) ∧
          m = c'.iterator_add c'.begin i ∧ c'.load m = some x) ∧
      (∀ (x : T) (xs : List T),
        times_growth_factor (c.capacity + DefaultGapSize + (xs.length + 1 : Nat)) < 9223372036854775808 →
        ∃ c' m, c.insert_list (c.iterator_add c.begin i) (x :: xs) = outcome.returned (c', m) ∧
          m = c'.iterator_add c'.begin i ∧ c'.load m = some x) ∧
      ∀ (x : T) (xs : List T),
        times_growth_factor (((s.length + (xs.length + 1) : Nat) : Int) + DefaultGapSize + 1) <
          9223372036854775808 →
        ∃ c' m, c.insert_range (c.iterator_add c.begin i) (x :: xs) = outcome.returned (c', m) ∧
          m = c'.iterator_add c'.begin i ∧ c'.load m = some x := by
  have hcv := h.1.cursors
  have hsz := represents_size h
  have hcap : 0 ≤ c.capacity := by
    rw [capacity_eq hcv]
    have := hcv.data_le; have := hcv.end_le; omega
  have hpos : ∀ k : Nat, 1 ≤ k →
      times_growth_factor (c.capacity + DefaultGapSize + k) < 9223372036854775808 →
      ∃ c' m, c.allocate_from_gap (c.iterator_add c.begin i) k = outcome.returned (c', m) ∧
        m = c'.iterator_add c'.begin i := by
    intro k hk hfit
    have hlow := lt_of_le_of_lt (le_times_growth_factor _) hfit
    obtain ⟨c', m, e, hm, _⟩ := allocate_from_gap_position hcv (i := (i : Int)) (k := (k : Int))
      (by omega) (by omega) (by omega) (by omega)
      (fun _ => ⟨hfit, halloc _ (grow_request_nonneg c k) (by
        unfold grow_request
        rw [to_size_of_bounds (z := c.capacity + DefaultGapSize + k) (by omega)
          (by have := le_times_growth_factor (c.capacity + DefaultGapSize + k); omega)]
        exact hfit)⟩)
    exact ⟨c', m, e, hm⟩
  refine ⟨?_, ?_, ?_, ?_⟩
  · intro x hfit
    obtain ⟨c', m, e, hm⟩ := hpos 1 (le_refl _) (by simpa using hfit)
    refine ⟨c'.construct m (some x), m, ?_, ?_, ?_⟩
    · rw [insert_external]
      rw [Nat.cast_one] at e
      rw [e]
      rfl
    · exact hm.trans (same_cursors_iterator_add_begin (same_cursors_store c' m (some x)) i).symm
    · unfold construct
      rw [load_store, if_pos rfl]
  · intro k x hk hfit
    obtain ⟨c', m, e, hm⟩ := hpos k hk hfit
    obtain ⟨sc, lf⟩ := uninitialized_fill_n_spec x k c' m
    refine ⟨uninitialized_copy (List.replicate k x) c' m, m, ?_, ?_, ?_⟩
    · rw [insert_count_external]
      rw [e]
      simp only [outcome.bind, id, Int.toNat_ofNat]
    · rw [same_cursors_iterator_add_begin sc]
      exact hm
    · rw [lf, if_pos (by omega)]
  · intro x xs hfit
    have hlow := lt_of_le_of_lt (le_times_growth_factor _) hfit
    obtain ⟨c', m, e, hm⟩ := hpos (xs.length + 1) (by omega) hfit
    obtain ⟨sc, lf⟩ := uninitialized_copy_spec (x :: xs) c' m
    refine ⟨uninitialized_copy (x :: xs) c' m, m, ?_, ?_, ?_⟩
    · unfold insert_list
      rw [List.length_cons, to_size_of_bounds (by omega) (by omega), e]
      rfl
    · rw [same_cursors_iterator_add_begin sc]
      exact hm
    · rw [lf, if_pos (by simp), sub_self]
      simp
  · intro x xs hfit
    obtain ⟨c', e, r, _⟩ := insert_range_spec hG0 h i hi (x :: xs) halloc (by simpa using hfit)
    refine ⟨c', _, e, rfl, ?_⟩
    have hlen : i < (s.take i ++ (x :: xs) ++ s.drop i).length := by simp; omega
    have hx : (s.take i ++ (x :: xs) ++ s.drop i)[i]? = some x := by
      rw [List.append_assoc, List.getElem?_append_right (by simp)]
      simp [List.length_take, Nat.min_eq_left hi]
    rw [load_iterator_add_begin r hlen, ← hx, List.getElem?_eq_getElem hlen]

theorem insert_returns_first_inserted_witness :
    represents split_example [10, 20, 30] ∧ 1 ≤ [(10 : Int), 20, 30].length ∧ 0 < 256 ∧
      allocator_total split_example.iAlloc ∧
      ((∀ x : Int, times_growth_factor (split_example.capacity + (256 : Nat) + 1) < 9223372036854775808 →
          ∃ c' m, split_example.insert (split_example.iterator_add split_example.begin (1 : Nat)) x =
              outcome.returned (c', m) ∧
            m = c'.iterator_add c'.begin (1 : Nat) ∧ c'.load m = some x) ∧
        (∀ (k : Nat) (x : Int), 1 ≤ k →
          times_growth_factor (split_example.capacity + (256 : Nat) + k) < 9223372036854775808 →
          ∃ c' m, split_example.insert_count
              (split_example.iterator_add split_example.begin (1 : Nat)) k x =
              outcome.returned (c', m) ∧
            m = c'.iterator_add c'.begin (1 : Nat) ∧ c'.load m = some x) ∧
        (∀ (x : Int) (xs : List Int),
          times_growth_factor (split_example.capacity + (256 : Nat) + (xs.length + 1 : Nat)) <
            9223372036854775808 →
          ∃ c' m, split_example.insert_list
              (split_example.iterator_add split_example.begin (1 : Nat)) (x :: xs) =
              outcome.returned (c', m) ∧
            m = c'.iterator_add c'.begin (1 : Nat) ∧ c'.load m = some x) ∧
        ∀ (x : Int) (xs : List Int),
          times_growth_factor ((([(10 : Int), 20, 30].length + (xs.length + 1) : Nat) : Int) + (256 : Nat) + 1) <
            9223372036854775808 →
          ∃ c' m, split_example.insert_range
              (split_example.iterator_add split_example.begin (1 : Nat)) (x :: xs) =
              outcome.returned (c', m) ∧
            m = c'.iterator_add c'.begin (1 : Nat) ∧ c'.load m = some x) :=
  ⟨split_example_represents, by decide, by decide, test_allocator_total,
    insert_returns_first_inserted split_example [10, 20, 30] split_example_represents 1
      (by decide) (by decide) test_allocator_total⟩


/-- A growth that the allocator refuses, on a state holding `s`: `allocate_from_gap` ends with
`std::bad_alloc` and the buffer is the pre-call state with its gap closed. -/
theorem allocate_from_gap_fails_compacted {c : gap_vector T DefaultGapSize NearnessFactor}
    {s : List T} (h : represents c s) (p : Int) {k : Int} (hroom : c.room < k)
    (hfit : times_growth_factor (c.capacity + DefaultGapSize + k) < 18446744073709551616)
    (hfail : c.iAlloc (times_growth_factor (c.capacity + DefaultGapSize + k)) = none) :
    ∃ c1, c.allocate_from_gap p k = outcome.bad_alloc (c1, 0) ∧ c.unsplit = some c1 ∧
      compacted c c1 s ∧ (c.iGapStart = c.iGapEnd → c1 = c) := by
  obtain ⟨c1, e1, e2⟩ := allocate_from_gap_fails h.1.cursors p hroom hfit hfail
  obtain ⟨c2, u, r, _, a2, a3, a4, a5, sz, cap⟩ := unsplit_represents h
  rw [e1] at u
  obtain rfl := Option.some.inj u
  refine ⟨c1, e2, e1, ⟨a2, a3, cap, sz, r, a5, a4⟩, ?_⟩
  intro hg
  have := unsplit_inactive hg
  rw [e1] at this
  exact Option.some.inj this

theorem room_lt_one_inactive {c : gap_vector T DefaultGapSize NearnessFactor}
    (h : cursors_valid c) (hroom : c.room < 1) : c.iGapStart = c.iGapEnd := by
  by_contra hg
  have h5 := h.gap_mid hg
  have h2 := h.end_le
  have hr := room_eq h
  have hgl : c.gap_length = c.iGapEnd - c.iGapStart := by simp [gap_length, hg]
  omega


theorem exhausted_example_represents : represents exhausted_example [10, 20, 30] :=
  represents_of_storage split_example_represents rfl rfl rfl rfl rfl rfl

/-- C11, as amended: for every well-formed buffer holding `s` (its gap active or not), every
position and every insert that takes its storage in one step (`insert(pos, count, value)`,
`insert(pos, initializer_list)`, and for one element `insert(pos, value)`, `emplace`,
`push_back`, `emplace_back`): when the `k` new elements do not fit the free capacity, the
capacity `(capacity() + DefaultGapSize + k) * 1.5` the growth asks for is a `size_type` and
the allocator fails on it, the call ends with `std::bad_alloc` and leaves a well-formed
buffer whose `size()`, `capacity()` and logical sequence are those before the call. -/
theorem insert_failure_keeps_contents (c : gap_vector T DefaultGapSize NearnessFactor)
    (s : List T) (h : represents c s) (k : Nat) (pos : Int) (hroom : c.room < k)
    (hfit : times_growth_factor (c.capacity + DefaultGapSize + k) < 18446744073709551616)
    (hfail : c.iAlloc (times_growth_factor (c.capacity + DefaultGapSize + k)) = none) :
    (∀ x : T, ∃ r, c.insert_count pos k x = outcome.bad_alloc r ∧ same_contents c r.1) ∧
      (∀ list : List T, list.length = k →
        ∃ r, c.insert_list pos list = outcome.bad_alloc r ∧ same_contents c r.1) ∧
      (k = 1 → ∀ x : T,
        (∃ r, c.insert pos x = outcome.bad_alloc r ∧ same_contents c r.1) ∧
          ∃ c', c.push_back x = outcome.bad_alloc c' ∧ same_contents c c') := by
  have hsame : ∀ c1, compacted c c1 s → same_contents c c1 := by
    intro c1 hc
    obtain ⟨_, _, cap, sz, r, _, _⟩ := hc
    exact ⟨sz, cap, by rw [r.2, h.2], r.1⟩
  obtain ⟨c1, e, _, hc, _⟩ := allocate_from_gap_fails_compacted h pos hroom hfit hfail
  refine ⟨?_, ?_, ?_⟩
  · intro x
    refine ⟨(c1, 0), ?_, hsame c1 hc⟩
    rw [insert_count_external]
    rw [e]
    rfl
  · intro list hl
    refine ⟨(c1, 0), ?_, hsame c1 hc⟩
    have hk : (k : Int) < 18446744073709551616 := by
      have := size_nonneg h.1.cursors
      have hcap : 0 ≤ c.capacity := by
        rw [capacity_eq h.1.cursors]
        have := h.1.cursors.data_le; have := h.1.cursors.end_le; omega
      have hlow := lt_of_le_of_lt (le_times_growth_factor _) hfit
      omega
    unfold insert_list
    rw [hl, to_size_of_bounds (by omega) hk, e]
    rfl
  · intro hk1 x
    subst hk1
    rw [Nat.cast_one] at e hroom hfit hfail
    constructor
    · refine ⟨(c1, 0), ?_, hsame c1 hc⟩
      rw [insert_external]
      rw [e]
      rfl
    · obtain ⟨c2, e2, _, hc2, _⟩ := allocate_from_gap_fails_compacted h c.end_ hroom hfit hfail
      refine ⟨c2, ?_, hsame c2 hc2⟩
      unfold push_back
      rw [insert_external]
      rw [e2]
      rfl

set_option maxRecDepth 100000 in
theorem insert_failure_keeps_contents_witness :
    represents exhausted_example [10, 20, 30] ∧ exhausted_example.room < (6 : Nat) ∧
      (times_growth_factor (exhausted_example.capacity + (256 : Nat) + (6 : Nat)) < 18446744073709551616) ∧
      exhausted_example.iAlloc (times_growth_factor (exhausted_example.capacity + (256 : Nat) + (6 : Nat))) =
        none ∧
      ((∀ x : Int, ∃ r, exhausted_example.insert_count
          (exhausted_example.iterator_add exhausted_example.begin 1) (6 : Nat) x =
            outcome.bad_alloc r ∧ same_contents exhausted_example r.1) ∧
        (∀ list : List Int, list.length = 6 →
          ∃ r, exhausted_example.insert_list
            (exhausted_example.iterator_add exhausted_example.begin 1) list =
              outcome.bad_alloc r ∧ same_contents exhausted_example r.1) ∧
        (6 = 1 → ∀ x : Int,
          (∃ r, exhausted_example.insert
              (exhausted_example.iterator_add exhausted_example.begin 1) x =
                outcome.bad_alloc r ∧ same_contents exhausted_example r.1) ∧
            ∃ c', exhausted_example.push_back x = outcome.bad_alloc c' ∧
              same_contents exhausted_example c')) :=
  ⟨exhausted_example_represents, by decide, by decide, rfl,
    insert_failure_keeps_contents exhausted_example [10, 20, 30] exhausted_example_represents 6
      (exhausted_example.iterator_add exhausted_example.begin 1) (by decide) (by decide) rfl⟩

set_option maxRecDepth 100000 in
/-- C11, the claim as stated fails for the iterator-range overload, which inserts element by
element: on the reachable buffer `10, 15, 20, 30` of capacity 8, whose allocator serves no
request above eight elements, `insert(begin() + 2, first, last)` of the five values
`1, 2, 3, 4, 5` ends with `std::bad_alloc` at the fifth element and `size()` is 8, not 4:
the four elements inserted before the failure stay. -/
theorem insert_range_failure_keeps_inserted :
    split_four.result.map (fun c => (c.size, c.capacity, c.logical_sequence)) =
        some (4, 8, [some 10, some 15, some 20, some 30]) ∧
      (split_four.bind (fun c => (c, 0)) fun c =>
          c.insert_range (c.iterator_add c.begin 2) [1, 2, 3, 4, 5]).thrown.map
        (fun r => (r.1.size, r.1.capacity, r.1.logical_sequence)) =
        some (8, 8, [some 10, some 15, some 1, some 2, some 3, some 4, some 20, some 30]) := by
  constructor
  · decide
  · decide


/-- C12, as amended: when the allocator fails inside `reserve(n)` with `n > capacity()`, or
inside an insert that has to grow and takes its storage in one step (`insert(pos, count, value)`,
`insert(pos, initializer_list)`, and for one element `insert(pos, value)`, `emplace`,
`push_back`, `emplace_back`), the call ends with `std::bad_alloc` and leaves the buffer
as `unsplit()` leaves the state before the call: the base, the end of the allocation,
`capacity()`, `size()` and the logical sequence are unchanged and the elements lie in
`[iData, iData + size())` with the gap inactive.  When the gap was inactive before the call,
which is always so for a one-element insert or `push_back` that has to grow, the state is
exactly the state before the call.  The iterator-range overload, which inserts element by
element, is not covered. -/
theorem failed_allocation_leaves_compacted_state
    (c : gap_vector T DefaultGapSize NearnessFactor) (s : List T) (h : represents c s) :
    (∀ n : Int, c.capacity < n → c.iAlloc n = none →
        ∃ c', c.reserve n = outcome.bad_alloc c' ∧ c.unsplit = some c' ∧ compacted c c' s ∧
          (c.iGapStart = c.iGapEnd → c' = c)) ∧
      (∀ (k : Nat) (pos : Int) (x : T), c.room < k →
        times_growth_factor (c.capacity + DefaultGapSize + k) < 18446744073709551616 →
        c.iAlloc (times_growth_factor (c.capacity + DefaultGapSize + k)) = none →
        ∃ c', c.insert_count pos k x = outcome.bad_alloc (c', 0) ∧ c.unsplit = some c' ∧
          compacted c c' s ∧ (c.iGapStart = c.iGapEnd → c' = c)) ∧
      (∀ (pos : Int) (list : List T), c.room < list.length →
        times_growth_factor (c.capacity + DefaultGapSize + list.length) < 18446744073709551616 →
        c.iAlloc (times_growth_factor (c.capacity + DefaultGapSize + list.length)) = none →
        ∃ c', c.insert_list pos list = outcome.bad_alloc (c', 0) ∧ c.unsplit = some c' ∧
          compacted c c' s ∧ (c.iGapStart = c.iGapEnd → c' = c)) ∧
      ∀ (pos : Int) (x : T), c.room < 1 →
        times_growth_factor (c.capacity + DefaultGapSize + 1) < 18446744073709551616 →
        c.iAlloc (times_growth_factor (c.capacity + DefaultGapSize + 1)) = none →
        c.insert pos x = outcome.bad_alloc (c, 0) ∧ c.push_back x = outcome.bad_alloc c := by
  refine ⟨?_, ?_, ?_, ?_⟩
  · intro n hn hfail
    obtain ⟨c1, u, r, a1, a2, a3, a4, a5, sz, cap⟩ := unsplit_represents h
    refine ⟨c1, ?_, u, ⟨a2, a3, cap, sz, r, a5, a4⟩, ?_⟩
    · unfold reserve
      rw [if_neg (by omega), u]
      simp only [a1, hfail]
    · intro hg
      have := unsplit_inactive hg
      rw [u] at this
      exact Option.some.inj this
  · intro k pos x hroom hfit hfail
    obtain ⟨c1, e, u, hc, hi⟩ := allocate_from_gap_fails_compacted h pos hroom hfit hfail
    refine ⟨c1, ?_, u, hc, hi⟩
    rw [insert_count_external]
    rw [e]
    rfl
  · intro pos list hroom hfit hfail
    obtain ⟨c1, e, u, hc, hi⟩ := allocate_from_gap_fails_compacted h pos hroom hfit hfail
    refine ⟨c1, ?_, u, hc, hi⟩
    have hlen : (list.length : Int) < 18446744073709551616 := by
      have hlow := lt_of_le_of_lt (le_times_growth_factor _) hfit
      have hcap : 0 ≤ c.capacity := by
        rw [capacity_eq h.1.cursors]
        have := h.1.cursors.data_le; have := h.1.cursors.end_le; omega
      omega
    unfold insert_list
    rw [to_size_of_bounds (by omega) hlen, e]
    rfl
  · intro pos x hroom hfit hfail
    have hg := room_lt_one_inactive h.1.cursors hroom
    obtain ⟨c1, e, _, _, hi⟩ := allocate_from_gap_fails_compacted h pos (k := 1) hroom hfit hfail
    obtain ⟨c2, e2, _, _, hi2⟩ := allocate_from_gap_fails_compacted h c.end_ (k := 1) hroom hfit
      hfail
    have h1 := hi hg
    have h2 := hi2 hg
    subst h1
    constructor
    · rw [insert_external]
      rw [e]
      rfl
    · unfold push_back
      rw [insert_external]
      rw [e2, h2]
      rfl

theorem failed_allocation_leaves_compacted_state_witness :
    represents exhausted_example [10, 20, 30] ∧
      ((∀ n : Int, exhausted_example.capacity < n → exhausted_example.iAlloc n = none →
          ∃ c', exhausted_example.reserve n = outcome.bad_alloc c' ∧
            exhausted_example.unsplit = some c' ∧ compacted exhausted_example c' [10, 20, 30] ∧
            (exhausted_example.iGapStart = exhausted_example.iGapEnd → c' = exhausted_example)) ∧
        (∀ (k : Nat) (pos : Int) (x : Int), exhausted_example.room < k →
          times_growth_factor (exhausted_example.capacity + (256 : Nat) + k) < 18446744073709551616 →
          exhausted_example.iAlloc (times_growth_factor (exhausted_example.capacity + (256 : Nat) + k)) =
            none →
          ∃ c', exhausted_example.insert_count pos k x = outcome.bad_alloc (c', 0) ∧
            exhausted_example.unsplit = some c' ∧ compacted exhausted_example c' [10, 20, 30] ∧
            (exhausted_example.iGapStart = exhausted_example.iGapEnd → c' = exhausted_example)) ∧
        (∀ (pos : Int) (list : List Int), exhausted_example.room < list.length →
          times_growth_factor (exhausted_example.capacity + (256 : Nat) + list.length) <
            18446744073709551616 →
          exhausted_example.iAlloc
              (times_growth_factor (exhausted_example.capacity + (256 : Nat) + list.length)) =
            none →
          ∃ c', exhausted_example.insert_list pos list = outcome.bad_alloc (c', 0) ∧
            exhausted_example.unsplit = some c' ∧ compacted exhausted_example c' [10, 20, 30] ∧
            (exhausted_example.iGapStart = exhausted_example.iGapEnd → c' = exhausted_example)) ∧
        ∀ (pos : Int) (x : Int), exhausted_example.room < 1 →
          times_growth_factor (exhausted_example.capacity + (256 : Nat) + 1) < 18446744073709551616 →
          exhausted_example.iAlloc (times_growth_factor (exhausted_example.capacity + (256 : Nat) + 1)) =
            none →
          exhausted_example.insert pos x = outcome.bad_alloc (exhausted_example, 0) ∧
            exhausted_example.push_back x = outcome.bad_alloc exhausted_example) :=
  ⟨exhausted_example_represents,
    failed_allocation_leaves_compacted_state exhausted_example [10, 20, 30]
      exhausted_example_represents⟩

set_option maxRecDepth 100000 in
/-- C12, the claim as stated fails whenever the gap is active: on the reachable buffer
`10, 15, 20, 30` with the gap over slots 2 to 5, whose allocator serves no request above
eight elements, `reserve(100)` and `insert(begin() + 1, 5, 7)` end with `std::bad_alloc`
after `unsplit()` has run: `iGapStart` and `iGapEnd` are null, `iDataEnd` has moved from slot
8 to slot 4, and the suffix `20, 30` has moved from slots 6 and 7 to slots 2 and 3.  The
iterator-range overload `insert(begin() + 2, first, last)` of the five values `1, 2, 3, 4, 5`
ends with `std::bad_alloc` at the fifth element with the first four in slots 2 to 5. -/
theorem failed_reserve_closes_gap :
    split_four.result.map representation =
        some (4096, 4098, 4102, 4104, 8,
          [some 10, some 15, some 30, none, none, none, some 20, some 30]) ∧
      (split_four.bind id fun c => c.reserve 100).thrown.map representation =
        some (4096, 0, 0, 4100, 8,
          [some 10, some 15, some 20, some 30, none, none, none, none]) ∧
      (split_four.bind (fun c => (c, 0)) fun c =>
          c.insert_count (c.iterator_add c.begin 1) 5 (7 : Int)).thrown.map
        (fun r => representation r.1) =
        some (4096, 0, 0, 4100, 8,
          [some 10, some 15, some 20, some 30, none, none, none, none]) ∧
      (split_four.bind (fun c => (c, 0)) fun c =>
          c.insert_range (c.iterator_add c.begin 2) [1, 2, 3, 4, 5]).thrown.map
        (fun r => representation r.1) =
        some (4096, 4098, 4098, 4104, 8,
          [some 10, some 15, some 1, some 2, some 3, some 4, some 20, some 30]) := by
  refine ⟨?_, ?_, ?_, ?_⟩
  · rfl
  · rfl
  · rfl
  · rfl

/-- The call `erase(begin() + i, begin() + j)` on a state with valid cursors, with the frame:
the base and the end of the allocation stay, and when one end of a non-empty range is near
the gap the high-water mark stays and the gap absorbs the range. -/
theorem erase_frame {c : gap_vector T DefaultGapSize NearnessFactor} (h : cursors_valid c)
    {i j : Int} (hi0 : 0 ≤ i) (hij : i ≤ j) (hj : j ≤ c.size) :
    ∃ c', c.erase (c.iterator_add c.begin i) (c.iterator_add c.begin j) =
        some (c', c'.iterator_add c'.begin i) ∧ erased c i (j - i) c' ∧
      c'.iData = c.iData ∧ c'.iStorageEnd = c.iStorageEnd ∧
      ((c.near_gap (c.iterator_add c.begin i) || c.near_gap (c.iterator_add c.begin j)) = true →
        i < j →
        c'.iDataEnd = c.iDataEnd ∧
          c'.iGapEnd - c'.iGapStart = (c.iGapEnd - c.iGapStart) + (j - i) ∧
          (j ≤ c.prefix_length →
            c'.iGapStart = c.iGapStart - (j - i) ∧ c'.iGapEnd = c.iGapEnd) ∧
          (c.prefix_length ≤ i →
            c'.iGapStart = c.iGapStart ∧ c'.iGapEnd = c.iGapEnd + (j - i)) ∧
          (i < c.prefix_length → c.prefix_length < j →
            c'.iGapStart = c.iterator_add c.begin i ∧
              c'.iGapEnd = c.iterator_add c.begin j)) ∧
      ((c.near_gap (c.iterator_add c.begin i) || c.near_gap (c.iterator_add c.begin j)) = false →
        i < j → c'.iGapStart = c'.iGapEnd ∧ c'.iDataEnd = c.iData + c.size - (j - i)) := by
  by_cases heq : i = j
  · subst heq
    refine ⟨c, ?_, ⟨h, rfl, by omega, fun _ _ _ => rfl, fun t _ _ => ?_⟩, rfl, rfl,
      fun _ hh => absurd hh (lt_irrefl _), fun _ hh => absurd hh (lt_irrefl _)⟩
    · unfold erase
      rw [if_pos rfl, iterator_difference_add_begin h hi0 hj]
    · rw [sub_self, add_zero]
  · have hlt : i < j := by omega
    by_cases hnear : (c.near_gap (c.iterator_add c.begin i) ||
        c.near_gap (c.iterator_add c.begin j)) = false
    · obtain ⟨c', e, f1, f2, f3, f4, f5, l1, l2, _⟩ := erase_unsplit_run h hi0 hlt hj hnear
      refine ⟨c', e, erased_unsplit h hi0 hlt hj f1 f2 f3 f4 f5 l1 l2, f2, f4, ?_, ?_⟩
      · intro hh; rw [hnear] at hh; exact absurd hh (by decide)
      · intro _ _; exact ⟨f5, f3⟩
    · have hnear' : (c.near_gap (c.iterator_add c.begin i) ||
          c.near_gap (c.iterator_add c.begin j)) = true := by
        cases hb : (c.near_gap (c.iterator_add c.begin i) ||
          c.near_gap (c.iterator_add c.begin j))
        · exact absurd hb hnear
        · rfl
      have hne : c.iGapStart ≠ c.iGapEnd := by
        rw [Bool.or_eq_true] at hnear'
        rcases hnear' with hh | hh
        · exact near_gap_active hh
        · exact near_gap_active hh
      have hl := layout_of_cursors_valid h
      have hgl : c.gap_length = c.iGapEnd - c.iGapStart := by simp [gap_length, hne]
      have hpl : c.prefix_length = c.iGapStart - c.iData := by simp [prefix_length, hne]
      have hg : 0 < c.gap_length := by
        have := h.gap_mid hne; omega
      have hpb := prefix_length_bounds h
      have hsz := layout_size hl
      by_cases hA : j < c.prefix_length ∨ (j = c.prefix_length ∧ j = c.size)
      · have hpi : c.iterator_add c.begin i = c.iData + i := by
          rw [layout_iterator_add_begin hl hg hi0 (by omega), if_pos (by omega)]
        have hpj : c.iterator_add c.begin j = c.iData + j := by
          rw [layout_iterator_add_begin hl hg (by omega) hj, if_pos (by omega)]
        rw [hpi, hpj] at hnear' ⊢
        obtain ⟨c', e, f1, f2, f3, f4, f5, f6, fl⟩ := erase_before_gap_run hl hg hi0 hlt hA hnear'
        refine ⟨c', e, erased_before_gap hl hg hi0 hlt (by omega) f1 f2 f3 f4 f5 f6 fl, f2, f4,
          ?_, ?_⟩
        · intro _ _
          exact ⟨f3, by omega, fun _ => ⟨f5, f6⟩, fun _ => by omega, fun _ _ => by omega⟩
        · intro hh; rw [hnear'] at hh; exact absurd hh (by decide)
      · have hpj : c.iterator_add c.begin j = c.iData + j + c.gap_length := by
          rw [layout_iterator_add_begin hl hg (by omega) hj, if_neg (by omega)]
        by_cases hB : c.prefix_length ≤ i
        · have hpi : c.iterator_add c.begin i = c.iData + i + c.gap_length := by
            rw [layout_iterator_add_begin hl hg hi0 (by omega), if_neg (by omega)]
          rw [hpi, hpj] at hnear' ⊢
          obtain ⟨c', e, f1, f2, f3, f4, f5, f6, fl⟩ :=
            erase_after_gap_run hl hg hB hlt hj hnear'
          refine ⟨c', e, erased_after_gap hl hg hB hlt hj f1 f2 f3 f4 f5 f6 fl, f2, f4, ?_, ?_⟩
          · intro _ _
            exact ⟨f3, by omega, fun _ => by omega, fun _ => ⟨f5, f6⟩, fun _ _ => by omega⟩
          · intro hh; rw [hnear'] at hh; exact absurd hh (by decide)
        · have hpi : c.iterator_add c.begin i = c.iData + i := by
            rw [layout_iterator_add_begin hl hg hi0 (by omega), if_pos (by omega)]
          rw [hpi, hpj] at hnear' ⊢
          obtain ⟨c', e, f1, f2, f3, f4, f5, f6, fl⟩ :=
            erase_straddle_run hl hg hi0 (by omega) (by omega) hj (by omega) hnear'
          refine ⟨c', e,
            erased_straddle hl hg hi0 (by omega) (by omega) hj f1 f2 f3 f4 f5 f6 fl, f2, f4,
            ?_, ?_⟩
          · intro _ _
            exact ⟨f3, by omega, fun _ => by omega, fun _ => by omega, fun _ _ => ⟨f5, f6⟩⟩
          · intro hh; rw [hnear'] at hh; exact absurd hh (by decide)


/-- The call `erase(begin() + i, begin() + j)` on a state holding `s`: the buffer it leaves holds
`s` without the range, on the same allocation. -/
theorem erase_represents {c : gap_vector T DefaultGapSize NearnessFactor} {s : List T}
    (h : represents c s) (i j : Nat) (hij : i ≤ j) (hj : j ≤ s.length) :
    ∃ c', c.erase (c.iterator_add c.begin i) (c.iterator_add c.begin j) =
        some (c', c'.iterator_add c'.begin i) ∧
      represents c' (s.take i ++ s.drop j) ∧ c'.size = c.size - (j - i) ∧
      c'.iAlloc = c.iAlloc ∧ c'.iData = c.iData ∧ c'.iStorageEnd = c.iStorageEnd := by
  have hcv := h.1.cursors
  have hsz := represents_size h
  have hobs := represents_observed h
  obtain ⟨c', e, er, f2, f4, _⟩ := erase_frame hcv (i := (i : Int)) (j := (j : Int)) (by omega)
    (by omega) (by omega)
  have hsz' := er.size
  refine ⟨c', e, ?_, hsz', er.alloc, f2, f4⟩
  apply represents_of_observed er.cursors
  have := list_eq_erase (s.map some) c'.observed_sequence i j hij (by simpa using hj)
    (by rw [observed_length, List.length_map]; omega) ?_ ?_
  · rw [this]; simp [List.map_take, List.map_drop]
  · intro t ht
    rw [observed_getElem? _ (by omega), er.before t (by omega) (by omega),
      ← observed_getElem? c (by omega), hobs]
  · intro t ht0 ht1
    rw [List.length_map] at ht1
    rw [observed_getElem? _ (by omega), er.after t (by omega) (by omega), ← hobs,
      observed_getElem? c (by omega)]
    congr 2
    push_cast
    omega

/-- C21: for every well-formed buffer holding `s` and all indices `i ≤ j ≤ |s|`,
`erase(begin() + i, begin() + j)` returns an iterator that equals `begin() + i` in the buffer
it leaves; when the range reached the end (`j = |s|`) that iterator is `end()`, and otherwise
it dereferences to `s[j]`, the element that now occupies the erasure point. -/
theorem erase_returns_erasure_point (c : gap_vector T DefaultGapSize NearnessFactor)
    (s : List T) (h : represents c s) (i j : Nat) (hij : i ≤ j) (hj : j ≤ s.length) :
    ∃ c' r, c.erase (c.iterator_add c.begin i) (c.iterator_add c.begin j) = some (c', r) ∧
      represents c' (s.take i ++ s.drop j) ∧ r = c'.iterator_add c'.begin i ∧
      (j = s.length → r = c'.end_) ∧ (j < s.length → c'.load r = s[j]?) := by
  have hsz := represents_size h
  obtain ⟨c', e, r, sz, _⟩ := erase_represents h i j hij hj
  have hsz' := represents_size r
  refine ⟨c', _, e, r, rfl, ?_, ?_⟩
  · intro hjl
    rw [end_eq_iterator_add r.1.cursors]
    congr 1
    omega
  · intro hjl
    have hlen : i < (s.take i ++ s.drop j).length := by simp; omega
    rw [load_iterator_add_begin r hlen, ← List.getElem?_eq_getElem hlen,
      List.getElem?_append_right (by simp)]
    simp only [List.length_take, List.getElem?_drop]
    congr 1
    omega

theorem erase_returns_erasure_point_witness :
    represents split_example [10, 20, 30] ∧ 1 ≤ 2 ∧ 2 ≤ [(10 : Int), 20, 30].length ∧
      ∃ c' r, split_example.erase (split_example.iterator_add split_example.begin (1 : Nat))
          (split_example.iterator_add split_example.begin (2 : Nat)) = some (c', r) ∧
        represents c' ([(10 : Int), 20, 30].take 1 ++ [(10 : Int), 20, 30].drop 2) ∧
        r = c'.iterator_add c'.begin (1 : Nat) ∧
        (2 = [(10 : Int), 20, 30].length → r = c'.end_) ∧
        (2 < [(10 : Int), 20, 30].length → c'.load r = [(10 : Int), 20, 30][2]?) :=
  ⟨split_example_represents, by decide, by decide,
    erase_returns_erasure_point split_example [10, 20, 30] split_example_represents 1 2
      (by decide) (by decide)⟩

/-- C24: for every non-empty well-formed buffer holding `s`, `pop_back()` returns and leaves a
well-formed buffer holding `s` without its last element, of size `|s| - 1`, wherever the last
element lies. -/
theorem pop_back_drops_last (c : gap_vector T DefaultGapSize NearnessFactor) (s : List T)
    (h : represents c s) (hne : s ≠ []) :
    ∃ c', c.pop_back = some c' ∧ represents c' s.dropLast ∧ c'.size = c.size - 1 ∧
      c'.logical_sequence = (s.take (s.length - 1)).map some := by
  have hcv := h.1.cursors
  have hsz := represents_size h
  have hpos : 0 < s.length := List.length_pos.2 hne
  obtain ⟨c', e, r, sz, _⟩ := erase_represents h (s.length - 1) s.length (by omega) (le_refl _)
  have hlist : s.take (s.length - 1) ++ s.drop s.length = s.dropLast := by
    rw [List.drop_length, List.append_nil, List.dropLast_eq_take]
  rw [hlist] at r
  refine ⟨c', ?_, r, ?_, ?_⟩
  · unfold pop_back erase_one
    rw [prev_end_eq hcv (by omega)]
    have hstep := iterator_add_succ hcv (i := c.size - 1) (by omega) (by omega)
    rw [hstep]
    have e1 : c.size - 1 = ((s.length - 1 : Nat) : Int) := by omega
    have e2 : c.size - 1 + 1 = ((s.length : Nat) : Int) := by omega
    rw [e2, e1, e]
    rfl
  · rw [sz]; omega
  · rw [r.2, List.dropLast_eq_take]

theorem pop_back_drops_last_witness :
    represents split_example [10, 20, 30] ∧ [(10 : Int), 20, 30] ≠ [] ∧
      ∃ c', split_example.pop_back = some c' ∧ represents c' [(10 : Int), 20, 30].dropLast ∧
        c'.size = split_example.size - 1 ∧
        c'.logical_sequence =
          ([(10 : Int), 20, 30].take ([(10 : Int), 20, 30].length - 1)).map some :=
  ⟨split_example_represents, by decide,
    pop_back_drops_last split_example [10, 20, 30] split_example_represents (by decide)⟩


theorem empty_iff_size_zero {c : gap_vector T DefaultGapSize NearnessFactor}
    (h : cursors_valid c) : c.empty = true ↔ c.size = 0 := by
  have hs0 := size_nonneg h
  have hk := iterator_add_begin_eq_end h (i := 0) (le_refl _) hs0
  have h0 : c.iterator_add c.begin 0 = c.begin := rfl
  rw [h0] at hk
  unfold empty
  rw [decide_eq_true_iff, hk]
  omega

theorem room_eq_capacity_sub_size {c : gap_vector T DefaultGapSize NearnessFactor}
    (h : cursors_valid c) : c.room = c.capacity - c.size := by
  rw [room_eq h, capacity_eq h, size_eq h]
  omega

/-- C22: in every state with valid cursors `empty()` is `true` exactly when `size()` is `0`,
whatever the gap; and for a well-formed buffer `c1` holding the single element `a`,
`erase(begin())` returns and leaves a buffer with `empty() == true`, on which `push_back(x)`
returns, whatever the allocator would do, and leaves a well-formed buffer holding `[x]`
(`DefaultGapSize` assumed positive). -/
theorem empty_iff_and_scenario (c c1 : gap_vector T DefaultGapSize NearnessFactor)
    (h : cursors_valid c) (a : T) (ha : represents c1 [a]) (hG0 : 0 < DefaultGapSize)
    (hGb : (DefaultGapSize : Int) < 9223372036854775808) :
    (c.empty = true ↔ c.size = 0) ∧
      ∃ c' r, c1.erase_one c1.begin = some (c', r) ∧ c'.empty = true ∧ c'.size = 0 ∧
        represents c' [] ∧
        ∀ x : T, ∃ c'', c'.push_back x = outcome.returned c'' ∧ represents c'' [x] ∧
          c''.size = 1 := by
  refine ⟨empty_iff_size_zero h, ?_⟩
  have h1 := ha.1.cursors
  have hsz := represents_size ha
  obtain ⟨c', e, r, sz, al, f2, f4⟩ := erase_represents ha 0 1 (by decide) (by simp)
  have hcv' := r.1.cursors
  have hsz' := represents_size r
  have hcap' : c'.capacity = c1.capacity := by rw [capacity_eq hcv', capacity_eq h1, f2, f4]
  have hcapge : c1.size ≤ c1.capacity := by
    have := room_eq_capacity_sub_size h1
    have := room_eq h1
    have := gap_length_nonneg h1
    have := h1.end_le
    omega
  have hroom' : ¬ c'.room < 1 := by
    rw [room_eq_capacity_sub_size hcv', hcap']
    simp only [List.length_singleton, Nat.cast_one] at hsz
    simp only [List.take_zero, List.drop_one, List.tail_cons, List.nil_append,
      List.length_nil, Nat.cast_zero] at hsz'
    omega
  have hstep : c1.iterator_add c1.begin ((1 : Nat) : Int) = c1.iterator_add c1.begin 1 := rfl
  rw [iterator_add_zero, hstep] at e
  have r0 : represents c' [] := by simpa using r
  refine ⟨c', c'.iterator_add c'.begin ((0 : Nat) : Int), ?_, ?_, ?_, r0, ?_⟩
  · unfold erase_one
    exact e
  · rw [empty_iff_size_zero hcv']
    simpa using hsz'
  · simpa using hsz'
  · intro x
    obtain ⟨c'', e2, r2, _, s2⟩ := push_back_spec r0 x hG0 hGb (fun hh => absurd hh hroom')
    refine ⟨c'', e2, by simpa using r2, ?_⟩
    have := represents_size r2
    simpa using this

theorem single_example_represents : represents single_example [7] := by
  refine ⟨⟨⟨by decide, by decide, by decide, fun _ => by decide, fun _ => by decide,
    fun _ => by decide⟩, ?_⟩, by decide⟩
  intro p h1 h2 h3
  have h4 := h3 (by decide)
  simp only [single_example] at h1 h2 h4
  have : p = 4096 := by omega
  subst this
  decide

set_option maxRecDepth 100000 in
theorem empty_iff_and_scenario_witness :
    cursors_valid split_example ∧ represents single_example [7] ∧ 0 < 256 ∧
      ((256 : Nat) : Int) < 9223372036854775808 ∧
      (single_example.erase_one single_example.begin).map
          (fun r => (r.1.iGapStart - r.1.iData, r.1.iDataEnd - r.1.iGapEnd, r.1.gap_active,
            r.1.empty)) = some (0, 0, true, true) ∧
      ((split_example.empty = true ↔ split_example.size = 0) ∧
        ∃ c' r, single_example.erase_one single_example.begin = some (c', r) ∧
          c'.empty = true ∧ c'.size = 0 ∧ represents c' [] ∧
          ∀ x : Int, ∃ c'', c'.push_back x = outcome.returned c'' ∧ represents c'' [x] ∧
            c''.size = 1) :=
  ⟨split_example_represents.1.cursors, single_example_represents, by decide, by decide,
    by decide,
    empty_iff_and_scenario split_example single_example split_example_represents.1.cursors 7
      single_example_represents (by decide) (by decide)⟩

/-- C23: for every well-formed state holding `s`, `data()` returns the base pointer and leaves
a well-formed state that still holds `s`, with the gap inactive, the slots `0 .. |s| - 1` of
the allocation holding `s` in order, `iDataEnd == iData + |s|` and base and `capacity()`
unchanged, whatever the lengths of the gap and of the suffix. -/
theorem data_flattens (c : gap_vector T DefaultGapSize NearnessFactor) (s : List T)
    (h : represents c s) :
    ∃ c', c.data = some (c', c.iData) ∧ c'.iData = c.iData ∧ c'.gap_active = false ∧
      c'.iDataEnd = c'.iData + s.length ∧ c'.capacity = c.capacity ∧ represents c' s ∧
      c'.logical_sequence = c.logical_sequence ∧
      ∀ j : Nat, j < s.length → c'.slot j = s[j]? := by
  have hcv := h.1.cursors
  have hsz := represents_size h
  obtain ⟨c', e, cv, a1, a2, a3, a4, a5, l⟩ := unsplit_spec hcv
  obtain ⟨c2, e2, r, _, _, _, _, _, _, cap⟩ := unsplit_represents h
  rw [e] at e2
  obtain rfl := Option.some.inj e2
  refine ⟨c', ?_, a2, by simp [gap_active, a5], by omega, cap, r, by rw [r.2, h.2], ?_⟩
  · unfold data
    rw [e]
    simp only [a2]
  · intro j hj
    have := l j (by omega) (by omega)
    rw [represents_index h j hj] at this
    rw [← this]
    unfold load
    congr 1
    omega

theorem data_flattens_witness :
    represents split_example [10, 20, 30] ∧
      ∃ c', split_example.data = some (c', split_example.iData) ∧
        c'.iData = split_example.iData ∧ c'.gap_active = false ∧
        c'.iDataEnd = c'.iData + [(10 : Int), 20, 30].length ∧
        c'.capacity = split_example.capacity ∧ represents c' [10, 20, 30] ∧
        c'.logical_sequence = split_example.logical_sequence ∧
        ∀ j : Nat, j < [(10 : Int), 20, 30].length → c'.slot j = [(10 : Int), 20, 30][j]? :=
  ⟨split_example_represents, data_flattens split_example [10, 20, 30] split_example_represents⟩


/-- The gap-reuse branches of `allocate_from_gap(begin() + i, k)`: base, high-water mark and end
of the allocation stay; for a position that is not after the gap `iGapStart` advances by
`k`, for a position after the gap `iGapEnd` retreats by `k`; no slot outside the relocated
stretch between the position and the gap changes. -/
theorem allocate_from_gap_reuse {c : gap_vector T DefaultGapSize NearnessFactor}
    (h : cursors_valid c) {i k : Int} (hi0 : 0 ≤ i) (hi1 : i ≤ c.size) (hk0 : 0 ≤ k)
    (hnear : c.near_gap (c.iterator_add c.begin i) = true) (hkg : k ≤ c.gap_size) :
    ∃ c' m, c.allocate_from_gap (c.iterator_add c.begin i) k = outcome.returned (c', m) ∧
      c'.iAlloc = c.iAlloc ∧ c'.iData = c.iData ∧ c'.iDataEnd = c.iDataEnd ∧
      c'.iStorageEnd = c.iStorageEnd ∧
      (c.after_gap (c.iterator_add c.begin i) = false →
        c'.iGapStart = c.iGapStart + k ∧ c'.iGapEnd = c.iGapEnd ∧
          m = c.iterator_add c.begin i) ∧
      (c.after_gap (c.iterator_add c.begin i) = true →
        c'.iGapStart = c.iGapStart ∧ c'.iGapEnd = c.iGapEnd - k ∧
          m = c.iterator_add c.begin i - k) ∧
      (∀ q, q < min (c.iterator_add c.begin i) c.iGapStart → c'.load q = c.load q) ∧
      (∀ q, max (c.iterator_add c.begin i) c.iGapEnd ≤ q → c'.load q = c.load q) ∧
      (i = c.prefix_length → ∀ q, c'.load q = c.load q) := by
  have hg := near_gap_active hnear
  have hgl : c.gap_length = c.iGapEnd - c.iGapStart := by simp [gap_length, hg]
  have hpl : c.prefix_length = c.iGapStart - c.iData := by simp [prefix_length, hg]
  have hsz := size_eq h
  have h6 := h.gap_hi hg; have h4 := h.gap_lo hg; have h5 := h.gap_mid hg
  have hga : c.gap_active = true := by simp [gap_active, hg]
  rw [gap_size_eq h, hgl] at hkg
  rw [hgl] at hsz
  have hp := iterator_add_begin h hi0 hi1
  rw [hpl, hgl] at hp
  by_cases hA : i < c.iGapStart - c.iData
  · rw [if_pos (Or.inl hA)] at hp
    rw [hp] at hnear ⊢
    obtain ⟨c1, e, sc, l⟩ := allocate_from_gap_before_gap h hi0 hA hk0 hkg hnear
    obtain ⟨b1, b2, b3, b4, b5, b6⟩ := sc
    have haf : c.after_gap (c.iData + i) = false := by
      simp only [after_gap, hga, Bool.true_and, decide_eq_false_iff_not]; omega
    refine ⟨_, _, e, b1, b2, b3, b4, fun _ => ⟨rfl, b6, rfl⟩,
      fun hh => by rw [haf] at hh; exact absurd hh (by decide), ?_, ?_, ?_⟩
    · intro q hq
      show c1.load q = _
      rw [l, if_neg (by omega), if_neg (by omega)]
    · intro q hq
      show c1.load q = _
      rw [l, if_neg (by omega), if_neg (by omega)]
    · intro hh; omega
  · by_cases hC : i = c.iGapStart - c.iData ∧ i = c.size ∧ 0 < i
    · rw [if_pos (Or.inr hC)] at hp
      have hpe : c.iData + i = c.iGapStart := by omega
      rw [hp, hpe] at hnear ⊢
      have e := allocate_from_gap_at_gap h hk0 hkg (by omega) (by omega) hnear
      have haf : c.after_gap c.iGapStart = false := by
        simp only [after_gap, hga, Bool.true_and, decide_eq_false_iff_not]; omega
      exact ⟨_, _, e, rfl, rfl, rfl, rfl, fun _ => ⟨rfl, rfl, rfl⟩,
        fun hh => by rw [haf] at hh; exact absurd hh (by decide), fun _ _ => rfl,
        fun _ _ => rfl, fun _ _ => rfl⟩
    · rw [if_neg (by omega)] at hp
      rw [hp] at hnear ⊢
      obtain ⟨c1, e, sc, l⟩ := allocate_from_gap_after_gap h (by omega) hi1 (by omega) hk0 hkg
        hnear
      obtain ⟨b1, b2, b3, b4, b5, b6⟩ := sc
      have haf : c.after_gap (c.iData + i + (c.iGapEnd - c.iGapStart)) = true := by
        simp only [after_gap, hga, Bool.true_and, decide_eq_true_eq]; omega
      refine ⟨_, _, e, b1, b2, b3, b4,
        fun hh => by rw [haf] at hh; exact absurd hh (by decide), fun _ => ⟨b5, rfl, rfl⟩,
        ?_, ?_, ?_⟩
      · intro q hq
        show c1.load q = _
        rw [l, if_neg (by omega), if_neg (by omega)]
      · intro q hq
        show c1.load q = _
        rw [l, if_neg (by omega), if_neg (by omega)]
      · intro hh q
        show c1.load q = _
        rw [l, if_neg (by omega), if_neg (by omega)]


theorem same_cursors_gap_size {c c' : gap_vector T DefaultGapSize NearnessFactor}
    (h : same_cursors c c') : c'.gap_size = c.gap_size := by
  obtain ⟨a1, a2, a3, a4, a5, a6⟩ := h
  unfold gap_size
  rw [a5, a6]

theorem same_cursors_capacity {c c' : gap_vector T DefaultGapSize NearnessFactor}
    (h : same_cursors c c') : c'.capacity = c.capacity := by
  obtain ⟨a1, a2, a3, a4, a5, a6⟩ := h
  unfold capacity
  rw [a2, a4]

/-- C26: for every state with valid cursors, every position `begin() + i` that `near_gap` accepts
and every count `k ≤ gap_size()`, `insert(pos, k, x)` returns with the base, `capacity()` and
the high-water mark unchanged (no reallocation, no unsplit) and with the gap `k` slots
smaller: for a position before or at the gap (one that `after_gap` rejects) `iGapStart` has
advanced by `k` and `iGapEnd` stayed, for a position after the gap `iGapEnd` has retreated
by `k` and `iGapStart` stayed. -/
theorem gap_reuse_insert_frame (c : gap_vector T DefaultGapSize NearnessFactor)
    (h : cursors_valid c) (i k : Nat) (x : T) (hi : (i : Int) ≤ c.size)
    (hnear : c.near_gap (c.iterator_add c.begin i) = true) (hkg : (k : Int) ≤ c.gap_size) :
    ∃ c' m, c.insert_count (c.iterator_add c.begin i) k x = outcome.returned (c', m) ∧
      c'.iData = c.iData ∧ c'.capacity = c.capacity ∧ c'.iStorageEnd = c.iStorageEnd ∧
      c'.iDataEnd = c.iDataEnd ∧ c'.gap_size = c.gap_size - k ∧
      (c.after_gap (c.iterator_add c.begin i) = false →
        c'.iGapStart = c.iGapStart + k ∧ c'.iGapEnd = c.iGapEnd) ∧
      (c.after_gap (c.iterator_add c.begin i) = true →
        c'.iGapStart = c.iGapStart ∧ c'.iGapEnd = c.iGapEnd - k) := by
  have hg := near_gap_active hnear
  have h5 := h.gap_mid hg
  have hgs := gap_size_eq h
  have hgl : c.gap_length = c.iGapEnd - c.iGapStart := by simp [gap_length, hg]
  have hkg' : (k : Int) ≤ c.iGapEnd - c.iGapStart := by omega
  have q1 := h.cap_lt; have q2 := h.gap_hi hg; have q3 := h.gap_lo hg; have q4 := h.end_le
  obtain ⟨c1, m, e, a1, a2, a3, a4, hb, ha, _⟩ := allocate_from_gap_reuse h (i := (i : Int))
    (k := (k : Int)) (by omega) hi (by omega) hnear hkg
  obtain ⟨sc, _⟩ := uninitialized_fill_n_spec x k c1 m
  obtain ⟨b1, b2, b3, b4, b5, b6⟩ := sc
  have hcap : (uninitialized_copy (List.replicate k x) c1 m).capacity = c.capacity := by
    unfold capacity; rw [b2, b4, a2, a4]
  have hgap : (uninitialized_copy (List.replicate k x) c1 m).gap_size = c.gap_size - k := by
    rw [hgs, hgl]
    unfold gap_size
    rw [b5, b6]
    cases hc : c.after_gap (c.iterator_add c.begin i)
    · obtain ⟨g1, g2, _⟩ := hb hc
      rw [g1, g2, to_size_of_bounds (z := c.iGapEnd - (c.iGapStart + k)) (by omega) (by omega)]
      omega
    · obtain ⟨g1, g2, _⟩ := ha hc
      rw [g1, g2, to_size_of_bounds (z := c.iGapEnd - k - c.iGapStart) (by omega) (by omega)]
      omega
  refine ⟨uninitialized_copy (List.replicate k x) c1 m, m, ?_, by rw [b2, a2], hcap, by rw [b4, a4],
    by rw [b3, a3], hgap, ?_, ?_⟩
  · rw [insert_count_external]
    rw [e]
    simp only [outcome.bind, id, Int.toNat_ofNat]
  · intro hc
    obtain ⟨g1, g2, _⟩ := hb hc
    exact ⟨by rw [b5, g1], by rw [b6, g2]⟩
  · intro hc
    obtain ⟨g1, g2, _⟩ := ha hc
    exact ⟨by rw [b5, g1], by rw [b6, g2]⟩

set_option maxRecDepth 100000 in
theorem gap_reuse_insert_frame_witness :
    cursors_valid split_example ∧ (((1 : Nat) : Int) ≤ split_example.size) ∧
      split_example.near_gap (split_example.iterator_add split_example.begin (1 : Nat)) = true ∧
      (((2 : Nat) : Int) ≤ split_example.gap_size) ∧
      ∃ c' m, split_example.insert_count
          (split_example.iterator_add split_example.begin (1 : Nat)) (2 : Nat) (99 : Int) =
          outcome.returned (c', m) ∧
        c'.iData = split_example.iData ∧ c'.capacity = split_example.capacity ∧
        c'.iStorageEnd = split_example.iStorageEnd ∧
        c'.iDataEnd = split_example.iDataEnd ∧
        c'.gap_size = split_example.gap_size - (2 : Nat) ∧
        (split_example.after_gap (split_example.iterator_add split_example.begin (1 : Nat)) =
            false →
          c'.iGapStart = split_example.iGapStart + (2 : Nat) ∧
            c'.iGapEnd = split_example.iGapEnd) ∧
        (split_example.after_gap (split_example.iterator_add split_example.begin (1 : Nat)) =
            true →
          c'.iGapStart = split_example.iGapStart ∧
            c'.iGapEnd = split_example.iGapEnd - (2 : Nat)) :=
  ⟨split_example_represents.1.cursors, by decide, by decide, by decide,
    gap_reuse_insert_frame split_example split_example_represents.1.cursors 1 2 99 (by decide)
      (by decide) (by decide)⟩


theorem near_gap_gap_start {c : gap_vector T DefaultGapSize NearnessFactor}
    (hg : c.iGapStart ≠ c.iGapEnd) : c.near_gap c.iGapStart = true := by
  have h0 : 0 ≤ to_size ((DefaultGapSize : Int) * NearnessFactor) := by
    unfold to_size; omega
  unfold near_gap
  simp only [gap_active, hg, ne_eq, not_false_eq_true, decide_True, Bool.not_true,
    Bool.false_eq_true, if_false, sub_self, abs_zero, Bool.or_eq_true, decide_eq_true_eq]
  left
  exact_mod_cast h0

theorem near_gap_gap_end {c : gap_vector T DefaultGapSize NearnessFactor}
    (hg : c.iGapStart ≠ c.iGapEnd) : c.near_gap c.iGapEnd = true := by
  have h0 : 0 ≤ to_size ((DefaultGapSize : Int) * NearnessFactor) := by
    unfold to_size; omega
  unfold near_gap
  simp only [gap_active, hg, ne_eq, not_false_eq_true, decide_True, Bool.not_true,
    Bool.false_eq_true, if_false, sub_self, abs_zero, Bool.or_eq_true, decide_eq_true_eq]
  right
  exact_mod_cast h0


/-- C27, as amended: for every state with valid cursors and an active gap and every count
`k ≤ gap_size()`, `insert(begin() + P, k, x)` at the logical index `P` of the gap start (the
prefix length) returns, changes no slot but the `k` it constructs, which lie inside the old
gap, and leaves base, high-water mark and end of the allocation where they were.  When the
suffix is empty and the prefix is not, the iterator points at `iGapStart`: the new elements
start there, `iGapStart` advances by `k` and `iGapEnd` stays.  Otherwise the iterator points
at `iGapEnd`: the new elements end there, `iGapEnd` retreats by `k` and `iGapStart` stays. -/
theorem insert_at_gap_start_moves_nothing (c : gap_vector T DefaultGapSize NearnessFactor)
    (h : cursors_valid c) (hg : c.iGapStart ≠ c.iGapEnd) (k : Nat) (x : T)
    (hkg : (k : Int) ≤ c.gap_size) :
    ∃ c' m, c.insert_count (c.iterator_add c.begin c.prefix_length) k x =
        outcome.returned (c', m) ∧
      c'.iData = c.iData ∧ c'.iDataEnd = c.iDataEnd ∧ c'.iStorageEnd = c.iStorageEnd ∧
      (∀ q, ¬ (m ≤ q ∧ q < m + k) → c'.load q = c.load q) ∧
      (∀ q, m ≤ q → q < m + k → c'.load q = some x) ∧
      c.iGapStart ≤ m ∧ m + k ≤ c.iGapEnd ∧
      (c.iGapEnd = c.iDataEnd ∧ c.iData < c.iGapStart →
        c'.iGapStart = c.iGapStart + k ∧ c'.iGapEnd = c.iGapEnd ∧ m = c.iGapStart) ∧
      (¬ (c.iGapEnd = c.iDataEnd ∧ c.iData < c.iGapStart) →
        c'.iGapStart = c.iGapStart ∧ c'.iGapEnd = c.iGapEnd - k ∧ m = c.iGapEnd - k) := by
  have h5 := h.gap_mid hg; have h4 := h.gap_lo hg; have h6 := h.gap_hi hg
  have hgs := gap_size_eq h
  have hgl : c.gap_length = c.iGapEnd - c.iGapStart := by simp [gap_length, hg]
  have hpl : c.prefix_length = c.iGapStart - c.iData := by simp [prefix_length, hg]
  have hga : c.gap_active = true := by simp [gap_active, hg]
  have hsz := size_eq h
  have hpb := prefix_length_bounds h
  have hp := iterator_add_begin h hpb.1 hpb.2
  by_cases hS : c.iGapEnd = c.iDataEnd ∧ c.iData < c.iGapStart
  · rw [if_pos (Or.inr ⟨rfl, by omega, by omega⟩)] at hp
    have hpe : c.iterator_add c.begin c.prefix_length = c.iGapStart := by rw [hp, hpl]; omega
    have hnear : c.near_gap (c.iterator_add c.begin c.prefix_length) = true := by
      rw [hpe]; exact near_gap_gap_start hg
    have haf : c.after_gap (c.iterator_add c.begin c.prefix_length) = false := by
      rw [hpe]
      simp only [after_gap, hga, Bool.true_and, decide_eq_false_iff_not]; omega
    obtain ⟨c1, m, e, a1, a2, a3, a4, hb, _, _, _, hl⟩ := allocate_from_gap_reuse h
      (k := (k : Int)) hpb.1 hpb.2 (by omega) hnear hkg
    obtain ⟨g1, g2, g3⟩ := hb haf
    obtain ⟨sc, lf⟩ := uninitialized_fill_n_spec x k c1 m
    obtain ⟨b1, b2, b3, b4, b5, b6⟩ := sc
    refine ⟨uninitialized_copy (List.replicate k x) c1 m, m, ?_, by rw [b2, a2], by rw [b3, a3],
      by rw [b4, a4], ?_, ?_, by omega, by omega, fun _ => ⟨by rw [b5, g1], by rw [b6, g2],
        by omega⟩, fun hh => absurd hS hh⟩
    · rw [insert_count_external]
      rw [e]
      simp only [outcome.bind, id, Int.toNat_ofNat]
    · intro q hq
      rw [lf, if_neg hq, hl rfl]
    · intro q hq1 hq2
      rw [lf, if_pos ⟨hq1, hq2⟩]
  · rw [if_neg (by omega)] at hp
    have hpe : c.iterator_add c.begin c.prefix_length = c.iGapEnd := by
      rw [hp, hpl, hgl]; omega
    have hnear : c.near_gap (c.iterator_add c.begin c.prefix_length) = true := by
      rw [hpe]; exact near_gap_gap_end hg
    have haf : c.after_gap (c.iterator_add c.begin c.prefix_length) = true := by
      rw [hpe]
      simp only [after_gap, hga, Bool.true_and, decide_eq_true_eq]; omega
    obtain ⟨c1, m, e, a1, a2, a3, a4, _, ha, _, _, hl⟩ := allocate_from_gap_reuse h
      (k := (k : Int)) hpb.1 hpb.2 (by omega) hnear hkg
    obtain ⟨g1, g2, g3⟩ := ha haf
    obtain ⟨sc, lf⟩ := uninitialized_fill_n_spec x k c1 m
    obtain ⟨b1, b2, b3, b4, b5, b6⟩ := sc
    refine ⟨uninitialized_copy (List.replicate k x) c1 m, m, ?_, by rw [b2, a2], by rw [b3, a3],
      by rw [b4, a4], ?_, ?_, by omega, by omega, fun hh => absurd hh hS,
      fun _ => ⟨by rw [b5, g1], by rw [b6, g2], by omega⟩⟩
    · rw [insert_count_external]
      rw [e]
      simp only [outcome.bind, id, Int.toNat_ofNat]
    · intro q hq
      rw [lf, if_neg hq, hl rfl]
    · intro q hq1 hq2
      rw [lf, if_pos ⟨hq1, hq2⟩]

set_option maxRecDepth 100000 in
theorem insert_at_gap_start_moves_nothing_witness :
    cursors_valid split_example ∧ split_example.iGapStart ≠ split_example.iGapEnd ∧
      (((1 : Nat) : Int) ≤ split_example.gap_size) ∧
      ∃ c' m, split_example.insert_count
          (split_example.iterator_add split_example.begin split_example.prefix_length)
          (1 : Nat) (99 : Int) = outcome.returned (c', m) ∧
        c'.iData = split_example.iData ∧ c'.iDataEnd = split_example.iDataEnd ∧
        c'.iStorageEnd = split_example.iStorageEnd ∧
        (∀ q, ¬ (m ≤ q ∧ q < m + (1 : Nat)) → c'.load q = split_example.load q) ∧
        (∀ q, m ≤ q → q < m + (1 : Nat) → c'.load q = some 99) ∧
        split_example.iGapStart ≤ m ∧ m + (1 : Nat) ≤ split_example.iGapEnd ∧
        (split_example.iGapEnd = split_example.iDataEnd ∧
            split_example.iData < split_example.iGapStart →
          c'.iGapStart = split_example.iGapStart + (1 : Nat) ∧
            c'.iGapEnd = split_example.iGapEnd ∧ m = split_example.iGapStart) ∧
        (¬ (split_example.iGapEnd = split_example.iDataEnd ∧
            split_example.iData < split_example.iGapStart) →
          c'.iGapStart = split_example.iGapStart ∧
            c'.iGapEnd = split_example.iGapEnd - (1 : Nat) ∧
            m = split_example.iGapEnd - (1 : Nat)) :=
  ⟨split_example_represents.1.cursors, by decide, by decide,
    insert_at_gap_start_moves_nothing split_example split_example_represents.1.cursors
      (by decide) 1 99 (by decide)⟩

set_option maxRecDepth 100000 in
/-- C27, the claim as stated fails when the suffix is not empty: in the state with the prefix
`10, 20` in slots 0 and 1, the gap over slots 2 and 3 and the suffix `30` in slot 4,
`begin() + 2` points at `iGapEnd`, and `insert(begin() + 2, 99)` constructs `99` in slot 3,
the last slot of the gap: `iGapStart` stays at slot 2 and `iGapEnd` retreats to slot 3. -/
theorem insert_at_gap_start_retreats_gap_end :
    (split_example.prefix_length, split_example.iGapStart - split_example.iData,
        split_example.iGapEnd - split_example.iData,
        split_example.iterator_add split_example.begin 2 - split_example.iData) =
        (2, 2, 4, 4) ∧
      (split_example.insert (split_example.iterator_add split_example.begin 2) (99 : Int)).result.map
          (fun r => (r.1.iGapStart - r.1.iData, r.1.iGapEnd - r.1.iData, r.2 - r.1.iData,
            r.1.logical_sequence)) =
        some (2, 3, 3, [some 10, some 20, some 99, some 30]) := by
  constructor
  · decide
  · decide


/-- The gap-miss branch of `allocate_from_gap` for any count: the cursors of the buffer it
leaves. -/
theorem allocate_from_gap_miss_cursors {c : gap_vector T DefaultGapSize NearnessFactor}
    (h : cursors_valid c) {p i k : Int} (hp : c.iterator_difference p c.begin = i)
    (hi0 : 0 ≤ i) (hi1 : i ≤ c.size) (hk0 : 0 ≤ k)
    (hGb : (DefaultGapSize : Int) < 9223372036854775808)
    (hmiss : (c.near_gap p && decide (k ≤ c.gap_size)) = false)
    (halloc : c.room < k →
      times_growth_factor (c.capacity + DefaultGapSize + k) < 9223372036854775808 ∧
        ∃ b, c.iAlloc (c.grow_request k) = some b) :
    ∃ c' g0, c.allocate_from_gap p k = outcome.returned (c', c'.iData + i) ∧
      c'.iAlloc = c.iAlloc ∧ 0 ≤ g0 ∧
      g0 = min (c'.iStorageEnd - c'.iData - c.size) DefaultGapSize ∧
      c'.iGapStart = c'.iData + i + k ∧ c'.iGapEnd = c'.iData + i + g0 ∧
      c'.iDataEnd = c'.iData + c.size + g0 ∧ c'.iDataEnd ≤ c'.iStorageEnd ∧
      c'.iStorageEnd - c'.iData < 9223372036854775808 ∧
      c.size + k ≤ c'.iStorageEnd - c'.iData ∧
      (k ≤ c.room → c'.iData = c.iData ∧ c'.iStorageEnd = c.iStorageEnd) ∧
      (c.room < k → c'.iStorageEnd - c'.iData = c.grow_request k) := by
  obtain ⟨c1, e, cv, a1, a2, a3, a4, a5, l⟩ := unsplit_spec h
  have hs0 := size_nonneg h
  have hcap := capacity_eq h
  have hroom := room_eq h
  have hgn := gap_length_nonneg h
  have hsz := size_eq h
  have h1 := h.data_le; have h2 := h.end_le; have h3 := h.cap_lt
  have hcap1 : c1.capacity = c.capacity := by rw [capacity_eq cv, hcap, a2, a3]
  have hgl1 : c1.gap_length = 0 := by simp [gap_length, a5]
  have hsz1 : c1.size = c.size := by rw [size_eq cv, hgl1, a4, a2]; omega
  have hroom1 : c1.room = c.room := by
    rw [room_eq cv, hroom, hgl1, a3, a4]; omega
  have hkb : k < 9223372036854775808 := by
    by_cases hr : c.room < k
    · have := lt_of_le_of_lt (le_times_growth_factor _) (halloc hr).1; omega
    · omega
  obtain ⟨c2, e2, cv2, b1, b5, b4, b6, b7, b8⟩ :
      ∃ c2, (if c1.room < k then c1.grow k else outcome.returned c1) = outcome.returned c2 ∧
        cursors_valid c2 ∧ c2.iAlloc = c.iAlloc ∧ c2.iGapStart = c2.iGapEnd ∧
        c2.iDataEnd = c2.iData + c.size ∧ k ≤ c2.iStorageEnd - c2.iDataEnd ∧
        (k ≤ c.room → c2.iData = c.iData ∧ c2.iStorageEnd = c.iStorageEnd) ∧
        (c.room < k → c2.iStorageEnd - c2.iData = c.grow_request k) := by
    by_cases hr : c1.room < k
    · rw [if_pos hr]
      obtain ⟨hfit, b, hb⟩ := halloc (by omega)
      have hreq : c1.grow_request k = c.grow_request k := by
        unfold grow_request; rw [hcap1]
      have hlow := le_times_growth_factor (c.capacity + DefaultGapSize + k)
      have hreqv : c.grow_request k = times_growth_factor (c.capacity + DefaultGapSize + k) := by
        unfold grow_request
        rw [to_size_of_bounds (z := c.capacity + DefaultGapSize + k) (by omega) (by omega)]
      rw [grow_eq c1 k (by rw [hreq, hreqv]; omega)]
      obtain ⟨c2, r1, r2, r3, r4, r5, r6, r7, r8⟩ := reserve_spec cv (n := c1.grow_request k)
        (b := b) (by rw [hreq, hreqv, hcap1]; omega) (by rw [hreq, hreqv]; omega)
        (by rw [a1, hreq]; exact hb)
      rw [hsz1] at r4
      rw [hreq] at r5
      exact ⟨c2, r1, ⟨by omega, by omega, by omega, fun hh => absurd r6 hh,
        fun hh => absurd r6 hh, fun hh => absurd r6 hh⟩, by rw [r2, a1], r6, by omega, by omega,
        fun hh => by omega, fun _ => by omega⟩
    · rw [if_neg hr]
      exact ⟨c1, rfl, cv, a1, a5, by omega, by omega, fun _ => ⟨a2, a3⟩, fun hh => by omega⟩
  have hc2 := cv2.cap_lt
  have hc2e := cv2.end_le
  have hgl2 : c2.gap_length = 0 := by simp [gap_length, b5]
  have hroom2 : c2.room = c2.iStorageEnd - c2.iDataEnd := by rw [room_eq cv2, hgl2]; omega
  unfold allocate_from_gap
  simp only [hmiss, Bool.false_eq_true, if_false, hp, e, e2, outcome.bind, hroom2]
  rw [to_size_of_bounds (z := (DefaultGapSize : Int)) (by omega) (by omega)]
  clear e e2 l a1 a2 a3 a4 a5 cv hcap1 hgl1 hsz1 hroom1 c1 halloc hmiss hp
  generalize hg0 : min (c2.iStorageEnd - c2.iDataEnd) (DefaultGapSize : Int) = g0
  have hg1 : g0 ≤ c2.iStorageEnd - c2.iDataEnd := by omega
  have hg2 : 0 ≤ g0 := by omega
  have hg4 : g0 = min (c2.iStorageEnd - c2.iData - c.size) DefaultGapSize := by
    rw [← hg0, b4]; congr 1; omega
  clear hg0
  have hpg : to_ptrdiff g0 = g0 := to_ptrdiff_of_bounds (by omega) (by omega)
  have hpk : to_ptrdiff k = k := to_ptrdiff_of_bounds (by omega) (by omega)
  rw [hpg, hpk]
  generalize hn1 : (c2.iDataEnd - (c2.iData + i)).toNat = n1
  have hn1i : (n1 : Int) = c.size - i := by omega
  clear hn1
  obtain ⟨c3, e3, s3, _⟩ := gap_miss_loop_spec (c2.iData + i) n1 c2 c2.iDataEnd
    (c2.iDataEnd + g0) (by omega) (by omega) (le_refl _)
  obtain ⟨d1, d2, d3, d4, d5, d6⟩ := s3
  rw [e3]
  simp only [d3]
  rw [to_size_of_bounds (z := c2.iDataEnd - (c2.iData + i)) (by omega) (by omega)]
  generalize hgc : min k (c2.iDataEnd - (c2.iData + i)) = gc
  have hgc1 : gc ≤ k := by omega
  have hgc0 : 0 ≤ gc := by omega
  clear hgc
  have hpgc : to_ptrdiff gc = gc := to_ptrdiff_of_bounds (by omega) (by omega)
  rw [hpgc]
  generalize hn2 : gc.toNat = n2
  have hn2i : (n2 : Int) = gc := by omega
  clear hn2
  obtain ⟨c4, e4, s4, _⟩ := destroy_backward_loop_spec (c2.iData + i) n2 c3
    (c2.iData + i + gc) (by omega)
  obtain ⟨f1, f2, f3, f4, f5, f6⟩ := s4
  rw [e4]
  simp only
  refine ⟨{ c4 with iDataEnd := c4.iDataEnd + g0, iGapStart := c2.iData + i + k, iGapEnd := c2.iData + i + g0 },
    g0, ?_, ?_, hg2, ?_, ?_, ?_, ?_, ?_, ?_, ?_, ?_, ?_⟩
  · simp only [f2, d2]
  · simp only [f1, d1, b1]
  · simp only [f2, d2, f4, d4]; exact hg4
  · simp only [f2, d2]
  · simp only [f2, d2]
  · simp only [f2, d2, f3, d3]; omega
  · simp only [f4, d4, f3, d3]; omega
  · simp only [f2, d2, f4, d4]; omega
  · simp only [f2, d2, f4, d4]; omega
  · simp only [f2, d2, f4, d4]; exact b7
  · simp only [f2, d2, f4, d4]; exact b8


/-- C29, as amended: for every state with valid cursors, every position `begin() + i` and count
`k` that take the gap-miss path of `allocate_from_gap`: when the free capacity
`capacity() - size()` is smaller than `k`, `insert(pos, k, x)` leaves `capacity()` equal to the
`double` product `(old capacity + DefaultGapSize + k) * 1.5` truncated to an integer, which is
`floor((old capacity + DefaultGapSize + k) * 3 / 2)` when three times the sum is below 2^53;
when the free capacity is at least `k`, base and `capacity()` are unchanged.  The capacity asked
for is assumed below 2^63 and the allocator to serve the request. -/
theorem growth_request_is_exact (c : gap_vector T DefaultGapSize NearnessFactor)
    (h : cursors_valid c) (i k : Nat) (x : T) (hi : (i : Int) ≤ c.size)
    (hmiss : (c.near_gap (c.iterator_add c.begin i) && decide ((k : Int) ≤ c.gap_size)) = false)
    (hfit : times_growth_factor (c.capacity + DefaultGapSize + k) < 9223372036854775808)
    (halloc : allocator_total c.iAlloc) :
    ∃ c' m, c.insert_count (c.iterator_add c.begin i) k x = outcome.returned (c', m) ∧
      (c.capacity - c.size < k →
        c'.capacity = times_growth_factor (c.capacity + DefaultGapSize + k) ∧
        (3 * (c.capacity + DefaultGapSize + k) < 9007199254740992 →
          c'.capacity = (c.capacity + DefaultGapSize + k) * 3 / 2)) ∧
      (k ≤ c.capacity - c.size → c'.capacity = c.capacity ∧ c'.iData = c.iData) := by
  have hcap0 : 0 ≤ c.capacity := by
    rw [capacity_eq h]
    have := h.data_le; have := h.end_le; omega
  have hroom := room_eq_capacity_sub_size h
  have hcapv := capacity_eq h
  have hlow := le_times_growth_factor (c.capacity + DefaultGapSize + k)
  have hreqv : c.grow_request k = times_growth_factor (c.capacity + DefaultGapSize + k) := by
    unfold grow_request
    rw [to_size_of_bounds (z := c.capacity + DefaultGapSize + k) (by omega) (by omega)]
  obtain ⟨c1, g0, e, _, _, _, _, _, _, p1, p2, p3, p4, p5⟩ := allocate_from_gap_miss_cursors h
    (k := (k : Int)) (iterator_difference_add_begin h (i := (i : Int)) (by omega) hi)
    (by omega) hi (by omega) (by omega) hmiss
    (fun _ => ⟨hfit, halloc _ (grow_request_nonneg c k) (by rw [hreqv]; omega)⟩)
  obtain ⟨sc, _⟩ := uninitialized_fill_n_spec x k c1 (c1.iData + i)
  have hs0 := size_nonneg h
  have hc1 : c1.capacity = c1.iStorageEnd - c1.iData := by
    unfold capacity
    exact to_size_of_bounds (by omega) (by omega)
  refine ⟨uninitialized_copy (List.replicate k x) c1 (c1.iData + i), c1.iData + i, ?_, ?_, ?_⟩
  · rw [insert_count_external]
    rw [e]
    simp only [outcome.bind, id, Int.toNat_ofNat]
  · intro hr
    have hc : (uninitialized_copy (List.replicate k x) c1 (c1.iData + i)).capacity =
        times_growth_factor (c.capacity + DefaultGapSize + k) := by
      rw [same_cursors_capacity sc, hc1, p5 (by omega), hreqv]
    refine ⟨hc, fun h3 => ?_⟩
    rw [hc]
    exact times_growth_factor_exact (by omega) h3
  · intro hr
    obtain ⟨q1, q2⟩ := p4 (by omega)
    exact ⟨by rw [same_cursors_capacity sc, hc1, q1, q2, hcapv], by rw [sc.2.1, q1]⟩

theorem empty_example_cursors_valid : cursors_valid empty_example :=
  (default_constructed_represents test_allocator).1.cursors

set_option maxRecDepth 100000 in
theorem growth_request_is_exact_witness :
    cursors_valid empty_example ∧ (((0 : Nat) : Int) ≤ empty_example.size) ∧
      ((empty_example.near_gap (empty_example.iterator_add empty_example.begin (0 : Nat)) &&
        decide (((1 : Nat) : Int) ≤ empty_example.gap_size)) = false) ∧
      (times_growth_factor (empty_example.capacity + (256 : Nat) + (1 : Nat)) <
        9223372036854775808) ∧
      allocator_total empty_example.iAlloc ∧
      (empty_example.push_back (1 : Int)).result.map (fun c => (c.size, c.capacity)) = some (1, 385) ∧
      ∃ c' m, empty_example.insert_count
          (empty_example.iterator_add empty_example.begin (0 : Nat)) (1 : Nat) (1 : Int) =
          outcome.returned (c', m) ∧
        (empty_example.capacity - empty_example.size < (1 : Nat) →
          c'.capacity = times_growth_factor (empty_example.capacity + (256 : Nat) + (1 : Nat)) ∧
          (3 * (empty_example.capacity + (256 : Nat) + (1 : Nat)) < 9007199254740992 →
            c'.capacity = (empty_example.capacity + (256 : Nat) + (1 : Nat)) * 3 / 2)) ∧
        (((1 : Nat) : Int) ≤ empty_example.capacity - empty_example.size →
          c'.capacity = empty_example.capacity ∧ c'.iData = empty_example.iData) :=
  ⟨empty_example_cursors_valid, by decide, by decide, by decide, test_allocator_total,
    by decide,
    growth_request_is_exact empty_example empty_example_cursors_valid 0 1 1 (by decide)
      (by decide) (by decide) test_allocator_total⟩

theorem full_example_well_formed : well_formed full_example := by
  refine ⟨⟨by decide, by decide, by decide, fun h => absurd rfl h, fun h => absurd rfl h,
    fun h => absurd rfl h⟩, ?_⟩
  intro p h1 h2 _
  simp only [full_example] at h1 h2
  have h3 : 0 ≤ p - 4096 ∧ p - 4096 < 4503599627370240 := by omega
  simp only [load, full_example, h3, and_self, if_true, Option.isSome_some]

set_option maxRecDepth 100000 in
/-- C29, the claim as stated fails for sums of which the threefold reaches 2^53: on the full buffer of
capacity 2^52 - 256 a `push_back`, and `insert(end(), 1, x)`, grow with the sum
`capacity() + DefaultGapSize + 1 = 2^52 + 1`; the product with 1.5 is 6755399441055745.5, which
no `double` holds, it is rounded to the even neighbour 6755399441055746, and that, not the
floor 6755399441055745, is the capacity afterwards. -/
theorem growth_request_rounds_to_even :
    well_formed full_example ∧ full_example.capacity - full_example.size < 1 ∧
      full_example.capacity + (256 : Nat) + 1 = 4503599627370497 ∧
      (4503599627370497 : Int) * 3 / 2 = 6755399441055745 ∧
      (full_example.insert_count full_example.end_ 1 (0 : Int)).result.map
        (fun r => r.1.capacity) = some 6755399441055746 ∧
      (full_example.push_back (0 : Int)).result.map capacity = some 6755399441055746 := by
  refine ⟨full_example_well_formed, by decide, by decide, by decide, ?_, ?_⟩
  · rfl
  · rfl

/-- C30: for every state with valid cursors and every range `[begin() + i, begin() + j)` of
`k = j - i ≥ 1` elements one of whose ends `near_gap` accepts, `erase` returns with the base,
`capacity()` and the high-water mark unchanged (no reallocation, no unsplit) and with the gap
`k` slots larger: for a range in the prefix `iGapStart` has retreated by `k`, for a range in
the suffix `iGapEnd` has advanced by `k`, and for a range on both sides of the gap
`iGapStart` is the slot of the first erased element and `iGapEnd` the slot of the element
after the range. -/
theorem near_gap_erase_extends_gap (c : gap_vector T DefaultGapSize NearnessFactor)
    (h : cursors_valid c) (i j : Nat) (hij : i < j) (hj : (j : Int) ≤ c.size)
    (hnear : (c.near_gap (c.iterator_add c.begin i) || c.near_gap (c.iterator_add c.begin j))
      = true) :
    ∃ c' r, c.erase (c.iterator_add c.begin i) (c.iterator_add c.begin j) = some (c', r) ∧
      c'.iData = c.iData ∧ c'.capacity = c.capacity ∧ c'.iStorageEnd = c.iStorageEnd ∧
      c'.iDataEnd = c.iDataEnd ∧ c'.gap_size = c.gap_size + (j - i) ∧
      c'.size = c.size - (j - i) ∧
      ((j : Int) ≤ c.prefix_length →
        c'.iGapStart = c.iGapStart - (j - i) ∧ c'.iGapEnd = c.iGapEnd) ∧
      (c.prefix_length ≤ (i : Int) →
        c'.iGapStart = c.iGapStart ∧ c'.iGapEnd = c.iGapEnd + (j - i)) ∧
      ((i : Int) < c.prefix_length → c.prefix_length < (j : Int) →
        c'.iGapStart = c.iterator_add c.begin i ∧ c'.iGapEnd = c.iterator_add c.begin j) := by
  have hne : c.iGapStart ≠ c.iGapEnd := by
    rw [Bool.or_eq_true] at hnear
    rcases hnear with hh | hh
    · exact near_gap_active hh
    · exact near_gap_active hh
  obtain ⟨c', e, er, f2, f4, hn, _⟩ := erase_frame h (i := (i : Int)) (j := (j : Int))
    (by omega) (by omega) hj
  obtain ⟨g1, g2, g3, g4, g5⟩ := hn hnear (by omega)
  have hcv' := er.cursors
  have hgl : c.gap_length = c.iGapEnd - c.iGapStart := by simp [gap_length, hne]
  have h5 := h.gap_mid hne
  have hne' : c'.iGapStart ≠ c'.iGapEnd := by omega
  have hgl' : c'.gap_length = c'.iGapEnd - c'.iGapStart := by simp [gap_length, hne']
  refine ⟨c', _, e, f2, by rw [capacity_eq hcv', capacity_eq h, f2, f4], f4, g1, ?_, er.size,
    g3, g4, g5⟩
  rw [gap_size_eq hcv', gap_size_eq h, hgl, hgl', g2]

set_option maxRecDepth 100000 in
theorem near_gap_erase_extends_gap_witness :
    cursors_valid split_example ∧ 0 < 1 ∧ (((1 : Nat) : Int) ≤ split_example.size) ∧
      ((split_example.near_gap (split_example.iterator_add split_example.begin (0 : Nat)) ||
        split_example.near_gap (split_example.iterator_add split_example.begin (1 : Nat))) =
        true) ∧
      ∃ c' r, split_example.erase (split_example.iterator_add split_example.begin (0 : Nat))
          (split_example.iterator_add split_example.begin (1 : Nat)) = some (c', r) ∧
        c'.iData = split_example.iData ∧ c'.capacity = split_example.capacity ∧
        c'.iStorageEnd = split_example.iStorageEnd ∧ c'.iDataEnd = split_example.iDataEnd ∧
        c'.gap_size = split_example.gap_size + (((1 : Nat) : Int) - ((0 : Nat) : Int)) ∧
        c'.size = split_example.size - (((1 : Nat) : Int) - ((0 : Nat) : Int)) ∧
        (((1 : Nat) : Int) ≤ split_example.prefix_length →
          c'.iGapStart = split_example.iGapStart - (((1 : Nat) : Int) - ((0 : Nat) : Int)) ∧
            c'.iGapEnd = split_example.iGapEnd) ∧
        (split_example.prefix_length ≤ ((0 : Nat) : Int) →
          c'.iGapStart = split_example.iGapStart ∧
            c'.iGapEnd = split_example.iGapEnd + (((1 : Nat) : Int) - ((0 : Nat) : Int))) ∧
        (((0 : Nat) : Int) < split_example.prefix_length →
          split_example.prefix_length < ((1 : Nat) : Int) →
          c'.iGapStart = split_example.iterator_add split_example.begin (0 : Nat) ∧
            c'.iGapEnd = split_example.iterator_add split_example.begin (1 : Nat)) :=
  ⟨split_example_represents.1.cursors, by decide, by decide, by decide,
    near_gap_erase_extends_gap split_example split_example_represents.1.cursors 0 1 (by decide)
      (by decide) (by decide)⟩


set_option maxRecDepth 100000 in
/-- C25: the gap-miss path leaves a constructed element inside the gap.  The buffer `10, 20, 30`
in slots 0 to 2 (gap inactive, slots 3 to 7 raw) satisfies the slot invariant; after
`insert(begin() + 1, 15)` the gap is the slots 2 to 5 and slot 2 still holds the element `30`
that was moved out of it: the branch destroys `min(aCount, tail)` slots at the insertion
point only. -/
theorem gap_miss_leaves_constructed_slot_in_gap :
    flat_three.result.map representation =
        some (4096, 0, 0, 4099, 8, [some 10, some 20, some 30, none, none, none, none, none]) ∧
      (flat_three.bind (fun c => (c, 0)) fun c =>
          c.insert (c.iterator_add c.begin 1) (15 : Int)).result.map (fun r => representation r.1) =
        some (4096, 4098, 4102, 4104, 8,
          [some 10, some 15, some 30, none, none, none, some 20, some 30]) := by
  constructor
  · rfl
  · rfl

set_option maxRecDepth 100000 in
/-- C28: on the gap-miss path with a count above `DefaultGapSize` the shifted tail is
overwritten.  Inserting 300 copies of `9` at index 1 of the buffer `1, 2, 3` (capacity 385)
opens `g = 256` slots: `iGapStart` is slot 301, beyond `iGapEnd` at slot 257, the high-water
mark is slot 259, and the slots 257 and 258, where the elements `2` and `3` were shifted to,
hold `9` and `9`. -/
theorem gap_miss_past_gap_size_overwrites_tail :
    three_pushed.result.map (fun c => (c.size, c.capacity, c.slot 1, c.slot 2)) =
        some (3, 385, some 2, some 3) ∧
      (three_pushed.bind (fun c => (c, 0)) fun c =>
          c.insert_count (c.iterator_add c.begin 1) 300 (9 : Int)).result.map
        (fun r => (r.1.iGapStart - r.1.iData, r.1.iGapEnd - r.1.iData,
          r.1.iDataEnd - r.1.iData, r.1.slot 257, r.1.slot 258)) =
        some (301, 257, 259, some 9, some 9) := by
  constructor
  · decide
  · rfl


theorem iterator_add_add_begin {c : gap_vector T DefaultGapSize NearnessFactor}
    (h : cursors_valid c) {i d : Int} (hi0 : 0 ≤ i) (hi1 : i ≤ c.size) (hd0 : 0 ≤ i + d)
    (hd1 : i + d ≤ c.size) :
    c.iterator_add (c.iterator_add c.begin i) d = c.iterator_add c.begin (i + d) := by
  rw [iterator_add_begin h hi0 hi1, iterator_add_begin h hd0 hd1]
  have hb := h.cap_lt
  rw [size_eq h] at hi1 hd1 ⊢
  obtain ⟨h1, h2, h3, h4, h5, h6⟩ := h
  unfold iterator_add advance_forward advance_backward gap_size
  unfold gap_active prefix_length gap_length to_size to_ptrdiff at *
  by_cases hg : c.iGapStart = c.iGapEnd
  · simp only [hg, ne_eq, not_true_eq_false, decide_False, Bool.not_false, Bool.true_or,
      ite_true, ite_false] at *
    split_ifs <;> (try simp only [true_and, and_true] at *) <;> omega
  · have := h4 hg; have := h5 hg; have := h6 hg
    have hlt : c.iGapStart < c.iGapEnd := by omega
    simp only [hg, ne_eq, not_false_eq_true, decide_True, Bool.not_true, Bool.false_or,
      decide_eq_true_eq, ite_true, decide_not, Bool.not_eq_true', decide_eq_false_iff_not,
      ite_not, Bool.and_eq_true, Bool.or_eq_true, gt_iff_lt, not_lt, Bool.true_and,
      ge_iff_le] at *
    split_ifs <;> (try simp only [true_and, and_true] at *) <;> omega

theorem iterator_sub_add_begin {c : gap_vector T DefaultGapSize NearnessFactor}
    (h : cursors_valid c) {i d : Int} (hi0 : 0 ≤ i) (hi1 : i ≤ c.size) (hd0 : 0 ≤ i - d)
    (hd1 : i - d ≤ c.size) :
    c.iterator_sub (c.iterator_add c.begin i) d = c.iterator_add c.begin (i - d) := by
  rw [iterator_add_begin h hi0 hi1, iterator_add_begin h hd0 hd1]
  have hb := h.cap_lt
  rw [size_eq h] at hi1 hd1 ⊢
  obtain ⟨h1, h2, h3, h4, h5, h6⟩ := h
  unfold iterator_sub advance_forward advance_backward gap_size
  unfold gap_active prefix_length gap_length to_size to_ptrdiff at *
  by_cases hg : c.iGapStart = c.iGapEnd
  · simp only [hg, ne_eq, not_true_eq_false, decide_False, Bool.not_false, Bool.true_or,
      ite_true, ite_false] at *
    split_ifs <;> (try simp only [true_and, and_true] at *) <;> omega
  · have := h4 hg; have := h5 hg; have := h6 hg
    have hlt : c.iGapStart < c.iGapEnd := by omega
    simp only [hg, ne_eq, not_false_eq_true, decide_True, Bool.not_true, Bool.false_or,
      decide_eq_true_eq, ite_true, decide_not, Bool.not_eq_true', decide_eq_false_iff_not,
      ite_not, Bool.and_eq_true, Bool.or_eq_true, gt_iff_lt, not_lt, Bool.true_and,
      ge_iff_le] at *
    split_ifs <;> (try simp only [true_and, and_true] at *) <;> omega

theorem iterator_difference_add_add {c : gap_vector T DefaultGapSize NearnessFactor}
    (h : cursors_valid c) {i j : Int} (hi0 : 0 ≤ i) (hi1 : i ≤ c.size) (hj0 : 0 ≤ j)
    (hj1 : j ≤ c.size) :
    c.iterator_difference (c.iterator_add c.begin j) (c.iterator_add c.begin i) = j - i := by
  rw [iterator_add_begin h hi0 hi1, iterator_add_begin h hj0 hj1]
  have hb := h.cap_lt
  rw [size_eq h] at hi1 hj1 ⊢
  obtain ⟨h1, h2, h3, h4, h5, h6⟩ := h
  unfold iterator_difference before_gap after_gap gap_size
  unfold gap_active prefix_length gap_length to_size to_ptrdiff at *
  by_cases hg : c.iGapStart = c.iGapEnd
  · simp only [hg, ne_eq, not_true_eq_false, decide_False, Bool.not_false, Bool.true_or,
      ite_true, ite_false] at *
    split_ifs <;> (try simp only [true_and, and_true] at *) <;> omega
  · have := h4 hg; have := h5 hg; have := h6 hg
    have hlt : c.iGapStart < c.iGapEnd := by omega
    simp only [hg, ne_eq, not_false_eq_true, decide_True, Bool.not_true, Bool.false_or,
      decide_eq_true_eq, ite_true, decide_not, Bool.not_eq_true', decide_eq_false_iff_not,
      ite_not, Bool.and_eq_true, Bool.or_eq_true, gt_iff_lt, not_lt, Bool.true_and,
      ge_iff_le] at *
    split_ifs <;> (try simp only [true_and, and_true] at *) <;> omega

/-- C32: in every well-formed state and for all logical indices `0 ≤ i, j ≤ size()`, moving the
iterator `begin() + i` by the signed step `j - i` with `operator+=`, or by `i - j` with
`operator-=`, yields the iterator `begin() + j`, whatever the sign of the step and on whichever
sides of the gap the two positions lie; stepping back by the same amount returns the original
iterator, and `(begin() + a) + b` is `begin() + (a + b)` when the indices are in range. -/
theorem iterator_step_reaches_index (c : gap_vector T DefaultGapSize NearnessFactor)
    (h : well_formed c) (i j : Int) (hi0 : 0 ≤ i) (hi1 : i ≤ c.size) (hj0 : 0 ≤ j)
    (hj1 : j ≤ c.size) :
    c.iterator_add (c.iterator_add c.begin i) (j - i) = c.iterator_add c.begin j ∧
      c.iterator_sub (c.iterator_add c.begin i) (i - j) = c.iterator_add c.begin j ∧
      c.iterator_sub (c.iterator_add (c.iterator_add c.begin i) (j - i)) (j - i) =
        c.iterator_add c.begin i ∧
      c.iterator_add (c.iterator_sub (c.iterator_add c.begin i) (i - j)) (i - j) =
        c.iterator_add c.begin i ∧
      ∀ a b : Int, 0 ≤ a → a ≤ c.size → 0 ≤ a + b → a + b ≤ c.size →
        c.iterator_add (c.iterator_add c.begin a) b = c.iterator_add c.begin (a + b) := by
  have hcv := h.cursors
  have e1 : c.iterator_add (c.iterator_add c.begin i) (j - i) = c.iterator_add c.begin j := by
    rw [iterator_add_add_begin hcv hi0 hi1 (by omega) (by omega)]
    congr 1
    omega
  have e2 : c.iterator_sub (c.iterator_add c.begin i) (i - j) = c.iterator_add c.begin j := by
    rw [iterator_sub_add_begin hcv hi0 hi1 (by omega) (by omega)]
    congr 1
    omega
  refine ⟨e1, e2, ?_, ?_, ?_⟩
  · rw [e1, iterator_sub_add_begin hcv hj0 hj1 (by omega) (by omega)]
    congr 1
    omega
  · rw [e2, iterator_add_add_begin hcv hj0 hj1 (by omega) (by omega)]
    congr 1
    omega
  · intro a b ha0 ha1 hb0 hb1
    exact iterator_add_add_begin hcv ha0 ha1 hb0 hb1

theorem iterator_step_reaches_index_witness :
    well_formed split_example ∧ (0 : Int) ≤ 1 ∧ 1 ≤ split_example.size ∧ (0 : Int) ≤ 3 ∧
      3 ≤ split_example.size ∧
      split_example.iterator_add (split_example.iterator_add split_example.begin 1) (3 - 1) =
        split_example.iterator_add split_example.begin 3 ∧
      split_example.iterator_sub (split_example.iterator_add split_example.begin 1) (1 - 3) =
        split_example.iterator_add split_example.begin 3 ∧
      split_example.iterator_sub
          (split_example.iterator_add (split_example.iterator_add split_example.begin 1) (3 - 1))
          (3 - 1) =
        split_example.iterator_add split_example.begin 1 ∧
      split_example.iterator_add
          (split_example.iterator_sub (split_example.iterator_add split_example.begin 1) (1 - 3))
          (1 - 3) =
        split_example.iterator_add split_example.begin 1 ∧
      ∀ a b : Int, 0 ≤ a → a ≤ split_example.size → 0 ≤ a + b → a + b ≤ split_example.size →
        split_example.iterator_add (split_example.iterator_add split_example.begin a) b =
          split_example.iterator_add split_example.begin (a + b) :=
  ⟨split_example_well_formed, by decide, by decide, by decide, by decide,
    iterator_step_reaches_index split_example split_example_well_formed 1 3 (by decide)
      (by decide) (by decide) (by decide)⟩

/-- C33: in every well-formed state and for all logical indices `0 ≤ i, j ≤ size()`, the
iterator difference `(begin() + j) - (begin() + i)` is `j - i`, negative when `j < i`, also
across an active gap; with `end()` on either side it is the distance to `size()`. -/
theorem iterator_difference_is_index_difference (c : gap_vector T DefaultGapSize NearnessFactor)
    (h : well_formed c) (i j : Int) (hi0 : 0 ≤ i) (hi1 : i ≤ c.size) (hj0 : 0 ≤ j)
    (hj1 : j ≤ c.size) :
    c.iterator_difference (c.iterator_add c.begin j) (c.iterator_add c.begin i) = j - i ∧
      c.iterator_difference c.end_ (c.iterator_add c.begin i) = c.size - i ∧
      c.iterator_difference (c.iterator_add c.begin i) c.end_ = i - c.size := by
  have hcv := h.cursors
  have hs := size_nonneg hcv
  rw [end_eq_iterator_add hcv]
  exact ⟨iterator_difference_add_add hcv hi0 hi1 hj0 hj1,
    iterator_difference_add_add hcv hi0 hi1 hs (le_refl _),
    iterator_difference_add_add hcv hs (le_refl _) hi0 hi1⟩

theorem iterator_difference_is_index_difference_witness :
    well_formed split_example ∧ (0 : Int) ≤ 3 ∧ 3 ≤ split_example.size ∧ (0 : Int) ≤ 1 ∧
      1 ≤ split_example.size ∧
      split_example.iterator_difference (split_example.iterator_add split_example.begin 1)
          (split_example.iterator_add split_example.begin 3) = 1 - 3 ∧
      split_example.iterator_difference split_example.end_
          (split_example.iterator_add split_example.begin 3) = split_example.size - 3 ∧
      split_example.iterator_difference (split_example.iterator_add split_example.begin 3)
          split_example.end_ = 3 - split_example.size :=
  ⟨split_example_well_formed, by decide, by decide, by decide, by decide,
    iterator_difference_is_index_difference split_example split_example_well_formed 3 1
      (by decide) (by decide) (by decide) (by decide)⟩

/-- C38: in every well-formed state and for all logical indices `0 ≤ i, j ≤ size()`, the
iterator comparisons agree with the logical order: `begin() + i == begin() + j` exactly when
`i = j`, and `begin() + i <=> begin() + j` is less, equal or greater exactly when `i < j`,
`i = j` or `i > j`; so the slot of a logical position, the one of `end()` included, is strictly
increasing in the index. -/
theorem iterator_order_is_logical_order (c : gap_vector T DefaultGapSize NearnessFactor)
    (h : well_formed c) (i j : Int) (hi0 : 0 ≤ i) (hi1 : i ≤ c.size) (hj0 : 0 ≤ j)
    (hj1 : j ≤ c.size) :
    (iterator_eq (c.iterator_add c.begin i) (c.iterator_add c.begin j) = true ↔ i = j) ∧
      (iterator_cmp (c.iterator_add c.begin i) (c.iterator_add c.begin j) = Ordering.lt ↔
        i < j) ∧
      (iterator_cmp (c.iterator_add c.begin i) (c.iterator_add c.begin j) = Ordering.eq ↔
        i = j) ∧
      (iterator_cmp (c.iterator_add c.begin i) (c.iterator_add c.begin j) = Ordering.gt ↔
        j < i) ∧
      (i < j → c.iterator_add c.begin i < c.iterator_add c.begin j) ∧
      (iterator_cmp (c.iterator_add c.begin i) c.end_ = Ordering.lt ↔ i < c.size) := by
  have hcv := h.cursors
  have hs := size_nonneg hcv
  have mono : ∀ a b : Int, 0 ≤ a → a < b → b ≤ c.size →
      c.iterator_add c.begin a < c.iterator_add c.begin b :=
    fun a b ha hab hb => iterator_add_begin_lt hcv ha hab hb
  have key : ∀ a b : Int, 0 ≤ a → a ≤ c.size → 0 ≤ b → b ≤ c.size →
      (c.iterator_add c.begin a < c.iterator_add c.begin b ↔ a < b) := by
    intro a b ha0 ha1 hb0 hb1
    constructor
    · intro hlt
      by_contra hn
      rcases eq_or_lt_of_le (not_lt.1 hn) with e | l
      · rw [e] at hlt; exact lt_irrefl _ hlt
      · exact lt_asymm hlt (mono b a hb0 l ha1)
    · intro hab
      exact mono a b ha0 hab hb1
  have keq : ∀ a b : Int, 0 ≤ a → a ≤ c.size → 0 ≤ b → b ≤ c.size →
      (c.iterator_add c.begin a = c.iterator_add c.begin b ↔ a = b) := by
    intro a b ha0 ha1 hb0 hb1
    constructor
    · intro e
      by_contra hn
      rcases lt_or_gt_of_ne hn with l | l
      · exact ne_of_lt (mono a b ha0 l hb1) e
      · exact ne_of_gt (mono b a hb0 l ha1) e
    · intro e
      rw [e]
  unfold iterator_eq iterator_cmp
  rw [end_eq_iterator_add hcv]
  refine ⟨?_, ?_, ?_, ?_, ?_, ?_⟩
  · rw [decide_eq_true_eq]
    exact keq i j hi0 hi1 hj0 hj1
  · rw [compare_lt_iff_lt]
    exact key i j hi0 hi1 hj0 hj1
  · rw [compare_eq_iff_eq]
    exact keq i j hi0 hi1 hj0 hj1
  · rw [compare_gt_iff_gt]
    exact key j i hj0 hj1 hi0 hi1
  · intro hij
    exact mono i j hi0 hij hj1
  · rw [compare_lt_iff_lt]
    exact key i c.size hi0 hi1 hs (le_refl _)

theorem iterator_order_is_logical_order_witness :
    well_formed split_example ∧ (0 : Int) ≤ 2 ∧ 2 ≤ split_example.size ∧ (0 : Int) ≤ 3 ∧
      3 ≤ split_example.size ∧
      (iterator_eq (split_example.iterator_add split_example.begin 2)
          (split_example.iterator_add split_example.begin 3) = true ↔ (2 : Int) = 3) ∧
      (iterator_cmp (split_example.iterator_add split_example.begin 2)
          (split_example.iterator_add split_example.begin 3) = Ordering.lt ↔ (2 : Int) < 3) ∧
      (iterator_cmp (split_example.iterator_add split_example.begin 2)
          (split_example.iterator_add split_example.begin 3) = Ordering.eq ↔ (2 : Int) = 3) ∧
      (iterator_cmp (split_example.iterator_add split_example.begin 2)
          (split_example.iterator_add split_example.begin 3) = Ordering.gt ↔ (3 : Int) < 2) ∧
      ((2 : Int) < 3 → split_example.iterator_add split_example.begin 2 <
        split_example.iterator_add split_example.begin 3) ∧
      (iterator_cmp (split_example.iterator_add split_example.begin 2) split_example.end_ =
        Ordering.lt ↔ 2 < split_example.size) :=
  ⟨split_example_well_formed, by decide, by decide, by decide, by decide,
    iterator_order_is_logical_order split_example split_example_well_formed 2 3 (by decide)
      (by decide) (by decide) (by decide)⟩

/-- C39: `unsplit()` on a state whose gap is inactive returns the very same state, no cursor and
no slot changed; on every well-formed state `unsplit()` returns a state with an inactive gap, so
that a second `unsplit()` leaves what the first one left. -/
theorem unsplit_is_idempotent (c : gap_vector T DefaultGapSize NearnessFactor)
    (h : well_formed c) :
    (c.gap_active = false → c.unsplit = some c) ∧
      ∃ c', c.unsplit = some c' ∧ c'.gap_active = false ∧ c'.unsplit = some c' ∧
        c.unsplit.bind unsplit = c.unsplit := by
  constructor
  · intro hg
    apply unsplit_inactive
    unfold gap_active at hg
    simpa using hg
  · obtain ⟨c', e, _, _, _, _, _, hg, _⟩ := unsplit_spec h.cursors
    have e2 : c'.unsplit = some c' := unsplit_inactive hg
    refine ⟨c', e, ?_, e2, ?_⟩
    · unfold gap_active
      simpa using hg
    · rw [e]
      exact e2

theorem unsplit_is_idempotent_witness :
    well_formed split_example ∧
      ((split_example.gap_active = false → split_example.unsplit = some split_example) ∧
        ∃ c', split_example.unsplit = some c' ∧ c'.gap_active = false ∧
          c'.unsplit = some c' ∧ split_example.unsplit.bind unsplit = split_example.unsplit) :=
  ⟨split_example_well_formed, unsplit_is_idempotent split_example split_example_well_formed⟩

/-- C31: in a well-formed buffer holding `s` whose gap is inactive, or where neither end of the
range is near the gap, `erase(begin() + i, begin() + j)` with `i < j ≤ |s|` returns and leaves
the gap inactive, `iData` and the capacity unchanged, `iDataEnd = iData + (size() - (j - i))`,
the surviving elements in the slots `iData[0 .. size() - (j - i))` in logical order, and the
vacated slots behind them destroyed. -/
theorem erase_far_from_gap_compacts (c : gap_vector T DefaultGapSize NearnessFactor)
    (s : List T) (h : represents c s) (i j : Nat) (hij : i < j) (hj : j ≤ s.length)
    (hfar : c.gap_active = false ∨
      (c.near_gap (c.iterator_add c.begin i) = false ∧
        c.near_gap (c.iterator_add c.begin j) = false)) :
    ∃ c' r, c.erase (c.iterator_add c.begin i) (c.iterator_add c.begin j) = some (c', r) ∧
      c'.gap_active = false ∧ c'.iData = c.iData ∧
      c'.iDataEnd = c.iData + (c.size - (j - i)) ∧ c'.capacity = c.capacity ∧
      c'.size = c.size - (j - i) ∧
      (∀ t : Nat, t < s.length - (j - i) →
        c'.load (c'.iData + t) = (s.take i ++ s.drop j)[t]?) ∧
      ∀ t : Int, c.size - (j - i) ≤ t → t < c.size → c'.load (c'.iData + t) = none := by
  have hcv := h.1.cursors
  have hsz := represents_size h
  have hnear : (c.near_gap (c.iterator_add c.begin i) || c.near_gap (c.iterator_add c.begin j))
      = false := by
    rcases hfar with hg | ⟨n1, n2⟩
    · unfold near_gap
      rw [hg]
      rfl
    · rw [n1, n2]
      rfl
  obtain ⟨c', e, f1, f2, f3, f4, f5, l1, l2, l3⟩ :=
    erase_unsplit_run hcv (i := (i : Int)) (j := (j : Int)) (by omega) (by omega) (by omega)
      hnear
  have hcv' : cursors_valid c' := by
    have a1 := hcv.data_le
    have a2 := hcv.end_le
    have a3 := hcv.cap_lt
    have a4 := size_eq hcv
    have a5 := gap_length_nonneg hcv
    exact ⟨by omega, by omega, by omega, fun hne => absurd f5 hne, fun hne => absurd f5 hne,
      fun hne => absurd f5 hne⟩
  have hsize : c'.size = c.size - (j - i) := by
    rw [size_eq hcv']
    unfold gap_length
    rw [if_neg (not_not.2 f5), f3, f2]
    omega
  refine ⟨c', _, e, ?_, f2, ?_, ?_, hsize, ?_, ?_⟩
  · unfold gap_active
    simpa using f5
  · rw [f3]; omega
  · unfold capacity
    rw [f2, f4]
  · intro t ht
    rw [f2]
    by_cases hti : t < i
    · rw [l1 t (by omega) (by omega), represents_index h t (by omega),
        List.getElem?_append_left (by simp; omega), List.getElem?_take_of_lt hti]
    · rw [l2 t (by omega) (by omega), List.getElem?_append_right (by simp; omega)]
      have e1 : (t : Int) + ((j : Int) - (i : Int)) = ((t + (j - i) : Nat) : Int) := by omega
      rw [e1, represents_index h (t + (j - i)) (by omega)]
      simp only [List.length_take, List.getElem?_drop]
      congr 1
      omega
  · intro t ht0 ht1
    rw [f2]
    exact l3 t ht0 ht1

theorem erase_far_from_gap_compacts_witness :
    represents contiguous_example [10, 20, 30] ∧ 1 < 2 ∧ 2 ≤ [(10 : Int), 20, 30].length ∧
      (contiguous_example.gap_active = false ∨
        (contiguous_example.near_gap
            (contiguous_example.iterator_add contiguous_example.begin (1 : Nat)) = false ∧
          contiguous_example.near_gap
            (contiguous_example.iterator_add contiguous_example.begin (2 : Nat)) = false)) ∧
      ∃ c' r, contiguous_example.erase
          (contiguous_example.iterator_add contiguous_example.begin (1 : Nat))
          (contiguous_example.iterator_add contiguous_example.begin (2 : Nat)) = some (c', r) ∧
        c'.gap_active = false ∧ c'.iData = contiguous_example.iData ∧
        c'.iDataEnd = contiguous_example.iData + (contiguous_example.size - ((2 : Nat) - (1 : Nat))) ∧
        c'.capacity = contiguous_example.capacity ∧
        c'.size = contiguous_example.size - ((2 : Nat) - (1 : Nat)) ∧
        (∀ t : Nat, t < [(10 : Int), 20, 30].length - (2 - 1) →
          c'.load (c'.iData + t) = ([(10 : Int), 20, 30].take 1 ++ [(10 : Int), 20, 30].drop 2)[t]?) ∧
        ∀ t : Int, contiguous_example.size - ((2 : Nat) - (1 : Nat)) ≤ t →
          t < contiguous_example.size → c'.load (c'.iData + t) = none :=
  ⟨contiguous_example_represents, by decide, by decide, Or.inl (by decide),
    erase_far_from_gap_compacts contiguous_example [10, 20, 30] contiguous_example_represents
      1 2 (by decide) (by decide) (Or.inl (by decide))⟩

/-- C36: for every well-formed state, every position `begin() + i` that `near_gap` accepts and
every count `k ≤ gap_size()`, `insert(pos, k, x)` returns with `iData` unchanged and relocates
only the elements between the position and the gap.  For a position before the gap every slot
below the insertion slot and every slot from `iGapEnd` on keeps its content, and the elements
of `[pos, iGapStart)` lie `k` slots higher; for a position after the gap every slot below
`iGapStart` and every slot from the insertion slot on keeps its content, and the elements of
`[iGapEnd, pos)` lie `k` slots lower.  A relocated element has the value the move left in its
new slot (`moved_value`): its own value for `k ≥ 1`, and for `k = 0`, where the loops assign
every such element to itself, the value of the self-moved object. -/
theorem gap_reuse_insert_moves_only_between (c : gap_vector T DefaultGapSize NearnessFactor)
    (h : well_formed c) (i k : Nat) (x : T) (hi : (i : Int) ≤ c.size)
    (hnear : c.near_gap (c.iterator_add c.begin i) = true) (hkg : (k : Int) ≤ c.gap_size) :
    ∃ c' m, c.insert_count (c.iterator_add c.begin i) k x = outcome.returned (c', m) ∧
      c'.iData = c.iData ∧
      (c.before_gap (c.iterator_add c.begin i) = true →
        c'.iGapStart = c.iGapStart + k ∧ c'.iGapEnd = c.iGapEnd ∧
        (∀ q, q < c.iterator_add c.begin i → c'.load q = c.load q) ∧
        (∀ q, c.iGapEnd ≤ q → c'.load q = c.load q) ∧
        ∀ q, c.iterator_add c.begin i ≤ q → q < c.iGapStart →
          c'.load (q + k) = c.moved_value (q + k) q) ∧
      (c.after_gap (c.iterator_add c.begin i) = true →
        c'.iGapStart = c.iGapStart ∧ c'.iGapEnd = c.iGapEnd - k ∧
        (∀ q, q < c.iGapStart → c'.load q = c.load q) ∧
        (∀ q, c.iterator_add c.begin i ≤ q → c'.load q = c.load q) ∧
        ∀ q, c.iGapEnd ≤ q → q < c.iterator_add c.begin i →
          c'.load (q - k) = c.moved_value (q - k) q) := by
  have hcv := h.cursors
  have hg := near_gap_active hnear
  have hgl : c.gap_length = c.iGapEnd - c.iGapStart := by simp [gap_length, hg]
  have hpl : c.prefix_length = c.iGapStart - c.iData := by simp [prefix_length, hg]
  have hsz := size_eq hcv
  have h6 := hcv.gap_hi hg; have h4 := hcv.gap_lo hg; have h5 := hcv.gap_mid hg
  have hga : c.gap_active = true := by simp [gap_active, hg]
  rw [gap_size_eq hcv, hgl] at hkg
  rw [hgl] at hsz
  have hp := iterator_add_begin hcv (i := (i : Int)) (by omega) hi
  rw [hpl, hgl] at hp
  by_cases hA : (i : Int) < c.iGapStart - c.iData
  · rw [if_pos (Or.inl hA)] at hp
    rw [hp] at hnear ⊢
    obtain ⟨c1, e, sc, l⟩ := allocate_from_gap_before_gap hcv (i := (i : Int)) (k := (k : Int))
      (by omega) hA (by omega) hkg hnear
    obtain ⟨b1, b2, b3, b4, b5, b6⟩ := sc
    obtain ⟨sf, lf⟩ := uninitialized_fill_n_spec x k { c1 with iGapStart := c.iGapStart + k }
      (c.iData + i)
    obtain ⟨d1, d2, d3, d4, d5, d6⟩ := sf
    have haf : c.after_gap (c.iData + i) = false := by
      simp only [after_gap, hga, Bool.true_and, decide_eq_false_iff_not]; omega
    have l' : ∀ q, ({ c1 with iGapStart := c.iGapStart + k } :
        gap_vector T DefaultGapSize NearnessFactor).load q = c1.load q := fun _ => rfl
    refine ⟨_, c.iData + i, ?_, d2.trans b2, ?_, ?_⟩
    · rw [insert_count_external]
      rw [e]
      simp only [outcome.bind, id, Int.toNat_ofNat]
    · intro _
      refine ⟨d5, d6.trans b6, ?_, ?_, ?_⟩
      · intro q hq
        rw [lf, if_neg (by omega), l', l, if_neg (by omega), if_neg (by omega)]
      · intro q hq
        rw [lf, if_neg (by omega), l', l, if_neg (by omega), if_neg (by omega)]
      · intro q hq0 hq1
        rw [lf, if_neg (by omega), l', l, if_pos (by omega)]
        congr 1
        omega
    · intro hh
      rw [haf] at hh
      exact absurd hh (by decide)
  · by_cases hC : (i : Int) = c.iGapStart - c.iData ∧ (i : Int) = c.size ∧ (0 : Int) < i
    · rw [if_pos (Or.inr hC)] at hp
      have hpe : c.iData + (i : Int) = c.iGapStart := by omega
      rw [hp, hpe] at hnear ⊢
      have e := allocate_from_gap_at_gap hcv (k := (k : Int)) (by omega) hkg (by omega)
        (by omega) hnear
      have haf : c.after_gap c.iGapStart = false := by
        simp only [after_gap, hga, Bool.true_and, decide_eq_false_iff_not]; omega
      have hbf : c.before_gap c.iGapStart = false := by
        simp [before_gap]
      obtain ⟨sf, lf⟩ := uninitialized_fill_n_spec x k { c with iGapStart := c.iGapStart + k }
        c.iGapStart
      refine ⟨_, c.iGapStart, ?_, sf.2.1, ?_, ?_⟩
      · rw [insert_count_external]
        rw [e]
        simp only [outcome.bind, id, Int.toNat_ofNat]
      · intro hh
        rw [hbf] at hh
        exact absurd hh (by decide)
      · intro hh
        rw [haf] at hh
        exact absurd hh (by decide)
    · rw [if_neg (by omega)] at hp
      rw [hp] at hnear ⊢
      obtain ⟨c1, e, sc, l⟩ := allocate_from_gap_after_gap hcv (i := (i : Int)) (k := (k : Int))
        (by omega) hi (by omega) (by omega) hkg hnear
      obtain ⟨b1, b2, b3, b4, b5, b6⟩ := sc
      obtain ⟨sf, lf⟩ := uninitialized_fill_n_spec x k { c1 with iGapEnd := c.iGapEnd - k }
        (c.iData + i + (c.iGapEnd - c.iGapStart) - k)
      obtain ⟨d1, d2, d3, d4, d5, d6⟩ := sf
      have hbf : c.before_gap (c.iData + i + (c.iGapEnd - c.iGapStart)) = false := by
        simp only [before_gap, hga, Bool.true_and, decide_eq_false_iff_not]; omega
      have l' : ∀ q, ({ c1 with iGapEnd := c.iGapEnd - k } :
          gap_vector T DefaultGapSize NearnessFactor).load q = c1.load q := fun _ => rfl
      refine ⟨_, c.iData + i + (c.iGapEnd - c.iGapStart) - k, ?_, d2.trans b2, ?_, ?_⟩
      · rw [insert_count_external]
        rw [e]
        simp only [outcome.bind, id, Int.toNat_ofNat]
      · intro hh
        rw [hbf] at hh
        exact absurd hh (by decide)
      · intro _
        refine ⟨d5.trans b5, d6, ?_, ?_, ?_⟩
        · intro q hq
          rw [lf, if_neg (by omega), l', l, if_neg (by omega), if_neg (by omega)]
        · intro q hq
          rw [lf, if_neg (by omega), l', l, if_neg (by omega), if_neg (by omega)]
        · intro q hq0 hq1
          rw [lf, if_neg (by omega), l', l, if_pos (by omega)]
          congr 1
          omega

set_option maxRecDepth 100000 in
theorem gap_reuse_insert_moves_only_between_witness :
    well_formed split_example ∧ (((3 : Nat) : Int) ≤ split_example.size) ∧
      split_example.near_gap (split_example.iterator_add split_example.begin (3 : Nat)) = true ∧
      (((1 : Nat) : Int) ≤ split_example.gap_size) ∧
      ∃ c' m, split_example.insert_count
          (split_example.iterator_add split_example.begin (3 : Nat)) (1 : Nat) (99 : Int) =
          outcome.returned (c', m) ∧
        c'.iData = split_example.iData ∧
        (split_example.before_gap (split_example.iterator_add split_example.begin (3 : Nat)) =
            true →
          c'.iGapStart = split_example.iGapStart + (1 : Nat) ∧
          c'.iGapEnd = split_example.iGapEnd ∧
          (∀ q, q < split_example.iterator_add split_example.begin (3 : Nat) →
            c'.load q = split_example.load q) ∧
          (∀ q, split_example.iGapEnd ≤ q → c'.load q = split_example.load q) ∧
          ∀ q, split_example.iterator_add split_example.begin (3 : Nat) ≤ q →
            q < split_example.iGapStart →
            c'.load (q + (1 : Nat)) = split_example.moved_value (q + (1 : Nat)) q) ∧
        (split_example.after_gap (split_example.iterator_add split_example.begin (3 : Nat)) =
            true →
          c'.iGapStart = split_example.iGapStart ∧
          c'.iGapEnd = split_example.iGapEnd - (1 : Nat) ∧
          (∀ q, q < split_example.iGapStart → c'.load q = split_example.load q) ∧
          (∀ q, split_example.iterator_add split_example.begin (3 : Nat) ≤ q →
            c'.load q = split_example.load q) ∧
          ∀ q, split_example.iGapEnd ≤ q →
            q < split_example.iterator_add split_example.begin (3 : Nat) →
            c'.load (q - (1 : Nat)) = split_example.moved_value (q - (1 : Nat)) q) :=
  ⟨split_example_well_formed, by decide, by decide, by decide,
    gap_reuse_insert_moves_only_between split_example split_example_well_formed 3 1 99
      (by decide) (by decide) (by decide)⟩

theorem insert_count_zero_eq_insert_list (c : gap_vector T DefaultGapSize NearnessFactor)
    (pos : Int) (x : T) : c.insert_count pos 0 x = c.insert_list pos [] := by
  rw [insert_count_external]
  unfold insert_list
  rfl

/-- For an element type whose self-move-assignment keeps the value (`int` is one): for every
well-formed buffer holding `s` and every position `begin() + i`, `i ≤ |s|`, the insertion of zero
elements, `insert(pos, 0, x)` as well as `insert(pos, {})`, returns and leaves a well-formed buffer
with the same `size()` and the same logical sequence `s`, whichever branch of
`allocate_from_gap` the position takes. -/
theorem insert_of_nothing_keeps_sequence (c : gap_vector T DefaultGapSize NearnessFactor)
    (s : List T) (h : represents c s) (i : Nat) (hi : i ≤ s.length) (x : T)
    (hGb : (DefaultGapSize : Int) < 9223372036854775808) (hsm : self_move_is_noop T) :
    ∃ c' m, c.insert_count (c.iterator_add c.begin i) 0 x = outcome.returned (c', m) ∧
      c.insert_list (c.iterator_add c.begin i) [] = outcome.returned (c', m) ∧
      represents c' s ∧ c'.size = c.size ∧ c'.logical_sequence = c.logical_sequence := by
  have hroom : ¬ c.room < 0 := by
    have := room_eq h.1.cursors
    have := gap_length_nonneg h.1.cursors
    have := h.1.cursors.end_le
    omega
  obtain ⟨c', m, e, r, _, sz, _⟩ := insert_list_spec h i hi [] (by simp) (Or.inr hsm)
    (fun _ => ⟨by simp, hGb, fun hlt => absurd hlt (by simpa using hroom)⟩)
  have hs : s.take i ++ [] ++ s.drop i = s := by simp
  rw [hs] at r
  refine ⟨c', m, ?_, e, r, by simpa using sz, ?_⟩
  · rw [insert_count_zero_eq_insert_list]
    exact e
  · rw [r.2, h.2]

theorem insert_of_nothing_keeps_sequence_witness :
    represents split_example [10, 20, 30] ∧ 1 ≤ [(10 : Int), 20, 30].length ∧
      (((256 : Nat) : Int) < 9223372036854775808) ∧ self_move_is_noop Int ∧
      ∃ c' m, split_example.insert_count
          (split_example.iterator_add split_example.begin (1 : Nat)) 0 (99 : Int) =
          outcome.returned (c', m) ∧
        split_example.insert_list (split_example.iterator_add split_example.begin (1 : Nat)) [] =
          outcome.returned (c', m) ∧
        represents c' [10, 20, 30] ∧ c'.size = split_example.size ∧
        c'.logical_sequence = split_example.logical_sequence :=
  ⟨split_example_represents, by decide, by decide, fun _ => rfl,
    insert_of_nothing_keeps_sequence split_example [10, 20, 30] split_example_represents 1
      (by decide) 99 (by decide) (fun _ => rfl)⟩

set_option maxRecDepth 100000 in
/-- C37: the claim fails on the code for an element type whose self-move-assignment changes the
object.  `gap_vector<std::string> v; v.push_back("a"); v.push_back("b");` followed by
`v.insert(v.begin(), 0, x)` or by `v.insert(v.begin(), {})` leaves a buffer of `size()` 2 holding
two empty strings: with a count of zero the `do ... while` loop of the before-gap branch runs
`*dest-- = std::move(*src)` with `dest == src` once for every element between the position and
the gap. -/
theorem insert_of_nothing_clears_strings :
    two_strings.result.map (fun c => (c.size, c.logical_sequence)) =
        some (2, [some "a", some "b"]) ∧
      (two_strings.bind (fun c => (c, 0)) fun c =>
          c.insert_count c.begin 0 ("x" : String)).result.map
        (fun r => (r.1.size, r.1.logical_sequence)) = some (2, [some "", some ""]) ∧
      (two_strings.bind (fun c => (c, 0)) fun c => c.insert_list c.begin []).result.map
        (fun r => (r.1.size, r.1.logical_sequence)) = some (2, [some "", some ""]) := by
  refine ⟨?_, ?_, ?_⟩
  · rfl
  · rfl
  · rfl

theorem before_gap_loop_fuel (pos aCount : Int) (n : Nat) :
    ∀ (c : gap_vector T DefaultGapSize NearnessFactor) (src dest : Int), pos < src →
      ((before_gap_loop pos aCount n c src dest).isSome ↔ src - pos ≤ n) := by
  induction n with
  | zero =>
    intro c src dest hlt
    simp only [before_gap_loop, Option.isSome_none, Bool.false_eq_true, false_iff]
    omega
  | succ n ih =>
    intro c src dest hlt
    unfold before_gap_loop
    by_cases hs : src - 1 = pos
    · simp only [hs, ne_eq, not_true_eq_false, if_false, Option.isSome_some, true_iff]
      omega
    · simp only [ne_eq, hs, not_false_eq_true, if_true]
      rw [ih _ _ _ (by omega)]
      omega

theorem after_gap_loop_fuel (pos aCount : Int) (n : Nat) :
    ∀ (c : gap_vector T DefaultGapSize NearnessFactor) (src dest : Int), src < pos →
      ((after_gap_loop pos aCount n c src dest).isSome ↔ pos - src ≤ n) := by
  induction n with
  | zero =>
    intro c src dest hlt
    simp only [after_gap_loop, Option.isSome_none, Bool.false_eq_true, false_iff]
    omega
  | succ n ih =>
    intro c src dest hlt
    unfold after_gap_loop
    by_cases hs : src + 1 = pos
    · simp only [hs, ne_eq, not_true_eq_false, if_false, Option.isSome_some, true_iff]
      omega
    · simp only [ne_eq, hs, not_false_eq_true, if_true]
      rw [ih _ _ _ (by omega)]
      omega

theorem gap_miss_loop_fuel (pos : Int) (n : Nat) :
    ∀ (c : gap_vector T DefaultGapSize NearnessFactor) (src dest : Int), pos ≤ src →
      ((gap_miss_loop pos n c src dest).isSome ↔ src - pos ≤ n) := by
  induction n with
  | zero =>
    intro c src dest hle
    unfold gap_miss_loop
    by_cases hs : src = pos
    · simp only [hs, ne_eq, not_true_eq_false, if_false, Option.isSome_some, true_iff]
      omega
    · simp only [ne_eq, hs, not_false_eq_true, if_true, Option.isSome_none, Bool.false_eq_true,
        false_iff]
      omega
  | succ n ih =>
    intro c src dest hle
    unfold gap_miss_loop
    by_cases hs : src = pos
    · simp only [hs, ne_eq, not_true_eq_false, if_false, Option.isSome_some, true_iff]
      omega
    · simp only [ne_eq, hs, not_false_eq_true, if_true]
      rw [ih _ _ _ (by omega)]
      omega

/-- The gap-miss branch of `allocate_from_gap` for any count, with the state `c2` it has after
`unsplit()` and the conditional `grow`: the free capacity of `c2` covers the count, and no slot
outside the allocation of `c2` is written. -/
theorem allocate_from_gap_miss_frame {c : gap_vector T DefaultGapSize NearnessFactor}
    (h : cursors_valid c) {p i k : Int} (hp : c.iterator_difference p c.begin = i)
    (hi0 : 0 ≤ i) (hi1 : i ≤ c.size) (hk0 : 0 ≤ k)
    (hGb : (DefaultGapSize : Int) < 9223372036854775808)
    (hmiss : (c.near_gap p && decide (k ≤ c.gap_size)) = false)
    (halloc : c.room < k →
      times_growth_factor (c.capacity + DefaultGapSize + k) < 9223372036854775808 ∧
        ∃ b, c.iAlloc (c.grow_request k) = some b) :
    ∃ c1 c2 c', c.unsplit = some c1 ∧
      (if c1.room < k then c1.grow k else outcome.returned c1) = outcome.returned c2 ∧
      cursors_valid c2 ∧ c2.iDataEnd = c2.iData + c.size ∧ k ≤ c2.room ∧
      c2.room = c2.iStorageEnd - c2.iDataEnd ∧
      c.allocate_from_gap p k = outcome.returned (c', c2.iData + i) ∧
      c'.iData = c2.iData ∧ c'.iStorageEnd = c2.iStorageEnd ∧
      c'.iDataEnd = c2.iDataEnd + min c2.room (to_size DefaultGapSize) ∧
      to_ptrdiff (min c2.room (to_size DefaultGapSize)) = min c2.room (to_size DefaultGapSize) ∧
      c'.iDataEnd ≤ c'.iStorageEnd ∧
      (∀ q, c2.iStorageEnd ≤ q → c'.load q = c2.load q) ∧
      ∀ q, q < c2.iData → c'.load q = c2.load q := by
  obtain ⟨c1, e, cv, a1, a2, a3, a4, a5, l⟩ := unsplit_spec h
  have hs0 := size_nonneg h
  have hcap := capacity_eq h
  have hroom := room_eq h
  have hgn := gap_length_nonneg h
  have hsz := size_eq h
  have h1 := h.data_le; have h2 := h.end_le; have h3 := h.cap_lt
  have hcap1 : c1.capacity = c.capacity := by rw [capacity_eq cv, hcap, a2, a3]
  have hgl1 : c1.gap_length = 0 := by simp [gap_length, a5]
  have hsz1 : c1.size = c.size := by rw [size_eq cv, hgl1, a4, a2]; omega
  have hroom1 : c1.room = c.room := by
    rw [room_eq cv, hroom, hgl1, a3, a4]; omega
  have hkb : k < 9223372036854775808 := by
    by_cases hr : c.room < k
    · have := lt_of_le_of_lt (le_times_growth_factor _) (halloc hr).1; omega
    · omega
  obtain ⟨c2, e2, cv2, b1, b5, b4, b6⟩ :
      ∃ c2, (if c1.room < k then c1.grow k else outcome.returned c1) = outcome.returned c2 ∧
        cursors_valid c2 ∧ c2.iAlloc = c.iAlloc ∧ c2.iGapStart = c2.iGapEnd ∧
        c2.iDataEnd = c2.iData + c.size ∧ k ≤ c2.iStorageEnd - c2.iDataEnd := by
    by_cases hr : c1.room < k
    · rw [if_pos hr]
      obtain ⟨hfit, b, hb⟩ := halloc (by omega)
      have hreq : c1.grow_request k = c.grow_request k := by
        unfold grow_request; rw [hcap1]
      have hlow := le_times_growth_factor (c.capacity + DefaultGapSize + k)
      have hreqv : c.grow_request k = times_growth_factor (c.capacity + DefaultGapSize + k) := by
        unfold grow_request
        rw [to_size_of_bounds (z := c.capacity + DefaultGapSize + k) (by omega) (by omega)]
      rw [grow_eq c1 k (by rw [hreq, hreqv]; omega)]
      obtain ⟨c2, r1, r2, r3, r4, r5, r6, r7, r8⟩ := reserve_spec cv (n := c1.grow_request k)
        (b := b) (by rw [hreq, hreqv, hcap1]; omega) (by rw [hreq, hreqv]; omega)
        (by rw [a1, hreq]; exact hb)
      rw [hsz1] at r4
      rw [hreq] at r5
      exact ⟨c2, r1, ⟨by omega, by omega, by omega, fun hh => absurd r6 hh,
        fun hh => absurd r6 hh, fun hh => absurd r6 hh⟩, by rw [r2, a1], r6, by omega, by omega⟩
    · rw [if_neg hr]
      exact ⟨c1, rfl, cv, a1, a5, by omega, by omega⟩
  have hc2 := cv2.cap_lt
  have hc2e := cv2.end_le
  have hgl2 : c2.gap_length = 0 := by simp [gap_length, b5]
  have hroom2 : c2.room = c2.iStorageEnd - c2.iDataEnd := by rw [room_eq cv2, hgl2]; omega
  have hD : to_size (DefaultGapSize : Int) = DefaultGapSize :=
    to_size_of_bounds (by omega) (by omega)
  have key : ∃ c', c.allocate_from_gap p k = outcome.returned (c', c2.iData + i) ∧
      c'.iData = c2.iData ∧ c'.iStorageEnd = c2.iStorageEnd ∧
      c'.iDataEnd = c2.iDataEnd + min (c2.iStorageEnd - c2.iDataEnd) (DefaultGapSize : Int) ∧
      c'.iDataEnd ≤ c'.iStorageEnd ∧
      (∀ q, c2.iStorageEnd ≤ q → c'.load q = c2.load q) ∧
      ∀ q, q < c2.iData → c'.load q = c2.load q := by
    unfold allocate_from_gap
    simp only [hmiss, Bool.false_eq_true, if_false, hp, e, e2, outcome.bind, hroom2, hD]
    clear e e2 l a1 a2 a3 a4 a5 cv hcap1 hgl1 hsz1 hroom1 c1 halloc hmiss hp
    generalize hg0 : min (c2.iStorageEnd - c2.iDataEnd) (DefaultGapSize : Int) = g0
    have hg1 : g0 ≤ c2.iStorageEnd - c2.iDataEnd := by omega
    have hg2 : 0 ≤ g0 := by omega
    clear hg0
    have hpg : to_ptrdiff g0 = g0 := to_ptrdiff_of_bounds (by omega) (by omega)
    have hpk : to_ptrdiff k = k := to_ptrdiff_of_bounds (by omega) (by omega)
    rw [hpg, hpk]
    generalize hn1 : (c2.iDataEnd - (c2.iData + i)).toNat = n1
    have hn1i : (n1 : Int) = c.size - i := by omega
    clear hn1
    obtain ⟨c3, e3, s3, l3⟩ := gap_miss_loop_spec (c2.iData + i) n1 c2 c2.iDataEnd
      (c2.iDataEnd + g0) (by omega) (by omega) (le_refl _)
    obtain ⟨d1, d2, d3, d4, d5, d6⟩ := s3
    rw [e3]
    simp only [d3]
    rw [to_size_of_bounds (z := c2.iDataEnd - (c2.iData + i)) (by omega) (by omega)]
    generalize hgc : min k (c2.iDataEnd - (c2.iData + i)) = gc
    have hgc1 : gc ≤ k := by omega
    have hgc0 : 0 ≤ gc := by omega
    have hgc2 : gc ≤ c2.iDataEnd - (c2.iData + i) := by omega
    clear hgc
    have hpgc : to_ptrdiff gc = gc := to_ptrdiff_of_bounds (by omega) (by omega)
    rw [hpgc]
    generalize hn2 : gc.toNat = n2
    have hn2i : (n2 : Int) = gc := by omega
    clear hn2
    obtain ⟨c4, e4, s4, l4⟩ := destroy_backward_loop_spec (c2.iData + i) n2 c3
      (c2.iData + i + gc) (by omega)
    obtain ⟨f1, f2, f3, f4, f5, f6⟩ := s4
    rw [e4]
    simp only
    have lf : ∀ q, ({ c4 with iDataEnd := c4.iDataEnd + g0, iGapStart := c2.iData + i + k, iGapEnd := c2.iData + i + g0 } : gap_vector T DefaultGapSize NearnessFactor).load q = c4.load q :=
      fun _ => rfl
    refine ⟨{ c4 with iDataEnd := c4.iDataEnd + g0, iGapStart := c2.iData + i + k, iGapEnd := c2.iData + i + g0 },
      rfl, ?_, ?_, ?_, ?_, ?_, ?_⟩
    · simp only [f2, d2]
    · simp only [f4, d4]
    · simp only [f3, d3]
    · simp only [f4, d4, f3, d3]; omega
    · intro q hq
      rw [lf, l4, if_neg (by omega), l3, if_neg (by omega)]
    · intro q hq
      rw [lf, l4, if_neg (by omega), l3, if_neg (by omega)]
  obtain ⟨c', k1, k2, k3, k4, k5, k6, k7⟩ := key
  have hmin0 : 0 ≤ min (c2.iStorageEnd - c2.iDataEnd) (DefaultGapSize : Int) := by omega
  have hmin1 : min (c2.iStorageEnd - c2.iDataEnd) (DefaultGapSize : Int) < 9223372036854775808 := by
    omega
  refine ⟨c1, c2, c', e, e2, cv2, b4, by omega, hroom2, k1, k2, k3, ?_, ?_, k5, k6, k7⟩
  · rw [hroom2, hD]
    exact k4
  · rw [hroom2, hD]
    exact to_ptrdiff_of_bounds (by omega) (by omega)

/-- C34: on the gap-miss path of `insert(begin() + i, k, x)`, for every well-formed state, every
index `i ≤ size()` and every count `k` (the growth request being below 2^63 and served by the
allocator when it is made), the state `c2` after `unsplit()` and the conditional `grow` has a
free capacity of at least `k`; the insertion returns, the `k` new elements lie in
`[pos, pos + k)` and the shifted tail ends at `iDataEnd + initialGapSize`, both at most
`iData + capacity()`; the resulting high-water mark is at most `iData + capacity()`, and every
slot at or beyond `iData + capacity()`, and every slot below `iData`, is as it was in `c2`. -/
theorem gap_miss_insert_stays_in_allocation (c : gap_vector T DefaultGapSize NearnessFactor)
    (h : well_formed c) (i k : Nat) (x : T) (hi : (i : Int) ≤ c.size)
    (hGb : (DefaultGapSize : Int) < 9223372036854775808)
    (hmiss : (c.near_gap (c.iterator_add c.begin i) && decide ((k : Int) ≤ c.gap_size)) = false)
    (halloc : c.room < (k : Int) →
      times_growth_factor (c.capacity + DefaultGapSize + k) < 9223372036854775808 ∧
        ∃ b, c.iAlloc (c.grow_request k) = some b) :
    ∃ c1 c2 c' m, c.unsplit = some c1 ∧
      (if c1.room < (k : Int) then c1.grow k else outcome.returned c1) = outcome.returned c2 ∧
      (k : Int) ≤ c2.room ∧
      c.insert_count (c.iterator_add c.begin i) k x = outcome.returned (c', m) ∧
      c'.iData = c2.iData ∧ c'.capacity = c2.capacity ∧ m = c2.iData + i ∧
      m + k ≤ c2.iData + c2.capacity ∧
      c2.iDataEnd + to_ptrdiff (min c2.room (to_size DefaultGapSize)) ≤ c2.iData + c2.capacity ∧
      c'.iDataEnd ≤ c'.iData + c'.capacity ∧
      (∀ q, c'.iData + c'.capacity ≤ q → c'.load q = c2.load q) ∧
      ∀ q, q < c'.iData → c'.load q = c2.load q := by
  have hcv := h.cursors
  have hp := iterator_difference_add_begin hcv (i := (i : Int)) (by omega) hi
  obtain ⟨c1, c2, c0, e1, e2, cv2, b1, b2, b3, e, k1, k2, k3, k4, k5, k6, k7⟩ :=
    allocate_from_gap_miss_frame hcv (k := (k : Int)) hp (by omega) hi (by omega) hGb hmiss
      halloc
  obtain ⟨sf, lf⟩ := uninitialized_fill_n_spec x k c0 (c2.iData + i)
  obtain ⟨d1, d2, d3, d4, d5, d6⟩ := sf
  have hcap2 := capacity_eq cv2
  have hcap' : (uninitialized_copy (List.replicate k x) c0 (c2.iData + i)).capacity = c2.capacity := by
    unfold capacity
    rw [d2, d4, k1, k2]
  have q1 := cv2.end_le
  have q2 := cv2.data_le
  refine ⟨c1, c2, uninitialized_copy (List.replicate k x) c0 (c2.iData + i), c2.iData + i, e1, e2, b2, ?_,
    d2.trans k1, hcap', rfl, by omega, by rw [k4]; omega, ?_, ?_, ?_⟩
  · rw [insert_count_external]
    rw [e]
    simp only [outcome.bind, id, Int.toNat_ofNat]
  · rw [hcap', d2, d3, k1]
    omega
  · intro q hq
    rw [hcap', d2, k1] at hq
    rw [lf, if_neg (by omega)]
    exact k6 q (by omega)
  · intro q hq
    rw [d2, k1] at hq
    rw [lf, if_neg (by omega)]
    exact k7 q hq

set_option maxRecDepth 100000 in
theorem gap_miss_insert_stays_in_allocation_witness :
    well_formed contiguous_example ∧ (((1 : Nat) : Int) ≤ contiguous_example.size) ∧
      (((256 : Nat) : Int) < 9223372036854775808) ∧
      ((contiguous_example.near_gap
          (contiguous_example.iterator_add contiguous_example.begin (1 : Nat)) &&
        decide (((2 : Nat) : Int) ≤ contiguous_example.gap_size)) = false) ∧
      (contiguous_example.room < ((2 : Nat) : Int) →
        times_growth_factor (contiguous_example.capacity + (256 : Nat) + (2 : Nat)) < 9223372036854775808 ∧
          ∃ b, contiguous_example.iAlloc (contiguous_example.grow_request (2 : Nat)) = some b) ∧
      ∃ c1 c2 c' m, contiguous_example.unsplit = some c1 ∧
        (if c1.room < ((2 : Nat) : Int) then c1.grow (2 : Nat) else outcome.returned c1) =
          outcome.returned c2 ∧
        ((2 : Nat) : Int) ≤ c2.room ∧
        contiguous_example.insert_count
          (contiguous_example.iterator_add contiguous_example.begin (1 : Nat)) (2 : Nat) (99 : Int) =
          outcome.returned (c', m) ∧
        c'.iData = c2.iData ∧ c'.capacity = c2.capacity ∧ m = c2.iData + (1 : Nat) ∧
        m + (2 : Nat) ≤ c2.iData + c2.capacity ∧
        c2.iDataEnd + to_ptrdiff (min c2.room (to_size (256 : Nat))) ≤ c2.iData + c2.capacity ∧
        c'.iDataEnd ≤ c'.iData + c'.capacity ∧
        (∀ q, c'.iData + c'.capacity ≤ q → c'.load q = c2.load q) ∧
        ∀ q, q < c'.iData → c'.load q = c2.load q :=
  ⟨contiguous_example_represents.1, by decide, by decide, by decide,
    fun _ => ⟨by decide, 4096, by decide⟩,
    gap_miss_insert_stays_in_allocation contiguous_example contiguous_example_represents.1 1 2
      99 (by decide) (by decide) (by decide) (fun _ => ⟨by decide, 4096, by decide⟩)⟩

/-- Every call `allocate_from_gap(begin() + i, k)` on a state with valid cursors either returns,
with a capacity that is the old one or the larger one `grow` asked for, or ends with
`std::bad_alloc` in the state `unsplit()` left, whose capacity is the old one. -/
theorem allocate_from_gap_outcome {c : gap_vector T DefaultGapSize NearnessFactor}
    (h : cursors_valid c) {i k : Int} (hi0 : 0 ≤ i) (hi1 : i ≤ c.size) (hk0 : 0 ≤ k)
    (hGb : (DefaultGapSize : Int) < 9223372036854775808)
    (hfit : c.room < k → times_growth_factor (c.capacity + DefaultGapSize + k) < 9223372036854775808) :
    (∃ c' m, c.allocate_from_gap (c.iterator_add c.begin i) k = outcome.returned (c', m) ∧
      c'.iAlloc = c.iAlloc ∧ c.capacity ≤ c'.capacity ∧
      c'.iStorageEnd - c'.iData < 9223372036854775808 ∧
      (k ≤ c.room → c'.iData = c.iData ∧ c'.iStorageEnd = c.iStorageEnd) ∧
      (c.room < k → c'.capacity = times_growth_factor (c.capacity + DefaultGapSize + k))) ∨
    (∃ c1, c.allocate_from_gap (c.iterator_add c.begin i) k = outcome.bad_alloc (c1, 0) ∧
      c.unsplit = some c1 ∧ c1.capacity = c.capacity ∧ c1.iData = c.iData ∧ c.room < k) := by
  have hcap := capacity_eq h
  have q1 := h.data_le; have q2 := h.end_le; have q3 := h.cap_lt
  have hgn := gap_length_nonneg h
  have hroom := room_eq h
  have hD : (0 : Int) ≤ DefaultGapSize := by omega
  have hcapc : ∀ c' : gap_vector T DefaultGapSize NearnessFactor,
      c'.iStorageEnd - c'.iData < 9223372036854775808 → 0 ≤ c'.iStorageEnd - c'.iData →
      c'.capacity = c'.iStorageEnd - c'.iData := by
    intro c' hlt hge
    unfold capacity
    exact to_size_of_bounds hge (by omega)
  cases hnk : (c.near_gap (c.iterator_add c.begin i) && decide (k ≤ c.gap_size))
  · have hp := iterator_difference_add_begin h hi0 hi1
    have hs0 := size_nonneg h
    by_cases hr : c.room < k
    · have hb := hfit hr
      have hlow := le_times_growth_factor (c.capacity + DefaultGapSize + k)
      have hreqv : c.grow_request k = times_growth_factor (c.capacity + DefaultGapSize + k) := by
        unfold grow_request
        rw [to_size_of_bounds (z := c.capacity + DefaultGapSize + k) (by omega) (by omega)]
      cases ha : c.iAlloc (c.grow_request k) with
      | none =>
        right
        rw [hreqv] at ha
        obtain ⟨c1, e1, e2⟩ := allocate_from_gap_fails h (c.iterator_add c.begin i) hr
          (by omega) ha
        obtain ⟨c1', e1', cv, a1, a2, a3, _⟩ := unsplit_spec h
        have hc : c1 = c1' := by
          rw [e1] at e1'
          exact Option.some.inj e1'
        subst hc
        exact ⟨c1, e2, e1, by unfold capacity; rw [a2, a3], a2, hr⟩
      | some b =>
        left
        obtain ⟨c', g0, e, a1, a2, a3, a4, a5, a6, a7, a8, a9, a10, a11⟩ :=
          allocate_from_gap_miss_cursors h hp hi0 hi1 hk0 hGb hnk (fun _ => ⟨hb, b, ha⟩)
        have hc' := hcapc c' a8 (by omega)
        have hg := a11 hr
        exact ⟨c', _, e, a1, by rw [hc', hg, hreqv]; omega, a8, fun hh => absurd hr (by omega),
          fun _ => by rw [hc', hg, hreqv]⟩
    · left
      obtain ⟨c', g0, e, a1, a2, a3, a4, a5, a6, a7, a8, a9, a10, a11⟩ :=
        allocate_from_gap_miss_cursors h hp hi0 hi1 hk0 hGb hnk (fun hh => absurd hh hr)
      obtain ⟨f1, f2⟩ := a10 (by omega)
      exact ⟨c', _, e, a1, by unfold capacity; rw [f1, f2], a8, fun _ => ⟨f1, f2⟩,
        fun hh => absurd hh hr⟩
  · left
    rw [Bool.and_eq_true, decide_eq_true_eq] at hnk
    obtain ⟨c', m, e, a1, a2, a3, a4, _⟩ := allocate_from_gap_reuse h hi0 hi1 hk0 hnk.1 hnk.2
    have hkr : k ≤ c.room := by
      have := hnk.2
      rw [gap_size_eq h] at this
      omega
    exact ⟨c', m, e, a1, by unfold capacity; rw [a2, a4], by rw [a2, a4]; exact q3,
      fun _ => ⟨a2, a4⟩, fun hh => absurd hh (by omega)⟩

theorem reserve_returned_extent {c1 c2 : gap_vector T DefaultGapSize NearnessFactor}
    (hg : c1.iGapStart = c1.iGapEnd) {n : Int} (e : c1.reserve n = outcome.returned c2) :
    c2.iDataEnd - c2.iData = c1.iDataEnd - c1.iData := by
  unfold reserve at e
  by_cases hn : n ≤ c1.capacity
  · rw [if_pos hn] at e
    injection e with e
    rw [e]
  · rw [if_neg hn, unsplit_inactive hg] at e
    simp only at e
    cases ha : c1.iAlloc n with
    | none =>
      rw [ha] at e
      cases e
    | some b =>
      rw [ha] at e
      simp only at e
      by_cases hd : c1.iDataEnd < c1.iData
      · rw [if_pos hd] at e
        cases e
      · rw [if_neg hd] at e
        injection e with e
        rw [← e]
        simp only
        omega

/-- C40: for every well-formed state, every position `begin() + i` with `i ≤ size()` and every
count `k`, each relocation loop of `allocate_from_gap` reaches its exit test after exactly the
number of elements between the insertion slot and the gap, resp. the end: run with `n`
iterations allowed, the before-gap loop has ended exactly when `prefix length - i ≤ n`, the
after-gap loop (entered when the slot differs from `iGapEnd`) exactly when
`i - prefix length ≤ n`, and the gap-miss loop, started in the state left by `unsplit()` and the
conditional `grow`, exactly when `size() - i ≤ n`; and `allocate_from_gap` itself ends,
returning or with `std::bad_alloc` (the growth request being below 2^63). -/
theorem relocation_loops_terminate (c : gap_vector T DefaultGapSize NearnessFactor)
    (h : well_formed c) (i k n : Nat) (hi : (i : Int) ≤ c.size)
    (hGb : (DefaultGapSize : Int) < 9223372036854775808)
    (hfit : c.room < (k : Int) →
      times_growth_factor (c.capacity + DefaultGapSize + k) < 9223372036854775808) :
    (c.before_gap (c.iterator_add c.begin i) = true →
      0 < c.prefix_length - i ∧
      ((before_gap_loop (c.iterator_add c.begin i) k n c c.iGapStart
          (c.iGapStart + to_ptrdiff (to_size ((k : Int) - 1)))).isSome ↔
        c.prefix_length - i ≤ n)) ∧
    (c.after_gap (c.iterator_add c.begin i) = true → c.iterator_add c.begin i ≠ c.iGapEnd →
      0 < i - c.prefix_length ∧
      ((after_gap_loop (c.iterator_add c.begin i) k n c c.iGapEnd
          (c.iGapEnd - to_ptrdiff k)).isSome ↔
        i - c.prefix_length ≤ n)) ∧
    (∀ c1 c2, c.unsplit = some c1 →
      (if c1.room < (k : Int) then c1.grow k else outcome.returned c1) = outcome.returned c2 →
      ((gap_miss_loop (c2.iData + i) n c2 c2.iDataEnd
          (c2.iDataEnd + to_ptrdiff (min c2.room (to_size DefaultGapSize)))).isSome ↔
        c.size - i ≤ n)) ∧
    c.allocate_from_gap (c.iterator_add c.begin i) k ≠ outcome.undefined := by
  have hcv := h.cursors
  have hsz := size_eq hcv
  have hp := iterator_add_begin hcv (i := (i : Int)) (by omega) hi
  have q1 := hcv.data_le; have q2 := hcv.end_le
  refine ⟨?_, ?_, ?_, ?_⟩
  · intro hb
    simp only [before_gap, gap_active, Bool.and_eq_true, decide_eq_true_eq] at hb
    obtain ⟨hg, hlt⟩ := hb
    have hgl : c.gap_length = c.iGapEnd - c.iGapStart := by simp [gap_length, hg]
    have hpl : c.prefix_length = c.iGapStart - c.iData := by simp [prefix_length, hg]
    have h5 := hcv.gap_mid hg
    rw [hpl, hgl] at hp
    have hiP : (i : Int) < c.iGapStart - c.iData := by
      by_contra hn
      rw [if_neg (by omega)] at hp
      omega
    rw [if_pos (Or.inl hiP)] at hp
    rw [hpl]
    refine ⟨by omega, ?_⟩
    rw [before_gap_loop_fuel _ _ _ _ _ _ (by omega), hp]
    omega
  · intro ha hne
    simp only [after_gap, gap_active, Bool.and_eq_true, decide_eq_true_eq] at ha
    obtain ⟨hg, hge⟩ := ha
    have hgl : c.gap_length = c.iGapEnd - c.iGapStart := by simp [gap_length, hg]
    have hpl : c.prefix_length = c.iGapStart - c.iData := by simp [prefix_length, hg]
    have h5 := hcv.gap_mid hg
    rw [hpl, hgl] at hp
    have hiP : ¬ ((i : Int) < c.iGapStart - c.iData ∨
        ((i : Int) = c.iGapStart - c.iData ∧ (i : Int) = c.size ∧ (0 : Int) < i)) := by
      intro hn
      rw [if_pos hn] at hp
      omega
    rw [if_neg hiP] at hp
    rw [hpl]
    have hlt : c.iGapEnd < c.iterator_add c.begin i := lt_of_le_of_ne hge (Ne.symm hne)
    refine ⟨by omega, ?_⟩
    rw [after_gap_loop_fuel _ _ _ _ _ _ hlt, hp]
    omega
  · intro c1 c2 e1 e2
    obtain ⟨c1', e1', cv, a1, a2, a3, a4, a5, _⟩ := unsplit_spec hcv
    have hc : c1 = c1' := by
      rw [e1] at e1'
      exact Option.some.inj e1'
    subst hc
    have hext : c2.iDataEnd - c2.iData = c.size := by
      by_cases hr : c1.room < (k : Int)
      · rw [if_pos hr] at e2
        rw [reserve_returned_extent a5 (grow_returned e2), a4, a2]
        omega
      · rw [if_neg hr] at e2
        injection e2 with e2
        rw [← e2, a4, a2]
        omega
    have hs0 := size_nonneg hcv
    rw [gap_miss_loop_fuel _ _ _ _ _ (by omega)]
    omega
  · rcases allocate_from_gap_outcome hcv (i := (i : Int)) (k := (k : Int)) (by omega) hi
      (by omega) hGb hfit with ⟨c', m, e, _⟩ | ⟨c1, e, _⟩
    · rw [e]
      nofun
    · rw [e]
      nofun

theorem relocation_loops_terminate_witness :
    well_formed split_example ∧ (((1 : Nat) : Int) ≤ split_example.size) ∧
      (((256 : Nat) : Int) < 9223372036854775808) ∧
      (split_example.room < ((1 : Nat) : Int) →
        times_growth_factor (split_example.capacity + (256 : Nat) + (1 : Nat)) < 9223372036854775808) ∧
      ((split_example.before_gap (split_example.iterator_add split_example.begin (1 : Nat)) =
          true →
        0 < split_example.prefix_length - (1 : Nat) ∧
        ((before_gap_loop (split_example.iterator_add split_example.begin (1 : Nat)) (1 : Nat) 1
            split_example split_example.iGapStart
            (split_example.iGapStart + to_ptrdiff (to_size (((1 : Nat) : Int) - 1)))).isSome ↔
          split_example.prefix_length - (1 : Nat) ≤ (1 : Nat))) ∧
      (split_example.after_gap (split_example.iterator_add split_example.begin (1 : Nat)) =
          true →
        split_example.iterator_add split_example.begin (1 : Nat) ≠ split_example.iGapEnd →
        0 < (1 : Nat) - split_example.prefix_length ∧
        ((after_gap_loop (split_example.iterator_add split_example.begin (1 : Nat)) (1 : Nat) 1
            split_example split_example.iGapEnd
            (split_example.iGapEnd - to_ptrdiff (1 : Nat))).isSome ↔
          (1 : Nat) - split_example.prefix_length ≤ (1 : Nat))) ∧
      (∀ c1 c2, split_example.unsplit = some c1 →
        (if c1.room < ((1 : Nat) : Int) then c1.grow (1 : Nat) else outcome.returned c1) =
          outcome.returned c2 →
        ((gap_miss_loop (c2.iData + (1 : Nat)) 1 c2 c2.iDataEnd
            (c2.iDataEnd + to_ptrdiff (min c2.room (to_size (256 : Nat))))).isSome ↔
          split_example.size - (1 : Nat) ≤ (1 : Nat))) ∧
      split_example.allocate_from_gap (split_example.iterator_add split_example.begin (1 : Nat))
        (1 : Nat) ≠ outcome.undefined) :=
  ⟨split_example_well_formed, by decide, by decide, fun _ => by decide,
    relocation_loops_terminate split_example split_example_well_formed 1 1 1 (by decide)
      (by decide) (fun _ => by decide)⟩

theorem capacity_kept_bind {σ τ : Type} (c : gap_vector T DefaultGapSize NearnessFactor)
    (st : σ → gap_vector T DefaultGapSize NearnessFactor)
    (st' : τ → gap_vector T DefaultGapSize NearnessFactor) (o : outcome σ) (carry : σ → τ)
    (k : σ → outcome τ) (h : capacity_kept c st o)
    (hcarry : ∀ s, (st' (carry s)).capacity = (st s).capacity)
    (hk : ∀ s, o = outcome.returned s → c.capacity ≤ (st s).capacity →
      capacity_kept c st' (k s)) :
    capacity_kept c st' (o.bind carry k) := by
  cases o with
  | returned s => exact hk s rfl h
  | bad_alloc s =>
    show c.capacity ≤ (st' (carry s)).capacity
    rw [hcarry]
    exact h
  | undefined => exact h

theorem capacity_kept_mono {σ : Type} {c c1 : gap_vector T DefaultGapSize NearnessFactor}
    (st : σ → gap_vector T DefaultGapSize NearnessFactor) (o : outcome σ)
    (hle : c.capacity ≤ c1.capacity) (h : capacity_kept c1 st o) : capacity_kept c st o := by
  cases o with
  | returned s => exact le_trans hle h
  | bad_alloc s => exact le_trans hle h
  | undefined => exact h

theorem allocate_from_gap_capacity_kept {c : gap_vector T DefaultGapSize NearnessFactor}
    (h : cursors_valid c) {i k : Int} (hi0 : 0 ≤ i) (hi1 : i ≤ c.size) (hk0 : 0 ≤ k)
    (hGb : (DefaultGapSize : Int) < 9223372036854775808)
    (hfit : c.room < k → times_growth_factor (c.capacity + DefaultGapSize + k) < 9223372036854775808) :
    capacity_kept c Prod.fst (c.allocate_from_gap (c.iterator_add c.begin i) k) := by
  rcases allocate_from_gap_outcome h hi0 hi1 hk0 hGb hfit with
    ⟨c', m, e, _, hc, _⟩ | ⟨c1, e, _, hc, _⟩
  · rw [e]
    exact hc
  · rw [e]
    exact le_of_eq hc.symm

theorem insert_capacity_kept {c : gap_vector T DefaultGapSize NearnessFactor}
    (h : cursors_valid c) {i : Int} (hi0 : 0 ≤ i) (hi1 : i ≤ c.size) (x : T)
    (hGb : (DefaultGapSize : Int) < 9223372036854775808)
    (hfit : c.room < 1 → times_growth_factor (c.capacity + DefaultGapSize + 1) < 9223372036854775808) :
    capacity_kept c Prod.fst (c.insert (c.iterator_add c.begin i) x) := by
  rw [insert_external]
  exact capacity_kept_bind c Prod.fst Prod.fst _ id _
    (allocate_from_gap_capacity_kept h hi0 hi1 (by omega) hGb hfit) (fun _ => rfl)
    (fun _ _ hle => hle)

theorem insert_count_capacity_kept {c : gap_vector T DefaultGapSize NearnessFactor}
    (h : cursors_valid c) {i k : Int} (hi0 : 0 ≤ i) (hi1 : i ≤ c.size) (hk0 : 0 ≤ k) (x : T)
    (hGb : (DefaultGapSize : Int) < 9223372036854775808)
    (hfit : c.room < k → times_growth_factor (c.capacity + DefaultGapSize + k) < 9223372036854775808) :
    capacity_kept c Prod.fst (c.insert_count (c.iterator_add c.begin i) k x) := by
  rw [insert_count_external]
  refine capacity_kept_bind c Prod.fst Prod.fst _ id _
    (allocate_from_gap_capacity_kept h hi0 hi1 hk0 hGb hfit) (fun _ => rfl) ?_
  intro r _ hle
  show c.capacity ≤ (uninitialized_copy (List.replicate k.toNat x) r.1 r.2).capacity
  rw [same_cursors_capacity (uninitialized_fill_n_spec x k.toNat r.1 r.2).1]
  exact hle

theorem insert_list_capacity_kept {c : gap_vector T DefaultGapSize NearnessFactor}
    (h : cursors_valid c) {i : Int} (hi0 : 0 ≤ i) (hi1 : i ≤ c.size) (list : List T)
    (hGb : (DefaultGapSize : Int) < 9223372036854775808)
    (hfit : times_growth_factor (c.capacity + DefaultGapSize + list.length) < 9223372036854775808) :
    capacity_kept c Prod.fst (c.insert_list (c.iterator_add c.begin i) list) := by
  unfold insert_list
  have hlow := lt_of_le_of_lt (le_times_growth_factor _) hfit
  have hs : to_size (list.length : Int) = list.length := by
    have := capacity_eq h
    have := h.data_le; have := h.end_le
    exact to_size_of_bounds (by omega) (by omega)
  rw [hs]
  refine capacity_kept_bind c Prod.fst Prod.fst _ id _
    (allocate_from_gap_capacity_kept h hi0 hi1 (by omega) hGb (fun _ => hfit)) (fun _ => rfl) ?_
  intro r _ hle
  show c.capacity ≤ (uninitialized_copy list r.1 r.2).capacity
  rw [same_cursors_capacity (uninitialized_copy_spec list r.1 r.2).1]
  exact hle

theorem push_back_capacity_kept {c : gap_vector T DefaultGapSize NearnessFactor}
    (h : cursors_valid c) (x : T) (hGb : (DefaultGapSize : Int) < 9223372036854775808)
    (hfit : c.room < 1 → times_growth_factor (c.capacity + DefaultGapSize + 1) < 9223372036854775808) :
    capacity_kept c id (c.push_back x) := by
  unfold push_back
  rw [end_eq_iterator_add h]
  exact capacity_kept_bind c Prod.fst id _ (fun r => r.1) _
    (insert_capacity_kept h (size_nonneg h) (le_refl _) x hGb hfit) (fun _ => rfl)
    (fun _ _ hle => hle)

theorem insert_range_loop_capacity_kept (hG0 : 0 < DefaultGapSize)
    (hGb : (DefaultGapSize : Int) < 9223372036854775808) :
    ∀ (xs : List T) (c : gap_vector T DefaultGapSize NearnessFactor) (s : List T) (i : Nat),
      represents c s → i ≤ s.length →
      times_growth_factor (((s.length + xs.length : Nat) : Int) + DefaultGapSize + 1) < 9223372036854775808 →
      capacity_kept c id (insert_range_loop xs c i) := by
  intro xs
  induction xs with
  | nil =>
    intro c s i _ _ _
    exact le_refl _
  | cons x xs ih =>
    intro c s i h hi hfit
    have hcv := h.1.cursors
    have hsz := represents_size h
    have hroom := room_eq hcv
    have hcap := capacity_eq hcv
    have hse := size_eq hcv
    have hgn := gap_length_nonneg hcv
    have hdl := hcv.data_le
    have hel := hcv.end_le
    have hlow := lt_of_le_of_lt (le_times_growth_factor _) hfit
    simp only [List.length_cons] at hfit hlow
    push_cast at hfit hlow
    have hfit' : c.room < 1 →
        times_growth_factor (c.capacity + DefaultGapSize + 1) < 9223372036854775808 := by
      intro hr
      exact lt_of_le_of_lt (times_growth_factor_mono (by omega)) hfit
    unfold insert_range_loop
    refine capacity_kept_bind c Prod.fst id _ (fun r => r.1) _
      (allocate_from_gap_capacity_kept hcv (i := (i : Int)) (by omega) (by omega) (by omega) hGb
        hfit') (fun _ => rfl) ?_
    intro r er hle
    obtain ⟨r1, r2⟩ := r
    have halloc : c.room < 1 →
        times_growth_factor (c.capacity + DefaultGapSize + 1) < 9223372036854775808 ∧
          ∃ b, c.iAlloc (c.grow_request 1) = some b := by
      intro hr
      refine ⟨hfit' hr, ?_⟩
      cases ha : c.iAlloc (c.grow_request 1) with
      | some b => exact ⟨b, rfl⟩
      | none =>
        exfalso
        have hlow := le_times_growth_factor (c.capacity + DefaultGapSize + 1)
        have hreqv : c.grow_request 1 = times_growth_factor (c.capacity + DefaultGapSize + 1) := by
          unfold grow_request
          rw [to_size_of_bounds (z := c.capacity + DefaultGapSize + 1) (by omega) (by omega)]
        rw [hreqv] at ha
        obtain ⟨c1, _, e2⟩ := allocate_from_gap_fails hcv (c.iterator_add c.begin i) hr
          (by have := hfit' hr; omega) ha
        rw [e2] at er
        cases er
    obtain ⟨c1, m, e1, rep1, _⟩ := insert_spec h i hi x hG0 hGb halloc
    obtain ⟨c0, e0, ec⟩ := insert_returned e1
    rw [er] at e0
    injection e0 with e0
    injection e0 with e01 e02
    subst e01
    subst e02
    show capacity_kept c id (insert_range_loop xs (r1.construct r2 (some x)) ((i : Int) + 1))
    rw [ec]
    have hstep := ih c1 (s.take i ++ [x] ++ s.drop i) (i + 1) rep1 (by simp; omega)
      (lt_of_le_of_lt (times_growth_factor_mono (by
        simp only [List.length_append, List.length_singleton, List.length_take, List.length_drop]
        push_cast
        omega)) hfit)
    push_cast at hstep
    refine capacity_kept_mono id _ ?_ hstep
    rw [← ec]
    exact hle

theorem insert_range_capacity_kept (hG0 : 0 < DefaultGapSize)
    (hGb : (DefaultGapSize : Int) < 9223372036854775808)
    {c : gap_vector T DefaultGapSize NearnessFactor} {s : List T} (h : represents c s)
    (i : Nat) (hi : i ≤ s.length) (xs : List T)
    (hfit : times_growth_factor (((s.length + xs.length : Nat) : Int) + DefaultGapSize + 1) <
      9223372036854775808) :
    capacity_kept c Prod.fst (c.insert_range (c.iterator_add c.begin i) xs) := by
  have hsz := represents_size h
  unfold insert_range
  simp only [iterator_difference_add_begin h.1.cursors (i := (i : Int)) (by omega) (by omega)]
  exact capacity_kept_bind c id Prod.fst _ (fun s => (s, 0)) _
    (insert_range_loop_capacity_kept hG0 hGb xs c s i h hi hfit) (fun _ => rfl)
    (fun _ _ hle => hle)

theorem reserve_capacity_kept {c : gap_vector T DefaultGapSize NearnessFactor}
    (h : cursors_valid c) {n : Int} (hn : n < 9223372036854775808) :
    capacity_kept c id (c.reserve n) ∧ ∀ c', c.reserve n = outcome.returned c' → n ≤ c'.capacity := by
  by_cases hle : n ≤ c.capacity
  · have e : c.reserve n = outcome.returned c := by
      unfold reserve
      rw [if_pos hle]
    rw [e]
    refine ⟨le_refl _, ?_⟩
    intro c' e'
    injection e' with e'
    rw [← e']
    exact hle
  · cases ha : c.iAlloc n with
    | none =>
      obtain ⟨c1, e1, cv, a1, a2, a3, _⟩ := unsplit_spec h
      have e : c.reserve n = outcome.bad_alloc c1 := by
        unfold reserve
        rw [if_neg hle, e1]
        simp only [a1, ha]
      rw [e]
      refine ⟨?_, nofun⟩
      show c.capacity ≤ c1.capacity
      unfold capacity
      rw [a2, a3]
    | some b =>
      obtain ⟨c', e, _, r3, _, r5, _⟩ := reserve_spec h (by omega) hn ha
      have hc0 : 0 ≤ c.capacity := by
        unfold capacity to_size
        omega
      have hc' : c'.capacity = n := by
        unfold capacity
        rw [r5, r3]
        exact to_size_of_bounds (z := b + n - b) (by omega) (by omega) |>.trans (by omega)
      rw [e]
      refine ⟨?_, ?_⟩
      · show c.capacity ≤ c'.capacity
        rw [hc']
        omega
      · intro c'' e'
        injection e' with e'
        rw [← e', hc']

theorem erase_keeps_capacity {c : gap_vector T DefaultGapSize NearnessFactor}
    (h : cursors_valid c) {i j : Int} (hi0 : 0 ≤ i) (hij : i ≤ j) (hj : j ≤ c.size) :
    ∃ c' r, c.erase (c.iterator_add c.begin i) (c.iterator_add c.begin j) = some (c', r) ∧
      c'.capacity = c.capacity ∧ c'.iData = c.iData := by
  obtain ⟨c', e, _, f1, f2, _⟩ := erase_frame h hi0 hij hj
  exact ⟨c', _, e, by unfold capacity; rw [f1, f2], f1⟩

theorem erase_one_keeps_capacity {c : gap_vector T DefaultGapSize NearnessFactor}
    (h : cursors_valid c) {i : Int} (hi0 : 0 ≤ i) (hi1 : i < c.size) :
    ∃ c' r, c.erase_one (c.iterator_add c.begin i) = some (c', r) ∧
      c'.capacity = c.capacity ∧ c'.iData = c.iData := by
  unfold erase_one
  rw [iterator_add_succ h hi0 hi1]
  exact erase_keeps_capacity h hi0 (by omega) (by omega)

theorem pop_back_keeps_capacity {c : gap_vector T DefaultGapSize NearnessFactor}
    (h : cursors_valid c) (hs : 0 < c.size) :
    ∃ c', c.pop_back = some c' ∧ c'.capacity = c.capacity ∧ c'.iData = c.iData := by
  obtain ⟨c', r, e, f1, f2⟩ := erase_one_keeps_capacity h (i := c.size - 1) (by omega) (by omega)
  refine ⟨c', ?_, f1, f2⟩
  unfold pop_back
  rw [prev_end_eq h hs, e]
  rfl

theorem clear_keeps_capacity {c : gap_vector T DefaultGapSize NearnessFactor}
    (h : cursors_valid c) :
    ∃ c', c.clear = some c' ∧ c'.capacity = c.capacity ∧ c'.iData = c.iData ∧ c'.size = 0 := by
  obtain ⟨c', e, r, _, f1, f2, _⟩ := clear_spec h
  refine ⟨c', e, by unfold capacity; rw [f1, f2], f1, ?_⟩
  rw [represents_size r]
  rfl

theorem resize_capacity_kept {c : gap_vector T DefaultGapSize NearnessFactor}
    (h : cursors_valid c) {n : Int} (hn0 : 0 ≤ n) (x : T)
    (hGb : (DefaultGapSize : Int) < 9223372036854775808)
    (hfit : times_growth_factor (c.capacity + DefaultGapSize + n) < 9223372036854775808) :
    capacity_kept c id (c.resize n x) := by
  have hs0 := size_nonneg h
  have hsm := size_lt_max h
  have hcap := capacity_eq h
  have hroom := room_eq h
  have hse := size_eq h
  have hgn := gap_length_nonneg h
  have q1 := h.data_le; have q2 := h.end_le; have q3 := h.cap_lt
  have hlow := lt_of_le_of_lt (le_times_growth_factor _) hfit
  unfold resize
  by_cases h1 : n < c.size
  · rw [if_pos h1]
    have hd : to_ptrdiff (to_size (c.size - n)) = c.size - n := by
      rw [to_size_of_bounds (z := c.size - n) (by omega) (by omega)]
      exact to_ptrdiff_of_bounds (by omega) (by omega)
    have hpos : c.iterator_sub c.end_ (to_ptrdiff (to_size (c.size - n))) =
        c.iterator_add c.begin n := by
      rw [hd, end_eq_iterator_add h,
        iterator_sub_add_begin h hs0 (le_refl _) (by omega) (by omega)]
      congr 1
      omega
    rw [hpos, end_eq_iterator_add h]
    obtain ⟨c', r, e, f1, _⟩ := erase_keeps_capacity h hn0 (le_of_lt h1) (le_refl _)
    rw [e]
    show c.capacity ≤ c'.capacity
    rw [f1]
  · rw [if_neg h1]
    by_cases h2 : n > c.size
    · rw [if_pos h2]
      have hk : to_size (n - c.size) = n - c.size :=
        to_size_of_bounds (by omega) (by omega)
      rw [hk, end_eq_iterator_add h]
      exact capacity_kept_bind c Prod.fst id _ (fun r => r.1) _
        (insert_count_capacity_kept h hs0 (le_refl _) (by omega) x hGb
          (fun _ => lt_of_le_of_lt (times_growth_factor_mono (by omega)) hfit))
        (fun _ => rfl) (fun _ _ hle => hle)
    · rw [if_neg h2]
      exact le_refl _

/-- C35: on a well-formed buffer holding `s`, none of `push_back`, `insert` (single element and
`emplace`, count, initializer list, iterator range), `resize` and `reserve` lowers `capacity()`:
each ends, by returning or with `std::bad_alloc`, in a buffer of at least the old capacity, and
a `reserve(n)` that returns leaves a capacity of at least `n`; `erase` (range and single
element), `pop_back` and `clear` return with `capacity()` and `iData` unchanged, and `clear`
leaves `size() = 0`.  The growth requests are assumed below 2^63, and `DefaultGapSize` positive
for the range overload, which inserts element by element. -/
theorem capacity_never_decreases (c : gap_vector T DefaultGapSize NearnessFactor) (s : List T)
    (h : represents c s) (i j k n : Nat) (x : T) (list range : List T) (hij : i ≤ j)
    (hj : j ≤ s.length) (hGb : (DefaultGapSize : Int) < 9223372036854775808)
    (hfit : times_growth_factor (c.capacity + DefaultGapSize + (k + list.length + range.length + n + 1 : Nat))
      < 9223372036854775808) :
    capacity_kept c id (c.push_back x) ∧
      capacity_kept c Prod.fst (c.insert (c.iterator_add c.begin i) x) ∧
      capacity_kept c Prod.fst (c.insert_count (c.iterator_add c.begin i) k x) ∧
      capacity_kept c Prod.fst (c.insert_list (c.iterator_add c.begin i) list) ∧
      (0 < DefaultGapSize →
        capacity_kept c Prod.fst (c.insert_range (c.iterator_add c.begin i) range)) ∧
      capacity_kept c id (c.resize n x) ∧
      capacity_kept c id (c.reserve n) ∧
      (∀ c', c.reserve n = outcome.returned c' → (n : Int) ≤ c'.capacity) ∧
      (∃ c' r, c.erase (c.iterator_add c.begin i) (c.iterator_add c.begin j) = some (c', r) ∧
        c'.capacity = c.capacity ∧ c'.iData = c.iData) ∧
      (i < s.length → ∃ c' r, c.erase_one (c.iterator_add c.begin i) = some (c', r) ∧
        c'.capacity = c.capacity ∧ c'.iData = c.iData) ∧
      (s ≠ [] → ∃ c', c.pop_back = some c' ∧ c'.capacity = c.capacity ∧ c'.iData = c.iData) ∧
      ∃ c', c.clear = some c' ∧ c'.capacity = c.capacity ∧ c'.iData = c.iData ∧ c'.size = 0 := by
  have hcv := h.1.cursors
  have hsz := represents_size h
  have hcap := capacity_eq hcv
  have hse := size_eq hcv
  have hgn := gap_length_nonneg hcv
  have q1 := hcv.data_le; have q2 := hcv.end_le
  push_cast at hfit
  have hlow := lt_of_le_of_lt (le_times_growth_factor _) hfit
  have hres := reserve_capacity_kept hcv (n := (n : Int)) (by omega)
  refine ⟨?_, ?_, ?_, ?_, ?_, ?_, hres.1, hres.2, ?_, ?_, ?_, ?_⟩
  · exact push_back_capacity_kept hcv x hGb (fun _ => lt_of_le_of_lt (times_growth_factor_mono (by omega)) hfit)
  · exact insert_capacity_kept hcv (by omega) (by omega) x hGb (fun _ => lt_of_le_of_lt (times_growth_factor_mono (by omega)) hfit)
  · exact insert_count_capacity_kept hcv (by omega) (by omega) (by omega) x hGb
      (fun _ => lt_of_le_of_lt (times_growth_factor_mono (by omega)) hfit)
  · exact insert_list_capacity_kept hcv (by omega) (by omega) list hGb
      (lt_of_le_of_lt (times_growth_factor_mono (by omega)) hfit)
  · intro hG0
    exact insert_range_capacity_kept hG0 hGb h i (by omega) range
      (lt_of_le_of_lt (times_growth_factor_mono (by push_cast; omega)) hfit)
  · exact resize_capacity_kept hcv (by omega) x hGb
      (lt_of_le_of_lt (times_growth_factor_mono (by omega)) hfit)
  · exact erase_keeps_capacity hcv (by omega) (by omega) (by omega)
  · intro hi
    exact erase_one_keeps_capacity hcv (by omega) (by omega)
  · intro hne
    have hpos : 0 < s.length := List.length_pos.2 hne
    exact pop_back_keeps_capacity hcv (by omega)
  · exact clear_keeps_capacity hcv

set_option maxRecDepth 100000 in
theorem capacity_never_decreases_witness :
    represents split_example [10, 20, 30] ∧ 1 ≤ 2 ∧ 2 ≤ [(10 : Int), 20, 30].length ∧
      (((256 : Nat) : Int) < 9223372036854775808) ∧
      (times_growth_factor (split_example.capacity + (256 : Nat) +
          (300 + [(7 : Int), 8].length + [(5 : Int), 6].length + 400 + 1 : Nat))
        < 9223372036854775808) ∧
      (capacity_kept split_example id (split_example.push_back (99 : Int)) ∧
        capacity_kept split_example Prod.fst
          (split_example.insert (split_example.iterator_add split_example.begin (1 : Nat)) (99 : Int)) ∧
        capacity_kept split_example Prod.fst
          (split_example.insert_count (split_example.iterator_add split_example.begin (1 : Nat))
            (300 : Nat) (99 : Int)) ∧
        capacity_kept split_example Prod.fst
          (split_example.insert_list (split_example.iterator_add split_example.begin (1 : Nat))
            [7, 8]) ∧
        (0 < 256 →
          capacity_kept split_example Prod.fst
            (split_example.insert_range
              (split_example.iterator_add split_example.begin (1 : Nat)) [5, 6])) ∧
        capacity_kept split_example id (split_example.resize (400 : Nat) (99 : Int)) ∧
        capacity_kept split_example id (split_example.reserve (400 : Nat)) ∧
        (∀ c', split_example.reserve (400 : Nat) = outcome.returned c' →
          ((400 : Nat) : Int) ≤ c'.capacity) ∧
        (∃ c' r, split_example.erase (split_example.iterator_add split_example.begin (1 : Nat))
            (split_example.iterator_add split_example.begin (2 : Nat)) = some (c', r) ∧
          c'.capacity = split_example.capacity ∧ c'.iData = split_example.iData) ∧
        (1 < [(10 : Int), 20, 30].length →
          ∃ c' r, split_example.erase_one
              (split_example.iterator_add split_example.begin (1 : Nat)) = some (c', r) ∧
            c'.capacity = split_example.capacity ∧ c'.iData = split_example.iData) ∧
        ([(10 : Int), 20, 30] ≠ [] →
          ∃ c', split_example.pop_back = some c' ∧ c'.capacity = split_example.capacity ∧
            c'.iData = split_example.iData) ∧
        ∃ c', split_example.clear = some c' ∧ c'.capacity = split_example.capacity ∧
          c'.iData = split_example.iData ∧ c'.size = 0) :=
  ⟨split_example_represents, by decide, by decide, by decide, by decide,
    capacity_never_decreases split_example [10, 20, 30] split_example_represents 1 2 300 400 99
      [7, 8] [5, 6] (by decide) (by decide) (by decide) (by decide)⟩

end gap_vector

end neolib
